import Mathlib

/-!
# NETGEN generator: random stream, index lists and the generator

A shallow embedding of `NetgenRandom.cpp`, `NetgenIndex.cpp` and the function
`netgen()` of `Netgen.cpp` with the functions it calls, followed by the
properties proved about them.

Conventions of the embedding.

* Machine types follow the LP64 model: `int` and `unsigned int` have 32 bits,
  `long` and `unsigned long` have 64 bits.  Signed values are `Int`, unsigned
  values are `Nat`.
* In `NetgenRandom` and in `Netgen.cpp` every `long` result is passed through
  `wrapLong`, every `int` result through `wrapInt` and every unsigned result
  through `toULong` / `toUInt`; the theorems on the random stream therefore
  also establish that no intermediate value leaves the range of a `long`.
  Inside `NetgenIndex` the counter set by the constructors is reduced to
  `int`; the decrements of the counter are exact, one per call.
* `x >> k` on a `long` is the arithmetic shift, i.e. floor division by `2^k`
  (`Int` division by a positive literal), and `x & (2^k - 1)` is the
  non-negative remainder modulo `2^k` (`Int` remainder).
* C++ `/` and `%` on signed operands truncate towards zero: `Int.tdiv` and
  `Int.tmod`.  With one unsigned operand of 64 bits both operands are
  converted to `unsigned long` first.
* Functions that index the fixed-size global arrays return in `Except Stop`:
  an access outside the declared size, a read of a local that was never
  assigned, and a division by zero stop the execution.  The C++ has no such
  test: at an access outside an array the compiled program reads or writes
  the memory next to it and goes on, so a stop marks a run whose behaviour the
  C++ leaves undefined, and a result `Except.ok` is the result of a run
  without any.  Loops take a bound on the number of passes (`fuel`) and stop
  with `Stop.out_of_fuel` beyond it.
-/

/-! ## NetgenRandom.cpp -/

/-- Smallest value of a C++ `long`. -/
def LONG_MIN : Int := -9223372036854775808

/-- Largest value of a C++ `long`. -/
def LONG_MAX : Int := 9223372036854775807

/-- Reduction of an integer into the range of a `long` (wrap-around modulo
`2^64`). -/
def wrapLong (x : Int) : Int := (x + 9223372036854775808) % 18446744073709551616 - 9223372036854775808

/-- Conversion to `int`, also the reduction of `int` results (wrap-around
modulo `2^32`). -/
def wrapInt (x : Int) : Int := (x + 2147483648) % 4294967296 - 2147483648

/-- The random stream object: its only data member is `saved_seed`. -/
structure NetgenRandom where
  saved_seed : Int
deriving DecidableEq, Repr

namespace NetgenRandom

/-- Class constant `MULTIPLIER = 16807`. -/
def MULTIPLIER : Int := 16807

/-- Class constant `MODULUS = 2147483647`. -/
def MODULUS : Int := 2147483647

/-- Method `set_random(seed)`: overwrite the state. -/
def set_random (_r : NetgenRandom) (seed : Int) : NetgenRandom := ⟨seed⟩

/-- Method `get_seed()`. -/
def get_seed (r : NetgenRandom) : Int := r.saved_seed

/-- Method `random(a, b)`: returns the drawn value together with the object
after the call.  The statements of the C++ body are kept one per `let`.
When `b - a + 1` wraps to zero (only for `a = LONG_MIN`, `b = LONG_MAX`) the
C++ remainder is undefined; `Int.tmod _ 0` stands in for it and no theorem
below touches that case. -/
def random (r : NetgenRandom) (a b : Int) : Int × NetgenRandom :=
  -- hi = MULTIPLIER * (saved_seed >> 16);
  let hi := wrapLong (MULTIPLIER * (r.saved_seed / 65536))
  -- lo = MULTIPLIER * (saved_seed & 0xffff);
  let lo := wrapLong (MULTIPLIER * (r.saved_seed % 65536))
  -- hi += (lo >> 16);
  let hi := wrapLong (hi + lo / 65536)
  -- lo &= 0xffff;
  let lo := lo % 65536
  -- lo += (hi >> 15);
  let lo := wrapLong (lo + hi / 32768)
  -- hi &= 0x7fff;
  let hi := hi % 32768
  -- lo -= MODULUS;
  let lo := wrapLong (lo - MODULUS)
  -- if ((saved_seed = (hi << 16) + lo) < 0) saved_seed += MODULUS;
  let s := wrapLong (wrapLong (hi * 65536) + lo)
  let s := if s < 0 then wrapLong (s + MODULUS) else s
  -- if (b <= a) return b;  return a + saved_seed % (b - a + 1);
  if b ≤ a then (b, ⟨s⟩)
  else (wrapLong (a + Int.tmod s (wrapLong (wrapLong (b - a) + 1))), ⟨s⟩)

end NetgenRandom

/-! ## NetgenIndex.cpp

The index list is a `std::list<int>` together with the counter `pseudo_size`,
an `int`.  Values of type `int` are modelled as integers of the `int` range;
`unsigned int position` is a natural number.  The constructor is given twice:
`create_run` follows the C++ statement by statement, with the loop counter
and the new `pseudo_size` reduced to `int`, and returns nothing when the loop
does not exit; `create` is the closed form of the object it returns, which
the model of `Netgen.cpp` uses. -/

/-- The index list object: data members `index_list` and `pseudo_size`. -/
structure NetgenIndex where
  index_list : List Int
  pseudo_size : Int
deriving DecidableEq, Repr

namespace NetgenIndex

/-- The loop `for (int i = from; i <= to; i++) index_list.push_back(i);`
started at `i` with list `l`, the counter `i` being an `int`: `i++` is
reduced to 32 bits.  The first argument bounds the number of passes; the
result is `none` when it is used up before the test `i <= to` fails. -/
def push_loop_int : Nat → Int → Int → List Int → Option (List Int)
  | 0, _, _, _ => none
  | n + 1, i, to_, l =>
    if i ≤ to_ then push_loop_int n (wrapInt (i + 1)) to_ (l ++ [i]) else some l

/-- Constructor `NetgenIndex(from, to)` as the C++ runs it: the push loop, then
`pseudo_size = to - from + 1;` in `int` arithmetic. -/
def create_run (fuel : Nat) (from_ to_ : Int) : Option NetgenIndex :=
  (push_loop_int fuel from_ to_ []).map fun l => ⟨l, wrapInt (wrapInt (to_ - from_) + 1)⟩

/-- Method `make_index_list(from, to)` as the C++ runs it: `index_list.clear();`
then the statements of the constructor. -/
def make_index_list_run (fuel : Nat) (_x : NetgenIndex) (from_ to_ : Int) :
    Option NetgenIndex :=
  (push_loop_int fuel from_ to_ []).map fun l => ⟨l, wrapInt (wrapInt (to_ - from_) + 1)⟩

/-- The push loop while its counter does not wrap round: `i` runs from its
start up to `to`.  The first argument counts the passes left; `fill_range`
supplies `to + 1 - from`.  For `int` values with `to < INT_MAX` this is what
`push_loop_int` returns (`push_loop_int_exits`); for `to = INT_MAX` the C++
loop does not exit (`push_loop_int_spins`). -/
def push_loop : Nat → Int → Int → List Int → List Int
  | 0, _, _, l => l
  | n + 1, i, to_, l => if i ≤ to_ then push_loop n (i + 1) to_ (l ++ [i]) else l

/-- The push loop run on an empty list, as both constructors of a range do. -/
def fill_range (from_ to_ : Int) : List Int :=
  push_loop (to_ + 1 - from_).toNat from_ to_ []

/-- Default constructor `NetgenIndex()`. -/
def new : NetgenIndex := ⟨[], 0⟩

/-- Constructor `NetgenIndex(from, to)`: the object `create_run` returns when
its loop exits (`create_run_eq`), with the counter `to - from + 1` reduced to
`int`. -/
def create (from_ to_ : Int) : NetgenIndex :=
  ⟨fill_range from_ to_, wrapInt (wrapInt (to_ - from_) + 1)⟩

/-- Method `make_index_list(from, to)`: clear, refill, reset the counter; the
object `make_index_list_run` returns when its loop exits. -/
def make_index_list (_x : NetgenIndex) (from_ to_ : Int) : NetgenIndex :=
  ⟨fill_range from_ to_, wrapInt (wrapInt (to_ - from_) + 1)⟩

/-- Method `choose_index(position)`: the returned `int` and the object after
the call. -/
def choose_index (x : NetgenIndex) (position : Nat) : Int × NetgenIndex :=
  if position < 1 ∨ position > x.index_list.length then (0, x)
  else
    -- it = begin(); advance(it, position - 1); chosen = *it;
    let chosen := x.index_list.getD (position - 1) 0
    -- index_list.erase(it); pseudo_size--;
    (chosen, ⟨x.index_list.eraseIdx (position - 1), x.pseudo_size - 1⟩)

/-- Value of `*it` after the search loop
`while (*it != index && it != index_list.end()) it++;` started at the front of
`l`.  The loop reads `*it` before it tests for the end, so at the end of the
list it reads the past-the-end node; `endv` is the value found there. -/
def search_deref (l : List Int) (index endv : Int) : Int :=
  match l with
  | [] => endv
  | h :: t => if h ≠ index then search_deref t index endv else h

/-- Method `remove_index(index)`.  `endv` is what dereferencing the
past-the-end iterator yields (see `search_deref`).  `std::list::remove`
deletes every element equal to_ its argument. -/
def remove_index (x : NetgenIndex) (index : Int) (endv : Int) : NetgenIndex :=
  -- pseudo_size--;
  let ps := x.pseudo_size - 1
  -- if (*it == index) index_list.remove(index);
  if search_deref x.index_list index endv = index then
    ⟨x.index_list.filter (fun v => decide (v ≠ index)), ps⟩
  else ⟨x.index_list, ps⟩

/-- Method `index_size()`. -/
def index_size (x : NetgenIndex) : Int := x.index_list.length

/-- Method `get_pseudo_size()`. -/
def get_pseudo_size (x : NetgenIndex) : Int :=
  if x.pseudo_size > 0 then x.pseudo_size else 0

end NetgenIndex

/-- One call made on an index list by a client: `choose_index(position)` or
`remove_index(index)`; the latter carries the value its search loop reads at
the past-the-end node. -/
inductive IndexCall where
  | choose (position : Nat)
  | remove (index : Int) (endv : Int)
deriving Repr

/-- An index list together with the number of `remove_index` calls made so far
whose argument was not in the list when the call was made. -/
structure IndexTrace where
  idx : NetgenIndex
  failed : Nat
deriving Repr

/-- Perform one call and update the count of failed removals. -/
def IndexTrace.step (t : IndexTrace) : IndexCall → IndexTrace
  | IndexCall.choose k => ⟨(t.idx.choose_index k).2, t.failed⟩
  | IndexCall.remove v e =>
      ⟨t.idx.remove_index v e, if v ∈ t.idx.index_list then t.failed else t.failed + 1⟩

/-- Perform a finite sequence of calls, first call first. -/
def IndexTrace.run (t : IndexTrace) (calls : List IndexCall) : IndexTrace :=
  calls.foldl IndexTrace.step t

/-- Invariant of a list of distinct integers under client calls: the counter
equals the length minus the number of failed removals. -/
def IndexTrace.Inv (t : IndexTrace) : Prop :=
  t.idx.index_list.Nodup ∧ t.idx.pseudo_size = (t.idx.index_list.length : Int) - (t.failed : Int)

/-! ## Netgen.cpp

Machine types: `int` and `unsigned int` have 32 bits, `long` and
`unsigned long` (`NODE`, `ARC`, `INDEX`) have 64 bits.  Signed values are
integers, unsigned values are natural numbers; every conversion and every
unsigned operation is reduced explicitly. -/

/-- Conversion to `unsigned long`, also the reduction of unsigned results. -/
def toULong (x : Int) : Nat := (x % 18446744073709551616).toNat

/-- Conversion to `unsigned int`. -/
def toUInt (x : Int) : Nat := (x % 4294967296).toNat

/-- `#define MAXNODES 5000`. -/
def MAXNODES : Nat := 5000

/-- `#define MAXARCS 60000`. -/
def MAXARCS : Nat := 60000

/-- `#define BAD_SEED -1`. -/
def BAD_SEED : Int := -1

/-- `#define TOO_BIG -2`. -/
def TOO_BIG : Int := -2

/-- `#define BAD_PARMS -3`. -/
def BAD_PARMS : Int := -3

/-- `#define ALLOCATION_FAILURE -4`. -/
def ALLOCATION_FAILURE : Int := -4

/-- `const int delivery_cost = -100`. -/
def delivery_cost : Int := -100

/-- The parameter globals of `Netgen.cpp`, all `long` except `PARENT`, which
is an `int`. -/
structure Params where
  seed : Int
  NODES : Int
  SOURCES : Int
  SINKS : Int
  DENSITY : Int
  MINCOST : Int
  MAXCOST : Int
  SUPPLY : Int
  TSOURCES : Int
  TSINKS : Int
  HICOST : Int
  CAPACITATED : Int
  MINCAP : Int
  MAXCAP : Int
  PARENT : Int
  INTER : Int
deriving DecidableEq, Repr

/-- Ways in which an execution leaves the defined behaviour of the program or
the budget of the model. -/
inductive Stop where
  | out_of_bounds
  | uninitialized
  | division_by_zero
  | out_of_fuel
deriving DecidableEq, Repr

/-- The stop that ended an execution, if one did. -/
def stop_of {α : Type} : Except Stop α → Option Stop
  | Except.error e => some e
  | Except.ok _ => none

/-- The working globals of `Netgen.cpp`.  Arrays are functions from the index;
every access goes through `rd` / `wr` with the declared size. -/
structure Globals where
  nodes_left : Nat
  arc_count : Nat
  pred : Nat → Nat
  head : Nat → Nat
  tail : Nat → Nat
  FROM : Nat → Nat
  TO : Nat → Nat
  U : Nat → Int
  C : Nat → Int
  B : Nat → Int
  child : Nat → Nat
  parent : Nat → Int
  rando : NetgenRandom

/-- The zero-initialised globals at program start, with the stream seeded as
`main` does. -/
def Globals.init (seed : Int) : Globals :=
  ⟨0, 0, fun _ => 0, fun _ => 0, fun _ => 0, fun _ => 0, fun _ => 0, fun _ => 0, fun _ => 0,
    fun _ => 0, fun _ => 0, fun _ => 0, ⟨seed⟩⟩

/-- Read `a[i]` from an array of `size` entries. -/
def rd {α : Type} (size : Nat) (a : Nat → α) (i : Int) : Except Stop α :=
  if 0 ≤ i ∧ i < size then Except.ok (a i.toNat) else Except.error Stop.out_of_bounds

/-- Write `a[i] = v` into an array of `size` entries. -/
def wr {α : Type} (size : Nat) (a : Nat → α) (i : Int) (v : α) : Except Stop (Nat → α) :=
  if 0 ≤ i ∧ i < size then Except.ok (Function.update a i.toNat v)
  else Except.error Stop.out_of_bounds

/-- One call `rando.random(a, b)` on the global stream. -/
def Globals.draw (g : Globals) (a b : Int) : Int × Globals :=
  ((g.rando.random a b).1, { g with rando := (g.rando.random a b).2 })

/-- The four stores `FROM[arc_count] = ...; TO[arc_count] = ...;`
`C[arc_count] = ...; U[arc_count] = ...;` followed by `arc_count++` (the
`SAVE_ARC` of the original source, written out in `netgen` and `pick_head`). -/
def Globals.save_arc (g : Globals) (tail_ head_ : Nat) (cost cap : Int) : Except Stop Globals := do
  let f ← wr MAXARCS g.FROM g.arc_count tail_
  let t ← wr MAXARCS g.TO g.arc_count head_
  let c ← wr MAXARCS g.C g.arc_count cost
  let u ← wr MAXARCS g.U g.arc_count cap
  Except.ok { g with FROM := f, TO := t, C := c, U := u,
                     arc_count := toULong ((g.arc_count : Int) + 1) }

/-- Macro `MAX(a, b)`, used on operands of one common type. -/
def MAX {α : Type} [LT α] [DecidableRel (fun a b : α => a < b)] (a b : α) : α :=
  if a > b then a else b

/-- Macro `MIN(a, b)`, used on operands of one common type. -/
def MIN {α : Type} [LT α] [DecidableRel (fun a b : α => a < b)] (a b : α) : α :=
  if a < b then a else b

/-! ### create_supply -/

/-- Loop of `create_supply`: `for (i = 0; i < sources; i++)`. -/
def create_supply_loop (sources : Nat) (supply_per_source : Int) :
    Nat → Nat → Globals → Except Stop Globals
  | 0, i, g => if i < sources then Except.error Stop.out_of_fuel else Except.ok g
  | fuel + 1, i, g =>
    if i < sources then do
      -- partial_supply = rando.random(1, supply_per_source);
      let (partial_supply, g) := g.draw 1 supply_per_source
      -- B[i] += partial_supply;
      let bi ← rd MAXNODES g.B i
      let b ← wr MAXNODES g.B i (wrapLong (bi + partial_supply))
      let g := { g with B := b }
      -- B[rando.random(0, sources - 1)] += supply_per_source - partial_supply;
      let (t, g) := g.draw 0 (wrapLong (toULong ((sources : Int) - 1)))
      let bt ← rd MAXNODES g.B t
      let b ← wr MAXNODES g.B t (wrapLong (bt + wrapLong (supply_per_source - partial_supply)))
      create_supply_loop sources supply_per_source fuel (toULong ((i : Int) + 1)) { g with B := b }
    else Except.ok g

/-- Function `create_supply(NODE sources, CAPACITY supply)`.  The quotient and
the remainder are taken in `unsigned long`, the type both operands are
converted to. -/
def create_supply (fuel : Nat) (sources : Nat) (supply : Int) (g : Globals) :
    Except Stop Globals :=
  if sources = 0 then Except.error Stop.division_by_zero
  else do
    -- CAPACITY supply_per_source = supply / sources;
    let supply_per_source := wrapLong ((toULong supply / sources : Nat) : Int)
    let g ← create_supply_loop sources supply_per_source fuel 0 g
    -- B[rando.random(0, sources - 1)] += supply % sources;
    let (t, g) := g.draw 0 (wrapLong (toULong ((sources : Int) - 1)))
    let bt ← rd MAXNODES g.B t
    let b ← wr MAXNODES g.B t (wrapLong (bt + ((toULong supply % sources : Nat) : Int)))
    Except.ok { g with B := b }

/-! ### sort_skeleton -/

/-- Innermost loop of `sort_skeleton`:
`while (i >= 1 && tail[i] > tail[i + m])` with the two swaps through the `int`
variable `temp`. -/
def sort_inner (m : Int) : Nat → Int → Globals → Except Stop Globals
  | 0, i, g =>
    if i ≥ 1 then do
      let a ← rd MAXARCS g.tail i
      let b ← rd MAXARCS g.tail (wrapInt (i + m))
      if a > b then Except.error Stop.out_of_fuel else Except.ok g
    else Except.ok g
  | fuel + 1, i, g =>
    if i ≥ 1 then do
      let a ← rd MAXARCS g.tail i
      let b ← rd MAXARCS g.tail (wrapInt (i + m))
      if a > b then
        -- temp = tail[i]; tail[i] = tail[i + m]; tail[i + m] = temp;
        let temp := wrapInt a
        let t ← wr MAXARCS g.tail i b
        let t ← wr MAXARCS t (wrapInt (i + m)) (toULong temp)
        -- temp = head[i]; head[i] = head[i + m]; head[i + m] = temp;
        let ha ← rd MAXARCS g.head i
        let hb ← rd MAXARCS g.head (wrapInt (i + m))
        let temp := wrapInt ha
        let h ← wr MAXARCS g.head i hb
        let h ← wr MAXARCS h (wrapInt (i + m)) (toULong temp)
        -- i -= m;
        sort_inner m fuel (wrapInt (i - m)) { g with tail := t, head := h }
      else Except.ok g
    else Except.ok g

/-- Middle loop of `sort_skeleton`: `for (j = 1; j <= k; j++)`. -/
def sort_pass (fuel0 : Nat) (m k : Int) : Nat → Int → Globals → Except Stop Globals
  | 0, j, g => if j ≤ k then Except.error Stop.out_of_fuel else Except.ok g
  | fuel + 1, j, g =>
    if j ≤ k then do
      -- i = j; while (...) ...
      let g ← sort_inner m fuel0 j g
      sort_pass fuel0 m k fuel (wrapInt (j + 1)) g
    else Except.ok g

/-- Outer loop of `sort_skeleton`: `while ((m /= 2) != 0)`. -/
def sort_gaps (fuel0 : Nat) (sort_count : Int) : Nat → Int → Globals → Except Stop Globals
  | 0, m, g => if Int.tdiv m 2 ≠ 0 then Except.error Stop.out_of_fuel else Except.ok g
  | fuel + 1, m, g =>
    let m := Int.tdiv m 2
    if m ≠ 0 then do
      -- k = sort_count - m;
      let k := wrapInt (sort_count - m)
      let g ← sort_pass fuel0 m k fuel0 1 g
      sort_gaps fuel0 sort_count fuel m g
    else Except.ok g

/-- Function `sort_skeleton(int sort_count)`: Shell sort of `tail[1..]`,
carrying `head` along. -/
def sort_skeleton (fuel : Nat) (sort_count : Int) (g : Globals) : Except Stop Globals :=
  -- m = sort_count;
  sort_gaps fuel sort_count fuel sort_count g

/-! ### pick_head -/

/-- The rejection loop of `pick_head`: `do ... while (nodes_left *`
`(non_sources - 1) < remaining_arcs - limit);` around the draw of `limit`.
Returns the accepted `limit`. -/
def pick_limit (non_sources remaining_arcs : Nat) (upper_bound : Int) :
    Nat → Globals → Except Stop (Int × Globals)
  | 0, _ => Except.error Stop.out_of_fuel
  | fuel + 1, g =>
    -- limit = rando.random(1, upper_bound);
    let (r, g) := g.draw 1 upper_bound
    let limit := wrapInt r
    -- if (nodes_left == 0) limit = remaining_arcs;
    let limit := if g.nodes_left = 0 then wrapInt remaining_arcs else limit
    if toULong ((g.nodes_left : Int) * toULong ((non_sources : Int) - 1)) <
        toULong ((remaining_arcs : Int) - toULong limit) then
      pick_limit non_sources remaining_arcs upper_bound fuel g
    else Except.ok (limit, g)

/-- The arc loop of `pick_head`: `for (; limit > 0; limit--)`. -/
def pick_arcs (p : Params) (desired_tail : Nat) :
    Nat → Int → NetgenIndex → Globals → Except Stop (NetgenIndex × Globals)
  | 0, limit, indie, g =>
    if limit > 0 then Except.error Stop.out_of_fuel else Except.ok (indie, g)
  | fuel + 1, limit, indie, g =>
    if limit > 0 then do
      -- index = indie->choose_index(rando.random(1, indie->get_pseudo_size()));
      let (r, g) := g.draw 1 indie.get_pseudo_size
      let (c, indie) := indie.choose_index (toUInt r)
      let index := toULong c
      -- cap = SUPPLY; if (rando.random(1, 100) <= CAPACITATED) cap = rando.random(MINCAP, MAXCAP);
      let (r, g) := g.draw 1 100
      let (cap, g) := if r ≤ p.CAPACITATED then g.draw p.MINCAP p.MAXCAP else (p.SUPPLY, g)
      -- FROM[arc_count] = desired_tail; TO[arc_count] = index;
      -- C[arc_count] = rando.random(MINCOST, MAXCOST); U[arc_count] = cap; arc_count++;
      let (cost, g) := g.draw p.MINCOST p.MAXCOST
      let g ← g.save_arc desired_tail index cost cap
      pick_arcs p desired_tail fuel (wrapInt (limit - 1)) indie g
    else Except.ok (indie, g)

/-- Function `pick_head(NetgenIndex* indie, NODE desired_tail)`. -/
def pick_head (fuel : Nat) (p : Params) (indie : NetgenIndex) (desired_tail : Nat)
    (g : Globals) : Except Stop (NetgenIndex × Globals) :=
  -- NODE non_sources = NODES - SOURCES + TSOURCES;
  let non_sources := toULong (wrapLong (wrapLong (p.NODES - p.SOURCES) + p.TSOURCES))
  -- if (arc_count >= DENSITY) remaining_arcs = 0; else remaining_arcs = DENSITY - arc_count;
  let remaining_arcs : Nat :=
    if g.arc_count ≥ toULong p.DENSITY then 0
    else toULong ((toULong p.DENSITY : Int) - g.arc_count)
  -- nodes_left--;
  let g := { g with nodes_left := toULong ((g.nodes_left : Int) - 1) }
  -- if (2 * nodes_left >= remaining_arcs) return;
  if toULong (2 * (g.nodes_left : Int)) ≥ remaining_arcs then Except.ok (indie, g)
  else if toULong ((g.nodes_left : Int) + 1) = 0 then Except.error Stop.division_by_zero
  else do
    -- if ((remaining_arcs + non_sources - indie->get_pseudo_size() - 1) / (nodes_left + 1)
    --       >= non_sources - 1) limit = non_sources;
    let lhs := toULong ((remaining_arcs : Int) + non_sources - toULong indie.get_pseudo_size - 1) /
      toULong ((g.nodes_left : Int) + 1)
    let (limit, g) ←
      if lhs ≥ toULong ((non_sources : Int) - 1) then
        (Except.ok (wrapInt non_sources, g) : Except Stop (Int × Globals))
      else
        -- upper_bound = 2 * (remaining_arcs / (nodes_left + 1) - 1);
        let upper_bound := wrapLong (toULong (2 *
          (toULong (((remaining_arcs / toULong ((g.nodes_left : Int) + 1) : Nat) : Int) - 1) : Int)))
        pick_limit non_sources remaining_arcs upper_bound fuel g
    pick_arcs p desired_tail fuel limit indie g

/-! ### node_parents -/

/-- Loop of `node_parents`: `for (int i = 0; i < INTER; i++)`. -/
def node_parents_loop (p : Params) : Nat → Int → Globals → Except Stop Globals
  | 0, i, g => if i < p.INTER then Except.error Stop.out_of_fuel else Except.ok g
  | fuel + 1, i, g =>
    if i < p.INTER then do
      -- FROM[arc_count] = parent[i];
      let pi ← rd MAXARCS g.parent i
      let f ← wr MAXARCS g.FROM g.arc_count (toULong pi)
      -- TO[arc_count] = 0;
      let t ← wr MAXARCS g.TO g.arc_count 0
      -- U[arc_count] = -B[parent[i] - 1];
      let bp ← rd MAXNODES g.B (wrapLong (pi - 1))
      let u ← wr MAXARCS g.U g.arc_count (wrapLong (-bp))
      -- C[arc_count] = delivery_cost;
      let c ← wr MAXARCS g.C g.arc_count delivery_cost
      -- B[parent[i] - 1] = 0;
      let b ← wr MAXNODES g.B (wrapLong (pi - 1)) 0
      -- parent[i] = arc_count + 1;
      let par ← wr MAXARCS g.parent i (wrapLong (toULong ((g.arc_count : Int) + 1)))
      -- arc_count++;
      node_parents_loop p fuel (wrapInt (i + 1))
        { g with FROM := f, TO := t, U := u, C := c, B := b, parent := par,
                 arc_count := toULong ((g.arc_count : Int) + 1) }
    else Except.ok g

/-- Function `node_parents()`. -/
def node_parents (fuel : Nat) (p : Params) (g : Globals) : Except Stop Globals :=
  node_parents_loop p fuel 0 g

/-! ### netgen -/

/-- The loop `for (i = 1; i <= SOURCES; i++) pred[i] = i;`. -/
def init_pred (sources : Nat) : Nat → Nat → Globals → Except Stop Globals
  | 0, i, g => if i ≤ sources then Except.error Stop.out_of_fuel else Except.ok g
  | fuel + 1, i, g =>
    if i ≤ sources then do
      let pr ← wr MAXNODES g.pred i i
      init_pred sources fuel (toULong ((i : Int) + 1)) { g with pred := pr }
    else Except.ok g

/-- First chain loop: `for (i = T; i > (4 * T + 9) / 10; i--)` dealing nodes to
the sources in turn; `bound` is the right-hand side of the test.  Returns the
final `i`, the index list and the globals. -/
def chain_even (p : Params) (bound : Nat) :
    Nat → Nat → Nat → NetgenIndex → Globals → Except Stop (Nat × NetgenIndex × Globals)
  | 0, i, _, indie, g =>
    if i > bound then Except.error Stop.out_of_fuel else Except.ok (i, indie, g)
  | fuel + 1, i, source, indie, g =>
    if i > bound then do
      -- node = indie->choose_index(rando.random(1, indie->index_size()));
      let (r, g) := g.draw 1 indie.index_size
      let (c, indie) := indie.choose_index (toUInt r)
      let node := toULong c
      -- pred[node] = pred[source]; pred[source] = node;
      let ps ← rd MAXNODES g.pred source
      let pr ← wr MAXNODES g.pred node ps
      let pr ← wr MAXNODES pr source node
      -- if (++source > SOURCES) source = 1;
      let source := toULong ((source : Int) + 1)
      let source := if source > toULong p.SOURCES then 1 else source
      chain_even p bound fuel (toULong ((i : Int) - 1)) source indie { g with pred := pr }
    else Except.ok (i, indie, g)

/-- Second chain loop: `for (; i > 0; --i)` attaching nodes to random
sources. -/
def chain_random (p : Params) :
    Nat → Nat → NetgenIndex → Globals → Except Stop (NetgenIndex × Globals)
  | 0, i, indie, g => if i > 0 then Except.error Stop.out_of_fuel else Except.ok (indie, g)
  | fuel + 1, i, indie, g =>
    if i > 0 then do
      -- node = indie->choose_index(rando.random(1, indie->index_size()));
      let (r, g) := g.draw 1 indie.index_size
      let (c, indie) := indie.choose_index (toUInt r)
      let node := toULong c
      -- source = rando.random(1, SOURCES);
      let (r, g) := g.draw 1 p.SOURCES
      let source := toULong r
      -- pred[node] = pred[source]; pred[source] = node;
      let ps ← rd MAXNODES g.pred source
      let pr ← wr MAXNODES g.pred node ps
      let pr ← wr MAXNODES pr source node
      chain_random p fuel (toULong ((i : Int) - 1)) indie { g with pred := pr }
    else Except.ok (indie, g)

/-- Walk up one chain: the loop `while (node != source)` that records one
skeleton pair per chain node.  Returns `sort_count`. -/
def walk_chain (source : Nat) : Nat → Nat → Int → Globals → Except Stop (Int × Globals)
  | 0, node, sort_count, g =>
    if node ≠ source then Except.error Stop.out_of_fuel else Except.ok (sort_count, g)
  | fuel + 1, node, sort_count, g =>
    if node ≠ source then do
      let sort_count := wrapInt (sort_count + 1)
      let h ← wr MAXARCS g.head sort_count node
      let pn ← rd MAXNODES g.pred node
      let t ← wr MAXARCS g.tail sort_count pn
      walk_chain source fuel pn sort_count { g with head := h, tail := t }
    else Except.ok (sort_count, g)

/-- Read an entry of the local array `NODE sinks[MAXNODES]`, which is not
initialised when declared. -/
def rd_sinks (sinks : Nat → Option Nat) (i : Int) : Except Stop Nat := do
  match (← rd MAXNODES sinks i) with
  | some v => Except.ok v
  | none => Except.error Stop.uninitialized

/-- The loop `for (i = 0; i < sinks_per_source; i++)`
`sinks[i] = indie->choose_index(rando.random(1, indie->index_size()));`. -/
def draw_sinks (sinks_per_source : Nat) :
    Nat → Nat → (Nat → Option Nat) → NetgenIndex → Globals →
      Except Stop ((Nat → Option Nat) × NetgenIndex × Globals)
  | 0, i, sinks, indie, g =>
    if i < sinks_per_source then Except.error Stop.out_of_fuel else Except.ok (sinks, indie, g)
  | fuel + 1, i, sinks, indie, g =>
    if i < sinks_per_source then do
      let (r, g) := g.draw 1 indie.index_size
      let (c, indie) := indie.choose_index (toUInt r)
      let sinks ← wr MAXNODES sinks i (some (toULong c))
      draw_sinks sinks_per_source fuel (toULong ((i : Int) + 1)) sinks indie g
    else Except.ok (sinks, indie, g)

/-- The loop on the last source, `while (indie->index_size() > 0)`, which
appends the sinks not yet drawn.  Returns the grown `sinks_per_source` and the
array. -/
def grow_sinks :
    Nat → Nat → (Nat → Option Nat) → NetgenIndex → Globals →
      Except Stop (Nat × (Nat → Option Nat) × NetgenIndex)
  | 0, sinks_per_source, sinks, indie, _ =>
    if indie.index_size > 0 then Except.error Stop.out_of_fuel
    else Except.ok (sinks_per_source, sinks, indie)
  | fuel + 1, sinks_per_source, sinks, indie, g =>
    if indie.index_size > 0 then do
      let (c, indie) := indie.choose_index 1
      let j := toULong c
      let bj ← rd MAXNODES g.B j
      if bj = 0 then do
        let sinks ← wr MAXNODES sinks sinks_per_source (some j)
        grow_sinks fuel (toULong ((sinks_per_source : Int) + 1)) sinks indie g
      else grow_sinks fuel sinks_per_source sinks indie g
    else Except.ok (sinks_per_source, sinks, indie)

/-- The loop `for (j = rando.random(1, chain_length); j > 0; j--) k = pred[k];`
after `j` has been drawn. -/
def climb : Nat → Nat → Nat → Globals → Except Stop Nat
  | 0, j, k, _ => if j > 0 then Except.error Stop.out_of_fuel else Except.ok k
  | fuel + 1, j, k, g =>
    if j > 0 then do
      let k ← rd MAXNODES g.pred k
      climb fuel (toULong ((j : Int) - 1)) k g
    else Except.ok k

/-- The supply loop of one source: `for (i = 0; i < sinks_per_source; i++)`,
which appends one skeleton pair per sink and spreads the supply.  Returns
`sort_count`. -/
def spread_supply (fuel0 : Nat) (source sinks_per_source : Nat) (sinks : Nat → Option Nat)
    (chain_length supply_per_sink : Int) :
    Nat → Nat → Nat → Int → Globals → Except Stop (Int × Globals)
  | 0, i, _, sort_count, g =>
    if i < sinks_per_source then Except.error Stop.out_of_fuel else Except.ok (sort_count, g)
  | fuel + 1, i, k, sort_count, g =>
    if i < sinks_per_source then do
      -- sort_count++;
      let sort_count := wrapInt (sort_count + 1)
      -- partial_supply = rando.random(1, supply_per_sink);
      let (r, g) := g.draw 1 supply_per_sink
      let partial_supply := wrapInt r
      -- j = rando.random(0, sinks_per_source - 1);
      let (r, g) := g.draw 0 (wrapLong (toULong ((sinks_per_source : Int) - 1)))
      let j := toULong r
      -- tail[sort_count] = k; head[sort_count] = sinks[i] + 1;
      let t ← wr MAXARCS g.tail sort_count k
      let si ← rd_sinks sinks i
      let h ← wr MAXARCS g.head sort_count (toULong ((si : Int) + 1))
      -- B[sinks[i]] -= partial_supply;
      let bi ← rd MAXNODES g.B si
      let b ← wr MAXNODES g.B si (wrapLong (bi - partial_supply))
      -- B[sinks[j]] -= supply_per_sink - partial_supply;
      let sj ← rd_sinks sinks j
      let bj ← rd MAXNODES b sj
      let b ← wr MAXNODES b sj (wrapLong (bj - wrapInt (supply_per_sink - partial_supply)))
      let g := { g with tail := t, head := h, B := b }
      -- k = source; for (j = rando.random(1, chain_length); j > 0; j--) k = pred[k];
      let (r, g) := g.draw 1 chain_length
      let k ← climb fuel0 (toULong r) source g
      spread_supply fuel0 source sinks_per_source sinks chain_length supply_per_sink
        fuel (toULong ((i : Int) + 1)) k sort_count g
    else Except.ok (sort_count, g)

/-- The inner loop of the arc emission: `while (it == tail[i])`, one skeleton
arc per pass.  Returns `i` and the index list. -/
def emit_group (p : Params) (source it : Nat) :
    Nat → Nat → NetgenIndex → Globals → Except Stop (Nat × NetgenIndex × Globals)
  | 0, i, indie, g => do
    let ti ← rd MAXARCS g.tail i
    if it = ti then Except.error Stop.out_of_fuel else Except.ok (i, indie, g)
  | fuel + 1, i, indie, g => do
    let ti ← rd MAXARCS g.tail i
    if it = ti then do
      -- indie->remove_index(head[i]);
      let hi ← rd MAXARCS g.head i
      let indie := indie.remove_index (wrapInt hi) 0
      -- cap = SUPPLY; if (rando.random(1, 100) <= CAPACITATED) cap = MAX(B[source - 1], MINCAP);
      let (r, g) := g.draw 1 100
      let cap ←
        if r ≤ p.CAPACITATED then do
          let bs ← rd MAXNODES g.B (toULong ((source : Int) - 1))
          (Except.ok (MAX bs p.MINCAP) : Except Stop Int)
        else Except.ok p.SUPPLY
      -- cost = MAXCOST; if (rando.random(1, 100) > HICOST) cost = rando.random(MINCOST, MAXCOST);
      let (r, g) := g.draw 1 100
      let (cost, g) := if r > p.HICOST then g.draw p.MINCOST p.MAXCOST else (p.MAXCOST, g)
      -- FROM[arc_count] = it; TO[arc_count] = head[i]; C[arc_count] = cost; U[arc_count] = cap;
      -- arc_count++; i++;
      let g ← g.save_arc it hi cost cap
      emit_group p source it fuel (toULong ((i : Int) + 1)) indie g
    else Except.ok (i, indie, g)

/-- The outer loop of the arc emission: `for (i = 1; i <= sort_count; )`.
Returns the last value of `it`. -/
def emit_arcs (fuel0 : Nat) (p : Params) (source : Nat) (sort_count : Int) :
    Nat → Nat → Option Nat → Globals → Except Stop (Option Nat × Globals)
  | 0, i, it, g =>
    if i ≤ toULong sort_count then Except.error Stop.out_of_fuel else Except.ok (it, g)
  | fuel + 1, i, it, g =>
    if i ≤ toULong sort_count then do
      -- NetgenIndex * indie = new NetgenIndex(SOURCES - TSOURCES + 1, NODES);
      let indie := NetgenIndex.create (wrapInt (wrapLong (wrapLong (p.SOURCES - p.TSOURCES) + 1)))
        (wrapInt p.NODES)
      -- indie->remove_index(tail[i]); it = tail[i];
      let ti ← rd MAXARCS g.tail i
      let indie := indie.remove_index (wrapInt ti) 0
      let it := ti
      let (i, indie, g) ← emit_group p source it fuel0 i indie g
      -- pick_head(indie, it);
      let (_, g) ← pick_head fuel0 p indie it g
      emit_arcs fuel0 p source sort_count fuel i (some it) g
    else Except.ok (it, g)

/-- One pass of the loop `for (source = 1; source <= SOURCES; source++)`:
the body for one source.  `it` is the local of `netgen` of that name, which has
no value before the first arc group is emitted. -/
def process_source (fuel : Nat) (p : Params) (source : Nat) (it : Option Nat) (g : Globals) :
    Except Stop (Option Nat × Globals) := do
  -- sort_count = 0; node = pred[source]; while (node != source) ...
  let node ← rd MAXNODES g.pred source
  let (sort_count, g) ← walk_chain source fuel node 0 g
  -- if (NODES - SOURCES - SINKS == 0) sinks_per_source = SINKS / SOURCES + 1;
  -- else sinks_per_source = 2 * sort_count * SINKS / (NODES - SOURCES - SINKS);
  let t := wrapLong (wrapLong (p.NODES - p.SOURCES) - p.SINKS)
  let sinks_per_source : Nat :=
    if t = 0 then toULong (wrapLong (Int.tdiv p.SINKS p.SOURCES + 1))
    else toULong (Int.tdiv (wrapLong (wrapInt (2 * sort_count) * p.SINKS)) t)
  -- sinks_per_source = MAX(2, MIN(sinks_per_source, SINKS));
  let sinks_per_source := MAX 2 (MIN sinks_per_source (toULong p.SINKS))
  -- NODE sinks[MAXNODES]; NetgenIndex * indie = new NetgenIndex(NODES - SINKS, NODES - 1);
  let indie := NetgenIndex.create (wrapInt (wrapLong (p.NODES - p.SINKS)))
    (wrapInt (wrapLong (p.NODES - 1)))
  let (sinks, indie, g) ← draw_sinks sinks_per_source fuel 0 (fun _ => none) indie g
  -- if (source == SOURCES && indie->index_size() > 0) while (indie->index_size() > 0) ...
  let (sinks_per_source, sinks, _) ←
    if source = toULong p.SOURCES ∧ indie.index_size > 0 then
      grow_sinks fuel sinks_per_source sinks indie g
    else Except.ok (sinks_per_source, sinks, indie)
  -- chain_length = sort_count;
  let chain_length := sort_count
  -- supply_per_sink = B[source - 1] / sinks_per_source;
  let bs ← rd MAXNODES g.B (toULong ((source : Int) - 1))
  if sinks_per_source = 0 then Except.error Stop.division_by_zero
  else do
    let supply_per_sink := wrapInt ((toULong bs / sinks_per_source : Nat) : Int)
    -- k = pred[source]; for (i = 0; i < sinks_per_source; i++) ...
    let k ← rd MAXNODES g.pred source
    let (sort_count, g) ← spread_supply fuel source sinks_per_source sinks chain_length
      supply_per_sink fuel 0 k sort_count g
    -- B[sinks[0]] -= B[source - 1] % sinks_per_source;
    let s0 ← rd_sinks sinks 0
    let bs ← rd MAXNODES g.B (toULong ((source : Int) - 1))
    let b0 ← rd MAXNODES g.B s0
    let b ← wr MAXNODES g.B s0 (wrapLong (b0 - ((toULong bs % sinks_per_source : Nat) : Int)))
    let g := { g with B := b }
    -- sort_skeleton(sort_count); tail[sort_count + 1] = 0;
    let g ← sort_skeleton fuel sort_count g
    let tl ← wr MAXARCS g.tail (wrapInt (sort_count + 1)) 0
    let g := { g with tail := tl }
    -- for (i = 1; i <= sort_count; ) ...
    emit_arcs fuel p source sort_count fuel 1 it g

/-- The loop `for (source = 1; source <= SOURCES; source++)`. -/
def all_sources (fuel0 : Nat) (p : Params) :
    Nat → Nat → Option Nat → Globals → Except Stop (Option Nat × Globals)
  | 0, source, it, g =>
    if source ≤ toULong p.SOURCES then Except.error Stop.out_of_fuel else Except.ok (it, g)
  | fuel + 1, source, it, g =>
    if source ≤ toULong p.SOURCES then do
      let (it, g) ← process_source fuel0 p source it g
      all_sources fuel0 p fuel (toULong ((source : Int) + 1)) it g
    else Except.ok (it, g)

/-- The loop over the transshipment sinks:
`for (i = NODES - SINKS + 1; i <= NODES - SINKS + TSINKS; i++)`. -/
def tsink_arcs (fuel0 : Nat) (p : Params) (it : Option Nat) :
    Nat → Nat → Globals → Except Stop Globals
  | 0, i, g =>
    if i ≤ toULong (wrapLong (wrapLong (p.NODES - p.SINKS) + p.TSINKS)) then
      Except.error Stop.out_of_fuel
    else Except.ok g
  | fuel + 1, i, g =>
    if i ≤ toULong (wrapLong (wrapLong (p.NODES - p.SINKS) + p.TSINKS)) then do
      -- NetgenIndex * indie = new NetgenIndex(SOURCES - TSOURCES + 1, NODES);
      let indie := NetgenIndex.create (wrapInt (wrapLong (wrapLong (p.SOURCES - p.TSOURCES) + 1)))
        (wrapInt p.NODES)
      -- indie->remove_index(i);
      let indie := indie.remove_index (wrapInt i) 0
      -- pick_head(indie, it);
      match it with
      | none => Except.error Stop.uninitialized
      | some tl => do
        let (_, g) ← pick_head fuel0 p indie tl g
        tsink_arcs fuel0 p it fuel (toULong ((i : Int) + 1)) g
    else Except.ok g

/-- The loop `for (i = 0; i < INTER; i++)`
`child[i] = arc_id->choose_index(rando.random(1, arc_id->index_size()));`. -/
def draw_children (p : Params) :
    Nat → Nat → NetgenIndex → Globals → Except Stop (NetgenIndex × Globals)
  | 0, i, arc_id, g =>
    if i < toULong p.INTER then Except.error Stop.out_of_fuel else Except.ok (arc_id, g)
  | fuel + 1, i, arc_id, g =>
    if i < toULong p.INTER then do
      let (r, g) := g.draw 1 arc_id.index_size
      let (c, arc_id) := arc_id.choose_index (toUInt r)
      let ch ← wr MAXARCS g.child i (toULong c)
      draw_children p fuel (toULong ((i : Int) + 1)) arc_id { g with child := ch }
    else Except.ok (arc_id, g)

/-- The loop `for (i = 0; i < INTER; i++)`
`parent[i] = ids->choose_index(rando.random(1, ids->index_size()));`, run on
`node_id` when parents are nodes and on `arc_id` when they are arcs. -/
def draw_parents (p : Params) :
    Nat → Nat → NetgenIndex → Globals → Except Stop (NetgenIndex × Globals)
  | 0, i, ids, g =>
    if i < toULong p.INTER then Except.error Stop.out_of_fuel else Except.ok (ids, g)
  | fuel + 1, i, ids, g =>
    if i < toULong p.INTER then do
      let (r, g) := g.draw 1 ids.index_size
      let (c, ids) := ids.choose_index (toUInt r)
      let par ← wr MAXARCS g.parent i c
      draw_parents p fuel (toULong ((i : Int) + 1)) ids { g with parent := par }
    else Except.ok (ids, g)

/-- The sanity checks of `netgen()`: the error code returned, or `none` when
the parameters pass.  Each disjunct is one operand of the `||` chain, in the
order of the source. -/
def sanity_checks (p : Params) : Option Int :=
  if p.seed ≤ 0 then some BAD_SEED
  else if p.NODES > MAXNODES ∨ p.DENSITY > MAXARCS then some TOO_BIG
  else if p.NODES ≤ 0 ∨
      p.NODES > p.DENSITY ∨
      p.SOURCES ≤ 0 ∨
      p.SINKS ≤ 0 ∨
      wrapLong (p.SOURCES + p.SINKS) > p.NODES ∨
      p.MINCOST > p.MAXCOST ∨
      p.SUPPLY < p.SOURCES ∨
      p.TSOURCES > p.SOURCES ∨
      p.TSINKS > p.SINKS ∨
      p.HICOST < 0 ∨ p.HICOST > 100 ∨
      p.CAPACITATED < 0 ∨ p.CAPACITATED > 100 ∨
      p.MINCAP > p.MAXCAP ∨
      p.PARENT < 0 ∨ p.PARENT > 1 ∨
      (p.PARENT = 0 ∧ p.INTER > p.SINKS) ∨
      (p.PARENT = 1 ∧ p.INTER > Int.tdiv p.DENSITY 2) then some BAD_PARMS
  else none

/-- The part of `netgen()` after the sanity checks, up to the `return`. -/
def generate (fuel : Nat) (p : Params) (g : Globals) : Except Stop Globals := do
  -- arc_count = 0; nodes_left = NODES - SINKS + TSINKS;
  let g : Globals := { g with
    arc_count := 0
    nodes_left := toULong (wrapLong (wrapLong (p.NODES - p.SINKS) + p.TSINKS)) }
  -- create_supply(SOURCES, SUPPLY);
  let g ← create_supply fuel (toULong p.SOURCES) p.SUPPLY g
  -- for (i = 1; i <= SOURCES; i++) pred[i] = i;
  let g ← init_pred (toULong p.SOURCES) fuel 1 g
  -- NetgenIndex * indie = new NetgenIndex(SOURCES + 1, NODES - SINKS); source = 1;
  let indie := NetgenIndex.create (wrapInt (wrapLong (p.SOURCES + 1)))
    (wrapInt (wrapLong (p.NODES - p.SINKS)))
  let t := wrapLong (wrapLong (p.NODES - p.SOURCES) - p.SINKS)
  -- for (i = T; i > (4 * T + 9) / 10; i--) ...
  let (i, indie, g) ← chain_even p (toULong (Int.tdiv (wrapLong (wrapLong (4 * t) + 9)) 10))
    fuel (toULong t) 1 indie g
  -- for (; i > 0; --i) ...
  let (_, g) ← chain_random p fuel i indie g
  -- for (source = 1; source <= SOURCES; source++) ...
  let (it, g) ← all_sources fuel p fuel 1 none g
  -- for (i = NODES - SINKS + 1; i <= NODES - SINKS + TSINKS; i++) ...
  let g ← tsink_arcs fuel p it fuel (toULong (wrapLong (wrapLong (p.NODES - p.SINKS) + 1))) g
  -- NetgenIndex * arc_id = new NetgenIndex(1, arc_count);
  let arc_id := NetgenIndex.create 1 (wrapInt g.arc_count)
  let (arc_id, g) ← draw_children p fuel 0 arc_id g
  let g ←
    if p.PARENT = 0 then do
      -- NetgenIndex * node_id = new NetgenIndex(NODES - SINKS + 1, NODES);
      let node_id := NetgenIndex.create (wrapInt (wrapLong (wrapLong (p.NODES - p.SINKS) + 1)))
        (wrapInt p.NODES)
      let (_, g) ← draw_parents p fuel 0 node_id g
      (Except.ok g : Except Stop Globals)
    else do
      let (_, g) ← draw_parents p fuel 0 arc_id g
      (Except.ok g : Except Stop Globals)
  -- if (PARENT == 0) node_parents();
  if p.PARENT = 0 then node_parents fuel p g else Except.ok g

/-- Function `netgen()`: the returned `int` and the globals after the call.
`fuel` bounds the number of passes of every loop. -/
def netgen (fuel : Nat) (p : Params) (g : Globals) : Except Stop (Int × Globals) :=
  match sanity_checks p with
  | some rc => Except.ok (rc, g)
  | none => do
    let g ← generate fuel p g
    -- return arc_count;
    Except.ok (wrapInt g.arc_count, g)

/-- The count of arcs is within the capacity of the arc arrays. -/
def ArcsOK (g : Globals) : Prop := g.arc_count ≤ MAXARCS

/-! ## Predicates used by the theorems -/

/-- The states of the stream that the Lehmer step maps among themselves: the
values in `[0, 2^31 - 1]`. -/
def NetgenRandom.Valid (r : NetgenRandom) : Prop :=
  0 ≤ r.saved_seed ∧ r.saved_seed ≤ 2147483647

/-- The globals `g1` are the globals `g` after some calls of `random`: only the
state of the stream may differ, and it is a valid state if it was one. -/
def Globals.Drawn (g g1 : Globals) : Prop :=
  g1 = { g with rando := g1.rando } ∧ (g.rando.Valid → g1.rando.Valid)

/-- A value in the range of an `int`. -/
def in_int (x : Int) : Prop := -2147483648 ≤ x ∧ x ≤ 2147483647

/-- The parameter sets `main` can store: every parameter is the result of
`stoi`, an `int`. -/
def Params.stored (p : Params) : Prop :=
  in_int p.seed ∧ in_int p.NODES ∧ in_int p.SOURCES ∧ in_int p.SINKS ∧ in_int p.DENSITY ∧
  in_int p.MINCOST ∧ in_int p.MAXCOST ∧ in_int p.SUPPLY ∧ in_int p.TSOURCES ∧
  in_int p.TSINKS ∧ in_int p.HICOST ∧ in_int p.CAPACITATED ∧ in_int p.MINCAP ∧
  in_int p.MAXCAP ∧ in_int p.PARENT ∧ in_int p.INTER

/-- The sum `f 0 + f 1 + ... + f (n - 1)`. -/
def sum_below (f : Nat → Int) : Nat → Int
  | 0 => 0
  | n + 1 => sum_below f n + f n

/-- The entries `tail[1..n]` are below `2^31`: values that pass through an
`int` unchanged. -/
def TailsSmall (n : Int) (g : Globals) : Prop :=
  ∀ x : Nat, 1 ≤ x → (x : Int) ≤ n → g.tail x < 2147483648

/-- The entries `tail[1..n]` are in ascending order. -/
def TailsSorted (n : Int) (g : Globals) : Prop :=
  ∀ a b : Nat, 1 ≤ a → a < b → (b : Int) ≤ n → g.tail a ≤ g.tail b

/-- The globals `r` hold the balances of `g`, and a valid state of the stream
if `g` does: what the parts of the generation that do not deal with supply
leave alone. -/
def Globals.KeepsB (g r : Globals) : Prop :=
  r.B = g.B ∧ (g.rando.Valid → r.rando.Valid)

/-- The first `n` entries of the local array `sinks` have been set, to node
indices in `[lo, hi)`. -/
def SinksIn (lo hi : Nat) (sinks : Nat → Option Nat) (n : Nat) : Prop :=
  ∀ k, k < n → ∃ v, sinks k = some v ∧ lo ≤ v ∧ v < hi

/-- The first `n` entries of the local array `sinks` have been set, and every
entry that has been set is 0 or a node index in `[lo, hi)`. -/
def SinksAt (lo hi : Nat) (sinks : Nat → Option Nat) (n : Nat) : Prop :=
  (∀ k, k < n → ∃ v, sinks k = some v) ∧
    ∀ k v, sinks k = some v → v < hi ∧ (v = 0 ∨ lo ≤ v)

/-- The index list holds at most 5000 entries, all in `[lo, hi)`. -/
def ListIn (lo hi : Nat) (x : NetgenIndex) : Prop :=
  x.index_list.length ≤ 5000 ∧ ∀ v ∈ x.index_list, (lo : Int) ≤ v ∧ v < (hi : Int)

/-! ## Netgen.cpp: error_exit and printout

The output file is a list of lines, in order and without their newline: the
lines written to the stream `outfile` that have reached the file when the
process ends.  What is printed on `cout` is kept apart. -/

/-- The character of the decimal digit `d`. -/
def digit_char (d : Nat) : Char := Char.ofNat (48 + d)

/-- The decimal digits of `n`, most significant first, in front of `acc`.  The
first argument bounds the number of digits. -/
def show_digits : Nat → Nat → List Char → List Char
  | 0, _, acc => acc
  | fuel + 1, n, acc =>
    if n < 10 then digit_char n :: acc
    else show_digits fuel (n / 10) (digit_char (n % 10) :: acc)

/-- The text `operator<<` writes for an `unsigned long`. -/
def show_ulong (n : Nat) : String := ⟨show_digits (n + 1) n []⟩

/-- The text `operator<<` writes for a `long` or an `int`. -/
def show_long (x : Int) : String :=
  if x < 0 then ⟨'-' :: show_digits ((-x).toNat + 1) (-x).toNat []⟩ else show_ulong x.toNat

/-- The state of `ofstream outfile` after `open`: the lines that have reached
the file and the lines still held in the buffer of the stream.  `printout`
ends every line with "\n", never with `endl`, and calls no `flush`; the
header it writes before `netgen()` takes less than 1000 characters
(`header_chars_small`), less than the buffer of a file stream holds, so the
header is still in the buffer when `netgen()` returns. -/
structure OutFile where
  stored : List String
  buffered : List String
deriving DecidableEq, Repr

/-- The stream after `outfile.open(file_name)` succeeded: the file is created
empty. -/
def OutFile.opened : OutFile := ⟨[], []⟩

/-- Statements `outfile << ...`: the lines are appended to the buffer.  A
buffer that fills up is written out before `close()`, which does not change
the content `close` leaves. -/
def OutFile.put (o : OutFile) (lines : List String) : OutFile :=
  ⟨o.stored, o.buffered ++ lines⟩

/-- Call `outfile.close()`: the buffer is written out.  The result is the
content of the file. -/
def OutFile.close (o : OutFile) : List String := o.stored ++ o.buffered

/-- The content of the file when the process ends in `exit()` while `outfile`
is open: `outfile` is an automatic object of `printout`, `exit` runs the
destructors of static objects only, so the buffer is never written out. -/
def OutFile.abandon (o : OutFile) : List String := o.stored

/-- What a run of the program leaves behind: the lines of the output file when
the process has ended, the lines printed on `cout`, and the argument of
`exit` (the shell sees its low 8 bits). -/
structure Run where
  file : List String
  console : List String
  status : Int
deriving DecidableEq, Repr

/-- The message `error_exit(rc)` prints before `exit(1000 - rc)`. -/
def error_message (rc : Int) : String :=
  if rc = BAD_SEED then "NETGEN requires a positive random seed"
  else if rc = TOO_BIG then "Problem too large for generator"
  else if rc = BAD_PARMS then "Inconsistent parameter settings - check the input"
  else if rc = ALLOCATION_FAILURE then "Memory allocation failure"
  else "Internal error"

/-- The lines `printout` writes before it calls `netgen()`: the banner and the
echo of the parameters. -/
def header_lines (p : Params) : List String :=
  [ "c NETGEN flow network generator (C++ version)",
    "c Modified to generate interdependent networks",
    "c  ---------------------------",
    "c   Random seed:          " ++ show_long p.seed,
    "c   Number of nodes:      " ++ show_long p.NODES,
    "c   Source nodes:         " ++ show_long p.SOURCES,
    "c   Sink nodes:           " ++ show_long p.SINKS,
    "c   Number of arcs:       " ++ show_long p.DENSITY,
    "c   Minimum arc cost:     " ++ show_long p.MINCOST,
    "c   Maximum arc cost:     " ++ show_long p.MAXCOST,
    "c   Total supply:         " ++ show_long p.SUPPLY,
    "c   Transshipment -",
    "c     Sources:            " ++ show_long p.TSOURCES,
    "c     Sinks:              " ++ show_long p.TSINKS,
    "c   Skeleton arcs -",
    "c     With max cost:      " ++ show_long p.HICOST ++ "%",
    "c     Capacitated:        " ++ show_long p.CAPACITATED ++ "%",
    "c   Minimum arc capacity: " ++ show_long p.MINCAP,
    "c   Maximum arc capacity: " ++ show_long p.MAXCAP,
    "c   Interdependencies -",
    if p.PARENT = 0 then "c     Parents:            Sink Nodes"
    else "c     Parents:            Arcs",
    "c     Number:             " ++ show_long p.INTER ]

/-- The lines of the maximum flow branch of `printout`. -/
def max_flow_lines (p : Params) (arcs : Int) (g : Globals) : List String :=
  [ "c", "c  *** Maximum flow ***", "c",
    "p max " ++ show_long p.NODES ++ " " ++ show_long arcs ] ++
  -- for (i = 0; i < NODES; i++) if (B[i] > 0) ... else if (B[i] < 0) ...
  (List.range p.NODES.toNat).filterMap (fun i =>
    if g.B i > 0 then some ("n " ++ show_long (wrapInt ((i : Int) + 1)) ++ " s")
    else if g.B i < 0 then some ("n " ++ show_long (wrapInt ((i : Int) + 1)) ++ " t")
    else none) ++
  -- for (i = 0; i < arcs; i++) ...
  (List.range arcs.toNat).map (fun i =>
    "a " ++ show_ulong (g.FROM i) ++ " " ++ show_ulong (g.TO i) ++ " " ++ show_long (g.U i))

/-- The lines of the minimum cost flow branch of `printout`. -/
def min_cost_lines (p : Params) (arcs : Int) (g : Globals) : List String :=
  [ "c", "c  *** Minimum cost flow ***", "c",
    "p min " ++ show_long p.NODES ++ " " ++ show_long arcs ++ " " ++ show_long p.INTER ++
      (if p.PARENT = 0 then " n" else " a") ] ++
  -- for (i = 0; i < NODES; i++) if (B[i] != 0) ...
  (List.range p.NODES.toNat).filterMap (fun i =>
    if g.B i ≠ 0 then
      some ("n " ++ show_long (wrapInt ((i : Int) + 1)) ++ " " ++ show_long (g.B i))
    else none) ++
  -- for (i = 0; i < arcs; i++) ...
  (List.range arcs.toNat).map (fun i =>
    "a " ++ show_ulong (g.FROM i) ++ " " ++ show_ulong (g.TO i) ++ " 0 " ++ show_long (g.U i) ++
      " " ++ show_long (g.C i)) ++
  -- for (i = 0; i < INTER; i++) ...
  (List.range p.INTER.toNat).map (fun i =>
    "i " ++ show_long (g.parent i) ++ " " ++ show_ulong (g.child i))

/-- Function `printout()`, started on the globals `g` that `main` has set up.
`is_open` tells whether `outfile.open(file_name)` succeeded.  The loops run
over indices below `NODES`, `arcs` and `INTER`, which lie inside the arrays
after a run of `netgen` that returned an arc count.  A run that ends in
`error_exit` never reaches `outfile.close()`. -/
def printout (fuel : Nat) (is_open : Bool) (file_name : String) (p : Params) (g : Globals) :
    Except Stop Run :=
  if is_open then do
    -- the banner and the parameters are written first
    let out := OutFile.opened.put (header_lines p)
    -- int arcs = netgen();
    let (arcs, g) ← netgen fuel p g
    -- if (arcs < 0) error_exit(arcs);
    if arcs < 0 then Except.ok ⟨out.abandon, [error_message arcs], wrapInt (1000 - arcs)⟩
    else if p.MINCOST = 1 ∧ p.MAXCOST = 1 then
      -- ... outfile.close(); exit(0);
      Except.ok ⟨(out.put (max_flow_lines p arcs g)).close, [], 0⟩
    else Except.ok ⟨(out.put (min_cost_lines p arcs g)).close, [], 0⟩
  else
    Except.ok ⟨[], ["Unable to write to file " ++ file_name ++ "."], 0⟩

/-! ## LpSolver.cpp: readin

The line reader of `readin`, kept to what it takes from one line of the
file: the first character selects the kind of line, the fields are the pieces
between blanks, and numbers are converted by `stoi`. -/

/-- The pieces successive calls `getline(stream, piece, ' ')` deliver on a
line. -/
def pieces : List Char → List (List Char)
  | [] => [[]]
  | c :: cs =>
    if c = ' ' then [] :: pieces cs
    else
      match pieces cs with
      | p :: ps => (c :: p) :: ps
      | [] => [[c]]

/-- The characters `isspace` accepts, which `stoi` skips in front of a
number. -/
def is_space (c : Char) : Bool := c.toNat = 32 || (9 ≤ c.toNat && c.toNat ≤ 13)

/-- A decimal digit. -/
def is_digit (c : Char) : Bool := 48 ≤ c.toNat && c.toNat ≤ 57

/-- The number written by the digits at the front of `s`, if there is one. -/
def digits_value (s : List Char) : Option Nat :=
  let ds := s.takeWhile is_digit
  if ds = [] then none else some (ds.foldl (fun acc c => 10 * acc + (c.toNat - 48)) 0)

/-- `std::stoi` on a piece: blanks are skipped, then an optional sign and the
longest run of digits are converted; without a digit the call throws (`none`).
The value is kept as an integer of any size: the `out_of_range` exception for
values outside `int` is left out. -/
def stoi (s : List Char) : Option Int :=
  match s.dropWhile is_space with
  | '-' :: t => (digits_value t).map (fun n => -(n : Int))
  | '+' :: t => (digits_value t).map (fun n => (n : Int))
  | t => (digits_value t).map (fun n => (n : Int))

/-- What `readin` takes from one line. -/
inductive Line where
  | other
  | problem (nodes arcs inter : Int) (arc_parents : Bool)
  | node (id balance : Int)
  | arc (src dst : Int) (low : List Char) (cap cost : Int)
  | inter (parent child : Int)
deriving DecidableEq, Repr

/-- One pass of the loop of `readin`: `switch (line[0])` and the conversions of
the case taken.  Lines of any other kind are ignored.  The piece `LOW` of an
arc line is read and not converted; it is kept as text. -/
def parse_line (line : String) : Option Line :=
  let ps := pieces line.data
  match line.data.head? with
  | some 'p' => do
    -- 'p', "min", NODES, DENSITY, INTER, PARENTS
    let nodes ← stoi (ps.getD 2 [])
    let arcs ← stoi (ps.getD 3 [])
    let inter ← stoi (ps.getD 4 [])
    some (Line.problem nodes arcs inter ((ps.getD 5 []).head? = some 'a'))
  | some 'n' => do
    -- 'n', ID, FLOW
    let id ← stoi (ps.getD 1 [])
    let b ← stoi (ps.getD 2 [])
    some (Line.node id b)
  | some 'a' => do
    -- 'a', SRC, DST, LOW, CAP, COST
    let src ← stoi (ps.getD 1 [])
    let dst ← stoi (ps.getD 2 [])
    let cap ← stoi (ps.getD 4 [])
    let cost ← stoi (ps.getD 5 [])
    some (Line.arc src dst (ps.getD 3 []) cap cost)
  | some 'i' => do
    -- 'i', parent, child
    let par ← stoi (ps.getD 1 [])
    let ch ← stoi (ps.getD 2 [])
    some (Line.inter par ch)
  | _ => some Line.other

/-- The loop of `readin` over the lines of a file: what it takes from them, in
order, without the lines it ignores; `none` when a conversion throws. -/
def read_lines : List String → Option (List Line)
  | [] => some []
  | l :: ls => do
    let x ← parse_line l
    let xs ← read_lines ls
    some (if x = Line.other then xs else x :: xs)

/-- The balance a node line carries; other lines carry none. -/
def Line.balance : Line → Int
  | Line.node _ b => b
  | _ => 0

/-- The run `y` returns whatever the run `x` returns: `x` stopped, or both
returned the same result. -/
def Below {α : Type} (x y : Except Stop α) : Prop :=
  ∀ a, x = Except.ok a → y = Except.ok a

/-! ## Relations used for the later claims -/

/-- The arrays `tail` and `head` of `r` are those of `g` read through one
rearrangement of the indices that moves nothing outside `1..n`: the pairs
`(tail[i], head[i])` are the same, in another order. -/
def PairsPermuted (n : Int) (g r : Globals) : Prop :=
  ∃ σ : Equiv.Perm Nat, (∀ x : Nat, ((x : Int) < 1 ∨ n < x) → σ x = x) ∧
    ∀ x, r.tail x = g.tail (σ x) ∧ r.head x = g.head (σ x)

/-- The entries `head[1..n]` are below `2^31`, the values an `int` holds. -/
def HeadsSmall (n : Int) (g : Globals) : Prop :=
  ∀ x : Nat, 1 ≤ x → (x : Int) ≤ n → g.head x < 2147483648

/-- Every arc stored so far has a capacity that is not negative. -/
def CapsU (g : Globals) : Prop := ∀ a, a < g.arc_count → 0 ≤ g.U a

/-- The nodes met when following `pred` from `a`: `pred a` is the first entry
of `l`, `pred` of each entry is the next entry, and `pred` of the last entry
is `b` (`pred a = b` when `l` is empty). -/
def Walk (pred : Nat → Nat) : Nat → List Nat → Nat → Prop
  | a, [], b => pred a = b
  | a, n :: l, b => pred a = n ∧ Walk pred n l b

/-- Total length of the lists `ch 1, ..., ch S`. -/
def chain_total (ch : Nat → List Nat) : Nat → Nat
  | 0 => 0
  | s + 1 => chain_total ch s + (ch (s + 1)).length

/-- The chains while they are built, for sources `1..S` and transshipment
nodes `S+1..M`: `ch s` lists the nodes met when following `pred` from source
`s` back to `s`; the chains hold transshipment nodes that have left the index
list `pool`, each at most once and on one chain only; every transshipment node
is still in `pool` or on a chain. -/
structure ChainInv (S M : Nat) (pred : Nat → Nat) (ch : Nat → List Nat)
    (pool : List Int) : Prop where
  walk : ∀ s, 1 ≤ s → s ≤ S → Walk pred s (ch s) s
  range : ∀ s, 1 ≤ s → s ≤ S → ∀ x ∈ ch s, S < x ∧ x ≤ M ∧ (x : Int) ∉ pool
  nodup : ∀ s, 1 ≤ s → s ≤ S → (ch s).Nodup
  disj : ∀ s t, 1 ≤ s → s ≤ S → 1 ≤ t → t ≤ S → s ≠ t → ∀ x ∈ ch s, x ∉ ch t
  cover : ∀ v : Nat, S < v → v ≤ M → (v : Int) ∈ pool ∨ ∃ s, 1 ≤ s ∧ s ≤ S ∧ v ∈ ch s
  total : chain_total ch S + pool.length + S = M
  sorted : List.Sorted (fun a b : Int => a < b) pool
  pool_range : ∀ v ∈ pool, (S : Int) < v ∧ v ≤ (M : Int)

/-- The state `g` has kept the arcs and the chains of `g0`: at least as many
arcs, the heads of the arcs of `g0` unchanged, and `pred` unchanged. -/
def Globals.Kept (g0 g : Globals) : Prop :=
  g0.arc_count ≤ g.arc_count ∧ (∀ a, a < g0.arc_count → g.TO a = g0.TO a) ∧ g.pred = g0.pred

/-- The state `r` is `g` after some arcs have been stored: the arcs and chains
are kept, and so are the skeleton pairs in `tail` and `head`. -/
def Globals.Emits (g r : Globals) : Prop :=
  g.Kept r ∧ r.head = g.head ∧ r.tail = g.tail

/-! ### The skeleton arcs of a run

The arcs stored by the emission loop of `netgen()` (the `SAVE_ARC` inside
`while (it == tail[i])`) are the skeleton arcs; the arcs stored by `pick_head`
are filler arcs.  The arrays of the program do not record which is which, so
the functions below run the loops of `netgen()` again and keep, next to the
state, the set `m` of the positions in the arc arrays that the emission loop
has stored. -/

/-- The set `m` with the positions `lo, ..., hi - 1` added. -/
def mark_range (m : Nat → Bool) (lo hi : Nat) : Nat → Bool :=
  fun a => m a || (decide (lo ≤ a) && decide (a < hi))

/-- The loop `emit_arcs` with the set of skeleton arcs: the positions
`arc_count` runs through during a call of the inner loop `emit_group` are added
to `m`. -/
def emit_arcs_marked (fuel0 : Nat) (p : Params) (source : Nat) (sort_count : Int) :
    Nat → Nat → Option Nat → (Nat → Bool) → Globals →
      Except Stop (Option Nat × (Nat → Bool) × Globals)
  | 0, i, it, m, g =>
    if i ≤ toULong sort_count then Except.error Stop.out_of_fuel else Except.ok (it, m, g)
  | fuel + 1, i, it, m, g =>
    if i ≤ toULong sort_count then do
      -- NetgenIndex * indie = new NetgenIndex(SOURCES - TSOURCES + 1, NODES);
      let indie := NetgenIndex.create (wrapInt (wrapLong (wrapLong (p.SOURCES - p.TSOURCES) + 1)))
        (wrapInt p.NODES)
      -- indie->remove_index(tail[i]); it = tail[i];
      let ti ← rd MAXARCS g.tail i
      let indie := indie.remove_index (wrapInt ti) 0
      let it := ti
      let (i, indie, g2) ← emit_group p source it fuel0 i indie g
      let m := mark_range m g.arc_count g2.arc_count
      -- pick_head(indie, it);
      let (_, g3) ← pick_head fuel0 p indie it g2
      emit_arcs_marked fuel0 p source sort_count fuel i (some it) m g3
    else Except.ok (it, m, g)

/-- The body `process_source` of the loop over the sources, with the set of
skeleton arcs. -/
def process_source_marked (fuel : Nat) (p : Params) (source : Nat) (it : Option Nat)
    (m : Nat → Bool) (g : Globals) : Except Stop (Option Nat × (Nat → Bool) × Globals) := do
  -- sort_count = 0; node = pred[source]; while (node != source) ...
  let node ← rd MAXNODES g.pred source
  let (sort_count, g) ← walk_chain source fuel node 0 g
  -- if (NODES - SOURCES - SINKS == 0) sinks_per_source = SINKS / SOURCES + 1;
  -- else sinks_per_source = 2 * sort_count * SINKS / (NODES - SOURCES - SINKS);
  let t := wrapLong (wrapLong (p.NODES - p.SOURCES) - p.SINKS)
  let sinks_per_source : Nat :=
    if t = 0 then toULong (wrapLong (Int.tdiv p.SINKS p.SOURCES + 1))
    else toULong (Int.tdiv (wrapLong (wrapInt (2 * sort_count) * p.SINKS)) t)
  -- sinks_per_source = MAX(2, MIN(sinks_per_source, SINKS));
  let sinks_per_source := MAX 2 (MIN sinks_per_source (toULong p.SINKS))
  -- NODE sinks[MAXNODES]; NetgenIndex * indie = new NetgenIndex(NODES - SINKS, NODES - 1);
  let indie := NetgenIndex.create (wrapInt (wrapLong (p.NODES - p.SINKS)))
    (wrapInt (wrapLong (p.NODES - 1)))
  let (sinks, indie, g) ← draw_sinks sinks_per_source fuel 0 (fun _ => none) indie g
  -- if (source == SOURCES && indie->index_size() > 0) while (indie->index_size() > 0) ...
  let (sinks_per_source, sinks, _) ←
    if source = toULong p.SOURCES ∧ indie.index_size > 0 then
      grow_sinks fuel sinks_per_source sinks indie g
    else Except.ok (sinks_per_source, sinks, indie)
  -- chain_length = sort_count;
  let chain_length := sort_count
  -- supply_per_sink = B[source - 1] / sinks_per_source;
  let bs ← rd MAXNODES g.B (toULong ((source : Int) - 1))
  if sinks_per_source = 0 then Except.error Stop.division_by_zero
  else do
    let supply_per_sink := wrapInt ((toULong bs / sinks_per_source : Nat) : Int)
    -- k = pred[source]; for (i = 0; i < sinks_per_source; i++) ...
    let k ← rd MAXNODES g.pred source
    let (sort_count, g) ← spread_supply fuel source sinks_per_source sinks chain_length
      supply_per_sink fuel 0 k sort_count g
    -- B[sinks[0]] -= B[source - 1] % sinks_per_source;
    let s0 ← rd_sinks sinks 0
    let bs ← rd MAXNODES g.B (toULong ((source : Int) - 1))
    let b0 ← rd MAXNODES g.B s0
    let b ← wr MAXNODES g.B s0 (wrapLong (b0 - ((toULong bs % sinks_per_source : Nat) : Int)))
    let g := { g with B := b }
    -- sort_skeleton(sort_count); tail[sort_count + 1] = 0;
    let g ← sort_skeleton fuel sort_count g
    let tl ← wr MAXARCS g.tail (wrapInt (sort_count + 1)) 0
    let g := { g with tail := tl }
    -- for (i = 1; i <= sort_count; ) ...
    emit_arcs_marked fuel p source sort_count fuel 1 it m g

/-- The loop `all_sources` over the sources, with the set of skeleton arcs. -/
def all_sources_marked (fuel0 : Nat) (p : Params) :
    Nat → Nat → Option Nat → (Nat → Bool) → Globals →
      Except Stop (Option Nat × (Nat → Bool) × Globals)
  | 0, source, it, m, g =>
    if source ≤ toULong p.SOURCES then Except.error Stop.out_of_fuel else Except.ok (it, m, g)
  | fuel + 1, source, it, m, g =>
    if source ≤ toULong p.SOURCES then do
      let (it, m, g) ← process_source_marked fuel0 p source it m g
      all_sources_marked fuel0 p fuel (toULong ((source : Int) + 1)) it m g
    else Except.ok (it, m, g)

/-- The set of skeleton arcs of a run of `generate`: the part of `generate` up
to the end of the loop over the sources, which is where the emission loop
runs, started with no position marked. -/
def skeleton_arcs (fuel : Nat) (p : Params) (g : Globals) : Except Stop (Nat → Bool) := do
  -- arc_count = 0; nodes_left = NODES - SINKS + TSINKS;
  let g : Globals := { g with
    arc_count := 0
    nodes_left := toULong (wrapLong (wrapLong (p.NODES - p.SINKS) + p.TSINKS)) }
  -- create_supply(SOURCES, SUPPLY);
  let g ← create_supply fuel (toULong p.SOURCES) p.SUPPLY g
  -- for (i = 1; i <= SOURCES; i++) pred[i] = i;
  let g ← init_pred (toULong p.SOURCES) fuel 1 g
  -- NetgenIndex * indie = new NetgenIndex(SOURCES + 1, NODES - SINKS); source = 1;
  let indie := NetgenIndex.create (wrapInt (wrapLong (p.SOURCES + 1)))
    (wrapInt (wrapLong (p.NODES - p.SINKS)))
  let t := wrapLong (wrapLong (p.NODES - p.SOURCES) - p.SINKS)
  -- for (i = T; i > (4 * T + 9) / 10; i--) ...
  let (i, indie, g) ← chain_even p (toULong (Int.tdiv (wrapLong (wrapLong (4 * t) + 9)) 10))
    fuel (toULong t) 1 indie g
  -- for (; i > 0; --i) ...
  let (_, g) ← chain_random p fuel i indie g
  -- for (source = 1; source <= SOURCES; source++) ...
  let (_, m, _) ← all_sources_marked fuel p fuel 1 none (fun _ => false) g
  Except.ok m

/-- The node `v` is the head of an arc of `g` at a position in `m`. -/
def Covered (m : Nat → Bool) (g : Globals) (v : Nat) : Prop :=
  ∃ a, a < g.arc_count ∧ m a = true ∧ g.TO a = v

/-! ## Theorems: NetgenRandom -/

/-- Inside the range of a `long` the reduction is the identity. -/
theorem wrapLong_id (x : Int) (h0 : -9223372036854775808 ≤ x) (h1 : x ≤ 9223372036854775807) :
    wrapLong x = x := by
  unfold wrapLong
  omega

/-- The state update of `random`, isolated from the returned value. -/
theorem random_state_unfold (s a b : Int) :
    (NetgenRandom.random ⟨s⟩ a b).2.saved_seed =
      (let hi := wrapLong (16807 * (s / 65536))
       let lo := wrapLong (16807 * (s % 65536))
       let hi := wrapLong (hi + lo / 65536)
       let lo := lo % 65536
       let lo := wrapLong (lo + hi / 32768)
       let hi := hi % 32768
       let lo := wrapLong (lo - 2147483647)
       let s := wrapLong (wrapLong (hi * 65536) + lo)
       if s < 0 then wrapLong (s + 2147483647) else s) := by
  unfold NetgenRandom.random NetgenRandom.MULTIPLIER NetgenRandom.MODULUS
  by_cases hba : b ≤ a <;> simp [hba]

/-- State left by `random` when the state before the call lies in
`[0, 2^31 - 1]`: the Lehmer step. -/
theorem random_state_eq (s a b : Int) (h0 : 0 ≤ s) (h1 : s ≤ 2147483647) :
    (NetgenRandom.random ⟨s⟩ a b).2.saved_seed = (16807 * s) % 2147483647 := by
  rw [random_state_unfold]
  have e1 : wrapLong (16807 * (s / 65536)) = 16807 * (s / 65536) :=
    wrapLong_id _ (by omega) (by omega)
  have e2 : wrapLong (16807 * (s % 65536)) = 16807 * (s % 65536) :=
    wrapLong_id _ (by omega) (by omega)
  simp only [e1, e2]
  generalize hsh : s / 65536 = sh
  generalize hsl : s % 65536 = sl
  have hs : s = 65536 * sh + sl := by omega
  have bsh : 0 ≤ sh ∧ sh ≤ 32767 := by omega
  have bsl : 0 ≤ sl ∧ sl ≤ 65535 := by omega
  generalize hq : 16807 * sl / 65536 = q
  generalize hr : 16807 * sl % 65536 = r
  have hqr : 16807 * sl = 65536 * q + r := by omega
  have bq : 0 ≤ q ∧ q ≤ 16807 := by omega
  have br : 0 ≤ r ∧ r ≤ 65535 := by omega
  have e3 : wrapLong (16807 * sh + q) = 16807 * sh + q :=
    wrapLong_id _ (by omega) (by omega)
  simp only [e3]
  generalize hp : (16807 * sh + q) / 32768 = p
  generalize ht : (16807 * sh + q) % 32768 = t
  have hpt : 16807 * sh + q = 32768 * p + t := by omega
  have bp : 0 ≤ p ∧ p ≤ 16807 := by omega
  have bt : 0 ≤ t ∧ t ≤ 32767 := by omega
  have e4 : wrapLong (r + p) = r + p := wrapLong_id _ (by omega) (by omega)
  have e5 : wrapLong (r + p - 2147483647) = r + p - 2147483647 :=
    wrapLong_id _ (by omega) (by omega)
  have e6 : wrapLong (t * 65536) = t * 65536 := wrapLong_id _ (by omega) (by omega)
  simp only [e4, e5, e6]
  have e7 : wrapLong (t * 65536 + (r + p - 2147483647)) = t * 65536 + (r + p - 2147483647) :=
    wrapLong_id _ (by omega) (by omega)
  simp only [e7]
  have key : 16807 * s = 2147483647 * p + (t * 65536 + r + p) := by omega
  split
  · rw [wrapLong_id _ (by omega) (by omega)]
    omega
  · omega

/-- C1: for every state `s` with `0 ≤ s ≤ 2^31 - 1` and all arguments `a`, `b`,
one call of `random(a, b)` leaves `saved_seed = (16807 * s) mod (2^31 - 1)`:
the split multiplication on 16-bit halves in wrapping 64-bit arithmetic is
exactly the Lehmer recurrence. -/
theorem C1_random_lehmer (s a b : Int) (h0 : 0 ≤ s) (h1 : s ≤ 2 ^ 31 - 1) :
    (NetgenRandom.random ⟨s⟩ a b).2.saved_seed = (16807 * s) % (2 ^ 31 - 1) := by
  have h := random_state_eq s a b h0 (by norm_num at h1; exact h1)
  norm_num
  exact h

/-- Witness for C1 at state 1. -/
theorem C1_random_lehmer_witness :
    (0 : Int) ≤ 1 ∧ (1 : Int) ≤ 2 ^ 31 - 1 ∧
      (NetgenRandom.random ⟨1⟩ 1 6).2.saved_seed = (16807 * 1) % (2 ^ 31 - 1) :=
  ⟨by norm_num, by norm_num, C1_random_lehmer 1 1 6 (by norm_num) (by norm_num)⟩

/-- Known answers: the first states of the stream seeded with 1 are the powers
of 16807 modulo `2^31 - 1`, and the first die roll from that seed is 2. -/
theorem random_known_states :
    (NetgenRandom.random ⟨1⟩ 0 0).2 = ⟨16807⟩ ∧
      (NetgenRandom.random ⟨16807⟩ 0 0).2 = ⟨282475249⟩ ∧
      (NetgenRandom.random ⟨282475249⟩ 0 0).2 = ⟨1622650073⟩ ∧
      (NetgenRandom.random ⟨2147483646⟩ 0 0).2 = ⟨2147466840⟩ ∧
      (NetgenRandom.random ⟨1⟩ 1 6).1 = 2 := by
  decide

/-- The value returned by `random`, in terms of the state it leaves. -/
theorem random_value_unfold (r : NetgenRandom) (a b : Int) :
    (NetgenRandom.random r a b).1 =
      if b ≤ a then b
      else wrapLong (a + Int.tmod (NetgenRandom.random r a b).2.saved_seed
        (wrapLong (wrapLong (b - a) + 1))) := by
  unfold NetgenRandom.random
  by_cases hba : b ≤ a <;> simp [hba]

/-- Truncated remainder of a non-negative number by a positive divisor. -/
theorem tmod_bounds (x d : Int) (hx : 0 ≤ x) (hd : 0 < d) :
    0 ≤ Int.tmod x d ∧ Int.tmod x d < d :=
  ⟨Int.tmod_nonneg d hx, Int.tmod_lt_of_pos x hd⟩

/-- Truncated remainder by the most negative `long` leaves a small
non-negative number unchanged. -/
theorem tmod_long_min (x : Int) (hx : 0 ≤ x) (hx1 : x < 2147483647) :
    Int.tmod x (-9223372036854775808) = x := by
  have h : (-9223372036854775808 : Int) = -(9223372036854775808 : Int) := by norm_num
  rw [h, Int.tmod_neg, Int.tmod_eq_emod hx (by norm_num)]
  omega

/-- C2: for every state `s` with `0 ≤ s ≤ 2^31 - 1` and all `long` arguments
with `0 ≤ a ≤ b`, the value returned by `random(a, b)` lies in `[a, b]`. -/
theorem C2_random_in_range (s a b : Int) (h0 : 0 ≤ s) (h1 : s ≤ 2 ^ 31 - 1)
    (ha : 0 ≤ a) (hab : a ≤ b) (hb : b ≤ LONG_MAX) :
    a ≤ (NetgenRandom.random ⟨s⟩ a b).1 ∧ (NetgenRandom.random ⟨s⟩ a b).1 ≤ b := by
  have h1' : s ≤ 2147483647 := by norm_num at h1; exact h1
  have hb' : b ≤ 9223372036854775807 := hb
  rw [random_value_unfold, random_state_eq s a b h0 h1']
  generalize hn : (16807 * s) % 2147483647 = n
  have bn : 0 ≤ n ∧ n < 2147483647 := by omega
  by_cases hba : b ≤ a
  · simp only [hba, if_true]
    omega
  · simp only [hba, if_false]
    rw [wrapLong_id (b - a) (by omega) (by omega)]
    by_cases hbig : b - a + 1 ≤ 9223372036854775807
    · rw [wrapLong_id (b - a + 1) (by omega) hbig]
      have ht := tmod_bounds n (b - a + 1) bn.1 (by omega)
      rw [wrapLong_id _ (by omega) (by omega)]
      omega
    · have hd : wrapLong (b - a + 1) = -9223372036854775808 := by
        unfold wrapLong
        omega
      rw [hd, tmod_long_min n bn.1 bn.2, wrapLong_id _ (by omega) (by omega)]
      omega

/-- Witness for C2: a die roll from state 1. -/
theorem C2_random_in_range_witness :
    (1 : Int) ≤ (NetgenRandom.random ⟨1⟩ 1 6).1 ∧ (NetgenRandom.random ⟨1⟩ 1 6).1 ≤ 6 :=
  C2_random_in_range 1 1 6 (by norm_num) (by norm_num) (by norm_num) (by norm_num)
    (by unfold LONG_MAX; norm_num)

/-- C3: for every state and all `a`, `b` with `b ≤ a`, `random(a, b)` returns
exactly `b`, and the state it leaves is the one any other call `random(a2, b2)`
made from the same state leaves: the state update ignores the arguments. -/
theorem C3_random_degenerate (r : NetgenRandom) (a b : Int) (hba : b ≤ a) :
    (NetgenRandom.random r a b).1 = b ∧
      ∀ a2 b2 : Int, (NetgenRandom.random r a b).2 = (NetgenRandom.random r a2 b2).2 := by
  constructor
  · rw [random_value_unfold]
    simp [hba]
  · intro a2 b2
    unfold NetgenRandom.random
    by_cases h2 : b2 ≤ a2 <;> simp [hba, h2]

/-- Witness for C3 with `b < a`. -/
theorem C3_random_degenerate_witness :
    (NetgenRandom.random ⟨12345⟩ 7 3).1 = 3 ∧
      ∀ a2 b2 : Int,
        (NetgenRandom.random ⟨12345⟩ 7 3).2 = (NetgenRandom.random ⟨12345⟩ a2 b2).2 :=
  C3_random_degenerate ⟨12345⟩ 7 3 (by norm_num)

/-! ## Theorems: NetgenIndex -/

/-- The push loop appends the next `n` consecutive integers when exactly `n`
of them are at most `to_`. -/
theorem push_loop_eq (to_ : Int) :
    ∀ (n : Nat) (i : Int) (l : List Int), (to_ + 1 - i).toNat = n →
      NetgenIndex.push_loop n i to_ l = l ++ (List.range n).map (fun k : Nat => i + (k : Int)) := by
  intro n
  induction n with
  | zero =>
    intro i l _
    simp [NetgenIndex.push_loop]
  | succ n ih =>
    intro i l h
    have hle : i ≤ to_ := by omega
    have hn : (to_ + 1 - (i + 1)).toNat = n := by omega
    rw [NetgenIndex.push_loop, if_pos hle, ih (i + 1) (l ++ [i]) hn, List.range_succ_eq_map]
    simp only [List.map_cons, List.map_map, List.append_assoc, List.singleton_append]
    congr 2
    · simp
    · apply List.map_congr_left
      intro k _
      simp only [Function.comp, Nat.succ_eq_add_one, Nat.cast_add, Nat.cast_one]
      omega

/-- Closed form of the list built by the constructors. -/
theorem fill_range_eq (from_ to_ : Int) :
    NetgenIndex.fill_range from_ to_ =
      (List.range (to_ + 1 - from_).toNat).map (fun k : Nat => from_ + (k : Int)) := by
  unfold NetgenIndex.fill_range
  rw [push_loop_eq to_ _ from_ [] rfl]
  simp

/-- Consecutive integers are strictly ascending. -/
theorem sorted_map_range (i : Int) (n : Nat) :
    List.Sorted (fun a b : Int => a < b) ((List.range n).map (fun k : Nat => i + (k : Int))) := by
  unfold List.Sorted
  rw [List.pairwise_map]
  have h := List.pairwise_lt_range n
  refine h.imp ?_
  intro a b hab
  omega

/-- Membership in the list built by the constructors. -/
theorem mem_fill_range (from_ to_ v : Int) :
    v ∈ NetgenIndex.fill_range from_ to_ ↔ from_ ≤ v ∧ v ≤ to_ := by
  rw [fill_range_eq]
  simp only [List.mem_map, List.mem_range]
  constructor
  · rintro ⟨k, hk, rfl⟩
    omega
  · intro h
    refine ⟨(v - from_).toNat, ?_, ?_⟩ <;> omega

/-- Length of the list built by the constructors. -/
theorem length_fill_range (from_ to_ : Int) :
    ((NetgenIndex.fill_range from_ to_).length : Int) = max 0 (to_ - from_ + 1) := by
  rw [fill_range_eq]
  simp only [List.length_map, List.length_range]
  omega

/-- Values of type `int` are left alone by the conversion to `int`. -/
theorem wrapInt_id (x : Int) (h0 : -2147483648 ≤ x) (h1 : x ≤ 2147483647) : wrapInt x = x := by
  unfold wrapInt
  omega

/-- The conversion to `int` yields a value of type `int`. -/
theorem wrapInt_range (x : Int) : -2147483648 ≤ wrapInt x ∧ wrapInt x ≤ 2147483647 := by
  unfold wrapInt
  omega

/-- One pass of the counted push loop. -/
theorem push_loop_pass (i to_ : Int) (l : List Int) (h : i ≤ to_) :
    NetgenIndex.push_loop (to_ + 1 - i).toNat i to_ l =
      NetgenIndex.push_loop (to_ + 1 - (i + 1)).toNat (i + 1) to_ (l ++ [i]) := by
  have e : (to_ + 1 - i).toNat = (to_ + 1 - (i + 1)).toNat + 1 := by omega
  rw [e, NetgenIndex.push_loop, if_pos h]

/-- The counted push loop started beyond `to` leaves the list alone. -/
theorem push_loop_done (i to_ : Int) (l : List Int) (h : ¬ i ≤ to_) :
    NetgenIndex.push_loop (to_ + 1 - i).toNat i to_ l = l := by
  have e : (to_ + 1 - i).toNat = 0 := by omega
  rw [e, NetgenIndex.push_loop]

/-- For `to < INT_MAX` the loop of the constructor exits, after `to + 1 - i`
passes, and no increment of its counter wraps round. -/
theorem push_loop_int_exits (to_ : Int) (ht : to_ < 2147483647) :
    ∀ (n : Nat) (i : Int) (l : List Int), -2147483648 ≤ i → (to_ + 1 - i).toNat < n →
      NetgenIndex.push_loop_int n i to_ l =
        some (NetgenIndex.push_loop (to_ + 1 - i).toNat i to_ l) := by
  intro n
  induction n with
  | zero =>
    intro i l _ h
    omega
  | succ n ih =>
    intro i l hi h
    rw [NetgenIndex.push_loop_int]
    by_cases hle : i ≤ to_
    · rw [if_pos hle, wrapInt_id (i + 1) (by omega) (by omega), push_loop_pass i to_ l hle]
      exact ih (i + 1) (l ++ [i]) (by omega) (by omega)
    · rw [if_neg hle, push_loop_done i to_ l hle]

/-- For `to = INT_MAX` the test `i <= to` holds for every `int`: the loop of
the constructor does not exit, however many passes it is given. -/
theorem push_loop_int_spins (to_ : Int) (ht : 2147483647 ≤ to_) :
    ∀ (n : Nat) (i : Int) (l : List Int), i ≤ 2147483647 →
      NetgenIndex.push_loop_int n i to_ l = none := by
  intro n
  induction n with
  | zero =>
    intro i l _
    rfl
  | succ n ih =>
    intro i l hi
    rw [NetgenIndex.push_loop_int, if_pos (by omega)]
    exact ih _ _ (wrapInt_range (i + 1)).2

/-- A loop of the constructor that exits has `to < INT_MAX` and leaves the list
of the counted loop. -/
theorem push_loop_int_some (to_ : Int) :
    ∀ (n : Nat) (i : Int) (l r : List Int), -2147483648 ≤ i → i ≤ 2147483647 →
      NetgenIndex.push_loop_int n i to_ l = some r →
      to_ < 2147483647 ∧ r = NetgenIndex.push_loop (to_ + 1 - i).toNat i to_ l := by
  intro n
  induction n with
  | zero =>
    intro i l r _ _ h
    rw [NetgenIndex.push_loop_int] at h
    cases h
  | succ n ih =>
    intro i l r h0 h1 h
    have ht : to_ < 2147483647 := by
      by_contra hc
      rw [push_loop_int_spins to_ (by omega) (n + 1) i l h1] at h
      cases h
    refine ⟨ht, ?_⟩
    rw [NetgenIndex.push_loop_int] at h
    by_cases hle : i ≤ to_
    · rw [if_pos hle, wrapInt_id (i + 1) (by omega) (by omega)] at h
      rw [push_loop_pass i to_ l hle]
      exact (ih (i + 1) (l ++ [i]) r (by omega) (by omega) h).2
    · rw [if_neg hle] at h
      cases h
      rw [push_loop_done i to_ l hle]

/-- The counter set by the constructor is `to - from + 1` when that is a
value of type `int`. -/
theorem create_counter (from_ to_ : Int) (h0 : -2147483648 ≤ to_ - from_ + 1)
    (h1 : to_ - from_ + 1 ≤ 2147483647) :
    wrapInt (wrapInt (to_ - from_) + 1) = to_ - from_ + 1 := by
  unfold wrapInt
  omega

/-- The constructor returns the object `create` when `to < INT_MAX`. -/
theorem create_run_eq (fuel : Nat) (from_ to_ : Int) (hf : -2147483648 ≤ from_)
    (ht : to_ < 2147483647) (hfuel : (to_ + 1 - from_).toNat < fuel) :
    NetgenIndex.create_run fuel from_ to_ = some (NetgenIndex.create from_ to_) := by
  unfold NetgenIndex.create_run
  rw [push_loop_int_exits to_ ht fuel from_ [] hf hfuel]
  rfl

/-- Whatever the constructor returns is the object `create`, and `to < INT_MAX`
then. -/
theorem create_run_some (fuel : Nat) (from_ to_ : Int) (x : NetgenIndex)
    (h0 : -2147483648 ≤ from_) (h1 : from_ ≤ 2147483647)
    (h : NetgenIndex.create_run fuel from_ to_ = some x) :
    to_ < 2147483647 ∧ x = NetgenIndex.create from_ to_ := by
  unfold NetgenIndex.create_run at h
  cases hp : NetgenIndex.push_loop_int fuel from_ to_ [] with
  | none =>
    rw [hp] at h
    cases h
  | some r =>
    rw [hp] at h
    obtain ⟨a, b⟩ := push_loop_int_some to_ fuel from_ [] r h0 h1 hp
    refine ⟨a, ?_⟩
    simp only [Option.map_some', Option.some.injEq] at h
    rw [← h, b]
    rfl

/-- C4 (counterexample): the claim fails outside the `int` arithmetic.
`NetgenIndex(INT_MAX, INT_MIN)` returns an empty list whose counter is 2, not
`to - from + 1 = -4294967294`, which no `int` holds, and so does
`make_index_list`; `NetgenIndex(-1, INT_MAX - 1)` returns a list whose counter
is `INT_MIN`, not `to - from + 1 = 2^31`; and the loop of
`NetgenIndex(INT_MAX, INT_MAX)` does not exit, whatever the number of passes,
so that no list `[INT_MAX]` is returned. -/
theorem C4_counter_leaves_int :
    NetgenIndex.create_run 1 2147483647 (-2147483648) = some ⟨[], 2⟩ ∧
      (2 : Int) ≠ -2147483648 - 2147483647 + 1 ∧
      NetgenIndex.make_index_list_run 1 NetgenIndex.new 2147483647 (-2147483648) =
        some ⟨[], 2⟩ ∧
      (NetgenIndex.create_run 2147483649 (-1) 2147483646).map NetgenIndex.pseudo_size =
        some (-2147483648) ∧
      (-2147483648 : Int) ≠ 2147483646 - (-1) + 1 ∧
      ∀ fuel : Nat, NetgenIndex.create_run fuel 2147483647 2147483647 = none := by
  refine ⟨by decide, by decide, by decide, ?_, by decide, ?_⟩
  · rw [create_run_eq 2147483649 (-1) 2147483646 (by decide) (by decide) (by decide)]
    rfl
  · intro fuel
    unfold NetgenIndex.create_run
    rw [push_loop_int_spins 2147483647 (le_refl _) fuel 2147483647 [] (le_refl _)]
    rfl

/-- C4 (amended): for all `int` values `from`, `to` with `to < INT_MAX` for
which `to - from + 1` is a value of type `int`, the constructor
`NetgenIndex(from, to)` returns, and it yields a list whose contents are
exactly the integers `from, from+1, ..., to` in ascending order (empty when
`to < from`), with `index_size() = max(0, to - from + 1)` and the tracked
pseudo-size counter equal to `to - from + 1`; `make_index_list(from, to)` on
any existing list returns the same object. -/
theorem C4_make_index_list (fuel : Nat) (from_ to_ : Int)
    (hf : -2147483648 ≤ from_ ∧ from_ ≤ 2147483647)
    (ht : -2147483648 ≤ to_ ∧ to_ < 2147483647)
    (hw : -2147483648 ≤ to_ - from_ + 1 ∧ to_ - from_ + 1 ≤ 2147483647)
    (hfuel : (to_ + 1 - from_).toNat < fuel) :
    ∃ x : NetgenIndex, NetgenIndex.create_run fuel from_ to_ = some x ∧
      x = NetgenIndex.create from_ to_ ∧
      x.index_list =
        (List.range (to_ + 1 - from_).toNat).map (fun k : Nat => from_ + (k : Int)) ∧
      List.Sorted (fun a b : Int => a < b) x.index_list ∧
      (∀ v : Int, v ∈ x.index_list ↔ from_ ≤ v ∧ v ≤ to_) ∧
      (to_ < from_ → x.index_list = []) ∧
      x.index_size = max 0 (to_ - from_ + 1) ∧
      x.pseudo_size = to_ - from_ + 1 ∧
      ∀ y : NetgenIndex, y.make_index_list_run fuel from_ to_ = some x ∧
        y.make_index_list from_ to_ = x := by
  refine ⟨NetgenIndex.create from_ to_, create_run_eq fuel from_ to_ hf.1 ht.2 hfuel, rfl,
    fill_range_eq from_ to_, ?_, mem_fill_range from_ to_, ?_,
    length_fill_range from_ to_, create_counter from_ to_ hw.1 hw.2,
    fun _ => ⟨create_run_eq fuel from_ to_ hf.1 ht.2 hfuel, rfl⟩⟩
  · show List.Sorted _ (NetgenIndex.fill_range from_ to_)
    rw [fill_range_eq]
    exact sorted_map_range _ _
  · intro h
    show NetgenIndex.fill_range from_ to_ = []
    rw [fill_range_eq]
    have : (to_ + 1 - from_).toNat = 0 := by omega
    simp [this]

/-- Witness for C4 (amended): the list `3..6`, built in five passes of the
loop test. -/
theorem C4_make_index_list_witness :
    ∃ x : NetgenIndex, NetgenIndex.create_run 5 3 6 = some x ∧
      x = NetgenIndex.create 3 6 ∧
      x.index_list = (List.range (6 + 1 - 3 : Int).toNat).map (fun k : Nat => 3 + (k : Int)) ∧
      List.Sorted (fun a b : Int => a < b) x.index_list ∧
      (∀ v : Int, v ∈ x.index_list ↔ 3 ≤ v ∧ v ≤ 6) ∧
      ((6 : Int) < 3 → x.index_list = []) ∧
      x.index_size = max 0 (6 - 3 + 1) ∧
      x.pseudo_size = 6 - 3 + 1 ∧
      ∀ y : NetgenIndex, y.make_index_list_run 5 3 6 = some x ∧
        y.make_index_list 3 6 = x :=
  C4_make_index_list 5 3 6 (by decide) (by decide) (by decide) (by decide)

/-- A valid position splits the list around the chosen element. -/
theorem split_at_position (l : List Int) (i : Nat) (hi : i < l.length) :
    l = l.take i ++ l.getD i 0 :: l.drop (i + 1) := by
  rw [List.getD_eq_getElem l 0 hi, ← List.drop_eq_getElem_cons hi, List.take_append_drop]

/-- In a strictly ascending list written as `l1 ++ v :: l2`, the elements below
`v` are those of `l1` and the elements other than `v` are those of `l1 ++ l2`. -/
theorem sorted_split_filters (l1 l2 : List Int) (v : Int)
    (hs : List.Sorted (fun a b : Int => a < b) (l1 ++ v :: l2)) :
    (l1 ++ v :: l2).filter (fun a => decide (a < v)) = l1 ∧
      (l1 ++ v :: l2).filter (fun a => decide (a ≠ v)) = l1 ++ l2 := by
  unfold List.Sorted at hs
  rw [List.pairwise_append] at hs
  obtain ⟨_, h2, h12⟩ := hs
  rw [List.pairwise_cons] at h2
  have hl1 : ∀ a ∈ l1, a < v := fun a ha => h12 a ha v (List.mem_cons_self v l2)
  have hl2 : ∀ b ∈ l2, v < b := h2.1
  constructor
  · rw [List.filter_append, List.filter_cons]
    have e1 : l1.filter (fun a => decide (a < v)) = l1 :=
      List.filter_eq_self.mpr (fun a ha => by simpa using hl1 a ha)
    have e2 : l2.filter (fun a => decide (a < v)) = [] :=
      List.filter_eq_nil_iff.mpr (fun b hb => by
        have := hl2 b hb
        simp only [decide_eq_true_eq, not_lt]
        omega)
    simp [e1, e2]
  · have e1 : l1.filter (fun a => decide (a ≠ v)) = l1 :=
      List.filter_eq_self.mpr (fun a ha => by
        have := hl1 a ha
        simp only [ne_eq, decide_not, Bool.not_eq_eq_eq_not, Bool.not_true, decide_eq_false_iff_not]
        omega)
    have e2 : l2.filter (fun a => decide (a ≠ v)) = l2 :=
      List.filter_eq_self.mpr (fun b hb => by
        have := hl2 b hb
        simp only [ne_eq, decide_not, Bool.not_eq_eq_eq_not, Bool.not_true, decide_eq_false_iff_not]
        omega)
    rw [List.filter_append, List.filter_cons, e1, e2]
    simp

/-- Effect of `choose_index` at a valid position. -/
theorem choose_index_valid (x : NetgenIndex) (k : Nat) (h1 : 1 ≤ k)
    (h2 : k ≤ x.index_list.length) :
    x.choose_index k =
      (x.index_list.getD (k - 1) 0, ⟨x.index_list.eraseIdx (k - 1), x.pseudo_size - 1⟩) := by
  unfold NetgenIndex.choose_index
  have : ¬ (k < 1 ∨ k > x.index_list.length) := by omega
  rw [if_neg this]

/-- C5: for every ascending list of distinct integers and every position `k`
with `1 ≤ k ≤ index_size()`, `choose_index(k)` returns the element with exactly
`k - 1` elements below it (the `k`-th smallest), the list afterwards is the old
list without that element and with all others in their old order,
`index_size()` drops by exactly one and so does the pseudo-size counter. -/
theorem C5_choose_index_valid (x : NetgenIndex) (k : Nat)
    (hs : List.Sorted (fun a b : Int => a < b) x.index_list)
    (h1 : 1 ≤ k) (h2 : (k : Int) ≤ x.index_size) :
    (x.choose_index k).1 ∈ x.index_list ∧
      (x.index_list.filter (fun a => decide (a < (x.choose_index k).1))).length + 1 = k ∧
      (x.choose_index k).2.index_list =
        x.index_list.filter (fun a => decide (a ≠ (x.choose_index k).1)) ∧
      (x.choose_index k).2.index_list = x.index_list.erase (x.choose_index k).1 ∧
      (x.choose_index k).2.index_size = x.index_size - 1 ∧
      (x.choose_index k).2.pseudo_size = x.pseudo_size - 1 := by
  have h2' : k ≤ x.index_list.length := by
    unfold NetgenIndex.index_size at h2
    exact_mod_cast h2
  have hi : k - 1 < x.index_list.length := by omega
  rw [choose_index_valid x k h1 h2']
  simp only
  have hsplit := split_at_position x.index_list (k - 1) hi
  generalize hv : x.index_list.getD (k - 1) 0 = v at hsplit
  have hlen1 : (x.index_list.take (k - 1)).length = k - 1 := by
    rw [List.length_take]
    omega
  have herase : x.index_list.eraseIdx (k - 1) =
      x.index_list.take (k - 1) ++ x.index_list.drop (k - 1 + 1) :=
    List.eraseIdx_eq_take_drop_succ _ _
  have hs' := hs
  rw [hsplit] at hs'
  obtain ⟨f1, f2⟩ := sorted_split_filters _ _ v hs'
  rw [← hsplit] at f1 f2
  have hmem : v ∈ x.index_list := by
    rw [hsplit]
    simp
  refine ⟨hmem, ?_, ?_, ?_, ?_, trivial⟩
  · rw [f1, hlen1]
    omega
  · rw [f2, herase]
  · rw [herase, ← f2]
    have hnd : x.index_list.Nodup := hs.nodup
    rw [hnd.erase_eq_filter v]
    apply List.filter_congr
    intro a _
    by_cases h : a = v <;> simp [h]
  · unfold NetgenIndex.index_size
    simp only [List.length_eraseIdx, hi, if_true]
    omega

/-- Witness for C5: the second position of the list `3, 5, 8`. -/
theorem C5_choose_index_valid_witness :
    (NetgenIndex.choose_index ⟨[3, 5, 8], 3⟩ 2).1 ∈ [(3 : Int), 5, 8] ∧
      (([3, 5, 8] : List Int).filter
        (fun a => decide (a < (NetgenIndex.choose_index ⟨[3, 5, 8], 3⟩ 2).1))).length + 1 = 2 ∧
      (NetgenIndex.choose_index ⟨[3, 5, 8], 3⟩ 2).2.index_list =
        ([3, 5, 8] : List Int).filter
          (fun a => decide (a ≠ (NetgenIndex.choose_index ⟨[3, 5, 8], 3⟩ 2).1)) ∧
      (NetgenIndex.choose_index ⟨[3, 5, 8], 3⟩ 2).2.index_list =
        ([3, 5, 8] : List Int).erase (NetgenIndex.choose_index ⟨[3, 5, 8], 3⟩ 2).1 ∧
      (NetgenIndex.choose_index ⟨[3, 5, 8], 3⟩ 2).2.index_size =
        NetgenIndex.index_size ⟨[3, 5, 8], 3⟩ - 1 ∧
      (NetgenIndex.choose_index ⟨[3, 5, 8], 3⟩ 2).2.pseudo_size = 3 - 1 :=
  C5_choose_index_valid ⟨[3, 5, 8], 3⟩ 2 (by decide) (by decide) (by decide)

/-- C6: for every index list and every position `k` with `k < 1` or
`k > index_size()`, `choose_index(k)` returns 0 and leaves the list contents and
the pseudo-size counter unchanged. -/
theorem C6_choose_index_invalid (x : NetgenIndex) (k : Nat)
    (h : k < 1 ∨ (k : Int) > x.index_size) :
    (x.choose_index k).1 = 0 ∧ (x.choose_index k).2 = x := by
  have h' : k < 1 ∨ k > x.index_list.length := by
    unfold NetgenIndex.index_size at h
    rcases h with h | h
    · exact Or.inl h
    · exact Or.inr (by exact_mod_cast h)
  unfold NetgenIndex.choose_index
  rw [if_pos h']
  exact ⟨rfl, rfl⟩

/-- Witness for C6: position 4 of a list of three elements. -/
theorem C6_choose_index_invalid_witness :
    (NetgenIndex.choose_index ⟨[3, 5, 8], 3⟩ 4).1 = 0 ∧
      (NetgenIndex.choose_index ⟨[3, 5, 8], 3⟩ 4).2 = ⟨[3, 5, 8], 3⟩ :=
  C6_choose_index_invalid ⟨[3, 5, 8], 3⟩ 4 (by decide)

/-- The search loop stops on `index` whenever `index` is in the list. -/
theorem search_deref_of_mem (index endv : Int) :
    ∀ l : List Int, index ∈ l → NetgenIndex.search_deref l index endv = index := by
  intro l
  induction l with
  | nil => intro h; simp at h
  | cons h t ih =>
    intro hm
    unfold NetgenIndex.search_deref
    by_cases hh : h = index
    · simp [hh]
    · have : index ∈ t := by
        rcases List.mem_cons.mp hm with e | e
        · exact absurd e.symm hh
        · exact e
      simp [hh, ih this]

/-- Filtering out a value that does not occur changes nothing. -/
theorem filter_ne_of_not_mem (l : List Int) (v : Int) (h : v ∉ l) :
    l.filter (fun a => decide (a ≠ v)) = l := by
  apply List.filter_eq_self.mpr
  intro a ha
  have : a ≠ v := fun e => h (e ▸ ha)
  simp [this]

/-- Contents after `remove_index`, whatever the past-the-end read returns. -/
theorem remove_index_list (x : NetgenIndex) (v endv : Int) :
    (x.remove_index v endv).index_list = x.index_list.filter (fun a => decide (a ≠ v)) := by
  unfold NetgenIndex.remove_index
  by_cases hd : NetgenIndex.search_deref x.index_list v endv = v
  · simp [hd]
  · have hnm : v ∉ x.index_list := fun hm => hd (search_deref_of_mem v endv _ hm)
    simp only [hd, if_false]
    exact (filter_ne_of_not_mem _ _ hnm).symm

/-- Counter after `remove_index`. -/
theorem remove_index_pseudo (x : NetgenIndex) (v endv : Int) :
    (x.remove_index v endv).pseudo_size = x.pseudo_size - 1 := by
  unfold NetgenIndex.remove_index
  by_cases hd : NetgenIndex.search_deref x.index_list v endv = v <;> simp [hd]

/-- The object left by `remove_index` does not depend on the value read at the
past-the-end node. -/
theorem remove_index_endv (x : NetgenIndex) (v e1 e2 : Int) :
    x.remove_index v e1 = x.remove_index v e2 := by
  have hl : (x.remove_index v e1).index_list = (x.remove_index v e2).index_list := by
    rw [remove_index_list, remove_index_list]
  have hp : (x.remove_index v e1).pseudo_size = (x.remove_index v e2).pseudo_size := by
    rw [remove_index_pseudo, remove_index_pseudo]
  cases h1 : x.remove_index v e1 with
  | mk l1 p1 =>
    cases h2 : x.remove_index v e2 with
    | mk l2 p2 =>
      rw [h1, h2] at hl hp
      simp only at hl hp
      rw [hl, hp]

/-- C7: for every index list `L` and every integer `v`, `remove_index(v)`
decreases the pseudo-size counter by exactly one; if `v` is in `L` the contents
afterwards are `L` without `v`, the other elements unchanged and in order, and
if `v` is not in `L` the contents are exactly `L`.  This holds for every value
the search loop may read at the past-the-end node. -/
theorem C7_remove_index (x : NetgenIndex) (v endv : Int) :
    (x.remove_index v endv).pseudo_size = x.pseudo_size - 1 ∧
      (v ∈ x.index_list →
        (x.remove_index v endv).index_list = x.index_list.filter (fun a => decide (a ≠ v)) ∧
        v ∉ (x.remove_index v endv).index_list) ∧
      (v ∉ x.index_list → (x.remove_index v endv).index_list = x.index_list) := by
  refine ⟨remove_index_pseudo x v endv, ?_, ?_⟩
  · intro _
    refine ⟨remove_index_list x v endv, ?_⟩
    rw [remove_index_list]
    simp
  · intro h
    rw [remove_index_list]
    exact filter_ne_of_not_mem _ _ h

/-- Removing a present value from a list of distinct integers shortens it by
one. -/
theorem length_filter_ne_of_mem (l : List Int) (v : Int) (hn : l.Nodup) (hm : v ∈ l) :
    (l.filter (fun a => decide (a ≠ v))).length + 1 = l.length := by
  have e : l.filter (fun a => decide (a ≠ v)) = l.erase v := by
    rw [hn.erase_eq_filter v]
    apply List.filter_congr
    intro a _
    by_cases h : a = v <;> simp [h]
  rw [e, List.length_erase_of_mem hm]
  have : 0 < l.length := List.length_pos_of_mem hm
  omega

/-- One client call preserves the invariant. -/
theorem IndexTrace.step_inv (t : IndexTrace) (c : IndexCall) (h : t.Inv) : (t.step c).Inv := by
  obtain ⟨hn, hp⟩ := h
  cases c with
  | choose k =>
    by_cases hk : k < 1 ∨ k > t.idx.index_list.length
    · have e : t.idx.choose_index k = (0, t.idx) := by
        unfold NetgenIndex.choose_index
        rw [if_pos hk]
      simp only [IndexTrace.step, IndexTrace.Inv, e]
      exact ⟨hn, hp⟩
    · have hk1 : 1 ≤ k := by omega
      have hk2 : k ≤ t.idx.index_list.length := by omega
      simp only [IndexTrace.step, IndexTrace.Inv, choose_index_valid t.idx k hk1 hk2]
      refine ⟨(List.eraseIdx_sublist _ _).nodup hn, ?_⟩
      have hi : k - 1 < t.idx.index_list.length := by omega
      simp only [List.length_eraseIdx, hi, if_true]
      omega
  | remove v e =>
    simp only [IndexTrace.step, IndexTrace.Inv, remove_index_list, remove_index_pseudo]
    refine ⟨hn.filter _, ?_⟩
    by_cases hm : v ∈ t.idx.index_list
    · have := length_filter_ne_of_mem _ v hn hm
      simp only [hm, if_true]
      omega
    · rw [filter_ne_of_not_mem _ _ hm]
      simp only [hm, if_false]
      push_cast
      omega

/-- Every finite sequence of client calls preserves the invariant. -/
theorem IndexTrace.run_inv (calls : List IndexCall) :
    ∀ t : IndexTrace, t.Inv → (t.run calls).Inv := by
  induction calls with
  | nil => intro t h; exact h
  | cons c cs ih =>
    intro t h
    exact ih (t.step c) (t.step_inv c h)

/-- A client call adds at most one failed removal and does not lengthen the
list. -/
theorem IndexTrace.step_bounds (t : IndexTrace) (c : IndexCall) :
    (t.step c).failed ≤ t.failed + 1 ∧
      (t.step c).idx.index_list.length ≤ t.idx.index_list.length := by
  cases c with
  | choose k =>
    refine ⟨Nat.le_succ _, ?_⟩
    show (t.idx.choose_index k).2.index_list.length ≤ _
    unfold NetgenIndex.choose_index
    split
    · exact le_refl _
    · dsimp only
      rw [List.length_eraseIdx]
      split <;> omega
  | remove v e =>
    constructor
    · show (if v ∈ t.idx.index_list then t.failed else t.failed + 1) ≤ t.failed + 1
      split <;> omega
    · show (t.idx.remove_index v e).index_list.length ≤ _
      rw [remove_index_list]
      exact List.length_filter_le _ _

/-- After a sequence of client calls there are at most as many failed removals
as calls, and the list is no longer than it was. -/
theorem IndexTrace.run_bounds (calls : List IndexCall) :
    ∀ t : IndexTrace, (t.run calls).failed ≤ t.failed + calls.length ∧
      (t.run calls).idx.index_list.length ≤ t.idx.index_list.length := by
  induction calls with
  | nil =>
    intro t
    exact ⟨le_refl _, le_refl _⟩
  | cons c cs ih =>
    intro t
    obtain ⟨a1, a2⟩ := ih (t.step c)
    obtain ⟨b1, b2⟩ := t.step_bounds c
    have e : t.run (c :: cs) = (t.step c).run cs := rfl
    rw [e, List.length_cons]
    exact ⟨by omega, by omega⟩

/-- C8: for every list created by `NetgenIndex(from, to)` with `from ≤ to + 1`,
for `int` values `from`, `to` with at most `INT_MAX` elements between them,
and every sequence of at most `2^31` calls of `choose_index` / `remove_index`
applied to it, `get_pseudo_size()` equals `max(0, index_size() - f)`, where `f`
counts the `remove_index` calls so far whose argument was absent from the list
at the time; in particular `get_pseudo_size() ≤ index_size()`.  Within these
bounds the counter and the size are values of type `int` throughout. -/
theorem C8_pseudo_size_invariant (fuel : Nat) (from_ to_ : Int) (x : NetgenIndex)
    (calls : List IndexCall)
    (hi : -2147483648 ≤ from_ ∧ from_ ≤ 2147483647 ∧ -2147483648 ≤ to_ ∧ to_ ≤ 2147483647)
    (h : from_ ≤ to_ + 1) (hw : to_ - from_ + 1 ≤ 2147483647)
    (hx : NetgenIndex.create_run fuel from_ to_ = some x)
    (hc : calls.length ≤ 2147483648) :
    ((IndexTrace.mk x 0).run calls).idx.get_pseudo_size =
        max 0 (((IndexTrace.mk x 0).run calls).idx.index_size -
          (((IndexTrace.mk x 0).run calls).failed : Int)) ∧
      ((IndexTrace.mk x 0).run calls).idx.get_pseudo_size ≤
        ((IndexTrace.mk x 0).run calls).idx.index_size ∧
      (-2147483648 ≤ ((IndexTrace.mk x 0).run calls).idx.pseudo_size ∧
        ((IndexTrace.mk x 0).run calls).idx.pseudo_size ≤ 2147483647 ∧
        ((IndexTrace.mk x 0).run calls).idx.index_size ≤ 2147483647) := by
  obtain ⟨_, ex⟩ := create_run_some fuel from_ to_ x hi.1 hi.2.1 hx
  have hlen : ((NetgenIndex.create from_ to_).index_list.length : Int) = to_ - from_ + 1 := by
    show ((NetgenIndex.fill_range from_ to_).length : Int) = _
    rw [length_fill_range]
    omega
  have h0 : (IndexTrace.mk (NetgenIndex.create from_ to_) 0).Inv := by
    constructor
    · show (NetgenIndex.fill_range from_ to_).Nodup
      rw [fill_range_eq]
      exact (sorted_map_range _ _).nodup
    · show wrapInt (wrapInt (to_ - from_) + 1) =
        ((NetgenIndex.create from_ to_).index_list.length : Int) - ((0 : Nat) : Int)
      rw [hlen, create_counter from_ to_ (by omega) hw]
      simp
  rw [ex]
  obtain ⟨_, hp⟩ := IndexTrace.run_inv calls _ h0
  obtain ⟨b1, b2⟩ := IndexTrace.run_bounds calls (IndexTrace.mk (NetgenIndex.create from_ to_) 0)
  have b3 : (IndexTrace.mk (NetgenIndex.create from_ to_) 0).failed = 0 := rfl
  have b4 : (IndexTrace.mk (NetgenIndex.create from_ to_) 0).idx.index_list.length =
      (NetgenIndex.create from_ to_).index_list.length := rfl
  rw [b3] at b1
  rw [b4] at b2
  generalize (IndexTrace.mk (NetgenIndex.create from_ to_) 0).run calls = t at hp b1 b2
  unfold NetgenIndex.get_pseudo_size NetgenIndex.index_size
  rw [hp]
  refine ⟨?_, ?_, ?_, ?_, ?_⟩
  · split <;> omega
  · split <;> omega
  · omega
  · omega
  · omega

/-- Witness for C8: the list `1..4`, a choice, a failed removal of 9, a
removal of 2 and an out-of-range choice. -/
theorem C8_pseudo_size_invariant_witness :
    ((IndexTrace.mk (NetgenIndex.create 1 4) 0).run
        [IndexCall.choose 3, IndexCall.remove 9 0, IndexCall.remove 2 0,
          IndexCall.choose 7]).idx.get_pseudo_size =
        max 0 (((IndexTrace.mk (NetgenIndex.create 1 4) 0).run
          [IndexCall.choose 3, IndexCall.remove 9 0, IndexCall.remove 2 0,
            IndexCall.choose 7]).idx.index_size -
          (((IndexTrace.mk (NetgenIndex.create 1 4) 0).run
            [IndexCall.choose 3, IndexCall.remove 9 0, IndexCall.remove 2 0,
              IndexCall.choose 7]).failed : Int)) ∧
      ((IndexTrace.mk (NetgenIndex.create 1 4) 0).run
        [IndexCall.choose 3, IndexCall.remove 9 0, IndexCall.remove 2 0,
          IndexCall.choose 7]).idx.get_pseudo_size ≤
        ((IndexTrace.mk (NetgenIndex.create 1 4) 0).run
          [IndexCall.choose 3, IndexCall.remove 9 0, IndexCall.remove 2 0,
            IndexCall.choose 7]).idx.index_size ∧
      (-2147483648 ≤ ((IndexTrace.mk (NetgenIndex.create 1 4) 0).run
        [IndexCall.choose 3, IndexCall.remove 9 0, IndexCall.remove 2 0,
          IndexCall.choose 7]).idx.pseudo_size ∧
        ((IndexTrace.mk (NetgenIndex.create 1 4) 0).run
          [IndexCall.choose 3, IndexCall.remove 9 0, IndexCall.remove 2 0,
            IndexCall.choose 7]).idx.pseudo_size ≤ 2147483647 ∧
        ((IndexTrace.mk (NetgenIndex.create 1 4) 0).run
          [IndexCall.choose 3, IndexCall.remove 9 0, IndexCall.remove 2 0,
            IndexCall.choose 7]).idx.index_size ≤ 2147483647) :=
  C8_pseudo_size_invariant 5 1 4 (NetgenIndex.create 1 4) _ (by decide) (by decide) (by decide)
    (by decide) (by decide)

/-! ## Theorems: the arc count stays within the arc arrays -/

/-- A successful bind has a successful first step. -/
theorem except_bind_ok {ε α β : Type} {x : Except ε α} {f : α → Except ε β} {b : β}
    (h : (x >>= f) = Except.ok b) : ∃ a, x = Except.ok a ∧ f a = Except.ok b := by
  cases x with
  | error e => cases h
  | ok a => exact ⟨a, rfl, h⟩

/-- A successful bounds-checked write was at an index below the size. -/
theorem wr_ok_lt {α : Type} (size : Nat) (a : Nat → α) (i : Int) (v : α) (a2 : Nat → α)
    (h : wr size a i v = Except.ok a2) : 0 ≤ i ∧ i < size := by
  unfold wr at h
  split at h
  · assumption
  · cases h

/-- After `save_arc` the count is within the capacity of the arc arrays. -/
theorem save_arc_arcs (g g2 : Globals) (t hd : Nat) (c u : Int)
    (h : g.save_arc t hd c u = Except.ok g2) : ArcsOK g2 := by
  unfold Globals.save_arc at h
  obtain ⟨f1, hf1, h⟩ := except_bind_ok h
  obtain ⟨f2, _, h⟩ := except_bind_ok h
  obtain ⟨f3, _, h⟩ := except_bind_ok h
  obtain ⟨f4, _, h⟩ := except_bind_ok h
  have hlt := (wr_ok_lt _ _ _ _ _ hf1).2
  injection h with h
  subst h
  have hlt2 : g.arc_count < 60000 := by
    unfold MAXARCS at hlt
    exact_mod_cast hlt
  show toULong ((g.arc_count : Int) + 1) ≤ MAXARCS
  unfold MAXARCS toULong
  omega

/-- `create_supply_loop` keeps the count within capacity. -/
theorem create_supply_loop_arcs (sources : Nat) (sps : Int) :
    ∀ (fuel i : Nat) (g r : Globals), ArcsOK g →
      create_supply_loop sources sps fuel i g = Except.ok r → ArcsOK r := by
  intro fuel
  induction fuel with
  | zero =>
    intro i g r hg h
    rw [create_supply_loop] at h
    split at h
    · cases h
    · cases h
      exact hg
  | succ n ih =>
    intro i g r hg h
    rw [create_supply_loop] at h
    split at h
    · obtain ⟨_, _, h⟩ := except_bind_ok h
      obtain ⟨_, _, h⟩ := except_bind_ok h
      obtain ⟨_, _, h⟩ := except_bind_ok h
      obtain ⟨_, _, h⟩ := except_bind_ok h
      refine ih _ _ _ ?_ h
      exact hg
    · cases h
      exact hg

/-- `create_supply` keeps the count within capacity. -/
theorem create_supply_arcs (fuel sources : Nat) (supply : Int) (g r : Globals) (hg : ArcsOK g)
    (h : create_supply fuel sources supply g = Except.ok r) : ArcsOK r := by
  unfold create_supply at h
  split at h
  · cases h
  · obtain ⟨g1, hg1, h⟩ := except_bind_ok h
    obtain ⟨_, _, h⟩ := except_bind_ok h
    obtain ⟨_, _, h⟩ := except_bind_ok h
    have h1 := create_supply_loop_arcs _ _ _ _ _ _ hg hg1
    cases h
    exact h1

/-- `sort_inner` keeps the count within capacity. -/
theorem sort_inner_arcs (m : Int) :
    ∀ (fuel : Nat) (i : Int) (g r : Globals), ArcsOK g →
      sort_inner m fuel i g = Except.ok r → ArcsOK r := by
  intro fuel
  induction fuel with
  | zero =>
    intro i g r hg h
    rw [sort_inner] at h
    split at h
    · obtain ⟨_, _, h⟩ := except_bind_ok h
      obtain ⟨_, _, h⟩ := except_bind_ok h
      split at h
      · cases h
      · cases h
        exact hg
    · cases h
      exact hg
  | succ n ih =>
    intro i g r hg h
    rw [sort_inner] at h
    split at h
    · obtain ⟨_, _, h⟩ := except_bind_ok h
      obtain ⟨_, _, h⟩ := except_bind_ok h
      split at h
      · obtain ⟨_, _, h⟩ := except_bind_ok h
        obtain ⟨_, _, h⟩ := except_bind_ok h
        obtain ⟨_, _, h⟩ := except_bind_ok h
        obtain ⟨_, _, h⟩ := except_bind_ok h
        obtain ⟨_, _, h⟩ := except_bind_ok h
        obtain ⟨_, _, h⟩ := except_bind_ok h
        refine ih _ _ _ ?_ h
        exact hg
      · cases h
        exact hg
    · cases h
      exact hg

/-- `sort_pass` keeps the count within capacity. -/
theorem sort_pass_arcs (fuel0 : Nat) (m k : Int) :
    ∀ (fuel : Nat) (j : Int) (g r : Globals), ArcsOK g →
      sort_pass fuel0 m k fuel j g = Except.ok r → ArcsOK r := by
  intro fuel
  induction fuel with
  | zero =>
    intro j g r hg h
    rw [sort_pass] at h
    split at h
    · cases h
    · cases h
      exact hg
  | succ n ih =>
    intro j g r hg h
    rw [sort_pass] at h
    split at h
    · obtain ⟨g1, hg1, h⟩ := except_bind_ok h
      exact ih _ _ _ (sort_inner_arcs _ _ _ _ _ hg hg1) h
    · cases h
      exact hg

/-- `sort_gaps` keeps the count within capacity. -/
theorem sort_gaps_arcs (fuel0 : Nat) (sort_count : Int) :
    ∀ (fuel : Nat) (m : Int) (g r : Globals), ArcsOK g →
      sort_gaps fuel0 sort_count fuel m g = Except.ok r → ArcsOK r := by
  intro fuel
  induction fuel with
  | zero =>
    intro m g r hg h
    rw [sort_gaps] at h
    split at h
    · cases h
    · cases h
      exact hg
  | succ n ih =>
    intro m g r hg h
    rw [sort_gaps] at h
    split at h
    · obtain ⟨g1, hg1, h⟩ := except_bind_ok h
      exact ih _ _ _ (sort_pass_arcs _ _ _ _ _ _ _ hg hg1) h
    · cases h
      exact hg

/-- `sort_skeleton` keeps the count within capacity. -/
theorem sort_skeleton_arcs (fuel : Nat) (sort_count : Int) (g r : Globals) (hg : ArcsOK g)
    (h : sort_skeleton fuel sort_count g = Except.ok r) : ArcsOK r :=
  sort_gaps_arcs _ _ _ _ _ _ hg h

/-- A successful conditional took one of its branches. -/
theorem except_ite_ok {ε α : Type} {c : Prop} [Decidable c] {x y : Except ε α} {b : α}
    (h : (if c then x else y) = Except.ok b) :
    (c ∧ x = Except.ok b) ∨ (¬ c ∧ y = Except.ok b) := by
  by_cases hc : c
  · rw [if_pos hc] at h
    exact Or.inl ⟨hc, h⟩
  · rw [if_neg hc] at h
    exact Or.inr ⟨hc, h⟩

/-- `pick_limit` keeps the count within capacity. -/
theorem pick_limit_arcs (non_sources remaining_arcs : Nat) (upper_bound : Int) :
    ∀ (fuel : Nat) (g : Globals) (r : Int × Globals), ArcsOK g →
      pick_limit non_sources remaining_arcs upper_bound fuel g = Except.ok r → ArcsOK r.2 := by
  intro fuel
  induction fuel with
  | zero =>
    intro g r hg h
    rw [pick_limit] at h
    cases h
  | succ n ih =>
    intro g r hg h
    rw [pick_limit] at h
    rcases except_ite_ok h with ⟨_, h⟩ | ⟨_, h⟩
    · refine ih _ _ ?_ h
      exact hg
    · cases h
      exact hg

/-- `pick_arcs` keeps the count within capacity. -/
theorem pick_arcs_arcs (p : Params) (desired_tail : Nat) :
    ∀ (fuel : Nat) (limit : Int) (indie : NetgenIndex) (g : Globals) (r : NetgenIndex × Globals),
      ArcsOK g → pick_arcs p desired_tail fuel limit indie g = Except.ok r → ArcsOK r.2 := by
  intro fuel
  induction fuel with
  | zero =>
    intro limit indie g r hg h
    rw [pick_arcs] at h
    rcases except_ite_ok h with ⟨_, h⟩ | ⟨_, h⟩
    · cases h
    · cases h
      exact hg
  | succ n ih =>
    intro limit indie g r hg h
    rw [pick_arcs] at h
    rcases except_ite_ok h with ⟨_, h⟩ | ⟨_, h⟩
    · obtain ⟨g1, hg1, h⟩ := except_bind_ok h
      exact ih _ _ _ _ (save_arc_arcs _ _ _ _ _ _ hg1) h
    · cases h
      exact hg

/-- `pick_head` keeps the count within capacity. -/
theorem pick_head_arcs (fuel : Nat) (p : Params) (indie : NetgenIndex) (desired_tail : Nat)
    (g : Globals) (r : NetgenIndex × Globals) (hg : ArcsOK g)
    (h : pick_head fuel p indie desired_tail g = Except.ok r) : ArcsOK r.2 := by
  unfold pick_head at h
  rcases except_ite_ok h with ⟨_, h⟩ | ⟨_, h⟩
  · cases h
    exact hg
  · rcases except_ite_ok h with ⟨_, h⟩ | ⟨_, h⟩
    · cases h
    · dsimp only at h
      split at h
      · split at h
        · obtain ⟨lg, hlg, h⟩ := except_bind_ok h
          have e := Except.ok.inj hlg
          subst e
          refine pick_arcs_arcs _ _ _ _ _ _ _ ?_ h
          exact hg
        · obtain ⟨lg, hlg, h⟩ := except_bind_ok h
          refine pick_arcs_arcs _ _ _ _ _ _ _ ?_ h
          refine pick_limit_arcs _ _ _ _ _ _ ?_ hlg
          exact hg
      · split at h
        · obtain ⟨lg, hlg, h⟩ := except_bind_ok h
          have e := Except.ok.inj hlg
          subst e
          refine pick_arcs_arcs _ _ _ _ _ _ _ ?_ h
          exact hg
        · obtain ⟨lg, hlg, h⟩ := except_bind_ok h
          refine pick_arcs_arcs _ _ _ _ _ _ _ ?_ h
          refine pick_limit_arcs _ _ _ _ _ _ ?_ hlg
          exact hg

/-- `node_parents_loop` keeps the count within capacity. -/
theorem node_parents_loop_arcs (p : Params) :
    ∀ (fuel : Nat) (i : Int) (g r : Globals), ArcsOK g →
      node_parents_loop p fuel i g = Except.ok r → ArcsOK r := by
  intro fuel
  induction fuel with
  | zero =>
    intro i g r hg h
    rw [node_parents_loop] at h
    rcases except_ite_ok h with ⟨_, h⟩ | ⟨_, h⟩
    · cases h
    · cases h
      exact hg
  | succ n ih =>
    intro i g r hg h
    rw [node_parents_loop] at h
    rcases except_ite_ok h with ⟨_, h⟩ | ⟨_, h⟩
    · obtain ⟨_, _, h⟩ := except_bind_ok h
      obtain ⟨f, hf, h⟩ := except_bind_ok h
      obtain ⟨_, _, h⟩ := except_bind_ok h
      obtain ⟨_, _, h⟩ := except_bind_ok h
      obtain ⟨_, _, h⟩ := except_bind_ok h
      obtain ⟨_, _, h⟩ := except_bind_ok h
      obtain ⟨_, _, h⟩ := except_bind_ok h
      obtain ⟨_, _, h⟩ := except_bind_ok h
      refine ih _ _ _ ?_ h
      have hlt := (wr_ok_lt _ _ _ _ _ hf).2
      have hlt2 : g.arc_count < 60000 := by
        unfold MAXARCS at hlt
        exact_mod_cast hlt
      show toULong ((g.arc_count : Int) + 1) ≤ MAXARCS
      unfold MAXARCS toULong
      omega
    · cases h
      exact hg

/-- `node_parents` keeps the count within capacity. -/
theorem node_parents_arcs (fuel : Nat) (p : Params) (g r : Globals) (hg : ArcsOK g)
    (h : node_parents fuel p g = Except.ok r) : ArcsOK r :=
  node_parents_loop_arcs _ _ _ _ _ hg h

/-- `init_pred` keeps the count within capacity. -/
theorem init_pred_arcs (sources : Nat) :
    ∀ (fuel i : Nat) (g r : Globals), ArcsOK g →
      init_pred sources fuel i g = Except.ok r → ArcsOK r := by
  intro fuel
  induction fuel with
  | zero =>
    intro i g r hg h
    rw [init_pred] at h
    rcases except_ite_ok h with ⟨_, h⟩ | ⟨_, h⟩
    · cases h
    · cases h
      exact hg
  | succ n ih =>
    intro i g r hg h
    rw [init_pred] at h
    rcases except_ite_ok h with ⟨_, h⟩ | ⟨_, h⟩
    · obtain ⟨_, _, h⟩ := except_bind_ok h
      refine ih _ _ _ ?_ h
      exact hg
    · cases h
      exact hg

/-- `chain_even` keeps the count within capacity. -/
theorem chain_even_arcs (p : Params) (bound : Nat) :
    ∀ (fuel i source : Nat) (indie : NetgenIndex) (g : Globals) (r : Nat × NetgenIndex × Globals),
      ArcsOK g → chain_even p bound fuel i source indie g = Except.ok r → ArcsOK r.2.2 := by
  intro fuel
  induction fuel with
  | zero =>
    intro i source indie g r hg h
    rw [chain_even] at h
    rcases except_ite_ok h with ⟨_, h⟩ | ⟨_, h⟩
    · cases h
    · cases h
      exact hg
  | succ n ih =>
    intro i source indie g r hg h
    rw [chain_even] at h
    rcases except_ite_ok h with ⟨_, h⟩ | ⟨_, h⟩
    · obtain ⟨_, _, h⟩ := except_bind_ok h
      obtain ⟨_, _, h⟩ := except_bind_ok h
      obtain ⟨_, _, h⟩ := except_bind_ok h
      refine ih _ _ _ _ _ ?_ h
      exact hg
    · cases h
      exact hg

/-- `chain_random` keeps the count within capacity. -/
theorem chain_random_arcs (p : Params) :
    ∀ (fuel i : Nat) (indie : NetgenIndex) (g : Globals) (r : NetgenIndex × Globals),
      ArcsOK g → chain_random p fuel i indie g = Except.ok r → ArcsOK r.2 := by
  intro fuel
  induction fuel with
  | zero =>
    intro i indie g r hg h
    rw [chain_random] at h
    rcases except_ite_ok h with ⟨_, h⟩ | ⟨_, h⟩
    · cases h
    · cases h
      exact hg
  | succ n ih =>
    intro i indie g r hg h
    rw [chain_random] at h
    rcases except_ite_ok h with ⟨_, h⟩ | ⟨_, h⟩
    · obtain ⟨_, _, h⟩ := except_bind_ok h
      obtain ⟨_, _, h⟩ := except_bind_ok h
      obtain ⟨_, _, h⟩ := except_bind_ok h
      refine ih _ _ _ _ ?_ h
      exact hg
    · cases h
      exact hg

/-- `walk_chain` keeps the count within capacity. -/
theorem walk_chain_arcs (source : Nat) :
    ∀ (fuel node : Nat) (sort_count : Int) (g : Globals) (r : Int × Globals),
      ArcsOK g → walk_chain source fuel node sort_count g = Except.ok r → ArcsOK r.2 := by
  intro fuel
  induction fuel with
  | zero =>
    intro node sort_count g r hg h
    rw [walk_chain] at h
    rcases except_ite_ok h with ⟨_, h⟩ | ⟨_, h⟩
    · cases h
    · cases h
      exact hg
  | succ n ih =>
    intro node sort_count g r hg h
    rw [walk_chain] at h
    rcases except_ite_ok h with ⟨_, h⟩ | ⟨_, h⟩
    · obtain ⟨_, _, h⟩ := except_bind_ok h
      obtain ⟨_, _, h⟩ := except_bind_ok h
      obtain ⟨_, _, h⟩ := except_bind_ok h
      refine ih _ _ _ _ ?_ h
      exact hg
    · cases h
      exact hg

/-- `draw_sinks` keeps the count within capacity. -/
theorem draw_sinks_arcs (sinks_per_source : Nat) :
    ∀ (fuel i : Nat) (sinks : Nat → Option Nat) (indie : NetgenIndex) (g : Globals)
      (r : (Nat → Option Nat) × NetgenIndex × Globals),
      ArcsOK g → draw_sinks sinks_per_source fuel i sinks indie g = Except.ok r →
        ArcsOK r.2.2 := by
  intro fuel
  induction fuel with
  | zero =>
    intro i sinks indie g r hg h
    rw [draw_sinks] at h
    rcases except_ite_ok h with ⟨_, h⟩ | ⟨_, h⟩
    · cases h
    · cases h
      exact hg
  | succ n ih =>
    intro i sinks indie g r hg h
    rw [draw_sinks] at h
    rcases except_ite_ok h with ⟨_, h⟩ | ⟨_, h⟩
    · obtain ⟨_, _, h⟩ := except_bind_ok h
      refine ih _ _ _ _ _ ?_ h
      exact hg
    · cases h
      exact hg

/-- `spread_supply` keeps the count within capacity. -/
theorem spread_supply_arcs (fuel0 source sinks_per_source : Nat) (sinks : Nat → Option Nat)
    (chain_length supply_per_sink : Int) :
    ∀ (fuel i k : Nat) (sort_count : Int) (g : Globals) (r : Int × Globals),
      ArcsOK g →
      spread_supply fuel0 source sinks_per_source sinks chain_length supply_per_sink
        fuel i k sort_count g = Except.ok r → ArcsOK r.2 := by
  intro fuel
  induction fuel with
  | zero =>
    intro i k sort_count g r hg h
    rw [spread_supply] at h
    rcases except_ite_ok h with ⟨_, h⟩ | ⟨_, h⟩
    · cases h
    · cases h
      exact hg
  | succ n ih =>
    intro i k sort_count g r hg h
    rw [spread_supply] at h
    rcases except_ite_ok h with ⟨_, h⟩ | ⟨_, h⟩
    · obtain ⟨_, _, h⟩ := except_bind_ok h
      obtain ⟨_, _, h⟩ := except_bind_ok h
      obtain ⟨_, _, h⟩ := except_bind_ok h
      obtain ⟨_, _, h⟩ := except_bind_ok h
      obtain ⟨_, _, h⟩ := except_bind_ok h
      obtain ⟨_, _, h⟩ := except_bind_ok h
      obtain ⟨_, _, h⟩ := except_bind_ok h
      obtain ⟨_, _, h⟩ := except_bind_ok h
      obtain ⟨_, _, h⟩ := except_bind_ok h
      refine ih _ _ _ _ _ ?_ h
      exact hg
    · cases h
      exact hg

/-- `emit_group` keeps the count within capacity. -/
theorem emit_group_arcs (p : Params) (source it : Nat) :
    ∀ (fuel i : Nat) (indie : NetgenIndex) (g : Globals) (r : Nat × NetgenIndex × Globals),
      ArcsOK g → emit_group p source it fuel i indie g = Except.ok r → ArcsOK r.2.2 := by
  intro fuel
  induction fuel with
  | zero =>
    intro i indie g r hg h
    obtain ⟨_, _, h⟩ := except_bind_ok h
    rcases except_ite_ok h with ⟨_, h⟩ | ⟨_, h⟩
    · cases h
    · cases h
      exact hg
  | succ n ih =>
    intro i indie g r hg h
    obtain ⟨_, _, h⟩ := except_bind_ok h
    rcases except_ite_ok h with ⟨_, h⟩ | ⟨_, h⟩
    · obtain ⟨_, _, h⟩ := except_bind_ok h
      rcases except_ite_ok h with ⟨_, h⟩ | ⟨_, h⟩
      · obtain ⟨_, _, h⟩ := except_bind_ok h
        obtain ⟨_, _, h⟩ := except_bind_ok h
        obtain ⟨g1, hg1, h⟩ := except_bind_ok h
        exact ih _ _ _ _ (save_arc_arcs _ _ _ _ _ _ hg1) h
      · obtain ⟨_, _, h⟩ := except_bind_ok h
        obtain ⟨g1, hg1, h⟩ := except_bind_ok h
        exact ih _ _ _ _ (save_arc_arcs _ _ _ _ _ _ hg1) h
    · cases h
      exact hg

/-- `emit_arcs` keeps the count within capacity. -/
theorem emit_arcs_arcs (fuel0 : Nat) (p : Params) (source : Nat) (sort_count : Int) :
    ∀ (fuel i : Nat) (it : Option Nat) (g : Globals) (r : Option Nat × Globals),
      ArcsOK g → emit_arcs fuel0 p source sort_count fuel i it g = Except.ok r →
        ArcsOK r.2 := by
  intro fuel
  induction fuel with
  | zero =>
    intro i it g r hg h
    rw [emit_arcs] at h
    rcases except_ite_ok h with ⟨_, h⟩ | ⟨_, h⟩
    · cases h
    · cases h
      exact hg
  | succ n ih =>
    intro i it g r hg h
    rw [emit_arcs] at h
    rcases except_ite_ok h with ⟨_, h⟩ | ⟨_, h⟩
    · obtain ⟨_, _, h⟩ := except_bind_ok h
      obtain ⟨r1, hr1, h⟩ := except_bind_ok h
      obtain ⟨r2, hr2, h⟩ := except_bind_ok h
      have h1 := emit_group_arcs _ _ _ _ _ _ _ _ hg hr1
      have h2 := pick_head_arcs _ _ _ _ _ _ h1 hr2
      exact ih _ _ _ _ h2 h
    · cases h
      exact hg

/-- `process_source` keeps the count within capacity. -/
theorem process_source_arcs (fuel : Nat) (p : Params) (source : Nat) (it : Option Nat)
    (g : Globals) (r : Option Nat × Globals) (hg : ArcsOK g)
    (h : process_source fuel p source it g = Except.ok r) : ArcsOK r.2 := by
  unfold process_source at h
  obtain ⟨_, _, h⟩ := except_bind_ok h
  obtain ⟨r1, hr1, h⟩ := except_bind_ok h
  have h1 := walk_chain_arcs _ _ _ _ _ _ hg hr1
  obtain ⟨r2, hr2, h⟩ := except_bind_ok h
  have h2 := draw_sinks_arcs _ _ _ _ _ _ _ h1 hr2
  have tail_part : ∀ (sps : Nat) (sinks : Nat → Option Nat),
      (do
        let bs ← rd MAXNODES r2.2.2.B (toULong ((source : Int) - 1))
        if sps = 0 then Except.error Stop.division_by_zero
        else do
          let supply_per_sink := wrapInt ((toULong bs / sps : Nat) : Int)
          let k ← rd MAXNODES r2.2.2.pred source
          let (sort_count, g) ← spread_supply fuel source sps sinks r1.1
            supply_per_sink fuel 0 k r1.1 r2.2.2
          let s0 ← rd_sinks sinks 0
          let bs ← rd MAXNODES g.B (toULong ((source : Int) - 1))
          let b0 ← rd MAXNODES g.B s0
          let b ← wr MAXNODES g.B s0 (wrapLong (b0 - ((toULong bs % sps : Nat) : Int)))
          let g := { g with B := b }
          let g ← sort_skeleton fuel sort_count g
          let tl ← wr MAXARCS g.tail (wrapInt (sort_count + 1)) 0
          let g := { g with tail := tl }
          emit_arcs fuel p source sort_count fuel 1 it g) = Except.ok r → ArcsOK r.2 := by
    intro sps sinks h
    obtain ⟨_, _, h⟩ := except_bind_ok h
    rcases except_ite_ok h with ⟨_, h⟩ | ⟨_, h⟩
    · cases h
    · obtain ⟨_, _, h⟩ := except_bind_ok h
      obtain ⟨r4, hr4, h⟩ := except_bind_ok h
      have h4 := spread_supply_arcs _ _ _ _ _ _ _ _ _ _ _ _ h2 hr4
      obtain ⟨_, _, h⟩ := except_bind_ok h
      obtain ⟨_, _, h⟩ := except_bind_ok h
      obtain ⟨_, _, h⟩ := except_bind_ok h
      obtain ⟨_, _, h⟩ := except_bind_ok h
      obtain ⟨r5, hr5, h⟩ := except_bind_ok h
      have h5 : ArcsOK r5 := by
        refine sort_skeleton_arcs _ _ _ _ ?_ hr5
        exact h4
      obtain ⟨_, _, h⟩ := except_bind_ok h
      refine emit_arcs_arcs _ _ _ _ _ _ _ _ _ ?_ h
      exact h5
  rcases except_ite_ok h with ⟨_, h⟩ | ⟨_, h⟩
  · obtain ⟨r3, hr3, h⟩ := except_bind_ok h
    exact tail_part _ _ h
  · obtain ⟨r3, hr3, h⟩ := except_bind_ok h
    exact tail_part _ _ h

/-- `all_sources` keeps the count within capacity. -/
theorem all_sources_arcs (fuel0 : Nat) (p : Params) :
    ∀ (fuel source : Nat) (it : Option Nat) (g : Globals) (r : Option Nat × Globals),
      ArcsOK g → all_sources fuel0 p fuel source it g = Except.ok r → ArcsOK r.2 := by
  intro fuel
  induction fuel with
  | zero =>
    intro source it g r hg h
    rw [all_sources] at h
    rcases except_ite_ok h with ⟨_, h⟩ | ⟨_, h⟩
    · cases h
    · cases h
      exact hg
  | succ n ih =>
    intro source it g r hg h
    rw [all_sources] at h
    rcases except_ite_ok h with ⟨_, h⟩ | ⟨_, h⟩
    · obtain ⟨r1, hr1, h⟩ := except_bind_ok h
      exact ih _ _ _ _ (process_source_arcs _ _ _ _ _ _ hg hr1) h
    · cases h
      exact hg

/-- `tsink_arcs` keeps the count within capacity. -/
theorem tsink_arcs_arcs (fuel0 : Nat) (p : Params) (it : Option Nat) :
    ∀ (fuel i : Nat) (g r : Globals), ArcsOK g →
      tsink_arcs fuel0 p it fuel i g = Except.ok r → ArcsOK r := by
  intro fuel
  induction fuel with
  | zero =>
    intro i g r hg h
    rw [tsink_arcs] at h
    rcases except_ite_ok h with ⟨_, h⟩ | ⟨_, h⟩
    · cases h
    · cases h
      exact hg
  | succ n ih =>
    intro i g r hg h
    rw [tsink_arcs] at h
    rcases except_ite_ok h with ⟨_, h⟩ | ⟨_, h⟩
    · cases it with
      | none => cases h
      | some tl =>
        obtain ⟨r1, hr1, h⟩ := except_bind_ok h
        exact ih _ _ _ (pick_head_arcs _ _ _ _ _ _ hg hr1) h
    · cases h
      exact hg

/-- `draw_children` keeps the count within capacity. -/
theorem draw_children_arcs (p : Params) :
    ∀ (fuel i : Nat) (arc_id : NetgenIndex) (g : Globals) (r : NetgenIndex × Globals),
      ArcsOK g → draw_children p fuel i arc_id g = Except.ok r → ArcsOK r.2 := by
  intro fuel
  induction fuel with
  | zero =>
    intro i arc_id g r hg h
    rw [draw_children] at h
    rcases except_ite_ok h with ⟨_, h⟩ | ⟨_, h⟩
    · cases h
    · cases h
      exact hg
  | succ n ih =>
    intro i arc_id g r hg h
    rw [draw_children] at h
    rcases except_ite_ok h with ⟨_, h⟩ | ⟨_, h⟩
    · obtain ⟨_, _, h⟩ := except_bind_ok h
      refine ih _ _ _ _ ?_ h
      exact hg
    · cases h
      exact hg

/-- `draw_parents` keeps the count within capacity. -/
theorem draw_parents_arcs (p : Params) :
    ∀ (fuel i : Nat) (ids : NetgenIndex) (g : Globals) (r : NetgenIndex × Globals),
      ArcsOK g → draw_parents p fuel i ids g = Except.ok r → ArcsOK r.2 := by
  intro fuel
  induction fuel with
  | zero =>
    intro i ids g r hg h
    rw [draw_parents] at h
    rcases except_ite_ok h with ⟨_, h⟩ | ⟨_, h⟩
    · cases h
    · cases h
      exact hg
  | succ n ih =>
    intro i ids g r hg h
    rw [draw_parents] at h
    rcases except_ite_ok h with ⟨_, h⟩ | ⟨_, h⟩
    · obtain ⟨_, _, h⟩ := except_bind_ok h
      refine ih _ _ _ _ ?_ h
      exact hg
    · cases h
      exact hg

/-- After the generation part of `netgen` the arc count is within the capacity
of the arc arrays, whatever the globals held before. -/
theorem generate_arcs (fuel : Nat) (p : Params) (g r : Globals)
    (h : generate fuel p g = Except.ok r) : ArcsOK r := by
  unfold generate at h
  have h0 : ArcsOK { g with
      arc_count := 0
      nodes_left := toULong (wrapLong (wrapLong (p.NODES - p.SINKS) + p.TSINKS)) } :=
    Nat.zero_le _
  obtain ⟨r1, hr1, h⟩ := except_bind_ok h
  have h1 := create_supply_arcs _ _ _ _ _ h0 hr1
  obtain ⟨r2, hr2, h⟩ := except_bind_ok h
  have h2 := init_pred_arcs _ _ _ _ _ h1 hr2
  obtain ⟨r3, hr3, h⟩ := except_bind_ok h
  have h3 := chain_even_arcs _ _ _ _ _ _ _ _ h2 hr3
  obtain ⟨r4, hr4, h⟩ := except_bind_ok h
  have h4 := chain_random_arcs _ _ _ _ _ _ h3 hr4
  obtain ⟨r5, hr5, h⟩ := except_bind_ok h
  have h5 := all_sources_arcs _ _ _ _ _ _ _ h4 hr5
  obtain ⟨r6, hr6, h⟩ := except_bind_ok h
  have h6 := tsink_arcs_arcs _ _ _ _ _ _ _ h5 hr6
  obtain ⟨r7, hr7, h⟩ := except_bind_ok h
  have h7 := draw_children_arcs _ _ _ _ _ _ h6 hr7
  have last_part : ∀ g8 : Globals, ArcsOK g8 →
      (Except.ok g8 >>= fun g => if p.PARENT = 0 then node_parents fuel p g else Except.ok g) =
        Except.ok r → ArcsOK r := by
    intro g8 h8 h
    obtain ⟨g9, hg9, h⟩ := except_bind_ok h
    cases hg9
    rcases except_ite_ok h with ⟨_, h⟩ | ⟨_, h⟩
    · exact node_parents_arcs _ _ _ _ h8 h
    · cases h
      exact h8
  rcases except_ite_ok h with ⟨_, h⟩ | ⟨_, h⟩
  · obtain ⟨r9, hr9, h⟩ := except_bind_ok h
    exact last_part _ (draw_parents_arcs _ _ _ _ _ _ h7 hr9) h
  · obtain ⟨r9, hr9, h⟩ := except_bind_ok h
    exact last_part _ (draw_parents_arcs _ _ _ _ _ _ h7 hr9) h

/-! ## Theorems: the sanity checks of netgen -/

/-- When a check fails, `netgen` returns its code and touches nothing. -/
theorem netgen_of_check (fuel : Nat) (p : Params) (g : Globals) (rc : Int)
    (h : sanity_checks p = some rc) : netgen fuel p g = Except.ok (rc, g) := by
  unfold netgen
  rw [h]

/-- When the checks pass, a returned value is the arc count, which is not
negative: a run of the model that returns has made every store inside the arc
arrays, so its count is at most `MAXARCS` and the conversion to `int` is
exact. -/
theorem netgen_of_pass (fuel : Nat) (p : Params) (g : Globals) (h : sanity_checks p = none)
    (rc : Int) (hr : (netgen fuel p g).map Prod.fst = Except.ok rc) : 0 ≤ rc := by
  unfold netgen at hr
  rw [h] at hr
  cases hg : generate fuel p g with
  | error e =>
    rw [hg] at hr
    cases hr
  | ok g2 =>
    rw [hg] at hr
    have hle : g2.arc_count ≤ 60000 := generate_arcs fuel p g g2 hg
    have e : wrapInt (g2.arc_count : Int) = rc := Except.ok.inj hr
    rw [← e]
    unfold wrapInt
    omega

/-- The codes the sanity checks can produce. -/
theorem sanity_checks_cases (p : Params) :
    (sanity_checks p = some BAD_SEED ∧ p.seed ≤ 0) ∨
      (sanity_checks p = some TOO_BIG ∧ 0 < p.seed ∧ (p.NODES > 5000 ∨ p.DENSITY > 60000)) ∨
      (sanity_checks p = some BAD_PARMS ∧ 0 < p.seed ∧ p.NODES ≤ 5000 ∧ p.DENSITY ≤ 60000) ∨
      (sanity_checks p = none ∧ 0 < p.seed ∧ p.NODES ≤ 5000 ∧ p.DENSITY ≤ 60000) := by
  unfold sanity_checks MAXNODES MAXARCS
  by_cases h1 : p.seed ≤ 0
  · left
    simp [h1]
  · by_cases h2 : p.NODES > ((5000 : Nat) : Int) ∨ p.DENSITY > ((60000 : Nat) : Int)
    · right; left
      rw [if_neg h1, if_pos h2]
      refine ⟨rfl, by omega, ?_⟩
      simpa using h2
    · rw [if_neg h1, if_neg h2]
      have h2' : p.NODES ≤ 5000 ∧ p.DENSITY ≤ 60000 := by
        simp only [Nat.cast_ofNat] at h2
        omega
      split
      · right; right; left
        exact ⟨rfl, by omega, h2'.1, h2'.2⟩
      · right; right; right
        exact ⟨rfl, by omega, h2'.1, h2'.2⟩

/-- C9: `netgen()` returns `BAD_SEED` (-1) exactly when `seed ≤ 0`, whatever
the other parameters are; and it returns `TOO_BIG` (-2) exactly when `seed > 0`
and (`NODES > 5000` or `DENSITY > 60000`), whatever the remaining parameters
are.  The seed check precedes the size check, which precedes all consistency
checks. -/
theorem C9_netgen_seed_and_size (fuel : Nat) (p : Params) (g : Globals) :
    ((netgen fuel p g).map Prod.fst = Except.ok (-1) ↔ p.seed ≤ 0) ∧
      ((netgen fuel p g).map Prod.fst = Except.ok (-2) ↔
        (0 < p.seed ∧ (p.NODES > 5000 ∨ p.DENSITY > 60000))) := by
  rcases sanity_checks_cases p with ⟨h, c⟩ | ⟨h, c⟩ | ⟨h, c⟩ | ⟨h, c⟩
  · rw [netgen_of_check fuel p g _ h]
    simp only [Except.map, Except.ok.injEq, BAD_SEED]
    refine ⟨⟨fun _ => c, fun _ => by norm_num⟩, ⟨fun e => ?_, fun e => ?_⟩⟩
    · norm_num at e
    · omega
  · rw [netgen_of_check fuel p g _ h]
    simp only [Except.map, Except.ok.injEq, TOO_BIG]
    refine ⟨⟨fun e => ?_, fun e => ?_⟩, ⟨fun _ => c, fun _ => by norm_num⟩⟩
    · norm_num at e
    · omega
  · rw [netgen_of_check fuel p g _ h]
    simp only [Except.map, Except.ok.injEq, BAD_PARMS]
    refine ⟨⟨fun e => ?_, fun e => ?_⟩, ⟨fun e => ?_, fun e => ?_⟩⟩
    · norm_num at e
    · omega
    · norm_num at e
    · omega
  · refine ⟨⟨fun e => ?_, fun e => ?_⟩, ⟨fun e => ?_, fun e => ?_⟩⟩
    · have := netgen_of_pass fuel p g h _ e
      omega
    · omega
    · have := netgen_of_pass fuel p g h _ e
      omega
    · omega

/-- With a positive seed and sizes within the limits, only the consistency
checks remain. -/
theorem sanity_checks_sized (p : Params) (h1 : 0 < p.seed) (h2 : p.NODES ≤ 5000)
    (h3 : p.DENSITY ≤ 60000) :
    sanity_checks p =
      if p.NODES ≤ 0 ∨
          p.NODES > p.DENSITY ∨
          p.SOURCES ≤ 0 ∨
          p.SINKS ≤ 0 ∨
          wrapLong (p.SOURCES + p.SINKS) > p.NODES ∨
          p.MINCOST > p.MAXCOST ∨
          p.SUPPLY < p.SOURCES ∨
          p.TSOURCES > p.SOURCES ∨
          p.TSINKS > p.SINKS ∨
          p.HICOST < 0 ∨ p.HICOST > 100 ∨
          p.CAPACITATED < 0 ∨ p.CAPACITATED > 100 ∨
          p.MINCAP > p.MAXCAP ∨
          p.PARENT < 0 ∨ p.PARENT > 1 ∨
          (p.PARENT = 0 ∧ p.INTER > p.SINKS) ∨
          (p.PARENT = 1 ∧ p.INTER > Int.tdiv p.DENSITY 2) then some BAD_PARMS
      else none := by
  unfold sanity_checks MAXNODES MAXARCS
  have e1 : ¬ p.seed ≤ 0 := by omega
  have e2 : ¬ (p.NODES > ((5000 : Nat) : Int) ∨ p.DENSITY > ((60000 : Nat) : Int)) := by
    simp only [Nat.cast_ofNat]
    omega
  rw [if_neg e1, if_neg e2]

/-- C10: for every input with `seed > 0`, `NODES ≤ 5000` and `DENSITY ≤ 60000`
(and `SOURCES + SINKS` representable as a `long`, as it is for all values
`main` stores, which come from `stoi`), `netgen()` returns `BAD_PARMS` (-3) if
and only if at least one of these holds: `NODES ≤ 0`, `NODES > DENSITY`,
`SOURCES ≤ 0`, `SINKS ≤ 0`, `SOURCES + SINKS > NODES`, `MINCOST > MAXCOST`,
`SUPPLY < SOURCES`, `TSOURCES > SOURCES`, `TSINKS > SINKS`, `HICOST` outside
`[0,100]`, `CAPACITATED` outside `[0,100]`, `MINCAP > MAXCAP`, `PARENT` not in
`{0,1}`, (`PARENT = 0` and `INTER > SINKS`), (`PARENT = 1` and
`INTER > DENSITY/2` with the truncating division of C++). -/
theorem C10_netgen_bad_parms (fuel : Nat) (p : Params) (g : Globals)
    (hseed : 0 < p.seed) (hnodes : p.NODES ≤ 5000) (hdens : p.DENSITY ≤ 60000)
    (hsum : LONG_MIN ≤ p.SOURCES + p.SINKS ∧ p.SOURCES + p.SINKS ≤ LONG_MAX) :
    (netgen fuel p g).map Prod.fst = Except.ok (-3) ↔
      (p.NODES ≤ 0 ∨
        p.NODES > p.DENSITY ∨
        p.SOURCES ≤ 0 ∨
        p.SINKS ≤ 0 ∨
        p.SOURCES + p.SINKS > p.NODES ∨
        p.MINCOST > p.MAXCOST ∨
        p.SUPPLY < p.SOURCES ∨
        p.TSOURCES > p.SOURCES ∨
        p.TSINKS > p.SINKS ∨
        ¬ (0 ≤ p.HICOST ∧ p.HICOST ≤ 100) ∨
        ¬ (0 ≤ p.CAPACITATED ∧ p.CAPACITATED ≤ 100) ∨
        p.MINCAP > p.MAXCAP ∨
        (p.PARENT ≠ 0 ∧ p.PARENT ≠ 1) ∨
        (p.PARENT = 0 ∧ p.INTER > p.SINKS) ∨
        (p.PARENT = 1 ∧ p.INTER > Int.tdiv p.DENSITY 2)) := by
  have hw : wrapLong (p.SOURCES + p.SINKS) = p.SOURCES + p.SINKS :=
    wrapLong_id _ hsum.1 hsum.2
  have hc := sanity_checks_sized p hseed hnodes hdens
  rw [hw] at hc
  generalize Int.tdiv p.DENSITY 2 = half at hc ⊢
  split at hc
  · rename_i hbad
    rw [netgen_of_check fuel p g _ hc]
    simp only [Except.map, Except.ok.injEq, BAD_PARMS]
    constructor
    · intro _
      omega
    · intro _
      norm_num
  · rename_i hgood
    constructor
    · intro e
      have := netgen_of_pass fuel p g hc _ e
      omega
    · intro hbad
      exfalso
      apply hgood
      omega

/-- Witness for C10: a parameter set whose only fault is `MINCAP > MAXCAP`
(30 against 5) is answered with `BAD_PARMS`. -/
theorem C10_netgen_bad_parms_witness :
    (netgen 0 ⟨1, 10, 2, 2, 20, 1, 100, 50, 0, 0, 50, 50, 30, 5, 1, 2⟩ (Globals.init 1)).map
        Prod.fst = Except.ok (-3) :=
  (C10_netgen_bad_parms 0 ⟨1, 10, 2, 2, 20, 1, 100, 50, 0, 0, 50, 50, 30, 5, 1, 2⟩
    (Globals.init 1) (by decide) (by decide) (by decide) (by decide)).mpr (by decide)

/-! ## Theorems: reads, writes and draws -/

/-- A successful write is the update of the array at an index inside it. -/
theorem wr_ok_eq {α : Type} (size : Nat) (a : Nat → α) (i : Int) (v : α) (a2 : Nat → α)
    (h : wr size a i v = Except.ok a2) :
    0 ≤ i ∧ i < size ∧ a2 = Function.update a i.toNat v := by
  unfold wr at h
  split at h
  · rename_i hc
    cases h
    exact ⟨hc.1, hc.2, rfl⟩
  · cases h

/-- A successful read returns the entry at an index inside the array. -/
theorem rd_ok_eq {α : Type} (size : Nat) (a : Nat → α) (i : Int) (v : α)
    (h : rd size a i = Except.ok v) : 0 ≤ i ∧ i < size ∧ v = a i.toNat := by
  unfold rd at h
  split at h
  · rename_i hc
    cases h
    exact ⟨hc.1, hc.2, rfl⟩
  · cases h

/-- A write at an index inside the array succeeds. -/
theorem wr_eq_ok {α : Type} (size : Nat) (a : Nat → α) (i : Int) (v : α)
    (h0 : 0 ≤ i) (h1 : i < size) : wr size a i v = Except.ok (Function.update a i.toNat v) := by
  unfold wr
  rw [if_pos ⟨h0, h1⟩]

/-- A read at an index inside the array succeeds. -/
theorem rd_eq_ok {α : Type} (size : Nat) (a : Nat → α) (i : Int)
    (h0 : 0 ≤ i) (h1 : i < size) : rd size a i = Except.ok (a i.toNat) := by
  unfold rd
  rw [if_pos ⟨h0, h1⟩]

/-- What a successful `save_arc` does: the arc is stored at the old
`arc_count`, which is below `MAXARCS` and goes up by one; nothing else
changes. -/
theorem save_arc_spec (g g2 : Globals) (t hd : Nat) (c u : Int)
    (h : g.save_arc t hd c u = Except.ok g2) :
    g.arc_count < MAXARCS ∧
    g2 = { g with FROM := Function.update g.FROM g.arc_count t,
                  TO := Function.update g.TO g.arc_count hd,
                  C := Function.update g.C g.arc_count c,
                  U := Function.update g.U g.arc_count u,
                  arc_count := g.arc_count + 1 } := by
  unfold Globals.save_arc at h
  obtain ⟨f, hf, h⟩ := except_bind_ok h
  obtain ⟨t2, ht, h⟩ := except_bind_ok h
  obtain ⟨c2, hc, h⟩ := except_bind_ok h
  obtain ⟨u2, hu, h⟩ := except_bind_ok h
  obtain ⟨_, hlt, ef⟩ := wr_ok_eq _ _ _ _ _ hf
  obtain ⟨_, _, et⟩ := wr_ok_eq _ _ _ _ _ ht
  obtain ⟨_, _, ec⟩ := wr_ok_eq _ _ _ _ _ hc
  obtain ⟨_, _, eu⟩ := wr_ok_eq _ _ _ _ _ hu
  have hlt2 : g.arc_count < MAXARCS := by exact_mod_cast hlt
  refine ⟨hlt2, ?_⟩
  have e := Except.ok.inj h
  subst e ef et ec eu
  have e1 : toULong ((g.arc_count : Int) + 1) = g.arc_count + 1 := by
    unfold toULong
    unfold MAXARCS at hlt2
    omega
  simp only [Int.toNat_ofNat, e1]

/-- The stream stays in a valid state. -/
theorem random_valid (r : NetgenRandom) (a b : Int) (h : r.Valid) : (r.random a b).2.Valid := by
  obtain ⟨s⟩ := r
  obtain ⟨h0, h1⟩ := h
  unfold NetgenRandom.Valid
  rw [random_state_eq s a b h0 h1]
  omega

/-- Range of the value drawn from a valid state, for `0 ≤ a ≤ b`. -/
theorem random_bounds (r : NetgenRandom) (a b : Int) (h : r.Valid)
    (ha : 0 ≤ a) (hab : a ≤ b) (hb : b ≤ 9223372036854775807) :
    a ≤ (r.random a b).1 ∧ (r.random a b).1 ≤ b := by
  obtain ⟨s⟩ := r
  obtain ⟨h0, h1⟩ := h
  rw [random_value_unfold, random_state_eq s a b h0 h1]
  generalize hn : (16807 * s) % 2147483647 = n
  have bn : 0 ≤ n ∧ n < 2147483647 := by omega
  by_cases hba : b ≤ a
  · simp only [hba, if_true]
    omega
  · simp only [hba, if_false]
    rw [wrapLong_id (b - a) (by omega) (by omega)]
    by_cases hbig : b - a + 1 ≤ 9223372036854775807
    · rw [wrapLong_id (b - a + 1) (by omega) hbig]
      have ht := tmod_bounds n (b - a + 1) bn.1 (by omega)
      rw [wrapLong_id _ (by omega) (by omega)]
      omega
    · have hd : wrapLong (b - a + 1) = -9223372036854775808 := by
        unfold wrapLong
        omega
      rw [hd, tmod_long_min n bn.1 bn.2, wrapLong_id _ (by omega) (by omega)]
      omega

/-- The degenerate draw returns its second argument. -/
theorem random_degenerate (r : NetgenRandom) (a b : Int) (hba : b ≤ a) : (r.random a b).1 = b := by
  rw [random_value_unfold, if_pos hba]

/-- Nothing has been drawn yet. -/
theorem Globals.Drawn.refl (g : Globals) : g.Drawn g := ⟨rfl, fun h => h⟩

/-- Draws after draws. -/
theorem Globals.Drawn.trans {g g1 g2 : Globals} (h1 : g.Drawn g1) (h2 : g1.Drawn g2) :
    g.Drawn g2 := by
  obtain ⟨e1, v1⟩ := h1
  obtain ⟨e2, v2⟩ := h2
  refine ⟨?_, fun h => v2 (v1 h)⟩
  rw [e2, e1]

/-- One `draw`, inverted. -/
theorem draw_inv (g g1 : Globals) (a b r1 : Int) (h : g.draw a b = (r1, g1)) :
    g.Drawn g1 ∧ r1 = (g.rando.random a b).1 := by
  unfold Globals.draw at h
  have e1 := congrArg Prod.fst h
  have e2 := congrArg Prod.snd h
  dsimp only at e1 e2
  subst e2
  exact ⟨⟨rfl, fun hv => random_valid _ _ _ hv⟩, e1.symm⟩

/-- A conditional draw, inverted. -/
theorem ite_draw_inv (c : Prop) [Decidable c] (g g1 : Globals) (a b x r1 : Int)
    (h : (if c then g.draw a b else (x, g)) = (r1, g1)) : g.Drawn g1 := by
  split at h
  · exact (draw_inv _ _ _ _ _ h).1
  · have e2 := congrArg Prod.snd h
    dsimp only at e2
    subst e2
    exact Globals.Drawn.refl _

/-! ## Theorems: the filler arcs of pick_head -/

/-- One pass of the arc loop of `pick_head`, inverted: after the draws the
pass stores an arc at the old `arc_count`, with tail `desired_tail` and with
head the value the destination draw returned, and the loop goes on. -/
theorem pick_arcs_step (p : Params) (desired_tail n : Nat) (limit : Int) (indie : NetgenIndex)
    (g : Globals) (r : NetgenIndex × Globals)
    (h : pick_arcs p desired_tail (n + 1) limit indie g = Except.ok r) (hl : 0 < limit) :
    ∃ (g4 : Globals) (cost cap : Int), g.Drawn g4 ∧ g.arc_count < MAXARCS ∧
      pick_arcs p desired_tail n (wrapInt (limit - 1))
        (indie.choose_index (toUInt (g.draw 1 indie.get_pseudo_size).1)).2
        { g4 with
          FROM := Function.update g.FROM g.arc_count desired_tail
          TO := Function.update g.TO g.arc_count
            (toULong (indie.choose_index (toUInt (g.draw 1 indie.get_pseudo_size).1)).1)
          C := Function.update g.C g.arc_count cost
          U := Function.update g.U g.arc_count cap
          arc_count := g.arc_count + 1 } = Except.ok r := by
  rw [pick_arcs, if_pos hl] at h
  obtain ⟨r1, g1, hd1⟩ : ∃ r1 g1, g.draw 1 indie.get_pseudo_size = (r1, g1) := ⟨_, _, rfl⟩
  rw [hd1] at h ⊢
  dsimp only at h ⊢
  obtain ⟨c, indie1, hc⟩ : ∃ c i1, indie.choose_index (toUInt r1) = (c, i1) := ⟨_, _, rfl⟩
  rw [hc] at h ⊢
  dsimp only at h ⊢
  obtain ⟨r2, g2, hd2⟩ : ∃ r2 g2, g1.draw 1 100 = (r2, g2) := ⟨_, _, rfl⟩
  rw [hd2] at h
  dsimp only at h
  obtain ⟨cap, g3, hd3⟩ : ∃ cap g3,
    (if r2 ≤ p.CAPACITATED then g2.draw p.MINCAP p.MAXCAP else (p.SUPPLY, g2)) = (cap, g3) :=
      ⟨_, _, rfl⟩
  rw [hd3] at h
  dsimp only at h
  obtain ⟨cost, g4, hd4⟩ : ∃ cost g4, g3.draw p.MINCOST p.MAXCOST = (cost, g4) := ⟨_, _, rfl⟩
  rw [hd4] at h
  dsimp only at h
  obtain ⟨g5, hg5, h⟩ := except_bind_ok h
  obtain ⟨hlt, e⟩ := save_arc_spec _ _ _ _ _ _ hg5
  have d : g.Drawn g4 :=
    (((draw_inv _ _ _ _ _ hd1).1.trans (draw_inv _ _ _ _ _ hd2).1).trans
      (ite_draw_inv _ _ _ _ _ _ _ hd3)).trans (draw_inv _ _ _ _ _ hd4).1
  have e4 := d.1
  have ea : g4.arc_count = g.arc_count := by rw [e4]
  have ef : g4.FROM = g.FROM := by rw [e4]
  have et : g4.TO = g.TO := by rw [e4]
  have ec : g4.C = g.C := by rw [e4]
  have eu : g4.U = g.U := by rw [e4]
  rw [ea, ef, et, ec, eu] at e
  rw [ea] at hlt
  subst e
  exact ⟨g4, cost, cap, d, hlt, h⟩

/-- The arc loop of `pick_head` appends one arc per pass: after `limit` passes
the count has gone up by `limit`, the arcs stored before are untouched, and so
are the balances. -/
theorem pick_arcs_count (p : Params) (desired_tail : Nat) :
    ∀ (fuel : Nat) (limit : Int) (indie : NetgenIndex) (g : Globals) (r : NetgenIndex × Globals),
      pick_arcs p desired_tail fuel limit indie g = Except.ok r → 0 ≤ limit → limit < 2 ^ 31 →
      r.2.arc_count = g.arc_count + limit.toNat ∧
      ∀ k, k < g.arc_count → r.2.FROM k = g.FROM k ∧ r.2.TO k = g.TO k := by
  intro fuel
  induction fuel with
  | zero =>
    intro limit indie g r h h0 h1
    rw [pick_arcs] at h
    rcases except_ite_ok h with ⟨_, h⟩ | ⟨hl, h⟩
    · cases h
    · cases h
      have : limit.toNat = 0 := by omega
      simp [this]
  | succ n ih =>
    intro limit indie g r h h0 h1
    by_cases hl : 0 < limit
    · obtain ⟨g4, cost, cap, d, hlt, h⟩ := pick_arcs_step p desired_tail n limit indie g r h hl
      have hw : wrapInt (limit - 1) = limit - 1 := by
        unfold wrapInt
        omega
      rw [hw] at h
      obtain ⟨hc, hf⟩ := ih _ _ _ _ h (by omega) (by omega)
      constructor
      · rw [hc]
        show g.arc_count + 1 + (limit - 1).toNat = g.arc_count + limit.toNat
        omega
      · intro k hk
        obtain ⟨a, b⟩ := hf k (Nat.lt_succ_of_lt hk)
        rw [a, b]
        constructor
        · exact Function.update_noteq (Nat.ne_of_lt hk) _ _
        · exact Function.update_noteq (Nat.ne_of_lt hk) _ _
    · rw [pick_arcs, if_neg hl] at h
      cases h
      have : limit.toNat = 0 := by omega
      simp [this]

/-- C20 (counterexample): `pick_head` called for tail 1 with an index list
whose entries have all been removed (`NODES = 3`, `SOURCES = 1`, `DENSITY = 6`,
no arc yet, one node left).  The destination draw
`choose_index(random(1, get_pseudo_size()))` returns 0, yet the call appends
two arcs, both recorded with head 0 and tail 1.  The same happens inside a
full run: `netgen` with seed 1 on these parameters returns 4 arcs, the third
and fourth of which have head 0. -/
theorem C20_pick_head_stores_head_zero :
    ((((NetgenIndex.create 2 3).remove_index 2 0).remove_index 3 0).choose_index
        (toUInt (({ Globals.init 1 with nodes_left := 1 } : Globals).draw 1
          (((NetgenIndex.create 2 3).remove_index 2 0).remove_index 3
            0).get_pseudo_size).1)).1 = 0 ∧
    ((pick_head 5 ⟨1, 3, 1, 2, 6, 1, 100, 50, 0, 0, 50, 50, 5, 30, 1, 0⟩
        (((NetgenIndex.create 2 3).remove_index 2 0).remove_index 3 0) 1
        { Globals.init 1 with nodes_left := 1 }).toOption.map
      (fun r => (r.2.arc_count, r.2.FROM 0, r.2.TO 0, r.2.FROM 1, r.2.TO 1))) =
        some (2, 1, 0, 1, 0) ∧
    ((netgen 10 ⟨1, 3, 1, 2, 6, 1, 100, 50, 0, 0, 50, 50, 5, 30, 1, 0⟩
        (Globals.init 1)).toOption.map
      (fun r => (r.1, r.2.FROM 2, r.2.TO 2, r.2.FROM 3, r.2.TO 3))) =
        some (4, 1, 0, 1, 0) := by
  decide!

/-- C20 (amended): every pass of the arc loop of `pick_head` appends an arc,
whatever the destination draw returns.  A loop started with
`0 ≤ limit < 2^31` that completes has raised `arc_count` by exactly `limit`;
the arc of the first pass is stored at the old `arc_count` with tail
`desired_tail` and with head the value returned by
`choose_index(random(1, get_pseudo_size()))`, which is 0 when the draw fails. -/
theorem C20_pick_arcs_appends_every_pass (p : Params) (desired_tail fuel : Nat) (limit : Int)
    (indie : NetgenIndex) (g : Globals) (r : NetgenIndex × Globals)
    (h : pick_arcs p desired_tail fuel limit indie g = Except.ok r)
    (h0 : 0 ≤ limit) (h1 : limit < 2 ^ 31) :
    r.2.arc_count = g.arc_count + limit.toNat ∧
    (0 < limit →
      r.2.FROM g.arc_count = desired_tail ∧
      r.2.TO g.arc_count =
        toULong (indie.choose_index (toUInt (g.draw 1 indie.get_pseudo_size).1)).1) := by
  refine ⟨(pick_arcs_count p desired_tail fuel limit indie g r h h0 h1).1, ?_⟩
  intro hl
  cases fuel with
  | zero =>
    rw [pick_arcs, if_pos hl] at h
    cases h
  | succ n =>
    obtain ⟨g4, cost, cap, d, hlt, h⟩ := pick_arcs_step p desired_tail n limit indie g r h hl
    have hw : wrapInt (limit - 1) = limit - 1 := by
      unfold wrapInt
      omega
    rw [hw] at h
    obtain ⟨_, hf⟩ := pick_arcs_count p desired_tail n _ _ _ _ h (by omega) (by omega)
    obtain ⟨a, b⟩ := hf g.arc_count (Nat.lt_succ_self _)
    rw [a, b]
    constructor
    · exact Function.update_same _ _ _
    · exact Function.update_same _ _ _

/-- Witness for C20 (amended): the loop run for two passes on an emptied index
list completes, and its result has two more arcs, the first with head 0. -/
theorem C20_pick_arcs_appends_every_pass_witness :
    ∃ r, pick_arcs ⟨1, 3, 1, 2, 6, 1, 100, 50, 0, 0, 50, 50, 5, 30, 1, 0⟩ 1 2 2 ⟨[], 0⟩
        (Globals.init 1) = Except.ok r ∧
      r.2.arc_count = 2 ∧ r.2.FROM 0 = 1 ∧ r.2.TO 0 = 0 := by
  have hok : (pick_arcs ⟨1, 3, 1, 2, 6, 1, 100, 50, 0, 0, 50, 50, 5, 30, 1, 0⟩ 1 2 2 ⟨[], 0⟩
      (Globals.init 1)).toOption.isSome = true := by decide!
  cases h : pick_arcs ⟨1, 3, 1, 2, 6, 1, 100, 50, 0, 0, 50, 50, 5, 30, 1, 0⟩ 1 2 2 ⟨[], 0⟩
    (Globals.init 1) with
  | error e =>
    rw [h] at hok
    cases hok
  | ok r =>
    have t := C20_pick_arcs_appends_every_pass _ 1 2 2 ⟨[], 0⟩ (Globals.init 1) r h
      (by decide) (by decide)
    exact ⟨r, rfl, t.1, (t.2 (by decide)).1, (t.2 (by decide)).2⟩

/-! ## Theorems: the number of arcs -/

/-- A run of `netgen` that passed the checks, inverted: the generation part
completed, and the value returned is the arc count.  The count of a run of
the model that returns is at most `MAXARCS`, a store beyond the arrays being
a stop of the model. -/
theorem netgen_pass_inv (fuel : Nat) (p : Params) (g : Globals) (rc : Int) (g2 : Globals)
    (hv : sanity_checks p = none) (h : netgen fuel p g = Except.ok (rc, g2)) :
    generate fuel p g = Except.ok g2 ∧ g2.arc_count ≤ 60000 ∧ rc = g2.arc_count := by
  unfold netgen at h
  rw [hv] at h
  obtain ⟨g3, hg3, h⟩ := except_bind_ok h
  have e := Except.ok.inj h
  have e1 := congrArg Prod.fst e
  have e2 := congrArg Prod.snd e
  dsimp only at e1 e2
  subst e2
  have hle : g3.arc_count ≤ 60000 := generate_arcs fuel p g g3 hg3
  refine ⟨hg3, hle, ?_⟩
  rw [← e1]
  unfold wrapInt
  omega

/-- What a completed `node_parents` loop started at index `i` has done: one
auxiliary arc per remaining interdependency, `parent[k]` rewritten to the id of
that arc, and the balance of the node that `parent[k]` named set to zero. -/
theorem node_parents_loop_spec (p : Params) :
    ∀ (fuel : Nat) (i : Int) (g r : Globals),
      node_parents_loop p fuel i g = Except.ok r → 0 ≤ i →
      (i ≤ p.INTER → (r.arc_count : Int) = g.arc_count + (p.INTER - i)) ∧
      (∀ k : Nat, (k : Int) < i → r.parent k = g.parent k) ∧
      (∀ k : Nat, i ≤ (k : Int) → (k : Int) < p.INTER →
        r.parent k = (g.arc_count : Int) + (k - i) + 1 ∧
        0 ≤ wrapLong (g.parent k - 1) ∧ wrapLong (g.parent k - 1) < 5000 ∧
        r.B (wrapLong (g.parent k - 1)).toNat = 0) ∧
      (∀ j : Nat, g.B j = 0 → r.B j = 0) := by
  intro fuel
  induction fuel with
  | zero =>
    intro i g r h h0
    rw [node_parents_loop] at h
    rcases except_ite_ok h with ⟨_, h⟩ | ⟨hn, h⟩
    · cases h
    · cases h
      refine ⟨fun _ => by omega, fun _ _ => rfl, fun k h1 h2 => by omega, fun _ hj => hj⟩
  | succ n ih =>
    intro i g r h h0
    rw [node_parents_loop] at h
    rcases except_ite_ok h with ⟨hl, h⟩ | ⟨hn, h⟩
    · obtain ⟨pi, hpi, h⟩ := except_bind_ok h
      obtain ⟨f, hf, h⟩ := except_bind_ok h
      obtain ⟨t, ht, h⟩ := except_bind_ok h
      obtain ⟨bp, hbp, h⟩ := except_bind_ok h
      obtain ⟨u, hu, h⟩ := except_bind_ok h
      obtain ⟨c, hc, h⟩ := except_bind_ok h
      obtain ⟨b, hb, h⟩ := except_bind_ok h
      obtain ⟨par, hpar, h⟩ := except_bind_ok h
      obtain ⟨_, hi, epi⟩ := rd_ok_eq _ _ _ _ hpi
      obtain ⟨_, hac, _⟩ := wr_ok_eq _ _ _ _ _ hf
      obtain ⟨hx0, hx1, _⟩ := rd_ok_eq _ _ _ _ hbp
      obtain ⟨_, _, eb⟩ := wr_ok_eq _ _ _ _ _ hb
      obtain ⟨_, _, epar⟩ := wr_ok_eq _ _ _ _ _ hpar
      have hi2 : i < 60000 := hi
      have hac2 : (g.arc_count : Int) < 60000 := hac
      have hx2 : wrapLong (pi - 1) < 5000 := hx1
      have hw : wrapInt (i + 1) = i + 1 := by
        unfold wrapInt
        omega
      have hac3 : toULong ((g.arc_count : Int) + 1) = g.arc_count + 1 := by
        unfold toULong
        omega
      have hv : wrapLong ((toULong ((g.arc_count : Int) + 1) : Nat) : Int) = g.arc_count + 1 := by
        rw [hac3]
        unfold wrapLong
        push_cast
        omega
      rw [hw] at h
      obtain ⟨a1, a2, a3, a4⟩ := ih _ _ _ h (by omega)
      subst eb epar epi
      rw [hv] at a2 a3
      rw [hac3] at a1 a3
      dsimp only at a1 a2 a3 a4
      have hik : ∀ k : Nat, (k : Int) ≠ i → k ≠ i.toNat := by
        intro k hk e
        apply hk
        rw [e]
        omega
      refine ⟨?_, ?_, ?_, ?_⟩
      · intro _
        rw [a1 (by omega)]
        push_cast
        omega
      · intro k hk
        rw [a2 k (by omega)]
        exact Function.update_noteq (hik k (by omega)) _ _
      · intro k hk1 hk2
        by_cases e : (k : Int) = i
        · have ek : k = i.toNat := by omega
          subst ek
          refine ⟨?_, hx0, hx2, ?_⟩
          · rw [a2 _ (by omega)]
            rw [Function.update_same]
            omega
          · apply a4
            exact Function.update_same _ _ _
        · have hne : k ≠ i.toNat := hik k e
          obtain ⟨b1, b2, b3, b4⟩ := a3 k (by omega) hk2
          rw [Function.update_noteq hne] at b2 b3 b4
          refine ⟨?_, b2, b3, b4⟩
          rw [b1]
          push_cast
          omega
      · intro j hj
        apply a4
        by_cases e : j = (wrapLong (g.parent i.toNat - 1)).toNat
        · rw [e]
          exact Function.update_same _ _ _
        · rw [Function.update_noteq e]
          exact hj
    · cases h
      refine ⟨fun _ => by omega, fun _ _ => rfl, fun k h1 h2 => by omega, fun _ hj => hj⟩

/-! ## Theorems: the interdependency draws -/

/-- What `choose_index` returns is 0 or an element of the list, and the list
left is part of the old one. -/
theorem choose_index_mem (x : NetgenIndex) (k : Nat) :
    ((x.choose_index k).1 = 0 ∨ (x.choose_index k).1 ∈ x.index_list) ∧
      ∀ v, v ∈ (x.choose_index k).2.index_list → v ∈ x.index_list := by
  unfold NetgenIndex.choose_index
  split
  · exact ⟨Or.inl rfl, fun _ h => h⟩
  · rename_i hk
    have hlt : k - 1 < x.index_list.length := by omega
    constructor
    · right
      dsimp only
      rw [List.getD_eq_getElem _ _ hlt]
      exact List.getElem_mem _
    · intro v hv
      exact List.mem_of_mem_eraseIdx hv

/-- The parent draws fill `parent[i..INTER-1]` with elements of the list (0 for
a failed draw) and change nothing else but the stream. -/
theorem draw_parents_spec (p : Params) :
    ∀ (fuel i : Nat) (ids : NetgenIndex) (g : Globals) (r : NetgenIndex × Globals),
      draw_parents p fuel i ids g = Except.ok r →
      r.2 = { g with parent := r.2.parent, rando := r.2.rando } ∧
      (g.rando.Valid → r.2.rando.Valid) ∧
      (∀ k, k < i → r.2.parent k = g.parent k) ∧
      (∀ k, i ≤ k → k < toULong p.INTER → r.2.parent k = 0 ∨ r.2.parent k ∈ ids.index_list) := by
  intro fuel
  induction fuel with
  | zero =>
    intro i ids g r h
    rw [draw_parents] at h
    rcases except_ite_ok h with ⟨_, h⟩ | ⟨hn, h⟩
    · cases h
    · cases h
      exact ⟨rfl, fun hv => hv, fun _ _ => rfl, fun k h1 h2 => absurd (by omega) hn⟩
  | succ n ih =>
    intro i ids g r h
    rw [draw_parents] at h
    rcases except_ite_ok h with ⟨hl, h⟩ | ⟨hn, h⟩
    · obtain ⟨r1, g1, hd1⟩ : ∃ r1 g1, g.draw 1 ids.index_size = (r1, g1) := ⟨_, _, rfl⟩
      rw [hd1] at h
      dsimp only at h
      have hm := choose_index_mem ids (toUInt r1)
      obtain ⟨c, ids1, hc⟩ : ∃ c i1, ids.choose_index (toUInt r1) = (c, i1) := ⟨_, _, rfl⟩
      rw [hc] at h hm
      dsimp only at h hm
      obtain ⟨par, hpar, h⟩ := except_bind_ok h
      obtain ⟨hi0, hi1, epar⟩ := wr_ok_eq _ _ _ _ _ hpar
      have hi2 : (i : Int) < 60000 := hi1
      have hw : toULong ((i : Int) + 1) = i + 1 := by
        unfold toULong
        omega
      rw [hw] at h
      obtain ⟨a1, a2, a3, a4⟩ := ih _ _ _ _ h
      obtain ⟨d, _⟩ := draw_inv _ _ _ _ _ hd1
      have e1 := d.1
      subst epar
      dsimp only at a1 a2 a3 a4
      refine ⟨?_, fun hv => a2 (d.2 hv), ?_, ?_⟩
      · rw [a1, e1]
      · intro k hk
        rw [a3 k (by omega), Int.toNat_ofNat, Function.update_noteq (by omega), e1]
      · intro k hk1 hk2
        by_cases e : k = i
        · subst e
          rw [a3 k (by omega), Int.toNat_ofNat, Function.update_same]
          exact hm.1
        · rcases a4 k (by omega) hk2 with h0 | h1
          · exact Or.inl h0
          · exact Or.inr (hm.2 _ h1)
    · cases h
      exact ⟨rfl, fun hv => hv, fun _ _ => rfl, fun k h1 h2 => absurd (by omega) hn⟩

/-! ## Theorems: the stages of the generation -/

/-- A completed generation, cut into its stages. -/
theorem generate_inv (fuel : Nat) (p : Params) (g r : Globals)
    (h : generate fuel p g = Except.ok r) :
    ∃ (g1 g2 : Globals) (i3 : Nat) (indie3 : NetgenIndex) (g3 : Globals) (indie4 : NetgenIndex)
      (g4 : Globals) (it5 : Option Nat) (g5 g6 : Globals) (arc7 : NetgenIndex) (g7 : Globals)
      (ids8 : NetgenIndex) (g8 : Globals),
      create_supply fuel (toULong p.SOURCES) p.SUPPLY
        { g with arc_count := 0
                 nodes_left := toULong (wrapLong (wrapLong (p.NODES - p.SINKS) + p.TSINKS)) } =
          Except.ok g1 ∧
      init_pred (toULong p.SOURCES) fuel 1 g1 = Except.ok g2 ∧
      chain_even p
        (toULong (Int.tdiv (wrapLong (wrapLong (4 *
          wrapLong (wrapLong (p.NODES - p.SOURCES) - p.SINKS)) + 9)) 10))
        fuel (toULong (wrapLong (wrapLong (p.NODES - p.SOURCES) - p.SINKS))) 1
        (NetgenIndex.create (wrapInt (wrapLong (p.SOURCES + 1)))
          (wrapInt (wrapLong (p.NODES - p.SINKS)))) g2 = Except.ok (i3, indie3, g3) ∧
      chain_random p fuel i3 indie3 g3 = Except.ok (indie4, g4) ∧
      all_sources fuel p fuel 1 none g4 = Except.ok (it5, g5) ∧
      tsink_arcs fuel p it5 fuel (toULong (wrapLong (wrapLong (p.NODES - p.SINKS) + 1))) g5 =
        Except.ok g6 ∧
      draw_children p fuel 0 (NetgenIndex.create 1 (wrapInt g6.arc_count)) g6 =
        Except.ok (arc7, g7) ∧
      draw_parents p fuel 0
        (if p.PARENT = 0 then
          NetgenIndex.create (wrapInt (wrapLong (wrapLong (p.NODES - p.SINKS) + 1)))
            (wrapInt p.NODES)
         else arc7) g7 = Except.ok (ids8, g8) ∧
      (if p.PARENT = 0 then node_parents fuel p g8 else Except.ok g8) = Except.ok r := by
  unfold generate at h
  obtain ⟨g1, hg1, h⟩ := except_bind_ok h
  obtain ⟨g2, hg2, h⟩ := except_bind_ok h
  obtain ⟨⟨i3, indie3, g3⟩, hg3, h⟩ := except_bind_ok h
  obtain ⟨⟨indie4, g4⟩, hg4, h⟩ := except_bind_ok h
  obtain ⟨⟨it5, g5⟩, hg5, h⟩ := except_bind_ok h
  obtain ⟨g6, hg6, h⟩ := except_bind_ok h
  obtain ⟨⟨arc7, g7⟩, hg7, h⟩ := except_bind_ok h
  refine ⟨g1, g2, i3, indie3, g3, indie4, g4, it5, g5, g6, arc7, g7, ?_⟩
  dsimp only at h
  by_cases hp : p.PARENT = 0
  · rw [if_pos hp] at h
    obtain ⟨⟨ids8, g8⟩, hg8, h⟩ := except_bind_ok h
    obtain ⟨y, hy, h⟩ := except_bind_ok h
    have e := Except.ok.inj hy
    subst e
    rw [if_pos hp]
    exact ⟨ids8, g8, hg1, hg2, hg3, hg4, hg5, hg6, hg7, hg8, h⟩
  · rw [if_neg hp] at h
    obtain ⟨⟨ids8, g8⟩, hg8, h⟩ := except_bind_ok h
    obtain ⟨y, hy, h⟩ := except_bind_ok h
    have e := Except.ok.inj hy
    subst e
    rw [if_neg hp]
    exact ⟨ids8, g8, hg1, hg2, hg3, hg4, hg5, hg6, hg7, hg8, h⟩

/-! ## Theorems: parameter sets that pass the checks -/

/-- What the checks guarantee for a parameter set stored by `main`. -/
theorem sanity_facts (p : Params) (hs : p.stored) (hv : sanity_checks p = none) :
    0 < p.seed ∧ 0 < p.NODES ∧ p.NODES ≤ 5000 ∧ p.NODES ≤ p.DENSITY ∧ p.DENSITY ≤ 60000 ∧
    0 < p.SOURCES ∧ 0 < p.SINKS ∧ p.SOURCES + p.SINKS ≤ p.NODES ∧ p.MINCOST ≤ p.MAXCOST ∧
    p.SOURCES ≤ p.SUPPLY ∧ p.TSOURCES ≤ p.SOURCES ∧ p.TSINKS ≤ p.SINKS ∧
    0 ≤ p.HICOST ∧ p.HICOST ≤ 100 ∧ 0 ≤ p.CAPACITATED ∧ p.CAPACITATED ≤ 100 ∧
    p.MINCAP ≤ p.MAXCAP ∧ (p.PARENT = 0 ∨ p.PARENT = 1) ∧
    (p.PARENT = 0 → p.INTER ≤ p.SINKS) ∧ (p.PARENT = 1 → p.INTER ≤ Int.tdiv p.DENSITY 2) := by
  rcases sanity_checks_cases p with ⟨h, c⟩ | ⟨h, c⟩ | ⟨h, c⟩ | ⟨h, c⟩
  · rw [h] at hv
    cases hv
  · rw [h] at hv
    cases hv
  · rw [h] at hv
    cases hv
  · obtain ⟨c1, c2, c3⟩ := c
    have hc := sanity_checks_sized p c1 c2 c3
    rw [hv] at hc
    unfold Params.stored in_int at hs
    have hw : wrapLong (p.SOURCES + p.SINKS) = p.SOURCES + p.SINKS :=
      wrapLong_id _ (by omega) (by omega)
    rw [hw] at hc
    generalize Int.tdiv p.DENSITY 2 = half at hc ⊢
    split at hc
    · cases hc
    · rename_i hgood
      omega

/-! ## Theorems: the interdependencies after the run -/

/-- C15: for every run of `netgen` with `PARENT = 0` (parents are nodes) on
parameters stored by `main` that pass the checks: after the run every
`parent[i]`, `0 ≤ i < INTER`, satisfies `1 ≤ parent[i] ≤` the arc count
returned, and every node drawn as a parent (the entry `parent[i]` left by the
draws on the sink list, on entry to `node_parents`) is a sink whose balance
`B[node - 1]` is 0 after the run. -/
theorem C15_node_parent_invariant (fuel : Nat) (p : Params) (g : Globals) (rc : Int)
    (g2 : Globals) (hs : p.stored) (hv : sanity_checks p = none) (hp : p.PARENT = 0)
    (h : netgen fuel p g = Except.ok (rc, g2)) :
    ∃ (g0 g1 : Globals) (ids : NetgenIndex),
      draw_parents p fuel 0 (NetgenIndex.create (p.NODES - p.SINKS + 1) p.NODES) g0 =
        Except.ok (ids, g1) ∧
      node_parents fuel p g1 = Except.ok g2 ∧
      ∀ i : Nat, (i : Int) < p.INTER →
        (1 ≤ g2.parent i ∧ g2.parent i ≤ rc) ∧
        (p.NODES - p.SINKS + 1 ≤ g1.parent i ∧ g1.parent i ≤ p.NODES) ∧
        g2.B (g1.parent i - 1).toNat = 0 := by
  obtain ⟨hgen, hle, erc⟩ := netgen_pass_inv fuel p g rc g2 hv h
  obtain ⟨g1, g2', i3, indie3, g3, indie4, g4, it5, g5, g6, arc7, g7, ids8, g8,
    _, _, _, _, _, _, _, hpar, hnp⟩ := generate_inv fuel p g g2 hgen
  rw [if_pos hp] at hpar hnp
  have f := sanity_facts p hs hv
  have hi := f.2.2.2.2.2.2.2.2.2.2.2.2.2.2.2.2.2.2.1 hp
  unfold Params.stored in_int at hs
  have e1 : wrapInt (wrapLong (wrapLong (p.NODES - p.SINKS) + 1)) = p.NODES - p.SINKS + 1 := by
    unfold wrapInt wrapLong
    omega
  have e2 : wrapInt p.NODES = p.NODES := by
    unfold wrapInt
    omega
  rw [e1, e2] at hpar
  refine ⟨g7, g8, ids8, hpar, hnp, ?_⟩
  obtain ⟨a1, _, a3, _⟩ := node_parents_loop_spec p fuel 0 g8 g2 hnp (le_refl _)
  obtain ⟨_, _, _, b4⟩ := draw_parents_spec p fuel 0 _ g7 (ids8, g8) hpar
  intro i hi2
  obtain ⟨c1, c2, c3, c4⟩ := a3 i (by omega) hi2
  have a1' := a1 (by omega)
  have hti : i < toULong p.INTER := by
    unfold toULong
    omega
  have hmem : p.NODES - p.SINKS + 1 ≤ g8.parent i ∧ g8.parent i ≤ p.NODES := by
    rcases b4 i (Nat.zero_le _) hti with z | m
    · rw [z] at c2
      unfold wrapLong at c2
      omega
    · exact (mem_fill_range _ _ _).mp m
  have ew : wrapLong (g8.parent i - 1) = g8.parent i - 1 := by
    unfold wrapLong
    omega
  rw [ew] at c4
  refine ⟨⟨?_, ?_⟩, hmem, c4⟩
  · rw [c1]
    omega
  · rw [c1, erc, a1']
    omega

/-- Witness for C15: the run with `NODES = 3`, `SOURCES = 1`, `SINKS = 2`,
`DENSITY = 3`, `INTER = 1`, seed 1 and node parents completes; its one parent
entry is an arc id between 1 and the count returned. -/
theorem C15_node_parent_invariant_witness :
    ∃ rc g2, netgen 10 ⟨1, 3, 1, 2, 3, 1, 100, 10, 0, 0, 50, 50, 5, 30, 0, 1⟩ (Globals.init 1) =
        Except.ok (rc, g2) ∧ 1 ≤ g2.parent 0 ∧ g2.parent 0 ≤ rc := by
  have hok : (netgen 10 ⟨1, 3, 1, 2, 3, 1, 100, 10, 0, 0, 50, 50, 5, 30, 0, 1⟩
      (Globals.init 1)).toOption.isSome = true := by decide!
  cases h : netgen 10 ⟨1, 3, 1, 2, 3, 1, 100, 10, 0, 0, 50, 50, 5, 30, 0, 1⟩ (Globals.init 1) with
  | error e =>
    rw [h] at hok
    cases hok
  | ok r =>
    obtain ⟨_, _, _, _, _, t⟩ := C15_node_parent_invariant 10 _ (Globals.init 1) r.1 r.2
      (by unfold Params.stored in_int; decide) (by decide) (by decide) h
    exact ⟨r.1, r.2, rfl, (t 0 (by decide)).1.1, (t 0 (by decide)).1.2⟩

/-- C14 (failing input): with `NODES = 3`, `SOURCES = 1`, `SINKS = 2`,
`DENSITY = 20`, `INTER = 10`, arc parents and seed 123 the parameters pass the
checks and the run stores 4 arcs.  The child draws use up the four arc ids, so
`child[4] = child[5] = 0`, and every parent draw finds the list empty, so
`parent[0] = parent[1] = 0`: neither array holds pairwise distinct values. -/
theorem C14_interdependencies_repeat :
    sanity_checks ⟨123, 3, 1, 2, 20, 1, 100, 50, 0, 0, 50, 50, 5, 30, 1, 10⟩ = none ∧
    ((netgen 30 ⟨123, 3, 1, 2, 20, 1, 100, 50, 0, 0, 50, 50, 5, 30, 1, 10⟩
        (Globals.init 123)).toOption.map
      (fun r => (r.1, r.2.child 4, r.2.child 5, r.2.parent 0, r.2.parent 1))) =
        some (4, 0, 0, 0, 0) := by
  decide!

/-! ## Theorems: printout -/

/-- Every header line is a comment line. -/
theorem header_lines_comment (p : Params) :
    ∀ l ∈ header_lines p, l.data.head? = some 'c' := by
  intro l hl
  unfold header_lines at hl
  simp only [List.mem_cons, List.mem_singleton, List.not_mem_nil, or_false] at hl
  rcases hl with h | h | h | h | h | h | h | h | h | h | h | h | h | h | h | h | h | h | h | h |
    h | h
  all_goals first
    | (subst h; rfl)
    | (subst h; split <;> rfl)

/-- Binding a returned value runs the rest on it. -/
theorem except_ok_bind {ε α β : Type} (a : α) (f : α → Except ε β) :
    ((Except.ok a : Except ε α) >>= f) = f a := rfl

/-- Sums of functions that agree below `n`. -/
theorem sum_below_congr (f k : Nat → Int) :
    ∀ n : Nat, (∀ j, j < n → f j = k j) → sum_below f n = sum_below k n := by
  intro n
  induction n with
  | zero => intro _; rfl
  | succ m ih =>
    intro h
    rw [sum_below, sum_below, ih (fun j hj => h j (Nat.lt_succ_of_lt hj)), h m (Nat.lt_succ_self m)]

/-- An update at or above `n` does not change the sum below `n`. -/
theorem sum_below_update_ge (f : Nat → Int) (i : Nat) (v : Int) (n : Nat) (h : n ≤ i) :
    sum_below (Function.update f i v) n = sum_below f n := by
  apply sum_below_congr
  intro j hj
  exact Function.update_noteq (by omega) _ _

/-- An update below `n` changes the sum by the difference of the entry. -/
theorem sum_below_update_lt (f : Nat → Int) (i : Nat) (v : Int) :
    ∀ n : Nat, i < n → sum_below (Function.update f i v) n = sum_below f n - f i + v := by
  intro n
  induction n with
  | zero => intro h; omega
  | succ m ih =>
    intro h
    rw [sum_below, sum_below]
    by_cases e : i = m
    · subst e
      rw [sum_below_update_ge f i v i (le_refl _), Function.update_same]
      omega
    · rw [ih (by omega), Function.update_noteq (Ne.symm e)]
      omega

/-- A sum of non-negative entries is non-negative. -/
theorem sum_below_nonneg (f : Nat → Int) :
    ∀ n : Nat, (∀ j, j < n → 0 ≤ f j) → 0 ≤ sum_below f n := by
  intro n
  induction n with
  | zero => intro _; exact le_refl _
  | succ m ih =>
    intro h
    rw [sum_below]
    have := ih (fun j hj => h j (Nat.lt_succ_of_lt hj))
    have := h m (Nat.lt_succ_self m)
    omega

/-- Each of the non-negative entries is at most the sum. -/
theorem sum_below_ge_term (f : Nat → Int) :
    ∀ n : Nat, (∀ j, j < n → 0 ≤ f j) → ∀ i, i < n → f i ≤ sum_below f n := by
  intro n
  induction n with
  | zero => intro _ i hi; omega
  | succ m ih =>
    intro h i hi
    rw [sum_below]
    have h1 := sum_below_nonneg f m (fun j hj => h j (Nat.lt_succ_of_lt hj))
    have h2 := h m (Nat.lt_succ_self m)
    by_cases e : i = m
    · subst e
      omega
    · have := ih (fun j hj => h j (Nat.lt_succ_of_lt hj)) i (by omega)
      omega

/-- The loop of `create_supply` run from index `i` with enough fuel on
non-negative balances whose sum is `i * supply_per_source`: it returns, the
balances below `sources` stay non-negative and sum to
`sources * supply_per_source`, and nothing but these balances and the stream
changes. -/
theorem create_supply_loop_spec (sources : Nat) (sps : Int) (hs : sources ≤ 5000)
    (hsps : 1 ≤ sps) (hbig : sources * sps ≤ 9223372036854775807) :
    ∀ (fuel i : Nat) (g : Globals), i ≤ sources → sources - i ≤ fuel → g.rando.Valid →
      (∀ j, j < sources → 0 ≤ g.B j) → sum_below g.B sources = i * sps →
      ∃ r, create_supply_loop sources sps fuel i g = Except.ok r ∧ r.rando.Valid ∧
        (∀ j, j < sources → 0 ≤ r.B j) ∧ sum_below r.B sources = sources * sps ∧
        (∀ j, sources ≤ j → r.B j = g.B j) ∧ r = { g with B := r.B, rando := r.rando } := by
  intro fuel
  induction fuel with
  | zero =>
    intro i g hi hf hv hn hsum
    have e : i = sources := by omega
    subst e
    refine ⟨g, ?_, hv, hn, hsum, fun _ _ => rfl, rfl⟩
    rw [create_supply_loop, if_neg (lt_irrefl _)]
  | succ n ih =>
    intro i g hi hf hv hn hsum
    by_cases hlt : i < sources
    · rw [create_supply_loop, if_pos hlt]
      have hsps2 : sps ≤ 9223372036854775807 := by
        have : (1 : Int) ≤ (sources : Int) := by omega
        nlinarith
      have hf0 : 0 ≤ (i : Int) * sps := by
        have : (0 : Int) ≤ (i : Int) := by omega
        nlinarith
      have hmul : (i : Int) * sps + sps ≤ sources * sps := by
        have : (i : Int) + 1 ≤ (sources : Int) := by omega
        nlinarith
      have hs1 : (0 : Int) ≤ (sources : Int) - 1 := by omega
      have hs2 : (sources : Int) - 1 ≤ 9223372036854775807 := by omega
      split
      rename_i r1 g1 hd1
      obtain ⟨d1, er1⟩ := draw_inv _ _ _ _ _ hd1
      have b1 := random_bounds g.rando 1 sps hv (by omega) hsps hsps2
      rw [← er1] at b1
      clear er1
      have eB1 : g1.B = g.B := by rw [d1.1]
      have hi5 : ((i : Nat) : Int) < ((MAXNODES : Nat) : Int) := by
        unfold MAXNODES
        omega
      rw [rd_eq_ok MAXNODES g1.B i (by omega) hi5, except_ok_bind,
        wr_eq_ok MAXNODES g1.B i _ (by omega) hi5, except_ok_bind]
      conv => zeta
      split
      rename_i r2 g2 hd2
      rw [Int.toNat_ofNat] at hd2
      obtain ⟨d2, er2⟩ := draw_inv _ _ _ _ _ hd2
      have eb : wrapLong (toULong ((sources : Int) - 1)) = (sources : Int) - 1 := by
        unfold wrapLong toULong
        omega
      rw [eb] at er2
      clear eb
      have v1 : g1.rando.Valid := d1.2 hv
      have b2 := random_bounds g1.rando 0 ((sources : Int) - 1) v1 (le_refl _) hs1 hs2
      have er2' : r2 = (g1.rando.random 0 ((sources : Int) - 1)).1 := er2
      rw [← er2'] at b2
      clear er2 er2'
      have eB2 : g2.B = Function.update g.B i (wrapLong (g.B i + r1)) := by
        rw [d2.1]
        simp only [eB1]
      have hr2 : r2 < ((MAXNODES : Nat) : Int) := by
        unfold MAXNODES
        omega
      rw [rd_eq_ok MAXNODES g2.B r2 b2.1 hr2, except_ok_bind,
        wr_eq_ok MAXNODES g2.B r2 _ b2.1 hr2, except_ok_bind]
      -- the arithmetic of the pass
      have hBi := sum_below_ge_term g.B sources hn i hlt
      have w1 : wrapLong (g.B i + r1) = g.B i + r1 :=
        wrapLong_id _ (by have := hn i hlt; omega) (by omega)
      have w2 : wrapLong (sps - r1) = sps - r1 := wrapLong_id _ (by omega) (by omega)
      rw [w1] at eB2
      clear w1
      have hn2 : ∀ j, j < sources → 0 ≤ g2.B j := by
        intro j hj
        rw [eB2]
        by_cases e : j = i
        · subst e
          rw [Function.update_same]
          have := hn j hj
          omega
        · rw [Function.update_noteq e]
          exact hn j hj
      have hsum2 : sum_below g2.B sources = (i : Int) * sps + r1 := by
        rw [eB2, sum_below_update_lt _ _ _ _ hlt, hsum]
        omega
      have ht : r2.toNat < sources := by omega
      have hBt := sum_below_ge_term g2.B sources hn2 r2.toNat ht
      have w3 : wrapLong (g2.B r2.toNat + wrapLong (sps - r1)) = g2.B r2.toNat + (sps - r1) := by
        rw [w2]
        clear w2
        exact wrapLong_id _ (by have := hn2 _ ht; omega) (by omega)
      rw [w3]
      clear w2 w3
      have hi1 : toULong ((i : Int) + 1) = i + 1 := by
        unfold toULong
        omega
      rw [hi1]
      have hn3 : ∀ j, j < sources →
          0 ≤ Function.update g2.B r2.toNat (g2.B r2.toNat + (sps - r1)) j := by
        intro j hj
        by_cases e : j = r2.toNat
        · subst e
          rw [Function.update_same]
          have := hn2 _ ht
          omega
        · rw [Function.update_noteq e]
          exact hn2 j hj
      have hsum3 : sum_below (Function.update g2.B r2.toNat (g2.B r2.toNat + (sps - r1)))
          sources = ((i + 1 : Nat) : Int) * sps := by
        rw [sum_below_update_lt _ _ _ _ ht, hsum2]
        push_cast
        ring
      obtain ⟨r, hr, c1, c2, c3, c4, c5⟩ := ih (i + 1)
        { g2 with B := Function.update g2.B r2.toNat (g2.B r2.toNat + (sps - r1)) }
        (by omega) (by omega) (d2.2 v1) hn3 hsum3
      refine ⟨r, hr, c1, c2, c3, ?_, ?_⟩
      · intro j hj
        rw [c4 j hj]
        show Function.update g2.B r2.toNat (g2.B r2.toNat + (sps - r1)) j = g.B j
        rw [Function.update_noteq (by omega), eB2, Function.update_noteq (by omega)]
      · rw [c5, d2.1, d1.1]
    · have e : i = sources := by omega
      subst e
      refine ⟨g, ?_, hv, hn, hsum, fun _ _ => rfl, rfl⟩
      rw [create_supply_loop, if_neg (lt_irrefl _)]

/-- What `create_supply` does on balances that are zero below `sources`: with
enough fuel it returns; the balances below `sources` are non-negative and sum
to `supply`; nothing but these balances and the stream changes. -/
theorem create_supply_spec (fuel sources : Nat) (supply : Int) (g : Globals)
    (hv : g.rando.Valid) (h1 : 1 ≤ sources) (h2 : sources ≤ 5000) (h3 : (sources : Int) ≤ supply)
    (h4 : supply ≤ 9223372036854775807) (hB : ∀ i, i < sources → g.B i = 0)
    (hf : sources ≤ fuel) :
    ∃ r, create_supply fuel sources supply g = Except.ok r ∧ r.rando.Valid ∧
      (∀ j, j < sources → 0 ≤ r.B j) ∧ sum_below r.B sources = supply ∧
      (∀ j, sources ≤ j → r.B j = g.B j) ∧ r = { g with B := r.B, rando := r.rando } := by
  unfold create_supply
  rw [if_neg (by omega)]
  have eS : toULong supply = supply.toNat := by
    unfold toULong
    omega
  rw [eS]
  generalize hq : supply.toNat / sources = q
  generalize hm : supply.toNat % sources = m
  have hdm : sources * q + m = supply.toNat := by
    rw [← hq, ← hm]
    exact Nat.div_add_mod _ _
  have hmlt : m < sources := by
    rw [← hm]
    exact Nat.mod_lt _ (by omega)
  have hdmi : (sources : Int) * q + m = supply := by
    have : ((sources * q + m : Nat) : Int) = (supply.toNat : Int) := by rw [hdm]
    push_cast at this
    omega
  have hq1 : 1 ≤ q := by
    by_contra hc
    have : q = 0 := by omega
    subst this
    omega
  have hqle : (sources : Int) * q ≤ 9223372036854775807 := by omega
  have hqle2 : (q : Int) ≤ 9223372036854775807 := by nlinarith
  have ew : wrapLong (q : Int) = q := wrapLong_id _ (by omega) hqle2
  rw [ew]
  clear ew eS
  have hz : sum_below g.B sources = ((0 : Nat) : Int) * (q : Int) := by
    rw [sum_below_congr g.B (fun _ => 0) sources hB]
    have : ∀ n : Nat, sum_below (fun _ => (0 : Int)) n = 0 := by
      intro n
      induction n with
      | zero => rfl
      | succ k ih => rw [sum_below, ih]; rfl
    rw [this]
    simp
  obtain ⟨r0, hr0, c1, c2, c3, c4, c5⟩ :=
    create_supply_loop_spec sources q h2 (by omega) hqle fuel 0 g (by omega) (by omega) hv
      (fun j hj => by rw [hB j hj]) hz
  conv => zeta
  rw [hr0, except_ok_bind]
  have hs1 : (0 : Int) ≤ (sources : Int) - 1 := by omega
  have hs2 : (sources : Int) - 1 ≤ 9223372036854775807 := by omega
  split
  rename_i r2 g2 hd2
  obtain ⟨d2, er2⟩ := draw_inv _ _ _ _ _ hd2
  have eb : wrapLong (toULong ((sources : Int) - 1)) = (sources : Int) - 1 := by
    unfold wrapLong toULong
    omega
  rw [eb] at er2
  clear eb
  have b2 := random_bounds r0.rando 0 ((sources : Int) - 1) c1 (le_refl _) hs1 hs2
  rw [← er2] at b2
  clear er2
  have eB2 : g2.B = r0.B := by rw [d2.1]
  have hr2 : r2 < ((MAXNODES : Nat) : Int) := by
    unfold MAXNODES
    omega
  rw [rd_eq_ok MAXNODES g2.B r2 b2.1 hr2, except_ok_bind,
    wr_eq_ok MAXNODES g2.B r2 _ b2.1 hr2, except_ok_bind]
  have ht : r2.toNat < sources := by omega
  have hBt := sum_below_ge_term r0.B sources c2 r2.toNat ht
  have w3 : wrapLong (g2.B r2.toNat + (m : Int)) = g2.B r2.toNat + m := by
    rw [eB2]
    exact wrapLong_id _ (by have := c2 _ ht; omega) (by omega)
  rw [w3, eB2]
  clear w3
  refine ⟨_, rfl, d2.2 c1, ?_, ?_, ?_, ?_⟩
  · intro j hj
    show 0 ≤ Function.update r0.B r2.toNat (r0.B r2.toNat + m) j
    by_cases e : j = r2.toNat
    · subst e
      rw [Function.update_same]
      have := c2 _ ht
      omega
    · rw [Function.update_noteq e]
      exact c2 j hj
  · show sum_below (Function.update r0.B r2.toNat (r0.B r2.toNat + m)) sources = supply
    rw [sum_below_update_lt _ _ _ _ ht, c3]
    omega
  · intro j hj
    show Function.update r0.B r2.toNat (r0.B r2.toNat + m) j = g.B j
    rw [Function.update_noteq (by omega)]
    exact c4 j hj
  · show ({ g2 with B := _ } : Globals) = _
    rw [d2.1, c5]

/-- An execution whose stop is `e` is the failed execution `Except.error e`. -/
theorem stop_of_eq {α : Type} (r : Except Stop α) (e : Stop) (h : stop_of r = some e) :
    r = Except.error e := by
  cases r with
  | error e2 =>
    have := Option.some.inj h
    rw [this]
  | ok v => cases h

/-- C18 (counterexample): from the stream state `-2^62`, which is no value of
the generator, `random(1, 5)` returns 0 and the next `random(0, 1)` returns
`-1`, so `create_supply(2, 10)` on zero balances indexes `B[-1]`, outside
`[0, SOURCES)`.  With `SOURCES = 5001`, more than the `MAXNODES` entries of
`B`, `SUPPLY = 5001` and seed 9477 the first pass draws the index 5000, past
the end of `B`. -/
theorem C18_index_outside_sources :
    (NetgenRandom.random ⟨-4611686018427387904⟩ 1 5).1 = 0 ∧
    (NetgenRandom.random (NetgenRandom.random ⟨-4611686018427387904⟩ 1 5).2 0 1).1 = -1 ∧
    create_supply 2 2 10 { Globals.init 0 with rando := ⟨-4611686018427387904⟩ } =
      Except.error Stop.out_of_bounds ∧
    (NetgenRandom.random (NetgenRandom.random ⟨9477⟩ 1 1).2 0 5000).1 = 5000 ∧
    create_supply 5001 5001 5001 (Globals.init 9477) = Except.error Stop.out_of_bounds :=
  ⟨by decide!, by decide!, stop_of_eq _ _ (by decide!), by decide!, stop_of_eq _ _ (by decide!)⟩

/-- C18 (amended): for every state of the stream in `[0, 2^31 - 1]`, every
`1 ≤ SOURCES ≤ MAXNODES` and every `long` `SUPPLY ≥ SOURCES`, on balances that
are zero below `SOURCES` the call `create_supply(SOURCES, SUPPLY)` returns
(given fuel for `SOURCES` passes of its loop), leaves
`B[0] + ... + B[SOURCES-1] = SUPPLY`, and changes no `B[i]` with
`i ≥ SOURCES`; nothing but `B` and the stream is changed. -/
theorem C18_create_supply (fuel sources : Nat) (supply : Int) (g : Globals)
    (hv : g.rando.Valid) (h1 : 1 ≤ sources) (h2 : sources ≤ MAXNODES)
    (h3 : (sources : Int) ≤ supply) (h4 : supply ≤ LONG_MAX)
    (hB : ∀ i, i < sources → g.B i = 0) (hf : sources ≤ fuel) :
    ∃ r, create_supply fuel sources supply g = Except.ok r ∧
      sum_below r.B sources = supply ∧
      (∀ i, sources ≤ i → r.B i = g.B i) ∧
      r = { g with B := r.B, rando := r.rando } := by
  obtain ⟨r, hr, _, _, c3, c4, c5⟩ :=
    create_supply_spec fuel sources supply g hv h1 h2 h3 h4 hB hf
  exact ⟨r, hr, c3, c4, c5⟩

/-- Witness for C18 (amended): three sources and a supply of 10 on the zeroed globals
seeded with 1. -/
theorem C18_create_supply_witness :
    ∃ r, create_supply 3 3 10 (Globals.init 1) = Except.ok r ∧ sum_below r.B 3 = 10 ∧
      (∀ i, 3 ≤ i → r.B i = 0) := by
  obtain ⟨r, hr, c3, c4, _⟩ := C18_create_supply 3 3 10 (Globals.init 1)
    (by unfold NetgenRandom.Valid; decide) (by decide) (by decide) (by decide) (by decide)
    (fun _ _ => rfl) (le_refl _)
  exact ⟨r, hr, c3, fun i hi => c4 i hi⟩

/-! ## Theorems: sort_skeleton -/

/-- A value below `2^31` passes through an `int` and back unchanged. -/
theorem toULong_wrapInt_small (a : Nat) (h : a < 2147483648) : toULong (wrapInt a) = a := by
  unfold toULong wrapInt
  omega

/-- A small natural number is its own conversion to `unsigned long`. -/
theorem toULong_small (x : Int) (h0 : 0 ≤ x) (h1 : x < 18446744073709551616) :
    toULong x = x.toNat := by
  unfold toULong
  omega

/-- The inner loop of `sort_skeleton` on small tails, started at `i` with gap
`m` and fuel for `i` passes: it returns, the tails stay small, and only `tail`
and `head` change.  For gap 1 it completes one insertion: if the only pairs of
`tail[1..j+1]` out of order are those with the entry at `i + 1`, the result has
`tail[1..j+1]` ascending. -/
theorem sort_inner_spec (m n : Int) (hm : 1 ≤ m) (hn : n < 60000) :
    ∀ (fuel : Nat) (i : Int) (g : Globals), i + m ≤ n → i ≤ fuel → TailsSmall n g →
      ∃ r, sort_inner m fuel i g = Except.ok r ∧ TailsSmall n r ∧
        r = { g with tail := r.tail, head := r.head } ∧
        (m = 1 → 0 ≤ i → ∀ j : Int, i ≤ j → j + 1 ≤ n →
          (∀ a b : Nat, 1 ≤ a → a < b → (b : Int) ≤ j + 1 → (b : Int) ≠ i + 1 →
            g.tail a ≤ g.tail b) →
          TailsSorted (j + 1) r) := by
  intro fuel
  induction fuel with
  | zero =>
    intro i g him hif hs
    have hi0 : ¬ i ≥ 1 := by omega
    refine ⟨g, ?_, hs, rfl, ?_⟩
    · rw [sort_inner, if_neg hi0]
    · intro _ h0 j _ _ hP a b ha hab hb
      exact hP a b ha hab hb (by omega)
  | succ k ih =>
    intro i g him hif hs
    by_cases hi1 : i ≥ 1
    · have e1 : (i.toNat : Int) = i := by omega
      have e2 : ((i + m).toNat : Int) = i + m := by omega
      have hA := hs i.toNat (by omega) (by omega)
      have hB := hs (i + m).toNat (by omega) (by omega)
      have c1 : 0 ≤ i := by omega
      have c2 : i < ((MAXARCS : Nat) : Int) := by
        unfold MAXARCS
        omega
      have c3 : 0 ≤ i + m := by omega
      have c4 : i + m < ((MAXARCS : Nat) : Int) := by
        unfold MAXARCS
        omega
      have hne : i.toNat ≠ (i + m).toNat := by omega
      have d1 : -2147483648 ≤ i + m ∧ i + m ≤ 2147483647 := by omega
      have d2 : -2147483648 ≤ i - m ∧ i - m ≤ 2147483647 := by omega
      rw [sort_inner, if_pos hi1, rd_eq_ok MAXARCS g.tail i c1 c2, except_ok_bind,
        wrapInt_id _ d1.1 d1.2, rd_eq_ok MAXARCS g.tail (i + m) c3 c4, except_ok_bind]
      by_cases hgt : g.tail i.toNat > g.tail (i + m).toNat
      · rw [if_pos hgt]
        conv => zeta
        rw [wr_eq_ok MAXARCS g.tail i _ c1 c2, except_ok_bind,
          wr_eq_ok MAXARCS _ (i + m) _ c3 c4, except_ok_bind,
          rd_eq_ok MAXARCS g.head i c1 c2, except_ok_bind,
          rd_eq_ok MAXARCS g.head (i + m) c3 c4, except_ok_bind,
          wr_eq_ok MAXARCS g.head i _ c1 c2, except_ok_bind,
          wr_eq_ok MAXARCS _ (i + m) _ c3 c4, except_ok_bind, wrapInt_id _ d2.1 d2.2,
          toULong_wrapInt_small _ hA]
        have hs2 : TailsSmall n
            { g with
              tail := Function.update (Function.update g.tail i.toNat (g.tail (i + m).toNat))
                (i + m).toNat (g.tail i.toNat)
              head := Function.update (Function.update g.head i.toNat (g.head (i + m).toNat))
                (i + m).toNat (toULong (wrapInt (g.head i.toNat))) } := by
          intro x hx1 hx2
          show Function.update (Function.update g.tail i.toNat (g.tail (i + m).toNat))
            (i + m).toNat (g.tail i.toNat) x < 2147483648
          by_cases ex : x = (i + m).toNat
          · rw [ex, Function.update_same]
            exact hA
          · rw [Function.update_noteq ex]
            by_cases ey : x = i.toNat
            · rw [ey, Function.update_same]
              exact hB
            · rw [Function.update_noteq ey]
              exact hs x hx1 hx2
        obtain ⟨r, hr, r1, r2, r3⟩ := ih (i - m) _ (by omega) (by omega) hs2
        refine ⟨r, hr, r1, ?_, ?_⟩
        · rw [r2]
        · intro em h0 j hij hjn hP
          subst em
          refine r3 rfl (by omega) j (by omega) hjn ?_
          intro a b ha hab hb hbi
          show Function.update (Function.update g.tail i.toNat (g.tail (i + 1).toNat))
              (i + 1).toNat (g.tail i.toNat) a ≤
            Function.update (Function.update g.tail i.toNat (g.tail (i + 1).toNat))
              (i + 1).toNat (g.tail i.toNat) b
          have hbi2 : b ≠ i.toNat := by omega
          by_cases eb : b = (i + 1).toNat
          · rw [eb, Function.update_same]
            by_cases ea : a = i.toNat
            · have : a ≠ (i + 1).toNat := by omega
              rw [Function.update_noteq this, ea, Function.update_same]
              exact Nat.le_of_lt hgt
            · have : a ≠ (i + 1).toNat := by omega
              rw [Function.update_noteq this, Function.update_noteq ea]
              exact hP a i.toNat ha (by omega) (by omega) (by omega)
          · rw [Function.update_noteq eb, Function.update_noteq hbi2]
            by_cases ea : a = (i + 1).toNat
            · rw [ea, Function.update_same]
              exact hP i.toNat b (by omega) (by omega) hb (by omega)
            · rw [Function.update_noteq ea]
              by_cases ea2 : a = i.toNat
              · rw [ea2, Function.update_same]
                exact hP (i + 1).toNat b (by omega) (by omega) hb (by omega)
              · rw [Function.update_noteq ea2]
                exact hP a b ha hab hb (by omega)
      · rw [if_neg hgt]
        refine ⟨g, rfl, hs, rfl, ?_⟩
        intro em h0 j hij hjn hP a b ha hab hb
        subst em
        by_cases eb : (b : Int) = i + 1
        · have hle : g.tail i.toNat ≤ g.tail (i + 1).toNat := Nat.le_of_not_gt hgt
          have eb2 : b = (i + 1).toNat := by omega
          by_cases ea : a = i.toNat
          · rw [ea, eb2]
            exact hle
          · have h1 := hP a i.toNat ha (by omega) (by omega) (by omega)
            rw [eb2]
            exact Nat.le_trans h1 hle
        · exact hP a b ha hab hb eb
    · refine ⟨g, ?_, hs, rfl, ?_⟩
      · rw [sort_inner, if_neg hi1]
      · intro _ h0 j _ _ hP a b ha hab hb
        exact hP a b ha hab hb (by omega)

/-- The middle loop of `sort_skeleton` on small tails, started at `j` with gap
`m`: it returns, the tails stay small, only `tail` and `head` change, and for
gap 1 it extends an ascending `tail[1..j]` to an ascending `tail[1..k+1]`. -/
theorem sort_pass_spec (m n : Int) (hm : 1 ≤ m) (hn : n < 60000) (fuel0 : Nat) (k : Int)
    (hk : k + m ≤ n) (hf0 : k ≤ fuel0) :
    ∀ (fuel : Nat) (j : Int) (g : Globals), 1 ≤ j → j ≤ k + 1 → k + 1 - j ≤ fuel →
      TailsSmall n g →
      ∃ r, sort_pass fuel0 m k fuel j g = Except.ok r ∧ TailsSmall n r ∧
        r = { g with tail := r.tail, head := r.head } ∧
        (m = 1 → TailsSorted j g → TailsSorted (k + 1) r) := by
  intro fuel
  induction fuel with
  | zero =>
    intro j g hj1 hjk hf hs
    have hj : ¬ j ≤ k := by omega
    refine ⟨g, ?_, hs, rfl, ?_⟩
    · rw [sort_pass, if_neg hj]
    · intro _ hso a b ha hab hb
      exact hso a b ha hab (by omega)
  | succ f ih =>
    intro j g hj1 hjk hf hs
    by_cases hj : j ≤ k
    · obtain ⟨r1, hr1, s1, f1, p1⟩ :=
        sort_inner_spec m n hm hn fuel0 j g (by omega) (by omega) hs
      have d1 : -2147483648 ≤ j + 1 ∧ j + 1 ≤ 2147483647 := by omega
      rw [sort_pass, if_pos hj, hr1, except_ok_bind, wrapInt_id _ d1.1 d1.2]
      obtain ⟨r2, hr2, s2, f2, p2⟩ := ih (j + 1) r1 (by omega) (by omega) (by omega) s1
      refine ⟨r2, hr2, s2, ?_, ?_⟩
      · rw [f2, f1]
      · intro em hso
        refine p2 em (p1 em (by omega) j (le_refl _) (by omega) ?_)
        intro a b ha hab hb hne
        exact hso a b ha hab (by omega)
    · refine ⟨g, ?_, hs, rfl, ?_⟩
      · rw [sort_pass, if_neg hj]
      · intro _ hso a b ha hab hb
        exact hso a b ha hab (by omega)

/-- The outer loop of `sort_skeleton` on small tails, entered with gap `m`: it
returns, the tails stay small, only `tail` and `head` change, and if any pass
is made (`m ≥ 2`) the last one has gap 1 and leaves `tail[1..n]` ascending. -/
theorem sort_gaps_spec (n : Int) (hn : n < 60000) (fuel0 : Nat) (hf0 : n ≤ fuel0) :
    ∀ (fuel : Nat) (m : Int) (g : Globals), 0 ≤ m → m ≤ n → m ≤ fuel + 1 → TailsSmall n g →
      ∃ r, sort_gaps fuel0 n fuel m g = Except.ok r ∧ TailsSmall n r ∧
        r = { g with tail := r.tail, head := r.head } ∧
        (2 ≤ m → TailsSorted n r) := by
  intro fuel
  induction fuel with
  | zero =>
    intro m g h0 hmn hf hs
    have e : Int.tdiv m 2 = 0 := by
      rw [Int.tdiv_eq_ediv h0 (by norm_num)]
      omega
    refine ⟨g, ?_, hs, rfl, fun h2 => by omega⟩
    rw [sort_gaps, if_neg (by rw [e]; exact fun h => h rfl)]
  | succ f ih =>
    intro m g h0 hmn hf hs
    have e : Int.tdiv m 2 = m / 2 := Int.tdiv_eq_ediv h0 (by norm_num)
    rw [sort_gaps]
    conv => zeta
    rw [e]
    by_cases hz : m / 2 ≠ 0
    · have hm1 : 1 ≤ m / 2 := by omega
      have d1 : -2147483648 ≤ n - m / 2 ∧ n - m / 2 ≤ 2147483647 := by omega
      rw [if_pos hz, wrapInt_id _ d1.1 d1.2]
      obtain ⟨r1, hr1, s1, f1, p1⟩ :=
        sort_pass_spec (m / 2) n hm1 hn fuel0 (n - m / 2) (by omega) (by omega) fuel0 1 g
          (le_refl _) (by omega) (by omega) hs
      rw [hr1, except_ok_bind]
      obtain ⟨r2, hr2, s2, f2, p2⟩ := ih (m / 2) r1 (by omega) (by omega) (by omega) s1
      refine ⟨r2, hr2, s2, ?_, ?_⟩
      · rw [f2, f1]
      · intro h2
        by_cases h4 : 2 ≤ m / 2
        · exact p2 h4
        · have e1 : m / 2 = 1 := by omega
          have hso : TailsSorted (n - m / 2 + 1) r1 := by
            refine p1 e1 ?_
            intro a b ha hab hb
            omega
          have hlast : r2 = r1 := by
            cases f with
            | zero =>
              rw [sort_gaps, if_neg (by rw [e1]; decide)] at hr2
              exact (Except.ok.inj hr2).symm
            | succ f2 =>
              rw [sort_gaps] at hr2
              have : (Int.tdiv (m / 2) 2 ≠ 0) = False := by
                rw [e1]
                decide
              simp only [this, if_false] at hr2
              exact (Except.ok.inj hr2).symm
          rw [hlast]
          intro a b ha hab hb
          exact hso a b ha hab (by omega)
    · rw [if_neg hz]
      exact ⟨g, rfl, hs, rfl, fun h2 => by omega⟩

/-- What `sort_skeleton(n)` does on small tails, `0 ≤ n < MAXARCS`, with fuel
for `n` passes: it returns, only `tail` and `head` change, the tails stay
small and `tail[1..n]` is ascending. -/
theorem sort_skeleton_spec (fuel : Nat) (n : Int) (g : Globals) (h0 : 0 ≤ n) (hn : n < 60000)
    (hf : n ≤ fuel) (hs : TailsSmall n g) :
    ∃ r, sort_skeleton fuel n g = Except.ok r ∧ TailsSmall n r ∧
      r = { g with tail := r.tail, head := r.head } ∧ TailsSorted n r := by
  obtain ⟨r, hr, s1, f1, p1⟩ :=
    sort_gaps_spec n hn fuel hf fuel n g h0 (le_refl _) (by omega) hs
  refine ⟨r, hr, s1, f1, ?_⟩
  by_cases h2 : 2 ≤ n
  · exact p1 h2
  · intro a b ha hab hb
    omega

/-- C19 (counterexample): `sort_skeleton(2)` on `tail[1] = 2^32`,
`tail[2] = 5`.  The one swap goes through the `int` variable `temp`, which
keeps only the low 32 bits of `2^32`: afterwards `tail[1] = 5` and
`tail[2] = 0`, so `tail[1] > tail[2]`. -/
theorem C19_sort_skeleton_truncates :
    (sort_skeleton 5 2
        { Globals.init 1 with
          tail := fun i => if i = 1 then 4294967296 else if i = 2 then 5 else 0 }).toOption.map
      (fun r => (r.tail 1, r.tail 2)) = some (5, 0) := by
  decide!

/-- C19 (amended): for every `0 ≤ n < MAXARCS`, every contents of
`tail[1..n]` with values below `2^31` and every contents of `head`, the call
`sort_skeleton(n)` returns (given fuel for `n` passes of each loop) and
afterwards `tail[i] ≤ tail[i+1]` for all `1 ≤ i < n`. -/
theorem C19_sort_skeleton_ascending (fuel : Nat) (n : Int) (g : Globals) (h0 : 0 ≤ n)
    (hn : n < MAXARCS) (hf : n ≤ fuel)
    (hs : ∀ x : Nat, 1 ≤ x → (x : Int) ≤ n → g.tail x < 2 ^ 31) :
    ∃ r, sort_skeleton fuel n g = Except.ok r ∧
      ∀ i : Nat, 1 ≤ i → (i : Int) < n → r.tail i ≤ r.tail (i + 1) := by
  have hn2 : n < 60000 := hn
  have hs2 : TailsSmall n g := by
    intro x h1 h2
    have := hs x h1 h2
    norm_num at this
    exact this
  obtain ⟨r, hr, _, _, p⟩ := sort_skeleton_spec fuel n g h0 hn2 hf hs2
  refine ⟨r, hr, ?_⟩
  intro i hi1 hin
  exact p i (i + 1) hi1 (Nat.lt_succ_self i) (by push_cast; omega)

/-- Witness for C19 (amended): three tails in descending order, 9, 8, 7. -/
theorem C19_sort_skeleton_ascending_witness :
    ∃ r, sort_skeleton 3 3 { Globals.init 1 with tail := fun x => 10 - x } = Except.ok r ∧
      r.tail 1 ≤ r.tail 2 ∧ r.tail 2 ≤ r.tail 3 := by
  obtain ⟨r, hr, p⟩ := C19_sort_skeleton_ascending 3 3
    { Globals.init 1 with tail := fun x => 10 - x } (by decide) (by decide) (by decide)
    (by
      intro x _ _
      show 10 - x < 2 ^ 31
      have : 10 - x ≤ 10 := Nat.sub_le 10 x
      exact Nat.lt_of_le_of_lt this (by decide))
  exact ⟨r, hr, p 1 (le_refl _) (by decide), p 2 (by decide) (by decide)⟩

/-! ## Theorems: numbers in the output file -/

/-- The code of a digit character. -/
theorem digit_char_toNat (d : Nat) (h : d < 10) : (digit_char d).toNat = 48 + d := by
  unfold digit_char
  interval_cases d <;> rfl

/-- A digit character is a digit. -/
theorem digit_char_is_digit (d : Nat) (h : d < 10) : is_digit (digit_char d) = true := by
  unfold is_digit
  rw [digit_char_toNat d h]
  simp
  omega

/-- The digits written for `n`: a non-empty run of digits whose value is
`n`. -/
theorem show_digits_spec :
    ∀ (fuel n : Nat) (acc : List Char), n < fuel →
      ∃ ds, show_digits fuel n acc = ds ++ acc ∧ ds ≠ [] ∧ (∀ c ∈ ds, is_digit c = true) ∧
        ds.foldl (fun a c => 10 * a + (c.toNat - 48)) 0 = n := by
  intro fuel
  induction fuel with
  | zero => intro n acc h; omega
  | succ f ih =>
    intro n acc h
    rw [show_digits]
    by_cases h10 : n < 10
    · rw [if_pos h10]
      refine ⟨[digit_char n], rfl, by simp, ?_, ?_⟩
      · intro c hc
        rw [List.mem_singleton] at hc
        rw [hc]
        exact digit_char_is_digit n h10
      · simp only [List.foldl_cons, List.foldl_nil]
        rw [digit_char_toNat n h10]
        omega
    · rw [if_neg h10]
      have hlt : n / 10 < f := by omega
      obtain ⟨ds, e, hne, hd, hv⟩ := ih (n / 10) (digit_char (n % 10) :: acc) hlt
      have hm : n % 10 < 10 := Nat.mod_lt _ (by decide)
      refine ⟨ds ++ [digit_char (n % 10)], ?_, by simp, ?_, ?_⟩
      · rw [e]
        simp
      · intro c hc
        rw [List.mem_append, List.mem_singleton] at hc
        rcases hc with hc | hc
        · exact hd c hc
        · rw [hc]
          exact digit_char_is_digit _ hm
      · rw [List.foldl_append, hv]
        simp only [List.foldl_cons, List.foldl_nil]
        rw [digit_char_toNat _ hm]
        omega

/-- A run of digits is taken whole. -/
theorem takeWhile_digits (ds : List Char) (h : ∀ c ∈ ds, is_digit c = true) :
    ds.takeWhile is_digit = ds := by
  induction ds with
  | nil => rfl
  | cons c t ih =>
    rw [List.takeWhile_cons, h c (List.mem_cons_self c t),
      if_pos rfl, ih (fun x hx => h x (List.mem_cons_of_mem c hx))]

/-- The value of a run of digits. -/
theorem digits_value_digits (ds : List Char) (hne : ds ≠ []) (h : ∀ c ∈ ds, is_digit c = true) :
    digits_value ds = some (ds.foldl (fun a c => 10 * a + (c.toNat - 48)) 0) := by
  unfold digits_value
  dsimp only
  rw [takeWhile_digits ds h, if_neg hne]

/-- A digit is neither a blank, nor white space, nor a sign. -/
theorem is_digit_facts (c : Char) (h : is_digit c = true) :
    is_space c = false ∧ c ≠ ' ' ∧ c ≠ '-' ∧ c ≠ '+' := by
  unfold is_digit at h
  simp only [Bool.and_eq_true, decide_eq_true_eq] at h
  refine ⟨?_, ?_, ?_, ?_⟩
  · unfold is_space
    simp
    omega
  · intro e
    rw [e] at h
    revert h
    decide
  · intro e
    rw [e] at h
    revert h
    decide
  · intro e
    rw [e] at h
    revert h
    decide

/-- `stoi` reads a run of digits as its value. -/
theorem stoi_digits (ds : List Char) (hne : ds ≠ []) (h : ∀ c ∈ ds, is_digit c = true) :
    stoi ds = some ((ds.foldl (fun a c => 10 * a + (c.toNat - 48)) 0 : Nat) : Int) := by
  cases ds with
  | nil => exact absurd rfl hne
  | cons c t =>
    obtain ⟨f1, _, f3, f4⟩ := is_digit_facts c (h c (List.mem_cons_self c t))
    unfold stoi
    rw [List.dropWhile_cons, f1]
    simp only [Bool.false_eq_true, if_false]
    split
    · rename_i t2 heq
      exact absurd (List.cons.inj heq).1 f3
    · rename_i t2 heq
      exact absurd (List.cons.inj heq).1 f4
    · rw [digits_value_digits (c :: t) hne h]
      rfl

/-- `stoi` reads back what is written for an `unsigned long`. -/
theorem stoi_show_ulong (n : Nat) : stoi (show_ulong n).data = some (n : Int) := by
  obtain ⟨ds, e, hne, hd, hv⟩ := show_digits_spec (n + 1) n [] (Nat.lt_succ_self n)
  unfold show_ulong
  dsimp only
  rw [e, List.append_nil, stoi_digits ds hne hd, hv]

/-- `stoi` reads back what is written for a `long`. -/
theorem stoi_show_long (x : Int) : stoi (show_long x).data = some x := by
  unfold show_long
  by_cases hx : x < 0
  · rw [if_pos hx]
    obtain ⟨ds, e, hne, hd, hv⟩ :=
      show_digits_spec ((-x).toNat + 1) (-x).toNat [] (Nat.lt_succ_self _)
    dsimp only
    rw [e, List.append_nil]
    unfold stoi
    have hs : is_space '-' = false := by decide
    rw [List.dropWhile_cons, hs]
    simp only [Bool.false_eq_true, if_false]
    rw [digits_value_digits ds hne hd, hv]
    show some (-(((-x).toNat : Nat) : Int)) = some x
    congr 1
    omega
  · rw [if_neg hx, stoi_show_ulong]
    congr 1
    omega

/-- No blank is written for an `unsigned long`. -/
theorem show_ulong_no_blank (n : Nat) : ∀ c ∈ (show_ulong n).data, c ≠ ' ' := by
  obtain ⟨ds, e, _, hd, _⟩ := show_digits_spec (n + 1) n [] (Nat.lt_succ_self n)
  unfold show_ulong
  dsimp only
  rw [e, List.append_nil]
  intro c hc
  exact (is_digit_facts c (hd c hc)).2.1

/-- No blank is written for a `long`. -/
theorem show_long_no_blank (x : Int) : ∀ c ∈ (show_long x).data, c ≠ ' ' := by
  unfold show_long
  by_cases hx : x < 0
  · rw [if_pos hx]
    obtain ⟨ds, e, _, hd, _⟩ :=
      show_digits_spec ((-x).toNat + 1) (-x).toNat [] (Nat.lt_succ_self _)
    dsimp only
    rw [e, List.append_nil]
    intro c hc
    rcases List.mem_cons.mp hc with h | h
    · rw [h]
      decide
    · exact (is_digit_facts c (hd c h)).2.1
  · rw [if_neg hx]
    exact show_ulong_no_blank _

/-! ## Theorems: the lines of the output file, read back -/

/-- A field in front of a blank is one piece. -/
theorem pieces_field (rest : List Char) :
    ∀ d : List Char, (∀ c ∈ d, c ≠ ' ') → pieces (d ++ ' ' :: rest) = d :: pieces rest := by
  intro d
  induction d with
  | nil =>
    intro _
    rw [List.nil_append, pieces, if_pos rfl]
  | cons c t ih =>
    intro h
    have hc : c ≠ ' ' := h c (List.mem_cons_self c t)
    rw [List.cons_append, pieces, if_neg hc, ih (fun x hx => h x (List.mem_cons_of_mem c hx))]

/-- A last field is one piece. -/
theorem pieces_last : ∀ d : List Char, (∀ c ∈ d, c ≠ ' ') → pieces d = [d] := by
  intro d
  induction d with
  | nil => intro _; rfl
  | cons c t ih =>
    intro h
    have hc : c ≠ ' ' := h c (List.mem_cons_self c t)
    rw [pieces, if_neg hc, ih (fun x hx => h x (List.mem_cons_of_mem c hx))]

/-- An arc line is read back field by field. -/
theorem parse_line_arc (f t : Nat) (u c : Int) :
    parse_line ("a " ++ show_ulong f ++ " " ++ show_ulong t ++ " 0 " ++ show_long u ++ " " ++
      show_long c) = some (Line.arc f t ['0'] u c) := by
  have hd : ("a " ++ show_ulong f ++ " " ++ show_ulong t ++ " 0 " ++ show_long u ++ " " ++
      show_long c).data =
      ['a'] ++ ' ' :: ((show_ulong f).data ++ ' ' :: ((show_ulong t).data ++ ' ' ::
        (['0'] ++ ' ' :: ((show_long u).data ++ ' ' :: (show_long c).data)))) := by
    simp [String.data_append]
  have hp : pieces (['a'] ++ ' ' :: ((show_ulong f).data ++ ' ' :: ((show_ulong t).data ++ ' ' ::
        (['0'] ++ ' ' :: ((show_long u).data ++ ' ' :: (show_long c).data))))) =
      [['a'], (show_ulong f).data, (show_ulong t).data, ['0'], (show_long u).data,
        (show_long c).data] := by
    rw [pieces_field _ ['a'] (by decide), pieces_field _ _ (show_ulong_no_blank f),
      pieces_field _ _ (show_ulong_no_blank t), pieces_field _ ['0'] (by decide),
      pieces_field _ _ (show_long_no_blank u), pieces_last _ (show_long_no_blank c)]
  unfold parse_line
  rw [hd, hp]
  simp only [List.cons_append, List.nil_append, List.head?_cons, List.getD_cons_succ,
    List.getD_cons_zero, stoi_show_ulong, stoi_show_long]
  rfl

/-- A node line is read back field by field. -/
theorem parse_line_node (id b : Int) :
    parse_line ("n " ++ show_long id ++ " " ++ show_long b) = some (Line.node id b) := by
  have hd : ("n " ++ show_long id ++ " " ++ show_long b).data =
      ['n'] ++ ' ' :: ((show_long id).data ++ ' ' :: (show_long b).data) := by
    simp [String.data_append]
  have hp : pieces (['n'] ++ ' ' :: ((show_long id).data ++ ' ' :: (show_long b).data)) =
      [['n'], (show_long id).data, (show_long b).data] := by
    rw [pieces_field _ ['n'] (by decide), pieces_field _ _ (show_long_no_blank id),
      pieces_last _ (show_long_no_blank b)]
  unfold parse_line
  rw [hd, hp]
  simp only [List.cons_append, List.nil_append, List.head?_cons, List.getD_cons_succ,
    List.getD_cons_zero, stoi_show_long]
  rfl

/-- An interdependency line is read back field by field. -/
theorem parse_line_inter (par : Int) (ch : Nat) :
    parse_line ("i " ++ show_long par ++ " " ++ show_ulong ch) = some (Line.inter par ch) := by
  have hd : ("i " ++ show_long par ++ " " ++ show_ulong ch).data =
      ['i'] ++ ' ' :: ((show_long par).data ++ ' ' :: (show_ulong ch).data) := by
    simp [String.data_append]
  have hp : pieces (['i'] ++ ' ' :: ((show_long par).data ++ ' ' :: (show_ulong ch).data)) =
      [['i'], (show_long par).data, (show_ulong ch).data] := by
    rw [pieces_field _ ['i'] (by decide), pieces_field _ _ (show_long_no_blank par),
      pieces_last _ (show_ulong_no_blank ch)]
  unfold parse_line
  rw [hd, hp]
  simp only [List.cons_append, List.nil_append, List.head?_cons, List.getD_cons_succ,
    List.getD_cons_zero, stoi_show_long, stoi_show_ulong]
  rfl

/-- The problem line is read back field by field; its last token gives the
parent mode. -/
theorem parse_line_problem (nodes arcs inter parent_mode : Int) :
    parse_line ("p min " ++ show_long nodes ++ " " ++ show_long arcs ++ " " ++ show_long inter ++
      (if parent_mode = 0 then " n" else " a")) =
      some (Line.problem nodes arcs inter (decide (parent_mode ≠ 0))) := by
  have hd : ∀ x : Char, ("p min " ++ show_long nodes ++ " " ++ show_long arcs ++ " " ++
      show_long inter ++ String.mk [' ', x]).data =
      ['p'] ++ ' ' :: (['m', 'i', 'n'] ++ ' ' :: ((show_long nodes).data ++ ' ' ::
        ((show_long arcs).data ++ ' ' :: ((show_long inter).data ++ ' ' :: [x])))) := by
    intro x
    simp [String.data_append]
  have hp : ∀ x : Char, x ≠ ' ' →
      pieces (['p'] ++ ' ' :: (['m', 'i', 'n'] ++ ' ' :: ((show_long nodes).data ++ ' ' ::
        ((show_long arcs).data ++ ' ' :: ((show_long inter).data ++ ' ' :: [x]))))) =
      [['p'], ['m', 'i', 'n'], (show_long nodes).data, (show_long arcs).data,
        (show_long inter).data, [x]] := by
    intro x hx
    rw [pieces_field _ ['p'] (by decide), pieces_field _ ['m', 'i', 'n'] (by decide),
      pieces_field _ _ (show_long_no_blank nodes), pieces_field _ _ (show_long_no_blank arcs),
      pieces_field _ _ (show_long_no_blank inter),
      pieces_last [x] (by intro c hc; rw [List.mem_singleton] at hc; rw [hc]; exact hx)]
  by_cases h0 : parent_mode = 0
  · rw [if_pos h0]
    have e : (" n" : String) = String.mk [' ', 'n'] := rfl
    unfold parse_line
    rw [e, hd 'n', hp 'n' (by decide)]
    simp only [List.cons_append, List.nil_append, List.head?_cons, List.getD_cons_succ,
      List.getD_cons_zero, stoi_show_long]
    simp [h0]
  · rw [if_neg h0]
    have e : (" a" : String) = String.mk [' ', 'a'] := rfl
    unfold parse_line
    rw [e, hd 'a', hp 'a' (by decide)]
    simp only [List.cons_append, List.nil_append, List.head?_cons, List.getD_cons_succ,
      List.getD_cons_zero, stoi_show_long]
    simp [h0]

/-- A comment line is ignored. -/
theorem parse_line_comment (l : String) (h : l.data.head? = some 'c') :
    parse_line l = some Line.other := by
  unfold parse_line
  rw [h]
  rfl

/-- Reading a file made of two parts. -/
theorem read_lines_append (l2 : List String) (b : List Line) (h2 : read_lines l2 = some b) :
    ∀ (l1 : List String) (a : List Line), read_lines l1 = some a →
      read_lines (l1 ++ l2) = some (a ++ b) := by
  intro l1
  induction l1 with
  | nil =>
    intro a h1
    rw [read_lines] at h1
    cases h1
    exact h2
  | cons l ls ih =>
    intro a h1
    rw [read_lines] at h1
    rw [List.cons_append, read_lines]
    cases hx : parse_line l with
    | none =>
      rw [hx] at h1
      cases h1
    | some x =>
      rw [hx] at h1
      cases hxs : read_lines ls with
      | none =>
        rw [hxs] at h1
        cases h1
      | some xs =>
        rw [hxs] at h1
        rw [ih xs hxs]
        have e : a = if x = Line.other then xs else x :: xs := (Option.some.inj h1).symm
        show some (if x = Line.other then xs ++ b else x :: (xs ++ b)) = some (a ++ b)
        rw [e]
        by_cases ho : x = Line.other
        · rw [if_pos ho, if_pos ho]
        · rw [if_neg ho, if_neg ho]
          rfl

/-- Lines that are all ignored contribute nothing. -/
theorem read_lines_other :
    ∀ ls : List String, (∀ l ∈ ls, parse_line l = some Line.other) → read_lines ls = some [] := by
  intro ls
  induction ls with
  | nil => intro _; rfl
  | cons l t ih =>
    intro h
    rw [read_lines, h l (List.mem_cons_self l t), ih (fun x hx => h x (List.mem_cons_of_mem l hx))]
    rfl

/-- Lines written one per element of a list and read back one by one. -/
theorem read_lines_map {α : Type} (w : α → String) (k : α → Line)
    (h : ∀ x, parse_line (w x) = some (k x)) (hk : ∀ x, k x ≠ Line.other) :
    ∀ xs : List α, read_lines (xs.map w) = some (xs.map k) := by
  intro xs
  induction xs with
  | nil => rfl
  | cons x t ih =>
    rw [List.map_cons, read_lines, h x, ih]
    show some (if k x = Line.other then _ else _) = _
    rw [if_neg (hk x)]
    rfl

/-- Lines written for the selected elements of a list and read back one by
one. -/
theorem read_lines_filterMap {α : Type} (sel : α → Prop) [DecidablePred sel] (w : α → String)
    (k : α → Line) (h : ∀ x, parse_line (w x) = some (k x)) (hk : ∀ x, k x ≠ Line.other) :
    ∀ xs : List α, read_lines (xs.filterMap (fun x => if sel x then some (w x) else none)) =
      some (xs.filterMap (fun x => if sel x then some (k x) else none)) := by
  intro xs
  induction xs with
  | nil => rfl
  | cons x t ih =>
    by_cases hs : sel x
    · rw [List.filterMap_cons_some (by rw [if_pos hs]),
        List.filterMap_cons_some (by rw [if_pos hs]), read_lines, h x, ih]
      show some (if k x = Line.other then _ else _) = _
      rw [if_neg (hk x)]
    · rw [List.filterMap_cons_none (by rw [if_neg hs]),
        List.filterMap_cons_none (by rw [if_neg hs]), ih]

/-- A completed loop of child draws has counted up to `INTER`, which therefore
is at most the size of the arrays. -/
theorem draw_children_inter (p : Params) :
    ∀ (fuel i : Nat) (arc_id : NetgenIndex) (g : Globals) (r : NetgenIndex × Globals),
      draw_children p fuel i arc_id g = Except.ok r → i ≤ 60000 → toULong p.INTER ≤ 60000 := by
  intro fuel
  induction fuel with
  | zero =>
    intro i arc_id g r h hi
    rw [draw_children] at h
    rcases except_ite_ok h with ⟨_, h⟩ | ⟨hn, _⟩
    · cases h
    · omega
  | succ n ih =>
    intro i arc_id g r h hi
    by_cases hl : i < toULong p.INTER
    · rw [draw_children, if_pos hl] at h
      obtain ⟨r1, g1, hd1⟩ : ∃ r1 g1, g.draw 1 arc_id.index_size = (r1, g1) := ⟨_, _, rfl⟩
      rw [hd1] at h
      dsimp only at h
      obtain ⟨c, ids1, hc⟩ : ∃ c i1, arc_id.choose_index (toUInt r1) = (c, i1) := ⟨_, _, rfl⟩
      rw [hc] at h
      dsimp only at h
      obtain ⟨ch, hch, h⟩ := except_bind_ok h
      obtain ⟨_, hi1, _⟩ := wr_ok_eq _ _ _ _ _ hch
      have hi2 : (i : Int) < 60000 := hi1
      have hi3 : -1 < (i : Int) := by omega
      rw [toULong_small _ (by omega) (by omega)] at h
      clear hd1 hc hl
      exact ih _ _ _ _ h (by omega)
    · omega

/-- The balances on the node lines add up to the sum of all balances. -/
theorem node_lines_balance (B : Nat → Int) :
    ∀ n : Nat, (((List.range n).filterMap (fun i =>
        if B i ≠ 0 then some (Line.node (((i : Nat) : Int) + 1) (B i)) else none)).map
          Line.balance).sum = sum_below B n := by
  intro n
  induction n with
  | zero => rfl
  | succ m ih =>
    rw [List.range_succ, List.filterMap_append, List.map_append, List.sum_append, ih, sum_below]
    by_cases hb : B m ≠ 0
    · simp [hb, Line.balance]
    · have : B m = 0 := by
        by_contra hc
        exact hb hc
      simp [this]

/-- C17: for every run of `printout` on parameters stored by `main` that pass
the checks, outside the maximum flow case `MINCOST = MAXCOST = 1`: reading the
lines written to the file as `readin` of `LpSolver.cpp` does (first character
selects the kind of line, fields between blanks, numbers converted by `stoi`)
gives back, in this order, the problem line with `NODES`, the arc count
returned by `netgen`, `INTER` and the parent mode; one node line `i + 1`,
`B[i]` for each non-zero balance, so that the balances read add up to the sum
of `B`; one arc line for each of the arcs, in creation order, with `FROM`,
`TO`, the literal `0`, `U`, `C`; and one line for each of the `INTER`
interdependencies with `parent[i]`, `child[i]`.  The header and the comment
lines are ignored. -/
theorem C17_round_trip (fuel : Nat) (file_name : String) (p : Params) (g0 : Globals) (out : Run)
    (hs : p.stored) (hv : sanity_checks p = none) (hmin : ¬ (p.MINCOST = 1 ∧ p.MAXCOST = 1))
    (h : printout fuel true file_name p g0 = Except.ok out) :
    ∃ (arcs : Int) (g : Globals), netgen fuel p g0 = Except.ok (arcs, g) ∧
      0 ≤ arcs ∧ 0 ≤ p.INTER ∧
      read_lines out.file = some (
        Line.problem p.NODES arcs p.INTER (decide (p.PARENT ≠ 0)) ::
        ((List.range p.NODES.toNat).filterMap (fun i =>
            if g.B i ≠ 0 then some (Line.node ((i : Int) + 1) (g.B i)) else none) ++
          (List.range arcs.toNat).map (fun i =>
            Line.arc (g.FROM i) (g.TO i) ['0'] (g.U i) (g.C i)) ++
          (List.range p.INTER.toNat).map (fun i => Line.inter (g.parent i) (g.child i)))) ∧
      (((List.range p.NODES.toNat).filterMap (fun i =>
          if g.B i ≠ 0 then some (Line.node ((i : Int) + 1) (g.B i)) else none)).map
            Line.balance).sum = sum_below g.B p.NODES.toNat := by
  unfold printout at h
  rw [if_pos rfl] at h
  obtain ⟨⟨arcs, g⟩, hn, h⟩ := except_bind_ok h
  obtain ⟨hgen, hle, erc⟩ := netgen_pass_inv fuel p g0 arcs g hv hn
  have ha0 : 0 ≤ arcs := by omega
  have f := sanity_facts p hs hv
  obtain ⟨_, _, _, _, _, _, g6, _, _, _, _, _, _, _, _, _, _, _, _, _, hch, _, _⟩ :=
    generate_inv fuel p g0 g hgen
  have hI := draw_children_inter p fuel 0 _ _ _ hch (by omega)
  have hI0 : 0 ≤ p.INTER := by
    unfold Params.stored in_int at hs
    unfold toULong at hI
    omega
  dsimp only at h
  rw [if_neg (by omega), if_neg hmin] at h
  have e := Except.ok.inj h
  subst e
  refine ⟨arcs, g, hn, ha0, hI0, ?_, node_lines_balance g.B p.NODES.toNat⟩
  show read_lines (header_lines p ++ min_cost_lines p arcs g) = _
  unfold min_cost_lines
  -- the header and the three comment lines are ignored
  have h1 : read_lines (header_lines p) = some [] :=
    read_lines_other _ (fun l hl => parse_line_comment l (header_lines_comment p l hl))
  -- the node lines
  have h3 : read_lines ((List.range p.NODES.toNat).filterMap (fun i =>
      if g.B i ≠ 0 then
        some ("n " ++ show_long (wrapInt ((i : Int) + 1)) ++ " " ++ show_long (g.B i))
      else none)) =
      some ((List.range p.NODES.toNat).filterMap (fun i =>
        if g.B i ≠ 0 then some (Line.node (wrapInt ((i : Int) + 1)) (g.B i)) else none)) :=
    read_lines_filterMap (fun i => g.B i ≠ 0) _ _ (fun i => parse_line_node _ _)
      (fun i => by intro hc; cases hc) _
  have h3' : (List.range p.NODES.toNat).filterMap (fun i =>
        if g.B i ≠ 0 then some (Line.node (wrapInt ((i : Int) + 1)) (g.B i)) else none) =
      (List.range p.NODES.toNat).filterMap (fun i =>
        if g.B i ≠ 0 then some (Line.node ((i : Int) + 1) (g.B i)) else none) := by
    apply List.filterMap_congr
    intro i hi
    rw [List.mem_range] at hi
    have hi2 : (i : Int) + 1 ≤ 5000 := by omega
    rw [wrapInt_id _ (by omega) (by omega)]
  rw [h3'] at h3
  -- the arc lines
  have h4 : read_lines ((List.range arcs.toNat).map (fun i =>
      "a " ++ show_ulong (g.FROM i) ++ " " ++ show_ulong (g.TO i) ++ " 0 " ++ show_long (g.U i) ++
        " " ++ show_long (g.C i))) =
      some ((List.range arcs.toNat).map (fun i =>
        Line.arc (g.FROM i) (g.TO i) ['0'] (g.U i) (g.C i))) :=
    read_lines_map _ _ (fun i => parse_line_arc _ _ _ _) (fun i => by intro hc; cases hc) _
  -- the interdependency lines
  have h5 : read_lines ((List.range p.INTER.toNat).map (fun i =>
      "i " ++ show_long (g.parent i) ++ " " ++ show_ulong (g.child i))) =
      some ((List.range p.INTER.toNat).map (fun i => Line.inter (g.parent i) (g.child i))) :=
    read_lines_map _ _ (fun i => parse_line_inter _ _) (fun i => by intro hc; cases hc) _
  -- the problem line after the three comment lines
  have h2 : read_lines [ "c", "c  *** Minimum cost flow ***", "c",
      "p min " ++ show_long p.NODES ++ " " ++ show_long arcs ++ " " ++ show_long p.INTER ++
        (if p.PARENT = 0 then " n" else " a") ] =
      some [Line.problem p.NODES arcs p.INTER (decide (p.PARENT ≠ 0))] := by
    have c1 : parse_line "c" = some Line.other := parse_line_comment _ rfl
    have c2 : parse_line "c  *** Minimum cost flow ***" = some Line.other :=
      parse_line_comment _ rfl
    rw [read_lines, c1, read_lines, c2, read_lines, c1, read_lines, parse_line_problem,
      read_lines]
    rfl
  have h6 := read_lines_append _ _ h5 _ _ h4
  have h7 := read_lines_append _ _ h6 _ _ h3
  have h8 := read_lines_append _ _ h7 _ _ h2
  have h9 := read_lines_append _ _ h8 _ _ h1
  simp only [List.append_assoc] at h9 ⊢
  rw [h9]
  rfl

/-- Witness for C17: the instance `NODES = 10`, `SOURCES = 2`, `SINKS = 2`,
`DENSITY = 20`, seed 123, arc parents, `INTER = 2`.  The run completes; the
first line read back is the problem line `p min 10 20 2 a`, and 27 lines are
read in all: the problem line, 4 node lines, 20 arc lines and 2
interdependency lines. -/
theorem C17_round_trip_witness :
    ∃ out arcs g,
      printout 30 true "out.min" ⟨123, 10, 2, 2, 20, 1, 100, 50, 0, 0, 50, 50, 5, 30, 1, 2⟩
        (Globals.init 123) = Except.ok out ∧
      netgen 30 ⟨123, 10, 2, 2, 20, 1, 100, 50, 0, 0, 50, 50, 5, 30, 1, 2⟩ (Globals.init 123) =
        Except.ok (arcs, g) ∧
      read_lines out.file = some (
        Line.problem 10 arcs 2 true ::
        ((List.range 10).filterMap (fun i =>
            if g.B i ≠ 0 then some (Line.node ((i : Int) + 1) (g.B i)) else none) ++
          (List.range arcs.toNat).map (fun i =>
            Line.arc (g.FROM i) (g.TO i) ['0'] (g.U i) (g.C i)) ++
          (List.range 2).map (fun i => Line.inter (g.parent i) (g.child i)))) ∧
      (read_lines out.file).bind List.head? = some (Line.problem 10 20 2 true) ∧
      (read_lines out.file).map List.length = some 27 := by
  have hok : ((printout 30 true "out.min"
      ⟨123, 10, 2, 2, 20, 1, 100, 50, 0, 0, 50, 50, 5, 30, 1, 2⟩ (Globals.init 123)).toOption.map
        (fun o => ((read_lines o.file).bind List.head?, (read_lines o.file).map List.length))) =
      some (some (Line.problem 10 20 2 true), some 27) := by decide!
  cases h : printout 30 true "out.min"
      ⟨123, 10, 2, 2, 20, 1, 100, 50, 0, 0, 50, 50, 5, 30, 1, 2⟩ (Globals.init 123) with
  | error e =>
    rw [h] at hok
    cases hok
  | ok out =>
    rw [h] at hok
    have e := Option.some.inj hok
    obtain ⟨arcs, g, hn, _, _, hr, _⟩ := C17_round_trip 30 "out.min"
      ⟨123, 10, 2, 2, 20, 1, 100, 50, 0, 0, 50, 50, 5, 30, 1, 2⟩ (Globals.init 123) out
      (by unfold Params.stored in_int; decide) (by decide) (by decide) h
    exact ⟨out, arcs, g, rfl, hn, hr, congrArg Prod.fst e, congrArg Prod.snd e⟩

/-! ## Theorems: the balances are left alone outside the supply code -/

/-- Nothing done keeps the balances. -/
theorem Globals.KeepsB.same (g : Globals) : g.KeepsB g := ⟨rfl, fun h => h⟩

/-- Steps that keep the balances, one after the other. -/
theorem Globals.KeepsB.andThen {g g1 g2 : Globals} (h1 : g.KeepsB g1) (h2 : g1.KeepsB g2) :
    g.KeepsB g2 :=
  ⟨h2.1.trans h1.1, fun h => h2.2 (h1.2 h)⟩

/-- Draws keep the balances. -/
theorem Globals.Drawn.keeps {g g1 : Globals} (h : g.Drawn g1) : g.KeepsB g1 := by
  refine ⟨?_, h.2⟩
  rw [h.1]

/-- Storing an arc keeps the balances. -/
theorem save_arc_keeps (g g2 : Globals) (t hd : Nat) (c u : Int)
    (h : g.save_arc t hd c u = Except.ok g2) : g.KeepsB g2 := by
  obtain ⟨_, e⟩ := save_arc_spec _ _ _ _ _ _ h
  subst e
  exact ⟨rfl, fun hv => hv⟩

/-- `init_pred` keeps the balances. -/
theorem init_pred_keeps (sources : Nat) :
    ∀ (fuel i : Nat) (g r : Globals), init_pred sources fuel i g = Except.ok r → g.KeepsB r := by
  intro fuel
  induction fuel with
  | zero =>
    intro i g r h
    rw [init_pred] at h
    rcases except_ite_ok h with ⟨_, h⟩ | ⟨_, h⟩
    · cases h
    · cases h
      exact Globals.KeepsB.same g
  | succ n ih =>
    intro i g r h
    rw [init_pred] at h
    rcases except_ite_ok h with ⟨_, h⟩ | ⟨_, h⟩
    · obtain ⟨pr, _, h⟩ := except_bind_ok h
      have k := ih _ _ _ h
      exact ⟨k.1, k.2⟩
    · cases h
      exact Globals.KeepsB.same g

/-- `chain_even` keeps the balances. -/
theorem chain_even_keeps (p : Params) (bound : Nat) :
    ∀ (fuel i source : Nat) (indie : NetgenIndex) (g : Globals) (r : Nat × NetgenIndex × Globals),
      chain_even p bound fuel i source indie g = Except.ok r → g.KeepsB r.2.2 := by
  intro fuel
  induction fuel with
  | zero =>
    intro i source indie g r h
    rw [chain_even] at h
    rcases except_ite_ok h with ⟨_, h⟩ | ⟨_, h⟩
    · cases h
    · cases h
      exact Globals.KeepsB.same g
  | succ n ih =>
    intro i source indie g r h
    rw [chain_even] at h
    rcases except_ite_ok h with ⟨_, h⟩ | ⟨_, h⟩
    · obtain ⟨r1, g1, hd1⟩ : ∃ r1 g1, g.draw 1 indie.index_size = (r1, g1) := ⟨_, _, rfl⟩
      rw [hd1] at h
      dsimp only at h
      obtain ⟨c, ids1, hc⟩ : ∃ c i1, indie.choose_index (toUInt r1) = (c, i1) := ⟨_, _, rfl⟩
      rw [hc] at h
      dsimp only at h
      obtain ⟨_, _, h⟩ := except_bind_ok h
      obtain ⟨_, _, h⟩ := except_bind_ok h
      obtain ⟨_, _, h⟩ := except_bind_ok h
      have k1 := (draw_inv _ _ _ _ _ hd1).1.keeps
      have k := ih _ _ _ _ _ h
      exact k1.andThen ⟨k.1, k.2⟩
    · cases h
      exact Globals.KeepsB.same g

/-- `chain_random` keeps the balances. -/
theorem chain_random_keeps (p : Params) :
    ∀ (fuel i : Nat) (indie : NetgenIndex) (g : Globals) (r : NetgenIndex × Globals),
      chain_random p fuel i indie g = Except.ok r → g.KeepsB r.2 := by
  intro fuel
  induction fuel with
  | zero =>
    intro i indie g r h
    rw [chain_random] at h
    rcases except_ite_ok h with ⟨_, h⟩ | ⟨_, h⟩
    · cases h
    · cases h
      exact Globals.KeepsB.same g
  | succ n ih =>
    intro i indie g r h
    rw [chain_random] at h
    rcases except_ite_ok h with ⟨_, h⟩ | ⟨_, h⟩
    · obtain ⟨r1, g1, hd1⟩ : ∃ r1 g1, g.draw 1 indie.index_size = (r1, g1) := ⟨_, _, rfl⟩
      rw [hd1] at h
      dsimp only at h
      obtain ⟨c, ids1, hc⟩ : ∃ c i1, indie.choose_index (toUInt r1) = (c, i1) := ⟨_, _, rfl⟩
      rw [hc] at h
      dsimp only at h
      obtain ⟨r2, g2, hd2⟩ : ∃ r2 g2, g1.draw 1 p.SOURCES = (r2, g2) := ⟨_, _, rfl⟩
      rw [hd2] at h
      dsimp only at h
      obtain ⟨_, _, h⟩ := except_bind_ok h
      obtain ⟨_, _, h⟩ := except_bind_ok h
      obtain ⟨_, _, h⟩ := except_bind_ok h
      have k1 := (draw_inv _ _ _ _ _ hd1).1.keeps
      have k2 := (draw_inv _ _ _ _ _ hd2).1.keeps
      have k := ih _ _ _ _ h
      exact (k1.andThen k2).andThen ⟨k.1, k.2⟩
    · cases h
      exact Globals.KeepsB.same g

/-- `walk_chain` keeps the balances. -/
theorem walk_chain_keeps (source : Nat) :
    ∀ (fuel node : Nat) (sc : Int) (g : Globals) (r : Int × Globals),
      walk_chain source fuel node sc g = Except.ok r → g.KeepsB r.2 := by
  intro fuel
  induction fuel with
  | zero =>
    intro node sc g r h
    rw [walk_chain] at h
    rcases except_ite_ok h with ⟨_, h⟩ | ⟨_, h⟩
    · cases h
    · cases h
      exact Globals.KeepsB.same g
  | succ n ih =>
    intro node sc g r h
    rw [walk_chain] at h
    rcases except_ite_ok h with ⟨_, h⟩ | ⟨_, h⟩
    · obtain ⟨_, _, h⟩ := except_bind_ok h
      obtain ⟨_, _, h⟩ := except_bind_ok h
      obtain ⟨_, _, h⟩ := except_bind_ok h
      have k := ih _ _ _ _ h
      exact ⟨k.1, k.2⟩
    · cases h
      exact Globals.KeepsB.same g

/-- The inner loop of `sort_skeleton` keeps the balances. -/
theorem sort_inner_keeps (m : Int) :
    ∀ (fuel : Nat) (i : Int) (g r : Globals), sort_inner m fuel i g = Except.ok r →
      g.KeepsB r := by
  intro fuel
  induction fuel with
  | zero =>
    intro i g r h
    rw [sort_inner] at h
    rcases except_ite_ok h with ⟨_, h⟩ | ⟨_, h⟩
    · obtain ⟨_, _, h⟩ := except_bind_ok h
      obtain ⟨_, _, h⟩ := except_bind_ok h
      rcases except_ite_ok h with ⟨_, h⟩ | ⟨_, h⟩
      · cases h
      · cases h
        exact Globals.KeepsB.same g
    · cases h
      exact Globals.KeepsB.same g
  | succ n ih =>
    intro i g r h
    rw [sort_inner] at h
    rcases except_ite_ok h with ⟨_, h⟩ | ⟨_, h⟩
    · obtain ⟨_, _, h⟩ := except_bind_ok h
      obtain ⟨_, _, h⟩ := except_bind_ok h
      rcases except_ite_ok h with ⟨_, h⟩ | ⟨_, h⟩
      · obtain ⟨_, _, h⟩ := except_bind_ok h
        obtain ⟨_, _, h⟩ := except_bind_ok h
        obtain ⟨_, _, h⟩ := except_bind_ok h
        obtain ⟨_, _, h⟩ := except_bind_ok h
        obtain ⟨_, _, h⟩ := except_bind_ok h
        obtain ⟨_, _, h⟩ := except_bind_ok h
        have k := ih _ _ _ h
        exact ⟨k.1, k.2⟩
      · cases h
        exact Globals.KeepsB.same g
    · cases h
      exact Globals.KeepsB.same g

/-- The middle loop of `sort_skeleton` keeps the balances. -/
theorem sort_pass_keeps (fuel0 : Nat) (m k : Int) :
    ∀ (fuel : Nat) (j : Int) (g r : Globals), sort_pass fuel0 m k fuel j g = Except.ok r →
      g.KeepsB r := by
  intro fuel
  induction fuel with
  | zero =>
    intro j g r h
    rw [sort_pass] at h
    rcases except_ite_ok h with ⟨_, h⟩ | ⟨_, h⟩
    · cases h
    · cases h
      exact Globals.KeepsB.same g
  | succ n ih =>
    intro j g r h
    rw [sort_pass] at h
    rcases except_ite_ok h with ⟨_, h⟩ | ⟨_, h⟩
    · obtain ⟨g1, hg1, h⟩ := except_bind_ok h
      exact (sort_inner_keeps _ _ _ _ _ hg1).andThen (ih _ _ _ h)
    · cases h
      exact Globals.KeepsB.same g

/-- The outer loop of `sort_skeleton` keeps the balances. -/
theorem sort_gaps_keeps (fuel0 : Nat) (sort_count : Int) :
    ∀ (fuel : Nat) (m : Int) (g r : Globals),
      sort_gaps fuel0 sort_count fuel m g = Except.ok r → g.KeepsB r := by
  intro fuel
  induction fuel with
  | zero =>
    intro m g r h
    rw [sort_gaps] at h
    rcases except_ite_ok h with ⟨_, h⟩ | ⟨_, h⟩
    · cases h
    · cases h
      exact Globals.KeepsB.same g
  | succ n ih =>
    intro m g r h
    rw [sort_gaps] at h
    rcases except_ite_ok h with ⟨_, h⟩ | ⟨_, h⟩
    · obtain ⟨g1, hg1, h⟩ := except_bind_ok h
      exact (sort_pass_keeps _ _ _ _ _ _ _ hg1).andThen (ih _ _ _ h)
    · cases h
      exact Globals.KeepsB.same g

/-- `sort_skeleton` keeps the balances. -/
theorem sort_skeleton_keeps (fuel : Nat) (sort_count : Int) (g r : Globals)
    (h : sort_skeleton fuel sort_count g = Except.ok r) : g.KeepsB r :=
  sort_gaps_keeps _ _ _ _ _ _ h

/-- The rejection loop of `pick_head` keeps the balances. -/
theorem pick_limit_keeps (non_sources remaining_arcs : Nat) (upper_bound : Int) :
    ∀ (fuel : Nat) (g : Globals) (r : Int × Globals),
      pick_limit non_sources remaining_arcs upper_bound fuel g = Except.ok r → g.KeepsB r.2 := by
  intro fuel
  induction fuel with
  | zero =>
    intro g r h
    rw [pick_limit] at h
    cases h
  | succ n ih =>
    intro g r h
    rw [pick_limit] at h
    obtain ⟨r1, g1, hd1⟩ : ∃ r1 g1, g.draw 1 upper_bound = (r1, g1) := ⟨_, _, rfl⟩
    rw [hd1] at h
    dsimp only at h
    have k1 := (draw_inv _ _ _ _ _ hd1).1.keeps
    rcases except_ite_ok h with ⟨_, h⟩ | ⟨_, h⟩
    · exact k1.andThen (ih _ _ h)
    · have e := Except.ok.inj h
      rw [← e]
      exact k1

/-- The arc loop of `pick_head` keeps the balances. -/
theorem pick_arcs_keeps (p : Params) (desired_tail : Nat) :
    ∀ (fuel : Nat) (limit : Int) (indie : NetgenIndex) (g : Globals) (r : NetgenIndex × Globals),
      pick_arcs p desired_tail fuel limit indie g = Except.ok r → g.KeepsB r.2 := by
  intro fuel
  induction fuel with
  | zero =>
    intro limit indie g r h
    rw [pick_arcs] at h
    rcases except_ite_ok h with ⟨_, h⟩ | ⟨_, h⟩
    · cases h
    · cases h
      exact Globals.KeepsB.same g
  | succ n ih =>
    intro limit indie g r h
    by_cases hl : 0 < limit
    · obtain ⟨g4, cost, cap, d, _, h⟩ := pick_arcs_step p desired_tail n limit indie g r h hl
      have k := ih _ _ _ _ h
      exact d.keeps.andThen ⟨k.1, k.2⟩
    · rw [pick_arcs, if_neg hl] at h
      cases h
      exact Globals.KeepsB.same g

/-- `pick_head` keeps the balances. -/
theorem pick_head_keeps (fuel : Nat) (p : Params) (indie : NetgenIndex) (desired_tail : Nat)
    (g : Globals) (r : NetgenIndex × Globals)
    (h : pick_head fuel p indie desired_tail g = Except.ok r) : g.KeepsB r.2 := by
  unfold pick_head at h
  rcases except_ite_ok h with ⟨_, h⟩ | ⟨_, h⟩
  · cases h
    exact ⟨rfl, fun hv => hv⟩
  · rcases except_ite_ok h with ⟨_, h⟩ | ⟨_, h⟩
    · cases h
    · dsimp only at h
      split at h
      · split at h
        · obtain ⟨lg, hlg, h⟩ := except_bind_ok h
          have e := Except.ok.inj hlg
          subst e
          have k := pick_arcs_keeps _ _ _ _ _ _ _ h
          exact ⟨k.1, k.2⟩
        · obtain ⟨lg, hlg, h⟩ := except_bind_ok h
          have k1 := pick_limit_keeps _ _ _ _ _ _ hlg
          have k := pick_arcs_keeps _ _ _ _ _ _ _ h
          exact Globals.KeepsB.andThen ⟨k1.1, k1.2⟩ k
      · split at h
        · obtain ⟨lg, hlg, h⟩ := except_bind_ok h
          have e := Except.ok.inj hlg
          subst e
          have k := pick_arcs_keeps _ _ _ _ _ _ _ h
          exact ⟨k.1, k.2⟩
        · obtain ⟨lg, hlg, h⟩ := except_bind_ok h
          have k1 := pick_limit_keeps _ _ _ _ _ _ hlg
          have k := pick_arcs_keeps _ _ _ _ _ _ _ h
          exact Globals.KeepsB.andThen ⟨k1.1, k1.2⟩ k

/-- One draw keeps the balances. -/
theorem draw_keeps (g : Globals) (a b : Int) : g.KeepsB (g.draw a b).2 :=
  (draw_inv g _ a b _ rfl).1.keeps

/-- A conditional draw keeps the balances. -/
theorem ite_draw_keeps (c : Prop) [Decidable c] (g : Globals) (a b x : Int) :
    g.KeepsB (if c then g.draw a b else (x, g)).2 :=
  (ite_draw_inv c g _ a b x _ rfl).keeps

/-- `emit_group` keeps the balances. -/
theorem emit_group_keeps (p : Params) (source it : Nat) :
    ∀ (fuel i : Nat) (indie : NetgenIndex) (g : Globals) (r : Nat × NetgenIndex × Globals),
      emit_group p source it fuel i indie g = Except.ok r → g.KeepsB r.2.2 := by
  intro fuel
  induction fuel with
  | zero =>
    intro i indie g r h
    obtain ⟨_, _, h⟩ := except_bind_ok h
    rcases except_ite_ok h with ⟨_, h⟩ | ⟨_, h⟩
    · cases h
    · cases h
      exact Globals.KeepsB.same g
  | succ n ih =>
    intro i indie g r h
    obtain ⟨ti, _, h⟩ := except_bind_ok h
    rcases except_ite_ok h with ⟨_, h⟩ | ⟨_, h⟩
    · obtain ⟨hi, _, h⟩ := except_bind_ok h
      obtain ⟨r1, g1, hd1⟩ : ∃ r1 g1, g.draw 1 100 = (r1, g1) := ⟨_, _, rfl⟩
      rw [hd1] at h
      dsimp only at h
      have k1 := (draw_inv _ _ _ _ _ hd1).1.keeps
      have k2 := draw_keeps g1 1 100
      have k3 := ite_draw_keeps ((g1.draw 1 100).1 > p.HICOST) (g1.draw 1 100).2
        p.MINCOST p.MAXCOST p.MAXCOST
      rcases except_ite_ok h with ⟨_, h⟩ | ⟨_, h⟩
      · obtain ⟨bs, _, h⟩ := except_bind_ok h
        obtain ⟨y, _, h⟩ := except_bind_ok h
        obtain ⟨g4, hg4, h⟩ := except_bind_ok h
        have k4 := save_arc_keeps _ _ _ _ _ _ hg4
        exact (((k1.andThen k2).andThen k3).andThen k4).andThen (ih _ _ _ _ h)
      · obtain ⟨y, _, h⟩ := except_bind_ok h
        obtain ⟨g4, hg4, h⟩ := except_bind_ok h
        have k4 := save_arc_keeps _ _ _ _ _ _ hg4
        exact (((k1.andThen k2).andThen k3).andThen k4).andThen (ih _ _ _ _ h)
    · cases h
      exact Globals.KeepsB.same g

/-- `emit_arcs` keeps the balances. -/
theorem emit_arcs_keeps (fuel0 : Nat) (p : Params) (source : Nat) (sort_count : Int) :
    ∀ (fuel i : Nat) (it : Option Nat) (g : Globals) (r : Option Nat × Globals),
      emit_arcs fuel0 p source sort_count fuel i it g = Except.ok r → g.KeepsB r.2 := by
  intro fuel
  induction fuel with
  | zero =>
    intro i it g r h
    rw [emit_arcs] at h
    rcases except_ite_ok h with ⟨_, h⟩ | ⟨_, h⟩
    · cases h
    · cases h
      exact Globals.KeepsB.same g
  | succ n ih =>
    intro i it g r h
    rw [emit_arcs] at h
    rcases except_ite_ok h with ⟨_, h⟩ | ⟨_, h⟩
    · obtain ⟨_, _, h⟩ := except_bind_ok h
      obtain ⟨r1, hr1, h⟩ := except_bind_ok h
      obtain ⟨r2, hr2, h⟩ := except_bind_ok h
      have k1 := emit_group_keeps _ _ _ _ _ _ _ _ hr1
      have k2 := pick_head_keeps _ _ _ _ _ _ hr2
      exact (k1.andThen k2).andThen (ih _ _ _ _ h)
    · cases h
      exact Globals.KeepsB.same g

/-- The loop over the transshipment sinks keeps the balances. -/
theorem tsink_arcs_keeps (fuel0 : Nat) (p : Params) (it : Option Nat) :
    ∀ (fuel i : Nat) (g r : Globals), tsink_arcs fuel0 p it fuel i g = Except.ok r →
      g.KeepsB r := by
  intro fuel
  induction fuel with
  | zero =>
    intro i g r h
    rw [tsink_arcs] at h
    rcases except_ite_ok h with ⟨_, h⟩ | ⟨_, h⟩
    · cases h
    · cases h
      exact Globals.KeepsB.same g
  | succ n ih =>
    intro i g r h
    rw [tsink_arcs] at h
    rcases except_ite_ok h with ⟨_, h⟩ | ⟨_, h⟩
    · cases it with
      | none => cases h
      | some tl =>
        obtain ⟨r1, hr1, h⟩ := except_bind_ok h
        exact (pick_head_keeps _ _ _ _ _ _ hr1).andThen (ih _ _ _ h)
    · cases h
      exact Globals.KeepsB.same g

/-- The child draws keep the balances. -/
theorem draw_children_keeps (p : Params) :
    ∀ (fuel i : Nat) (arc_id : NetgenIndex) (g : Globals) (r : NetgenIndex × Globals),
      draw_children p fuel i arc_id g = Except.ok r → g.KeepsB r.2 := by
  intro fuel
  induction fuel with
  | zero =>
    intro i arc_id g r h
    rw [draw_children] at h
    rcases except_ite_ok h with ⟨_, h⟩ | ⟨_, h⟩
    · cases h
    · cases h
      exact Globals.KeepsB.same g
  | succ n ih =>
    intro i arc_id g r h
    rw [draw_children] at h
    rcases except_ite_ok h with ⟨_, h⟩ | ⟨_, h⟩
    · obtain ⟨r1, g1, hd1⟩ : ∃ r1 g1, g.draw 1 arc_id.index_size = (r1, g1) := ⟨_, _, rfl⟩
      rw [hd1] at h
      dsimp only at h
      obtain ⟨c, ids1, hc⟩ : ∃ c i1, arc_id.choose_index (toUInt r1) = (c, i1) := ⟨_, _, rfl⟩
      rw [hc] at h
      dsimp only at h
      obtain ⟨_, _, h⟩ := except_bind_ok h
      have k1 := (draw_inv _ _ _ _ _ hd1).1.keeps
      have k := ih _ _ _ _ h
      exact k1.andThen ⟨k.1, k.2⟩
    · cases h
      exact Globals.KeepsB.same g

/-- The parent draws keep the balances. -/
theorem draw_parents_keeps (p : Params) (fuel i : Nat) (ids : NetgenIndex) (g : Globals)
    (r : NetgenIndex × Globals) (h : draw_parents p fuel i ids g = Except.ok r) :
    g.KeepsB r.2 := by
  obtain ⟨e, v, _, _⟩ := draw_parents_spec p fuel i ids g r h
  refine ⟨?_, v⟩
  rw [e]

/-! ## Theorems: the sinks of a source -/

/-- A successful read of `sinks[i]` returns a value that has been set. -/
theorem rd_sinks_ok (sinks : Nat → Option Nat) (i : Int) (v : Nat)
    (h : rd_sinks sinks i = Except.ok v) : 0 ≤ i ∧ i < 5000 ∧ sinks i.toNat = some v := by
  unfold rd_sinks at h
  obtain ⟨o, ho, h⟩ := except_bind_ok h
  obtain ⟨h0, h1, e⟩ := rd_ok_eq _ _ _ _ ho
  cases o with
  | none => cases h
  | some w =>
    have e2 := Except.ok.inj h
    refine ⟨h0, h1, ?_⟩
    rw [← e, ← e2]

/-- A draw at a valid position takes an element out of a list in `[lo, hi)`. -/
theorem choose_in_range (lo hi : Nat) (x : NetgenIndex) (hx : ListIn lo hi x) (r : Int)
    (h1 : 1 ≤ r) (h2 : r ≤ x.index_list.length) :
    (lo : Int) ≤ (x.choose_index (toUInt r)).1 ∧ (x.choose_index (toUInt r)).1 < (hi : Int) ∧
      ListIn lo hi (x.choose_index (toUInt r)).2 ∧
      (x.choose_index (toUInt r)).2.index_list.length + 1 = x.index_list.length := by
  obtain ⟨hlen, hmem⟩ := hx
  have e : toUInt r = r.toNat := by
    unfold toUInt
    omega
  have hk1 : 1 ≤ r.toNat := by omega
  have hk2 : r.toNat ≤ x.index_list.length := by omega
  rw [e, choose_index_valid x r.toNat hk1 hk2]
  have hlt : r.toNat - 1 < x.index_list.length := by omega
  have hm : x.index_list.getD (r.toNat - 1) 0 ∈ x.index_list := by
    rw [List.getD_eq_getElem _ _ hlt]
    exact List.getElem_mem _
  have hl2 : (x.index_list.eraseIdx (r.toNat - 1)).length + 1 = x.index_list.length := by
    rw [List.length_eraseIdx, if_pos hlt]
    omega
  refine ⟨(hmem _ hm).1, (hmem _ hm).2, ⟨?_, ?_⟩, hl2⟩
  · show (x.index_list.eraseIdx (r.toNat - 1)).length ≤ 5000
    omega
  · intro v hv
    exact hmem v (List.mem_of_mem_eraseIdx hv)

/-- The sink draws of one source: with enough sinks left in the list, every
entry `sinks[i..sinks_per_source-1]` is set to a node index of the list's
range, and the balances are kept. -/
theorem draw_sinks_spec (lo hi sps : Nat) (hhi : hi ≤ 5000) :
    ∀ (fuel i : Nat) (sinks : Nat → Option Nat) (indie : NetgenIndex) (g : Globals)
      (r : (Nat → Option Nat) × NetgenIndex × Globals),
      draw_sinks sps fuel i sinks indie g = Except.ok r → g.rando.Valid → ListIn lo hi indie →
      sps ≤ i + indie.index_list.length → i ≤ sps → SinksIn lo hi sinks i →
      g.KeepsB r.2.2 ∧ SinksIn lo hi r.1 sps ∧ ListIn lo hi r.2.1 := by
  intro fuel
  induction fuel with
  | zero =>
    intro i sinks indie g r h hv hl hlen hile hs
    rw [draw_sinks] at h
    rcases except_ite_ok h with ⟨_, h⟩ | ⟨hn, h⟩
    · cases h
    · cases h
      have e : i = sps := by omega
      subst e
      exact ⟨Globals.KeepsB.same g, hs, hl⟩
  | succ n ih =>
    intro i sinks indie g r h hv hl hlen hile hs
    rw [draw_sinks] at h
    rcases except_ite_ok h with ⟨hlt, h⟩ | ⟨hn, h⟩
    · have hpos : (1 : Int) ≤ indie.index_list.length := by omega
      have hsmall : (indie.index_list.length : Int) ≤ 9223372036854775807 := by
        have := hl.1
        omega
      have b1 := random_bounds g.rando 1 indie.index_list.length hv (by omega) hpos hsmall
      have hch := choose_in_range lo hi indie hl _ b1.1 b1.2
      obtain ⟨r1, g1, hd1⟩ : ∃ r1 g1, g.draw 1 indie.index_size = (r1, g1) := ⟨_, _, rfl⟩
      rw [hd1] at h
      dsimp only at h
      obtain ⟨d1, er1⟩ := draw_inv _ _ _ _ _ hd1
      have er1' : r1 = (g.rando.random 1 indie.index_list.length).1 := er1
      rw [← er1'] at hch
      clear er1 er1' b1 hd1
      obtain ⟨c, ids1, hc⟩ : ∃ c i1, indie.choose_index (toUInt r1) = (c, i1) := ⟨_, _, rfl⟩
      rw [hc] at h hch
      dsimp only at h hch
      clear hc
      obtain ⟨c1, c2, c3, c4⟩ := hch
      obtain ⟨s2, hs2, h⟩ := except_bind_ok h
      obtain ⟨_, hib, es2⟩ := wr_ok_eq _ _ _ _ _ hs2
      have hib2 : (i : Int) < 5000 := hib
      clear hib
      have hi1 : toULong ((i : Int) + 1) = i + 1 := by
        unfold toULong
        omega
      have hcu : toULong c = c.toNat := by
        unfold toULong
        omega
      rw [hi1] at h
      clear hi1
      have hs3 : SinksIn lo hi s2 (i + 1) := by
        intro k hk
        rw [es2, Int.toNat_ofNat]
        by_cases e : k = i
        · rw [e, Function.update_same, hcu]
          exact ⟨c.toNat, rfl, by omega, by omega⟩
        · rw [Function.update_noteq e]
          exact hs k (by omega)
      clear hcu
      obtain ⟨a1, a2, a3⟩ := ih _ _ _ _ _ h (d1.2 hv) c3 (by omega) (by omega) hs3
      exact ⟨d1.keeps.andThen a1, a2, a3⟩
    · cases h
      have e : i = sps := by omega
      subst e
      exact ⟨Globals.KeepsB.same g, hs, hl⟩

/-- The loop that appends the sinks not yet drawn: every entry added is a node
index of the list's range. -/
theorem grow_sinks_spec (lo hi : Nat) (hhi : hi ≤ 5000) :
    ∀ (fuel sps : Nat) (sinks : Nat → Option Nat) (indie : NetgenIndex) (g : Globals)
      (r : Nat × (Nat → Option Nat) × NetgenIndex),
      grow_sinks fuel sps sinks indie g = Except.ok r → ListIn lo hi indie →
      SinksIn lo hi sinks sps →
      SinksIn lo hi r.2.1 r.1 ∧ sps ≤ r.1 ∧ r.1 ≤ sps + indie.index_list.length := by
  intro fuel
  induction fuel with
  | zero =>
    intro sps sinks indie g r h hl hs
    rw [grow_sinks] at h
    rcases except_ite_ok h with ⟨_, h⟩ | ⟨hn, h⟩
    · cases h
    · cases h
      exact ⟨hs, le_refl _, Nat.le_add_right _ _⟩
  | succ n ih =>
    intro sps sinks indie g r h hl hs
    rw [grow_sinks] at h
    rcases except_ite_ok h with ⟨hpos, h⟩ | ⟨hn, h⟩
    · have hpos2 : (1 : Int) ≤ indie.index_list.length := hpos
      have hch := choose_in_range lo hi indie hl 1 (le_refl _) hpos2
      have e1 : toUInt 1 = 1 := by decide
      rw [e1] at hch
      obtain ⟨c, ids1, hc⟩ : ∃ c i1, indie.choose_index 1 = (c, i1) := ⟨_, _, rfl⟩
      rw [hc] at h hch
      dsimp only at h hch
      clear hc
      obtain ⟨c1, c2, c3, c4⟩ := hch
      have hcu : toULong c = c.toNat := by
        unfold toULong
        omega
      obtain ⟨bj, _, h⟩ := except_bind_ok h
      rcases except_ite_ok h with ⟨_, h⟩ | ⟨_, h⟩
      · obtain ⟨s2, hs2, h⟩ := except_bind_ok h
        obtain ⟨_, hsp, es2⟩ := wr_ok_eq _ _ _ _ _ hs2
        have hsp2 : (sps : Int) < 5000 := hsp
        have hi1 : toULong ((sps : Int) + 1) = sps + 1 := by
          unfold toULong
          omega
        rw [hi1] at h
        clear hi1
        have hs3 : SinksIn lo hi s2 (sps + 1) := by
          intro k hk
          rw [es2, Int.toNat_ofNat]
          by_cases e : k = sps
          · rw [e, Function.update_same, hcu]
            exact ⟨c.toNat, rfl, by omega, by omega⟩
          · rw [Function.update_noteq e]
            exact hs k (by omega)
        clear hcu
        obtain ⟨a1, a2, a3⟩ := ih _ _ _ _ _ h c3 hs3
        exact ⟨a1, by omega, by omega⟩
      · clear hcu
        obtain ⟨a1, a2, a3⟩ := ih _ _ _ _ _ h c3 hs
        exact ⟨a1, a2, by omega⟩
    · cases h
      exact ⟨hs, le_refl _, Nat.le_add_right _ _⟩

/-! ## Theorems: the supply of a source spread over its sinks -/

/-- The value drawn by `random(1, q)` for `q ≥ 0` lies in `[0, q]`. -/
theorem random_one_to (r : NetgenRandom) (q : Int) (hv : r.Valid) (hq0 : 0 ≤ q)
    (hq1 : q ≤ 9223372036854775807) : 0 ≤ (r.random 1 q).1 ∧ (r.random 1 q).1 ≤ q := by
  by_cases h : 1 ≤ q
  · have := random_bounds r 1 q hv (by omega) h hq1
    omega
  · have := random_degenerate r 1 q (by omega)
    omega

/-- Two debits in a row, the second read after the first was stored: what the
balances look like afterwards. -/
theorem two_debits (B : Nat → Int) (si sj lo N : Nat) (a b : Int) (ha : 0 ≤ a) (hb : 0 ≤ b)
    (hsi : lo ≤ si ∧ si < N) (hsj : lo ≤ sj ∧ sj < N) :
    (∀ j, Function.update (Function.update B si (B si - a)) sj
        (Function.update B si (B si - a) sj - b) j ≤ B j) ∧
    (∀ j, B j - (a + b) ≤ Function.update (Function.update B si (B si - a)) sj
        (Function.update B si (B si - a) sj - b) j) ∧
    (∀ j, j < lo → Function.update (Function.update B si (B si - a)) sj
        (Function.update B si (B si - a) sj - b) j = B j) ∧
    (∀ j, N ≤ j → Function.update (Function.update B si (B si - a)) sj
        (Function.update B si (B si - a) sj - b) j = B j) ∧
    sum_below (Function.update (Function.update B si (B si - a)) sj
        (Function.update B si (B si - a) sj - b)) N = sum_below B N - (a + b) := by
  have key : ∀ j, Function.update (Function.update B si (B si - a)) sj
      (Function.update B si (B si - a) sj - b) j =
      if j = sj then (if sj = si then B si - a - b else B sj - b)
      else if j = si then B si - a else B j := by
    intro j
    by_cases e1 : j = sj
    · rw [e1, Function.update_same, if_pos rfl]
      by_cases e2 : sj = si
      · rw [e2, Function.update_same, if_pos rfl]
      · rw [Function.update_noteq e2, if_neg e2]
    · rw [Function.update_noteq e1, if_neg e1]
      by_cases e2 : j = si
      · rw [e2, Function.update_same, if_pos rfl]
      · rw [Function.update_noteq e2, if_neg e2]
  refine ⟨?_, ?_, ?_, ?_, ?_⟩
  · intro j
    rw [key]
    split
    · rename_i e
      subst e
      split
      · rename_i e2
        rw [e2]
        omega
      · omega
    · split
      · rename_i e
        rw [e]
        omega
      · omega
  · intro j
    rw [key]
    split
    · rename_i e
      subst e
      split
      · rename_i e2
        rw [e2]
        omega
      · omega
    · split
      · rename_i e
        rw [e]
        omega
      · omega
  · intro j hj
    rw [key, if_neg (by omega), if_neg (by omega)]
  · intro j hj
    rw [key, if_neg (by omega), if_neg (by omega)]
  · rw [sum_below_update_lt _ _ _ _ hsj.2, sum_below_update_lt _ _ _ _ hsi.2]
    by_cases e : sj = si
    · rw [e, Function.update_same]
      omega
    · rw [Function.update_noteq e]
      omega

/-- The supply loop of one source on sinks in `[lo, N)`: every pass takes
`supply_per_sink` off the balances of sinks, in two parts; balances outside
`[lo, N)` are untouched, no balance rises, and the sum over the nodes drops
by `supply_per_sink` per pass. -/
theorem spread_supply_spec (fuel0 source sps : Nat) (sinks : Nat → Option Nat) (cl q : Int)
    (lo N : Nat) (hsps2 : sps ≤ 10000) (hq0 : 0 ≤ q)
    (hq1 : q < 2147483648) (hs : SinksIn lo N sinks sps) :
    ∀ (fuel i k : Nat) (sc : Int) (g : Globals) (r : Int × Globals),
      spread_supply fuel0 source sps sinks cl q fuel i k sc g = Except.ok r → i ≤ sps →
      g.rando.Valid →
      (∀ j, -4611686018427387904 ≤ g.B j - ((sps : Int) - i) * q) →
      (∀ j, g.B j ≤ 4611686018427387904) →
      r.2.rando.Valid ∧ (∀ j, j < lo → r.2.B j = g.B j) ∧ (∀ j, N ≤ j → r.2.B j = g.B j) ∧
      (∀ j, g.B j - ((sps : Int) - i) * q ≤ r.2.B j) ∧ (∀ j, r.2.B j ≤ g.B j) ∧
      sum_below r.2.B N = sum_below g.B N - ((sps : Int) - i) * q := by
  intro fuel
  induction fuel with
  | zero =>
    intro i k sc g r h hi hv hA hU
    rw [spread_supply] at h
    rcases except_ite_ok h with ⟨_, h⟩ | ⟨hn, h⟩
    · cases h
    · cases h
      have e : i = sps := by omega
      subst e
      exact ⟨hv, fun _ _ => rfl, fun _ _ => rfl, fun j => by simp, fun _ => le_refl _, by simp⟩
  | succ n ih =>
    intro i k sc g r h hi hv hA hU
    rw [spread_supply] at h
    rcases except_ite_ok h with ⟨hlt, h⟩ | ⟨hn, h⟩
    · -- arithmetic of the pass
      have hXY : ((sps : Int) - ((i + 1 : Nat) : Int)) * q + q = ((sps : Int) - i) * q := by
        push_cast
        ring
      have hY0 : 0 ≤ ((sps : Int) - ((i + 1 : Nat) : Int)) * q := by
        apply mul_nonneg
        · push_cast
          omega
        · exact hq0
      generalize hX : ((sps : Int) - i) * q = X at hA hXY ⊢
      generalize hY : ((sps : Int) - ((i + 1 : Nat) : Int)) * q = Y at hXY hY0
      have hs1 : (0 : Int) ≤ (sps : Int) - 1 := by omega
      have hs2 : (sps : Int) - 1 ≤ 9223372036854775807 := by omega
      have hsb : -9223372036854775808 ≤ (sps : Int) - 1 := by omega
      have hsi := hs i hlt
      -- the draws
      have b1 := random_one_to g.rando q hv hq0 (by omega)
      have eb : wrapLong (toULong ((sps : Int) - 1)) = (sps : Int) - 1 := by
        rw [toULong_small _ hs1 (by omega), Int.toNat_of_nonneg hs1]
        exact wrapLong_id _ hsb hs2
      rw [eb] at h
      clear eb
      obtain ⟨r1, g1, hd1⟩ : ∃ r1 g1, g.draw 1 q = (r1, g1) := ⟨_, _, rfl⟩
      rw [hd1] at h
      dsimp only at h
      obtain ⟨d1, er1⟩ := draw_inv _ _ _ _ _ hd1
      rw [← er1] at b1
      clear er1 hd1
      have b2 := random_bounds g1.rando 0 ((sps : Int) - 1) (d1.2 hv) (le_refl _) hs1 hs2
      obtain ⟨r2, g2, hd2⟩ : ∃ r2 g2, g1.draw 0 ((sps : Int) - 1) = (r2, g2) := ⟨_, _, rfl⟩
      rw [hd2] at h
      dsimp only at h
      obtain ⟨d2, er2⟩ := draw_inv _ _ _ _ _ hd2
      rw [← er2] at b2
      clear er2 hd2
      have hr1w : -2147483648 ≤ r1 ∧ r1 ≤ 2147483647 := by omega
      have hqr : -2147483648 ≤ q - r1 ∧ q - r1 ≤ 2147483647 := by omega
      rw [wrapInt_id r1 hr1w.1 hr1w.2, wrapInt_id (q - r1) hqr.1 hqr.2,
        toULong_small r2 b2.1 (by omega)] at h
      have hsj := hs r2.toNat (by omega)
      -- the stores
      obtain ⟨t, _, h1⟩ := except_bind_ok h
      clear h
      obtain ⟨si, hrsi, h2⟩ := except_bind_ok h1
      clear h1
      obtain ⟨hh, _, h3⟩ := except_bind_ok h2
      clear h2
      obtain ⟨bi, hbi, h4⟩ := except_bind_ok h3
      clear h3
      obtain ⟨b1', hb1, h5⟩ := except_bind_ok h4
      clear h4
      obtain ⟨sj, hrsj, h6⟩ := except_bind_ok h5
      clear h5
      obtain ⟨bj, hbj, h7⟩ := except_bind_ok h6
      clear h6
      obtain ⟨b2', hb2, h8⟩ := except_bind_ok h7
      clear h7
      obtain ⟨k2, _, h⟩ := except_bind_ok h8
      clear h8
      have d3 := draw_keeps { g2 with tail := t, head := hh, B := b2' } 1 cl
      generalize ({ g2 with tail := t, head := hh, B := b2' } : Globals).draw 1 cl = dr at h d3
      obtain ⟨r3, g3⟩ := dr
      dsimp only at h
      have eB3 : g3.B = b2' := d3.1
      have hv3 : g3.rando.Valid := d3.2 (d2.2 (d1.2 hv))
      clear d3
      obtain ⟨_, _, esi⟩ := rd_sinks_ok _ _ _ hrsi
      obtain ⟨_, _, esj⟩ := rd_sinks_ok _ _ _ hrsj
      rw [Int.toNat_ofNat] at esi esj
      obtain ⟨vi, evi, hvi1, hvi2⟩ := hsi
      obtain ⟨vj, evj, hvj1, hvj2⟩ := hsj
      rw [evi] at esi
      rw [evj] at esj
      have e1 : vi = si := Option.some.inj esi
      have e2 : vj = sj := Option.some.inj esj
      subst e1 e2
      clear esi esj hrsi hrsj
      obtain ⟨_, _, ebi⟩ := rd_ok_eq _ _ _ _ hbi
      obtain ⟨_, _, eb1⟩ := wr_ok_eq _ _ _ _ _ hb1
      obtain ⟨_, _, ebj⟩ := rd_ok_eq _ _ _ _ hbj
      obtain ⟨_, _, eb2⟩ := wr_ok_eq _ _ _ _ _ hb2
      rw [Int.toNat_ofNat] at ebi eb1 ebj eb2
      clear hbi hb1 hbj hb2
      have eB : g2.B = g.B := by
        rw [d2.1, d1.1]
      rw [eB] at ebi eb1
      have hAi := hA vi
      have hUi := hU vi
      have hAj := hA vj
      have hUj := hU vj
      have w1 : -9223372036854775808 ≤ g.B vi - r1 ∧ g.B vi - r1 ≤ 9223372036854775807 := by
        omega
      rw [ebi, wrapLong_id _ w1.1 w1.2] at eb1
      subst eb1
      have hbjv : g.B vj - q ≤ bj ∧ bj ≤ g.B vj := by
        rw [ebj]
        by_cases e : vj = vi
        · rw [e, Function.update_same]
          omega
        · rw [Function.update_noteq e]
          omega
      have w2 : -9223372036854775808 ≤ bj - (q - r1) ∧ bj - (q - r1) ≤ 9223372036854775807 := by
        omega
      rw [wrapLong_id _ w2.1 w2.2, ebj] at eb2
      clear hbjv w1 w2 ebj ebi hAi hUi hAj hUj
      obtain ⟨t1, t2, t3, t4, t5⟩ := two_debits g.B vi vj lo N r1 (q - r1) b1.1 (by omega)
        ⟨hvi1, hvi2⟩ ⟨hvj1, hvj2⟩
      rw [← eb2] at t1 t2 t3 t4 t5
      clear eb2
      have hsum : r1 + (q - r1) = q := by ring
      rw [hsum] at t2 t5
      -- the chain position and the next pass
      have hib : toULong ((i : Int) + 1) = i + 1 := by
        rw [toULong_small _ (by omega) (by omega)]
        omega
      rw [hib] at h
      clear hib
      have hA3 : ∀ j, -4611686018427387904 ≤ g3.B j - ((sps : Int) - ((i + 1 : Nat) : Int)) * q := by
        intro j
        rw [eB3, hY]
        have := hA j
        have := t2 j
        omega
      have hU3 : ∀ j, g3.B j ≤ 4611686018427387904 := by
        intro j
        rw [eB3]
        have := hU j
        have := t1 j
        omega
      obtain ⟨a1, a2, a3, a4, a5, a6⟩ := ih _ _ _ _ _ h (by omega) hv3 hA3 hU3
      rw [hY] at a4 a6
      rw [eB3] at a2 a3 a4 a5 a6
      refine ⟨a1, ?_, ?_, ?_, ?_, ?_⟩
      · intro j hj
        rw [a2 j hj, t3 j hj]
      · intro j hj
        rw [a3 j hj, t4 j hj]
      · intro j
        have := a4 j
        have := t2 j
        omega
      · intro j
        have := a5 j
        have := t1 j
        omega
      · rw [a6, t5]
        omega
    · cases h
      have e : i = sps := by omega
      subst e
      exact ⟨hv, fun _ _ => rfl, fun _ _ => rfl, fun j => by simp, fun _ => le_refl _, by simp⟩

/-- The clamp `MAX(2, MIN(x, s))` lies in `[2, s]` when `s` is at least 2. -/
theorem max_min_clamp (x s : Nat) (h : 2 ≤ s) :
    2 ≤ MAX 2 (MIN x s) ∧ MAX 2 (MIN x s) ≤ s := by
  unfold MAX MIN
  split_ifs <;> omega

/-- Division and remainder of a supply by a count of sinks. -/
theorem div_rem_supply (b : Int) (sps : Nat) (hb0 : 0 ≤ b) (hs : 1 ≤ sps) :
    0 ≤ ((b.toNat / sps : Nat) : Int) ∧ ((b.toNat / sps : Nat) : Int) ≤ b ∧
    0 ≤ ((b.toNat % sps : Nat) : Int) ∧ ((b.toNat % sps : Nat) : Int) < sps ∧
    (sps : Int) * ((b.toNat / sps : Nat) : Int) + ((b.toNat % sps : Nat) : Int) = b := by
  have e := Nat.div_add_mod b.toNat sps
  have hm := Nat.mod_lt b.toNat (show sps > 0 by omega)
  have hd := Nat.div_le_self b.toNat sps
  have hb : ((b.toNat : Nat) : Int) = b := Int.toNat_of_nonneg hb0
  have e2 : ((sps * (b.toNat / sps) + b.toNat % sps : Nat) : Int) = b := by
    rw [e]
    exact hb
  rw [Nat.cast_add, Nat.cast_mul] at e2
  generalize b.toNat / sps = d at hd e2 ⊢
  generalize b.toNat % sps = m at hm e2 ⊢
  exact ⟨by omega, by omega, by omega, by omega, e2⟩

/-- The end of the pass of one source, from the read of `B[source - 1]` on:
the supply of the source is taken off the balances of its sinks, which lie in
`[lo, N)`; the other balances stay, none rises, and the sum over the nodes
drops by the supply of the source. -/
theorem source_tail_bal (fuel : Nat) (p : Params) (source : Nat) (it : Option Nat)
    (sps : Nat) (sinks : Nat → Option Nat) (cl sc : Int) (g : Globals)
    (r : Option Nat × Globals) (lo N : Nat) (hN : N ≤ 5000)
    (hsrc1 : 1 ≤ source) (hsrc2 : source ≤ lo) (hsps1 : 1 ≤ sps) (hsps2 : sps ≤ 10000)
    (hs : SinksIn lo N sinks sps) (hv : g.rando.Valid)
    (hb0 : 0 ≤ g.B (source - 1)) (hb1 : g.B (source - 1) ≤ 2147483647)
    (hL : ∀ j, -2305843009213693952 ≤ g.B j) (hU : ∀ j, g.B j ≤ 4611686018427387904)
    (h : (do
        let bs ← rd MAXNODES g.B (toULong ((source : Int) - 1))
        if sps = 0 then Except.error Stop.division_by_zero
        else do
          let supply_per_sink := wrapInt ((toULong bs / sps : Nat) : Int)
          let k ← rd MAXNODES g.pred source
          let (sort_count, g) ← spread_supply fuel source sps sinks cl
            supply_per_sink fuel 0 k sc g
          let s0 ← rd_sinks sinks 0
          let bs ← rd MAXNODES g.B (toULong ((source : Int) - 1))
          let b0 ← rd MAXNODES g.B s0
          let b ← wr MAXNODES g.B s0 (wrapLong (b0 - ((toULong bs % sps : Nat) : Int)))
          let g := { g with B := b }
          let g ← sort_skeleton fuel sort_count g
          let tl ← wr MAXARCS g.tail (wrapInt (sort_count + 1)) 0
          let g := { g with tail := tl }
          emit_arcs fuel p source sort_count fuel 1 it g) = Except.ok r) :
    r.2.rando.Valid ∧ (∀ j, j < lo → r.2.B j = g.B j) ∧ (∀ j, N ≤ j → r.2.B j = g.B j) ∧
    (∀ j, g.B j - g.B (source - 1) ≤ r.2.B j) ∧ (∀ j, r.2.B j ≤ g.B j) ∧
    sum_below r.2.B N = sum_below g.B N - g.B (source - 1) := by
  obtain ⟨v0, ev0, hv01, hv02⟩ := hs 0 (by omega)
  have hsrc : ((toULong ((source : Int) - 1) : Nat) : Int).toNat = source - 1 := by
    rw [toULong_small _ (by omega) (by omega)]
    omega
  obtain ⟨q0, q1, m0, m1, hqm⟩ := div_rem_supply (g.B (source - 1)) sps hb0 hsps1
  obtain ⟨bs, hbs, h1⟩ := except_bind_ok h
  clear h
  obtain ⟨_, _, ebs⟩ := rd_ok_eq _ _ _ _ hbs
  clear hbs
  rw [hsrc] at ebs
  subst ebs
  rcases except_ite_ok h1 with ⟨h0, _⟩ | ⟨_, h2⟩
  · omega
  clear h1
  obtain ⟨k, _, h3⟩ := except_bind_ok h2
  clear h2
  obtain ⟨r4, hr4, h4⟩ := except_bind_ok h3
  clear h3
  have hq : wrapInt ((toULong (g.B (source - 1)) / sps : Nat) : Int) =
      ((g.B (source - 1)).toNat / sps : Nat) := by
    rw [toULong_small _ hb0 (by omega)]
    exact wrapInt_id _ (by omega) (by omega)
  have hm : ((toULong (g.B (source - 1)) % sps : Nat) : Int) =
      ((g.B (source - 1)).toNat % sps : Nat) := by
    rw [toULong_small _ hb0 (by omega)]
  rw [hq] at hr4
  clear hq
  generalize hqd : (((g.B (source - 1)).toNat / sps : Nat) : Int) = q at hr4 q0 q1 hqm
  generalize hmd : (((g.B (source - 1)).toNat % sps : Nat) : Int) = m at hm m0 m1 hqm
  clear hqd hmd
  have hX0 : 0 ≤ (sps : Int) * q := mul_nonneg (by omega) q0
  have hcast : ((sps : Int) - ((0 : Nat) : Int)) * q = (sps : Int) * q := by
    push_cast
    ring
  obtain ⟨a1, a2, a3, a4, a5, a6⟩ := spread_supply_spec fuel source sps sinks cl q lo N hsps2
    q0 (by omega) hs fuel 0 k sc g r4 hr4 (by omega) hv
    (by
      intro j
      rw [hcast]
      have := hL j
      omega)
    hU
  clear hr4
  rw [hcast] at a4 a6
  clear hcast
  generalize hXd : (sps : Int) * q = X at hX0 hqm a4 a6
  clear hXd
  -- the remainder goes to the first sink
  obtain ⟨s0, hs0, h5⟩ := except_bind_ok h4
  clear h4
  obtain ⟨_, _, es0⟩ := rd_sinks_ok _ _ _ hs0
  clear hs0
  have e0 : (0 : Int).toNat = 0 := rfl
  rw [e0, ev0] at es0
  have e1 : v0 = s0 := Option.some.inj es0
  subst e1
  clear es0 e0
  obtain ⟨bs2, hbs2, h6⟩ := except_bind_ok h5
  clear h5
  obtain ⟨_, _, ebs2⟩ := rd_ok_eq _ _ _ _ hbs2
  clear hbs2
  rw [hsrc, a2 _ (by omega)] at ebs2
  subst ebs2
  rw [hm] at h6
  clear hm
  obtain ⟨b0, hb0r, h7⟩ := except_bind_ok h6
  clear h6
  obtain ⟨_, _, eb0⟩ := rd_ok_eq _ _ _ _ hb0r
  clear hb0r
  rw [Int.toNat_ofNat] at eb0
  obtain ⟨b, hbw, h8⟩ := except_bind_ok h7
  clear h7
  obtain ⟨_, _, eb⟩ := wr_ok_eq _ _ _ _ _ hbw
  clear hbw
  rw [Int.toNat_ofNat] at eb
  have w1 : -9223372036854775808 ≤ b0 - m ∧ b0 - m ≤ 9223372036854775807 := by
    rw [eb0]
    have := a4 v0
    have := a5 v0
    have := hL v0
    have := hU v0
    omega
  rw [wrapLong_id _ w1.1 w1.2, eb0] at eb
  clear w1 eb0
  -- the sort and the arcs keep the balances
  obtain ⟨g5, hg5, h9⟩ := except_bind_ok h8
  clear h8
  have k5 := sort_skeleton_keeps _ _ _ _ hg5
  clear hg5
  obtain ⟨tl, _, h10⟩ := except_bind_ok h9
  clear h9
  have k6 := emit_arcs_keeps _ _ _ _ _ _ _ _ _ h10
  clear h10
  have eB : r.2.B = b := by
    rw [k6.1]
    exact k5.1
  have hvr : r.2.rando.Valid := k6.2 (k5.2 a1)
  clear k5 k6
  rw [eB, eb]
  refine ⟨hvr, ?_, ?_, ?_, ?_, ?_⟩
  · intro j hj
    rw [Function.update_noteq (by omega), a2 j hj]
  · intro j hj
    rw [Function.update_noteq (by omega), a3 j hj]
  · intro j
    have := a4 j
    by_cases e : j = v0
    · rw [e, Function.update_same]
      rw [e] at this
      omega
    · rw [Function.update_noteq e]
      omega
  · intro j
    have := a5 j
    by_cases e : j = v0
    · rw [e, Function.update_same]
      rw [e] at this
      omega
    · rw [Function.update_noteq e]
      omega
  · rw [sum_below_update_lt _ _ _ _ hv02, a6]
    omega

/-- The list `NetgenIndex(lo, N - 1)` holds `N - lo` values, all in `[lo, N)`. -/
theorem create_listIn (lo N : Nat) (h : lo ≤ N) (hN : N ≤ 5000) :
    ListIn lo N (NetgenIndex.create (lo : Int) ((N : Int) - 1)) ∧
    (NetgenIndex.create (lo : Int) ((N : Int) - 1)).index_list.length = N - lo := by
  have hl := length_fill_range (lo : Int) ((N : Int) - 1)
  have hlen : (NetgenIndex.create (lo : Int) ((N : Int) - 1)).index_list.length = N - lo := by
    show (NetgenIndex.fill_range (lo : Int) ((N : Int) - 1)).length = N - lo
    omega
  refine ⟨⟨by omega, ?_⟩, hlen⟩
  intro v hv
  have := (mem_fill_range (lo : Int) ((N : Int) - 1) v).1 hv
  omega

/-- The pass of one source: the supply of the source is taken off the balances
of sink nodes; the other balances stay, none rises, and the sum over the nodes
drops by the supply of the source. -/
theorem process_source_bal (fuel : Nat) (p : Params) (source : Nat) (it : Option Nat)
    (g : Globals) (r : Option Nat × Globals) (lo N : Nat) (hN : N ≤ 5000)
    (hNN : p.NODES = (N : Int)) (hlo : p.NODES - p.SINKS = (lo : Int)) (hS2 : 2 ≤ p.SINKS)
    (hsrc1 : 1 ≤ source) (hsrc2 : source ≤ lo) (hv : g.rando.Valid)
    (hb0 : 0 ≤ g.B (source - 1)) (hb1 : g.B (source - 1) ≤ 2147483647)
    (hL : ∀ j, -2305843009213693952 ≤ g.B j) (hU : ∀ j, g.B j ≤ 4611686018427387904)
    (h : process_source fuel p source it g = Except.ok r) :
    r.2.rando.Valid ∧ (∀ j, j < lo → r.2.B j = g.B j) ∧ (∀ j, N ≤ j → r.2.B j = g.B j) ∧
    (∀ j, g.B j - g.B (source - 1) ≤ r.2.B j) ∧ (∀ j, r.2.B j ≤ g.B j) ∧
    sum_below r.2.B N = sum_below g.B N - g.B (source - 1) := by
  have hloN : lo ≤ N := by omega
  have hS : toULong p.SINKS = N - lo := by
    rw [toULong_small _ (by omega) (by omega)]
    omega
  have hc1 : wrapInt (wrapLong (p.NODES - p.SINKS)) = (lo : Int) := by
    rw [wrapLong_id _ (by omega) (by omega), wrapInt_id _ (by omega) (by omega)]
    exact hlo
  have hc2 : wrapInt (wrapLong (p.NODES - 1)) = (N : Int) - 1 := by
    rw [wrapLong_id _ (by omega) (by omega), wrapInt_id _ (by omega) (by omega), hNN]
  obtain ⟨hl1, hl2⟩ := create_listIn lo N hloN hN
  unfold process_source at h
  obtain ⟨_, _, h1⟩ := except_bind_ok h
  clear h
  obtain ⟨r1, hr1, h2⟩ := except_bind_ok h1
  clear h1
  have k1 := walk_chain_keeps _ _ _ _ _ _ hr1
  clear hr1
  rw [hc1, hc2] at h2
  obtain ⟨r2, hr2, h3⟩ := except_bind_ok h2
  clear h2
  generalize hsp : MAX 2 (MIN _ (toULong p.SINKS)) = sps0 at hr2 h3
  have hS3 : 2 ≤ toULong p.SINKS := by
    rw [hS]
    omega
  have hcl : 2 ≤ sps0 ∧ sps0 ≤ toULong p.SINKS := by
    rw [← hsp]
    exact max_min_clamp _ _ hS3
  rw [hS] at hcl
  clear hsp hS3
  obtain ⟨k2, hs2, hl3⟩ := draw_sinks_spec lo N sps0 hN fuel 0 _ _ _ r2 hr2 (k1.2 hv) hl1
    (by omega) (by omega) (fun k hk => absurd hk (Nat.not_lt_zero k))
  clear hr2
  have eB : r2.2.2.B = g.B := by
    rw [k2.1, k1.1]
  have hv2 : r2.2.2.rando.Valid := k2.2 (k1.2 hv)
  have fin : ∀ (sps : Nat) (sinks : Nat → Option Nat), 1 ≤ sps → sps ≤ 10000 →
      SinksIn lo N sinks sps →
      (do
        let bs ← rd MAXNODES r2.2.2.B (toULong ((source : Int) - 1))
        if sps = 0 then Except.error Stop.division_by_zero
        else do
          let supply_per_sink := wrapInt ((toULong bs / sps : Nat) : Int)
          let k ← rd MAXNODES r2.2.2.pred source
          let (sort_count, g) ← spread_supply fuel source sps sinks r1.1
            supply_per_sink fuel 0 k r1.1 r2.2.2
          let s0 ← rd_sinks sinks 0
          let bs ← rd MAXNODES g.B (toULong ((source : Int) - 1))
          let b0 ← rd MAXNODES g.B s0
          let b ← wr MAXNODES g.B s0 (wrapLong (b0 - ((toULong bs % sps : Nat) : Int)))
          let g := { g with B := b }
          let g ← sort_skeleton fuel sort_count g
          let tl ← wr MAXARCS g.tail (wrapInt (sort_count + 1)) 0
          let g := { g with tail := tl }
          emit_arcs fuel p source sort_count fuel 1 it g) = Except.ok r →
      r.2.rando.Valid ∧ (∀ j, j < lo → r.2.B j = g.B j) ∧ (∀ j, N ≤ j → r.2.B j = g.B j) ∧
      (∀ j, g.B j - g.B (source - 1) ≤ r.2.B j) ∧ (∀ j, r.2.B j ≤ g.B j) ∧
      sum_below r.2.B N = sum_below g.B N - g.B (source - 1) := by
    intro sps sinks hs1 hs2 hsk hh
    have res := source_tail_bal fuel p source it sps sinks r1.1 r1.1 r2.2.2 r lo N hN
      hsrc1 hsrc2 hs1 hs2 hsk hv2 (by rw [eB]; exact hb0) (by rw [eB]; exact hb1)
      (by rw [eB]; exact hL) (by rw [eB]; exact hU) hh
    rw [eB] at res
    exact res
  rcases except_ite_ok h3 with ⟨_, h4⟩ | ⟨_, h4⟩
  · obtain ⟨r3, hr3, h5⟩ := except_bind_ok h4
    obtain ⟨g1, g2, g3⟩ := grow_sinks_spec lo N hN fuel sps0 _ _ _ r3 hr3 hl3 hs2
    have : r3.1 ≤ sps0 + 5000 := le_trans g3 (Nat.add_le_add_left hl3.1 _)
    exact fin r3.1 r3.2.1 (by omega) (by omega) g1 h5
  · obtain ⟨r3, hr3, h5⟩ := except_bind_ok h4
    have e := Except.ok.inj hr3
    subst e
    exact fin sps0 r2.1 (by omega) (by omega) hs2 h5

/-- The loop over the sources: every source from `source` on has its supply
taken off the balances of sink nodes.  The balances below `lo` (the sources
among them) and from `N` on stay, none rises, and the sum over the nodes drops
by the supplies of the sources `source, ..., S`. -/
theorem all_sources_bal (fuel0 : Nat) (p : Params) (lo N S : Nat) (hN : N ≤ 5000)
    (hNN : p.NODES = (N : Int)) (hlo : p.NODES - p.SINKS = (lo : Int)) (hS2 : 2 ≤ p.SINKS)
    (hSS : toULong p.SOURCES = S) (hSlo : S ≤ lo) :
    ∀ (fuel source : Nat) (it : Option Nat) (g : Globals) (r : Option Nat × Globals),
      all_sources fuel0 p fuel source it g = Except.ok r →
      1 ≤ source → source ≤ S + 1 → g.rando.Valid →
      (∀ j, j < S → 0 ≤ g.B j ∧ g.B j ≤ 2147483647) →
      (∀ j, -(2147483648 * ((source : Int) - 1)) ≤ g.B j) → (∀ j, g.B j ≤ 2147483648) →
      r.2.rando.Valid ∧ (∀ j, j < lo → r.2.B j = g.B j) ∧ (∀ j, N ≤ j → r.2.B j = g.B j) ∧
      (∀ j, -(2147483648 * (S : Int)) ≤ r.2.B j) ∧ (∀ j, r.2.B j ≤ g.B j) ∧
      sum_below r.2.B N = sum_below g.B N - (sum_below g.B S - sum_below g.B (source - 1)) := by
  have hloN : lo ≤ N := by omega
  have base : ∀ (source : Nat) (g : Globals), ¬ source ≤ S → source ≤ S + 1 →
      g.rando.Valid → (∀ j, -(2147483648 * ((source : Int) - 1)) ≤ g.B j) →
      g.rando.Valid ∧ (∀ j, j < lo → g.B j = g.B j) ∧ (∀ j, N ≤ j → g.B j = g.B j) ∧
      (∀ j, -(2147483648 * (S : Int)) ≤ g.B j) ∧ (∀ j, g.B j ≤ g.B j) ∧
      sum_below g.B N = sum_below g.B N - (sum_below g.B S - sum_below g.B (source - 1)) := by
    intro source g hn h2 hv hL
    have e : source - 1 = S := by omega
    rw [e]
    refine ⟨hv, fun _ _ => rfl, fun _ _ => rfl, ?_, fun _ => le_refl _, by omega⟩
    intro j
    have := hL j
    omega
  intro fuel
  induction fuel with
  | zero =>
    intro source it g r h h1 h2 hv hB hL hU
    rw [all_sources, hSS] at h
    rcases except_ite_ok h with ⟨_, h⟩ | ⟨hn, h⟩
    · cases h
    · have e := Except.ok.inj h
      subst e
      exact base source g hn h2 hv hL
  | succ n ih =>
    intro source it g r h h1 h2 hv hB hL hU
    rw [all_sources, hSS] at h
    rcases except_ite_ok h with ⟨hle, h⟩ | ⟨hn, h⟩
    · obtain ⟨r1, hr1, h3⟩ := except_bind_ok h
      clear h
      have hbs := hB (source - 1) (by omega)
      obtain ⟨a1, a2, a3, a4, a5, a6⟩ := process_source_bal fuel0 p source it g r1 lo N hN hNN
        hlo hS2 h1 (by omega) hv hbs.1 hbs.2
        (by
          intro j
          have := hL j
          omega)
        (by
          intro j
          have := hU j
          omega) hr1
      clear hr1
      have hnx : toULong ((source : Int) + 1) = source + 1 := by
        rw [toULong_small _ (by omega) (by omega)]
        omega
      rw [hnx] at h3
      obtain ⟨c1, c2, c3, c4, c5, c6⟩ := ih (source + 1) r1.1 r1.2 r h3 (by omega) (by omega) a1
        (by
          intro j hj
          rw [a2 j (by omega)]
          exact hB j hj)
        (by
          intro j
          have := a4 j
          have := hL j
          push_cast
          omega)
        (by
          intro j
          have := a5 j
          have := hU j
          omega)
      have e1 : sum_below r1.2.B S = sum_below g.B S :=
        sum_below_congr _ _ S (fun j hj => a2 j (by omega))
      have e2 : sum_below r1.2.B (source + 1 - 1) = sum_below g.B (source - 1) + g.B (source - 1) := by
        obtain ⟨s, rfl⟩ : ∃ s, source = s + 1 := ⟨source - 1, by omega⟩
        rw [Nat.add_sub_cancel, Nat.add_sub_cancel]
        rw [sum_below_congr r1.2.B g.B (s + 1) (fun j hj => a2 j (by omega))]
        rfl
      rw [e1, e2, a6] at c6
      refine ⟨c1, ?_, ?_, c4, ?_, ?_⟩
      · intro j hj
        rw [c2 j hj, a2 j hj]
      · intro j hj
        rw [c3 j hj, a3 j hj]
      · intro j
        have := c5 j
        have := a5 j
        omega
      · rw [c6]
        omega
    · have e := Except.ok.inj h
      subst e
      exact base source g hn h2 hv hL

/-- A sum taken from its first term. -/
theorem sum_below_shift (f : Nat → Int) :
    ∀ n : Nat, sum_below f (n + 1) = f 0 + sum_below (fun k => f (k + 1)) n := by
  intro n
  induction n with
  | zero =>
    show (0 : Int) + f 0 = f 0 + 0
    ring
  | succ m ih =>
    show sum_below f (m + 1) + f (m + 1) = f 0 + (sum_below (fun k => f (k + 1)) m + f (m + 1))
    rw [ih]
    ring

/-- A sum of zeros. -/
theorem sum_below_zero (f : Nat → Int) (a : Nat) :
    ∀ n : Nat, (∀ j, a ≤ j → j < a + n → f j = 0) → sum_below f (a + n) = sum_below f a := by
  intro n
  induction n with
  | zero =>
    intro _
    rfl
  | succ m ih =>
    intro h
    show sum_below f (a + m) + f (a + m) = sum_below f a
    rw [ih (fun j h1 h2 => h j h1 (by omega)), h (a + m) (by omega) (by omega)]
    ring

/-- The loop of `node_parents` and the balances: every pass moves the balance
of the parent node, negated, into the capacity of its new arc, so the sum of
the balances over the nodes goes up by the capacities of the arcs added. -/
theorem node_parents_loop_sum (p : Params) (N : Nat) (hN : N ≤ 5000) :
    ∀ (fuel : Nat) (i : Int) (g r : Globals),
      node_parents_loop p fuel i g = Except.ok r → 0 ≤ i →
      (∀ j, -4611686018427387904 ≤ g.B j ∧ g.B j ≤ 4611686018427387904) →
      (∀ k : Nat, i ≤ (k : Int) → (k : Int) < p.INTER → 1 ≤ g.parent k ∧ g.parent k ≤ N) →
      r.arc_count = g.arc_count + (p.INTER - i).toNat ∧
      (∀ a, a < g.arc_count → r.U a = g.U a) ∧
      sum_below r.B N =
        sum_below g.B N + sum_below (fun k => r.U (g.arc_count + k)) (p.INTER - i).toNat := by
  intro fuel
  induction fuel with
  | zero =>
    intro i g r h h0 hB hP
    rw [node_parents_loop] at h
    rcases except_ite_ok h with ⟨_, h⟩ | ⟨hn, h⟩
    · cases h
    · have e := Except.ok.inj h
      subst e
      have e0 : (p.INTER - i).toNat = 0 := by omega
      rw [e0]
      exact ⟨rfl, fun _ _ => rfl, by simp [sum_below]⟩
  | succ n ih =>
    intro i g r h h0 hB hP
    rw [node_parents_loop] at h
    rcases except_ite_ok h with ⟨hl, h1⟩ | ⟨hn, h⟩
    · clear h
      obtain ⟨pi, hpi, h2⟩ := except_bind_ok h1
      clear h1
      obtain ⟨f, hf, h3⟩ := except_bind_ok h2
      clear h2
      obtain ⟨t, _, h4⟩ := except_bind_ok h3
      clear h3
      obtain ⟨bp, hbp, h5⟩ := except_bind_ok h4
      clear h4
      obtain ⟨u, hu, h6⟩ := except_bind_ok h5
      clear h5
      obtain ⟨c, _, h7⟩ := except_bind_ok h6
      clear h6
      obtain ⟨b, hb, h8⟩ := except_bind_ok h7
      clear h7
      obtain ⟨par, hpar, h9⟩ := except_bind_ok h8
      clear h8
      obtain ⟨_, hi, epi⟩ := rd_ok_eq _ _ _ _ hpi
      obtain ⟨_, hac, _⟩ := wr_ok_eq _ _ _ _ _ hf
      obtain ⟨_, _, ebp⟩ := rd_ok_eq _ _ _ _ hbp
      obtain ⟨_, _, eu⟩ := wr_ok_eq _ _ _ _ _ hu
      obtain ⟨_, _, eb⟩ := wr_ok_eq _ _ _ _ _ hb
      obtain ⟨_, _, epar⟩ := wr_ok_eq _ _ _ _ _ hpar
      clear hpi hf hbp hu hb hpar
      have hi2 : i < 60000 := hi
      have hac2 : (g.arc_count : Int) < 60000 := hac
      have hPi := hP i.toNat (by omega) (by omega)
      rw [← epi] at hPi
      have hx : wrapLong (pi - 1) = pi - 1 := wrapLong_id _ (by omega) (by omega)
      rw [hx] at ebp eb
      have hBx := hB (pi - 1).toNat
      rw [← ebp] at hBx
      have hu2 : wrapLong (-bp) = -bp := wrapLong_id _ (by omega) (by omega)
      rw [hu2, Int.toNat_ofNat] at eu
      have hw : wrapInt (i + 1) = i + 1 := wrapInt_id _ (by omega) (by omega)
      have hac3 : toULong ((g.arc_count : Int) + 1) = g.arc_count + 1 := by
        rw [toULong_small _ (by omega) (by omega)]
        omega
      rw [hw, hac3] at h9
      clear hx hu2 hw hac3
      obtain ⟨a1, a2, a3⟩ := ih _ _ _ h9 (by omega)
        (by
          intro j
          show -4611686018427387904 ≤ b j ∧ b j ≤ 4611686018427387904
          rw [eb]
          by_cases e : j = (pi - 1).toNat
          · rw [e, Function.update_same]
            omega
          · rw [Function.update_noteq e]
            exact hB j)
        (by
          intro k hk1 hk2
          show 1 ≤ par k ∧ par k ≤ N
          rw [epar, Function.update_noteq (by omega)]
          exact hP k (by omega) hk2)
      clear h9
      have em : (p.INTER - i).toNat = (p.INTER - (i + 1)).toNat + 1 := by omega
      have a1' : r.arc_count = g.arc_count + 1 + (p.INTER - (i + 1)).toNat := a1
      have a2' : ∀ a, a < g.arc_count + 1 → r.U a = u a := a2
      have a3' : sum_below r.B N = sum_below b N +
          sum_below (fun k => r.U (g.arc_count + 1 + k)) (p.INTER - (i + 1)).toNat := a3
      clear a1 a2 a3
      rw [em]
      generalize (p.INTER - (i + 1)).toNat = m at a1' a3' ⊢
      refine ⟨by omega, ?_, ?_⟩
      · intro a ha
        rw [a2' a (by omega), eu, Function.update_noteq (by omega)]
      · rw [sum_below_shift, a3', eb, sum_below_update_lt _ _ _ _ (by omega)]
        have e0 : r.U (g.arc_count + 0) = -bp := by
          rw [Nat.add_zero, a2' _ (by omega), eu, Function.update_same]
        have e1 : sum_below (fun k => r.U (g.arc_count + (k + 1))) m =
            sum_below (fun k => r.U (g.arc_count + 1 + k)) m :=
          sum_below_congr _ _ m (fun j _ => by
            show r.U (g.arc_count + (j + 1)) = r.U (g.arc_count + 1 + j)
            rw [Nat.add_assoc, Nat.add_comm 1 j])
        rw [e0, e1, ← ebp]
        ring
    · have e := Except.ok.inj h
      subst e
      have e0 : (p.INTER - i).toNat = 0 := by omega
      rw [e0]
      exact ⟨rfl, fun _ _ => rfl, by simp [sum_below]⟩

/-- A completed loop of `create_supply` had fuel for every pass left. -/
theorem create_supply_loop_fuel (sources : Nat) (sps : Int) (hs : sources ≤ 5000) :
    ∀ (fuel i : Nat) (g r : Globals),
      create_supply_loop sources sps fuel i g = Except.ok r → sources ≤ i + fuel := by
  intro fuel
  induction fuel with
  | zero =>
    intro i g r h
    rw [create_supply_loop] at h
    rcases except_ite_ok h with ⟨_, h⟩ | ⟨hn, _⟩
    · cases h
    · omega
  | succ n ih =>
    intro i g r h
    rw [create_supply_loop] at h
    rcases except_ite_ok h with ⟨hlt, h1⟩ | ⟨hn, _⟩
    · clear h
      have eb : wrapLong (toULong ((sources : Int) - 1)) = (sources : Int) - 1 := by
        rw [toULong_small _ (by omega) (by omega), Int.toNat_of_nonneg (by omega)]
        exact wrapLong_id _ (by omega) (by omega)
      rw [eb] at h1
      clear eb
      obtain ⟨r1, g1, hd1⟩ : ∃ r1 g1, g.draw 1 sps = (r1, g1) := ⟨_, _, rfl⟩
      rw [hd1] at h1
      dsimp only at h1
      clear hd1
      obtain ⟨bi, _, h2⟩ := except_bind_ok h1
      clear h1
      obtain ⟨b, _, h3⟩ := except_bind_ok h2
      clear h2
      obtain ⟨bt, _, h4⟩ := except_bind_ok h3
      clear h3
      obtain ⟨b2, _, h5⟩ := except_bind_ok h4
      clear h4
      have hnx : toULong ((i : Int) + 1) = i + 1 := by
        rw [toULong_small _ (by omega) (by omega)]
        omega
      rw [hnx] at h5
      have := ih _ _ _ h5
      omega
    · omega

/-- A completed `create_supply` had fuel for every source. -/
theorem create_supply_fuel (fuel sources : Nat) (supply : Int) (g r : Globals)
    (hs : sources ≤ 5000) (h : create_supply fuel sources supply g = Except.ok r) :
    sources ≤ fuel := by
  unfold create_supply at h
  rcases except_ite_ok h with ⟨_, h1⟩ | ⟨_, h1⟩
  · cases h1
  · obtain ⟨r1, hr1, _⟩ := except_bind_ok h1
    have := create_supply_loop_fuel sources _ hs fuel 0 g r1 hr1
    omega

/-! ## Theorems: the sum of the balances -/

/-- The generation part of `netgen()` and the sum of the balances, for
parameters that pass the checks with at least two sinks, started on zero
balances: with arc parents the balances sum to zero; with node parents the sum
is the total capacity of the `INTER` arcs that `node_parents` appended. -/
theorem generate_balance (fuel : Nat) (p : Params) (g r : Globals) (hs : p.stored)
    (hv : sanity_checks p = none) (hS2 : 2 ≤ p.SINKS) (hgv : g.rando.Valid)
    (hg0 : ∀ j, g.B j = 0) (h : generate fuel p g = Except.ok r) :
    (p.PARENT = 1 → sum_below r.B p.NODES.toNat = 0) ∧
    (p.PARENT = 0 → sum_below r.B p.NODES.toNat =
      sum_below (fun k => r.U (r.arc_count - p.INTER.toNat + k)) p.INTER.toNat) := by
  obtain ⟨g1, g2, i3, indie3, g3, indie4, g4, it5, g5, g6, arc7, g7, ids8, g8,
    hcs, hip, hce, hcr, has, hts, hdc, hpar, hnp⟩ := generate_inv fuel p g r h
  clear h
  obtain ⟨_, f2, f3, _, _, f6, f7, f8, _, f10, _, _, _, _, _, _, _, _, f19, _⟩ :=
    sanity_facts p hs hv
  have hsup : p.SUPPLY ≤ 2147483647 := by
    unfold Params.stored in_int at hs
    omega
  have hint : p.INTER ≤ 2147483647 := by
    unfold Params.stored in_int at hs
    omega
  clear hs hv
  obtain ⟨N, hNN⟩ : ∃ N : Nat, p.NODES = (N : Int) := ⟨p.NODES.toNat, by omega⟩
  obtain ⟨lo, hlo⟩ : ∃ lo : Nat, p.NODES - p.SINKS = (lo : Int) :=
    ⟨(p.NODES - p.SINKS).toNat, by omega⟩
  obtain ⟨S, hS⟩ : ∃ S : Nat, p.SOURCES = (S : Int) := ⟨p.SOURCES.toNat, by omega⟩
  have hSS : toULong p.SOURCES = S := by
    rw [toULong_small _ (by omega) (by omega)]
    omega
  have eN : p.NODES.toNat = N := by omega
  rw [eN]
  rw [hSS] at hcs hip
  -- the supply of the sources
  have hfuel := create_supply_fuel _ _ _ _ _ (by omega) hcs
  obtain ⟨g1', hcs', c1, c2, c3, c4, _⟩ := create_supply_spec fuel S p.SUPPLY
    { g with arc_count := 0
             nodes_left := toULong (wrapLong (wrapLong (p.NODES - p.SINKS) + p.TSINKS)) }
    hgv (by omega)
    (by omega) (by omega) (by omega) (fun i _ => hg0 i) hfuel
  have e1 : g1 = g1' := Except.ok.inj (hcs.symm.trans hcs')
  subst e1
  clear hcs hcs' hfuel
  have c4' : ∀ j, S ≤ j → g1.B j = 0 := fun j hj => by
    rw [c4 j hj]
    exact hg0 j
  have c5 : ∀ j, j < S → g1.B j ≤ p.SUPPLY := fun j hj => by
    rw [← c3]
    exact sum_below_ge_term _ S c2 j hj
  -- the chains keep the balances
  have k2 := init_pred_keeps _ _ _ _ _ hip
  have k3 := chain_even_keeps _ _ _ _ _ _ _ _ hce
  have k4 := chain_random_keeps _ _ _ _ _ _ hcr
  clear hip hce hcr
  have eB4 : g4.B = g1.B := by
    rw [k4.1, k3.1, k2.1]
  have hv4 : g4.rando.Valid := k4.2 (k3.2 (k2.2 c1))
  clear k2 k3 k4
  -- the sources
  obtain ⟨a1, _, _, a4, a5, a6⟩ := all_sources_bal fuel p lo N S (by omega) hNN hlo hS2 hSS
    (by omega) fuel 1 none g4 (it5, g5) has (le_refl _) (by omega) hv4
    (by
      intro j hj
      rw [eB4]
      have := c2 j hj
      have := c5 j hj
      omega)
    (by
      intro j
      rw [eB4]
      have hz : -(2147483648 * ((((1 : Nat) : Int)) - 1)) = 0 := by norm_num
      rw [hz]
      by_cases e : j < S
      · exact c2 j e
      · rw [c4' j (by omega)])
    (by
      intro j
      rw [eB4]
      by_cases e : j < S
      · have := c5 j e
        omega
      · rw [c4' j (by omega)]
        omega)
  clear has
  dsimp only at a1 a4 a5 a6
  have hz : sum_below g1.B N = sum_below g1.B S := by
    have e : N = S + (N - S) := by omega
    rw [e]
    exact sum_below_zero _ S (N - S) (fun j hj _ => c4' j hj)
  have s5 : sum_below g5.B N = 0 := by
    rw [a6, eB4, hz]
    show sum_below g1.B S - (sum_below g1.B S - 0) = 0
    ring
  have a5' : ∀ j, g5.B j ≤ 2147483648 := by
    intro j
    have := a5 j
    rw [eB4] at this
    by_cases e : j < S
    · have := c5 j e
      omega
    · rw [c4' j (by omega)] at this
      omega
  clear a5 a6 hz c2 c3 c4 c4' c5 eB4 hv4
  -- the other arcs and the draws of the interdependencies keep the balances
  have k6 := tsink_arcs_keeps _ _ _ _ _ _ _ hts
  have k7 := draw_children_keeps _ _ _ _ _ _ hdc
  have k8 := draw_parents_keeps _ _ _ _ _ _ hpar
  clear hts hdc
  have eB8 : g8.B = g5.B := by
    rw [k8.1, k7.1, k6.1]
  clear k6 k7 k8
  constructor
  · intro hp
    rw [if_neg (by omega)] at hnp
    have e := Except.ok.inj hnp
    rw [← e, eB8]
    exact s5
  · intro hp
    rw [if_pos hp] at hnp hpar
    have hi := f19 hp
    obtain ⟨_, _, n3, _⟩ := node_parents_loop_spec p fuel 0 g8 r hnp (le_refl _)
    obtain ⟨_, _, _, b4⟩ := draw_parents_spec p fuel 0 _ g7 (ids8, g8) hpar
    have e1 : wrapInt (wrapLong (wrapLong (p.NODES - p.SINKS) + 1)) = p.NODES - p.SINKS + 1 := by
      rw [wrapLong_id (p.NODES - p.SINKS) (by omega) (by omega),
        wrapLong_id _ (by omega) (by omega), wrapInt_id _ (by omega) (by omega)]
    have e2 : wrapInt p.NODES = p.NODES := wrapInt_id _ (by omega) (by omega)
    rw [e1, e2] at b4
    dsimp only at b4
    clear e1 e2 hpar
    have hP : ∀ k : Nat, (0 : Int) ≤ (k : Int) → (k : Int) < p.INTER →
        1 ≤ g8.parent k ∧ g8.parent k ≤ N := by
      intro k hk1 hk2
      obtain ⟨_, c2, _, _⟩ := n3 k hk1 hk2
      have hti : k < toULong p.INTER := by
        rw [toULong_small _ (by omega) (by omega)]
        omega
      rcases b4 k (Nat.zero_le _) hti with z | m
      · rw [z] at c2
        have : wrapLong ((0 : Int) - 1) = -1 := wrapLong_id _ (by omega) (by omega)
        rw [this] at c2
        omega
      · have := (mem_fill_range _ _ _).mp m
        omega
    clear n3 b4
    obtain ⟨d1, _, d3⟩ := node_parents_loop_sum p N (by omega) fuel 0 g8 r hnp (le_refl _)
      (by
        intro j
        rw [eB8]
        have := a4 j
        have := a5' j
        omega)
      hP
    have e3 : p.INTER - 0 = p.INTER := sub_zero _
    rw [e3] at d1 d3
    have e4 : r.arc_count - p.INTER.toNat = g8.arc_count := by omega
    rw [e4, d3, eB8, s5]
    ring

/-- C12 (counterexample): with `NODES = 3`, `SOURCES = 1`, `SINKS = 2`,
`DENSITY = 3`, `SUPPLY = 10`, node parents (`PARENT = 0`), `INTER = 1` and
seed 1 the parameters pass the checks and the run ends with the balances
`B = [10, 0, -5]`, whose sum is 5: `node_parents` has set the demand of the
parent sink to zero.  With `SINKS = 1` (`NODES = 2`, `SUPPLY = 11`, arc
parents, `INTER = 0`) the run ends with `B = [6, -5]`, whose sum is 1. -/
theorem C12_balance_sum_nonzero :
    sanity_checks ⟨1, 3, 1, 2, 3, 1, 100, 10, 0, 0, 50, 50, 5, 30, 0, 1⟩ = none ∧
    ((netgen 10 ⟨1, 3, 1, 2, 3, 1, 100, 10, 0, 0, 50, 50, 5, 30, 0, 1⟩
        (Globals.init 1)).toOption.map
      (fun r => (r.2.B 0, r.2.B 1, r.2.B 2, sum_below r.2.B 3))) = some (10, 0, -5, 5) ∧
    sanity_checks ⟨1, 2, 1, 1, 2, 1, 100, 11, 0, 0, 50, 50, 5, 30, 1, 0⟩ = none ∧
    ((netgen 10 ⟨1, 2, 1, 1, 2, 1, 100, 11, 0, 0, 50, 50, 5, 30, 1, 0⟩
        (Globals.init 1)).toOption.map
      (fun r => (r.2.B 0, r.2.B 1, sum_below r.2.B 2))) = some (6, -5, 1) := by
  decide!

/-- C12 (amended): for parameters stored by `main` that pass the sanity checks
with `SINKS ≥ 2`, and a run of `netgen()` from the zero-initialised globals
seeded with `seed` that returns: with arc parents (`PARENT = 1`) the balances
`B[0 .. NODES-1]` sum to zero; with node parents (`PARENT = 0`) their sum is
the total capacity `U` of the last `INTER` arcs, the ones `node_parents`
appended, each of which took over the demand of its parent sink. -/
theorem C12_balance_sum (fuel : Nat) (p : Params) (rc : Int) (g2 : Globals)
    (hs : p.stored) (hv : sanity_checks p = none) (hS2 : 2 ≤ p.SINKS)
    (h : netgen fuel p (Globals.init p.seed) = Except.ok (rc, g2)) :
    (p.PARENT = 1 → sum_below g2.B p.NODES.toNat = 0) ∧
    (p.PARENT = 0 → sum_below g2.B p.NODES.toNat =
      sum_below (fun k => g2.U (g2.arc_count - p.INTER.toNat + k)) p.INTER.toNat) := by
  obtain ⟨hgen, _, _⟩ := netgen_pass_inv fuel p _ rc g2 hv h
  have f := sanity_facts p hs hv
  have hseed : p.seed ≤ 2147483647 := by
    unfold Params.stored in_int at hs
    omega
  exact generate_balance fuel p _ g2 hs hv hS2 ⟨by show 0 ≤ p.seed; omega, hseed⟩
    (fun _ => rfl) hgen

/-- Witness for C12: the run with `NODES = 3`, `SOURCES = 1`, `SINKS = 2`,
`DENSITY = 3`, `SUPPLY = 10`, arc parents and seed 1 completes, and its three
balances sum to zero. -/
theorem C12_balance_sum_witness :
    ∃ rc g2, netgen 10 ⟨1, 3, 1, 2, 3, 1, 100, 10, 0, 0, 50, 50, 5, 30, 1, 0⟩ (Globals.init 1) =
        Except.ok (rc, g2) ∧ sum_below g2.B 3 = 0 := by
  have hok : (netgen 10 ⟨1, 3, 1, 2, 3, 1, 100, 10, 0, 0, 50, 50, 5, 30, 1, 0⟩
      (Globals.init 1)).toOption.isSome = true := by decide!
  cases h : netgen 10 ⟨1, 3, 1, 2, 3, 1, 100, 10, 0, 0, 50, 50, 5, 30, 1, 0⟩ (Globals.init 1) with
  | error e =>
    rw [h] at hok
    cases hok
  | ok r =>
    exact ⟨r.1, r.2, rfl, (C12_balance_sum 10 ⟨1, 3, 1, 2, 3, 1, 100, 10, 0, 0, 50, 50, 5, 30, 1, 0⟩
      r.1 r.2 (by unfold Params.stored in_int; decide) (by decide) (by decide) h).1 (by decide)⟩

/-! ## Theorems: the result does not depend on the fuel -/

/-- A run that returns, returns the same when the other run replaces it. -/
theorem below_refl {α : Type} (x : Except Stop α) : Below x x := fun _ h => h

/-- A run that stopped is below every run. -/
theorem below_error {α : Type} (e : Stop) (y : Except Stop α) : Below (Except.error e) y := by
  intro a h
  cases h

/-- Sequencing keeps the order of runs. -/
theorem below_bind {α β : Type} {x y : Except Stop α} {f k : α → Except Stop β}
    (h1 : Below x y) (h2 : ∀ a, Below (f a) (k a)) : Below (x >>= f) (y >>= k) := by
  intro b hb
  obtain ⟨a, e1, r1⟩ := except_bind_ok hb
  rw [h1 a e1]
  exact h2 a b r1

/-- A test on the same condition keeps the order of runs. -/
theorem below_ite {α : Type} (c : Prop) [Decidable c] {x y x2 y2 : Except Stop α}
    (h1 : c → Below x y) (h2 : ¬ c → Below x2 y2) :
    Below (if c then x else x2) (if c then y else y2) := by
  by_cases hc : c
  · rw [if_pos hc, if_pos hc]
    exact h1 hc
  · rw [if_neg hc, if_neg hc]
    exact h2 hc

/-- The loop of `create_supply` and more fuel, with the upper bound of the second draw as
a variable. -/
theorem create_supply_loop_mono_aux (sources : Nat) (sps W : Int)
    (hW : wrapLong (toULong ((sources : Int) - 1)) = W) :
    ∀ (F1 F2 : Nat), F1 ≤ F2 → ∀ (i : Nat) (g : Globals),
      Below (create_supply_loop sources sps F1 i g) (create_supply_loop sources sps F2 i g) := by
  intro F1
  induction F1 with
  | zero =>
    intro F2 hle
    cases F2 <;> intros <;> rw [create_supply_loop] <;> (try rw [create_supply_loop]) <;> (try rw [hW]) <;>
      with_reducible repeat' (first
        | exact below_error _ _
        | exact below_refl _
        | assumption
        | apply below_ite
        | split
        | apply below_bind
        | intro _)
  | succ n ih =>
    intro F2 hle
    cases F2 with
    | zero => omega
    | succ m =>
      have hnm : n ≤ m := by omega
      intros
      rw [create_supply_loop]
      try rw [create_supply_loop]
      try rw [hW]
      with_reducible repeat' (first
        | exact below_error _ _
        | exact below_refl _
        | assumption
        | apply ih
        | apply below_ite
        | split
        | apply below_bind
        | intro _)


/-- The loop of `create_supply` returns the same result when it is given more fuel. -/
theorem create_supply_loop_mono (sources : Nat) (sps : Int) :
    ∀ (F1 F2 : Nat), F1 ≤ F2 → ∀ (i : Nat) (g : Globals),
      Below (create_supply_loop sources sps F1 i g) (create_supply_loop sources sps F2 i g) :=
  create_supply_loop_mono_aux sources sps _ rfl

/-- Function `create_supply` returns the same result when it is given more fuel. -/
theorem create_supply_mono (F1 F2 : Nat) (hle : F1 ≤ F2) (sources : Nat) (supply : Int) (g : Globals) :
    Below (create_supply F1 sources supply g) (create_supply F2 sources supply g) := by
  unfold create_supply
  with_reducible repeat' (first
    | exact below_error _ _
    | exact below_refl _
    | assumption
    | apply create_supply_loop_mono
    | apply below_ite
    | split
    | apply below_bind
    | intro _)

/-- The innermost loop of `sort_skeleton` returns the same result when it is given more fuel. -/
theorem sort_inner_mono (m : Int) :
    ∀ (F1 F2 : Nat), F1 ≤ F2 → ∀ (i : Int) (g : Globals),
      Below (sort_inner m F1 i g) (sort_inner m F2 i g) := by
  intro F1
  induction F1 with
  | zero =>
    intro F2 hle
    cases F2 <;> intros <;> rw [sort_inner] <;> (try rw [sort_inner]) <;>
      with_reducible repeat' (first
        | exact below_error _ _
        | exact below_refl _
        | assumption
        | apply below_ite
        | split
        | apply below_bind
        | intro _)
  | succ n ih =>
    intro F2 hle
    cases F2 with
    | zero => omega
    | succ m =>
      have hnm : n ≤ m := by omega
      intros
      rw [sort_inner]
      try rw [sort_inner]
      with_reducible repeat' (first
        | exact below_error _ _
        | exact below_refl _
        | assumption
        | apply ih
        | apply below_ite
        | split
        | apply below_bind
        | intro _)

/-- The middle loop of `sort_skeleton` returns the same result when it is given more fuel. -/
theorem sort_pass_mono (m k : Int) (fa fb : Nat) (hab : fa ≤ fb) :
    ∀ (F1 F2 : Nat), F1 ≤ F2 → ∀ (j : Int) (g : Globals),
      Below (sort_pass fa m k F1 j g) (sort_pass fb m k F2 j g) := by
  intro F1
  induction F1 with
  | zero =>
    intro F2 hle
    cases F2 <;> intros <;> rw [sort_pass] <;> (try rw [sort_pass]) <;>
      with_reducible repeat' (first
        | exact below_error _ _
        | exact below_refl _
        | assumption
        | apply sort_inner_mono
        | apply below_ite
        | split
        | apply below_bind
        | intro _)
  | succ n ih =>
    intro F2 hle
    cases F2 with
    | zero => omega
    | succ m =>
      have hnm : n ≤ m := by omega
      intros
      rw [sort_pass]
      try rw [sort_pass]
      with_reducible repeat' (first
        | exact below_error _ _
        | exact below_refl _
        | assumption
        | apply ih
        | apply sort_inner_mono
        | apply below_ite
        | split
        | apply below_bind
        | intro _)

/-- The outer loop of `sort_skeleton` returns the same result when it is given more fuel. -/
theorem sort_gaps_mono (sort_count : Int) (fa fb : Nat) (hab : fa ≤ fb) :
    ∀ (F1 F2 : Nat), F1 ≤ F2 → ∀ (m : Int) (g : Globals),
      Below (sort_gaps fa sort_count F1 m g) (sort_gaps fb sort_count F2 m g) := by
  intro F1
  induction F1 with
  | zero =>
    intro F2 hle
    cases F2 <;> intros <;> rw [sort_gaps] <;> (try rw [sort_gaps]) <;>
      with_reducible repeat' (first
        | exact below_error _ _
        | exact below_refl _
        | assumption
        | apply sort_pass_mono
        | apply below_ite
        | split
        | apply below_bind
        | intro _)
  | succ n ih =>
    intro F2 hle
    cases F2 with
    | zero => omega
    | succ m =>
      have hnm : n ≤ m := by omega
      intros
      rw [sort_gaps]
      try rw [sort_gaps]
      with_reducible repeat' (first
        | exact below_error _ _
        | exact below_refl _
        | assumption
        | apply ih
        | apply sort_pass_mono
        | apply below_ite
        | split
        | apply below_bind
        | intro _)

/-- Function `sort_skeleton` returns the same result when it is given more fuel. -/
theorem sort_skeleton_mono (F1 F2 : Nat) (hle : F1 ≤ F2) (sort_count : Int) (g : Globals) :
    Below (sort_skeleton F1 sort_count g) (sort_skeleton F2 sort_count g) := by
  unfold sort_skeleton
  exact sort_gaps_mono sort_count F1 F2 hle F1 F2 hle sort_count g

/-- The rejection loop of `pick_head` returns the same result when it is given more fuel. -/
theorem pick_limit_mono (non_sources remaining_arcs : Nat) (upper_bound : Int) :
    ∀ (F1 F2 : Nat), F1 ≤ F2 → ∀ (g : Globals),
      Below (pick_limit non_sources remaining_arcs upper_bound F1 g) (pick_limit non_sources remaining_arcs upper_bound F2 g) := by
  intro F1
  induction F1 with
  | zero =>
    intro F2 hle
    cases F2 <;> intros <;> rw [pick_limit] <;> exact below_error _ _
  | succ n ih =>
    intro F2 hle
    cases F2 with
    | zero => omega
    | succ m =>
      have hnm : n ≤ m := by omega
      intros
      rw [pick_limit]
      try rw [pick_limit]
      with_reducible repeat' (first
        | exact below_error _ _
        | exact below_refl _
        | assumption
        | apply ih
        | apply below_ite
        | split
        | apply below_bind
        | intro _)

/-- The arc loop of `pick_head` returns the same result when it is given more fuel. -/
theorem pick_arcs_mono (p : Params) (desired_tail : Nat) :
    ∀ (F1 F2 : Nat), F1 ≤ F2 → ∀ (limit : Int) (indie : NetgenIndex) (g : Globals),
      Below (pick_arcs p desired_tail F1 limit indie g) (pick_arcs p desired_tail F2 limit indie g) := by
  intro F1
  induction F1 with
  | zero =>
    intro F2 hle
    cases F2 <;> intros <;> rw [pick_arcs] <;> (try rw [pick_arcs]) <;>
      with_reducible repeat' (first
        | exact below_error _ _
        | exact below_refl _
        | assumption
        | apply below_ite
        | split
        | apply below_bind
        | intro _)
  | succ n ih =>
    intro F2 hle
    cases F2 with
    | zero => omega
    | succ m =>
      have hnm : n ≤ m := by omega
      intros
      rw [pick_arcs]
      try rw [pick_arcs]
      with_reducible repeat' (first
        | exact below_error _ _
        | exact below_refl _
        | assumption
        | apply ih
        | apply below_ite
        | split
        | apply below_bind
        | intro _)

/-- Function `pick_head` returns the same result when it is given more fuel. -/
theorem pick_head_mono (F1 F2 : Nat) (hle : F1 ≤ F2) (p : Params) (indie : NetgenIndex) (desired_tail : Nat) (g : Globals) :
    Below (pick_head F1 p indie desired_tail g) (pick_head F2 p indie desired_tail g) := by
  unfold pick_head
  with_reducible repeat' (first
    | exact below_error _ _
    | exact below_refl _
    | assumption
    | apply pick_limit_mono
    | apply pick_arcs_mono
    | apply below_ite
    | split
    | apply below_bind
    | intro _)

/-- The loop of `node_parents` returns the same result when it is given more fuel. -/
theorem node_parents_loop_mono (p : Params) :
    ∀ (F1 F2 : Nat), F1 ≤ F2 → ∀ (i : Int) (g : Globals),
      Below (node_parents_loop p F1 i g) (node_parents_loop p F2 i g) := by
  intro F1
  induction F1 with
  | zero =>
    intro F2 hle
    cases F2 <;> intros <;> rw [node_parents_loop] <;> (try rw [node_parents_loop]) <;>
      with_reducible repeat' (first
        | exact below_error _ _
        | exact below_refl _
        | assumption
        | apply below_ite
        | split
        | apply below_bind
        | intro _)
  | succ n ih =>
    intro F2 hle
    cases F2 with
    | zero => omega
    | succ m =>
      have hnm : n ≤ m := by omega
      intros
      rw [node_parents_loop]
      try rw [node_parents_loop]
      with_reducible repeat' (first
        | exact below_error _ _
        | exact below_refl _
        | assumption
        | apply ih
        | apply below_ite
        | split
        | apply below_bind
        | intro _)

/-- Function `node_parents` returns the same result when it is given more fuel. -/
theorem node_parents_mono (F1 F2 : Nat) (hle : F1 ≤ F2) (p : Params) (g : Globals) :
    Below (node_parents F1 p g) (node_parents F2 p g) := by
  unfold node_parents
  exact node_parents_loop_mono p F1 F2 hle 0 g

/-- The loop that sets `pred[i] = i` returns the same result when it is given more fuel. -/
theorem init_pred_mono (sources : Nat) :
    ∀ (F1 F2 : Nat), F1 ≤ F2 → ∀ (i : Nat) (g : Globals),
      Below (init_pred sources F1 i g) (init_pred sources F2 i g) := by
  intro F1
  induction F1 with
  | zero =>
    intro F2 hle
    cases F2 <;> intros <;> rw [init_pred] <;> (try rw [init_pred]) <;>
      with_reducible repeat' (first
        | exact below_error _ _
        | exact below_refl _
        | assumption
        | apply below_ite
        | split
        | apply below_bind
        | intro _)
  | succ n ih =>
    intro F2 hle
    cases F2 with
    | zero => omega
    | succ m =>
      have hnm : n ≤ m := by omega
      intros
      rw [init_pred]
      try rw [init_pred]
      with_reducible repeat' (first
        | exact below_error _ _
        | exact below_refl _
        | assumption
        | apply ih
        | apply below_ite
        | split
        | apply below_bind
        | intro _)

/-- The first chain loop returns the same result when it is given more fuel. -/
theorem chain_even_mono (p : Params) (bound : Nat) :
    ∀ (F1 F2 : Nat), F1 ≤ F2 → ∀ (i source : Nat) (indie : NetgenIndex) (g : Globals),
      Below (chain_even p bound F1 i source indie g) (chain_even p bound F2 i source indie g) := by
  intro F1
  induction F1 with
  | zero =>
    intro F2 hle
    cases F2 <;> intros <;> rw [chain_even] <;> (try rw [chain_even]) <;>
      with_reducible repeat' (first
        | exact below_error _ _
        | exact below_refl _
        | assumption
        | apply below_ite
        | split
        | apply below_bind
        | intro _)
  | succ n ih =>
    intro F2 hle
    cases F2 with
    | zero => omega
    | succ m =>
      have hnm : n ≤ m := by omega
      intros
      rw [chain_even]
      try rw [chain_even]
      with_reducible repeat' (first
        | exact below_error _ _
        | exact below_refl _
        | assumption
        | apply ih
        | apply below_ite
        | split
        | apply below_bind
        | intro _)

/-- The second chain loop returns the same result when it is given more fuel. -/
theorem chain_random_mono (p : Params) :
    ∀ (F1 F2 : Nat), F1 ≤ F2 → ∀ (i : Nat) (indie : NetgenIndex) (g : Globals),
      Below (chain_random p F1 i indie g) (chain_random p F2 i indie g) := by
  intro F1
  induction F1 with
  | zero =>
    intro F2 hle
    cases F2 <;> intros <;> rw [chain_random] <;> (try rw [chain_random]) <;>
      with_reducible repeat' (first
        | exact below_error _ _
        | exact below_refl _
        | assumption
        | apply below_ite
        | split
        | apply below_bind
        | intro _)
  | succ n ih =>
    intro F2 hle
    cases F2 with
    | zero => omega
    | succ m =>
      have hnm : n ≤ m := by omega
      intros
      rw [chain_random]
      try rw [chain_random]
      with_reducible repeat' (first
        | exact below_error _ _
        | exact below_refl _
        | assumption
        | apply ih
        | apply below_ite
        | split
        | apply below_bind
        | intro _)

/-- The walk up one chain returns the same result when it is given more fuel. -/
theorem walk_chain_mono (source : Nat) :
    ∀ (F1 F2 : Nat), F1 ≤ F2 → ∀ (node : Nat) (sc : Int) (g : Globals),
      Below (walk_chain source F1 node sc g) (walk_chain source F2 node sc g) := by
  intro F1
  induction F1 with
  | zero =>
    intro F2 hle
    cases F2 <;> intros <;> rw [walk_chain] <;> (try rw [walk_chain]) <;>
      with_reducible repeat' (first
        | exact below_error _ _
        | exact below_refl _
        | assumption
        | apply below_ite
        | split
        | apply below_bind
        | intro _)
  | succ n ih =>
    intro F2 hle
    cases F2 with
    | zero => omega
    | succ m =>
      have hnm : n ≤ m := by omega
      intros
      rw [walk_chain]
      try rw [walk_chain]
      with_reducible repeat' (first
        | exact below_error _ _
        | exact below_refl _
        | assumption
        | apply ih
        | apply below_ite
        | split
        | apply below_bind
        | intro _)

/-- The loop that draws the sinks of a source returns the same result when it is given more fuel. -/
theorem draw_sinks_mono (sps : Nat) :
    ∀ (F1 F2 : Nat), F1 ≤ F2 → ∀ (i : Nat) (sinks : Nat → Option Nat) (indie : NetgenIndex) (g : Globals),
      Below (draw_sinks sps F1 i sinks indie g) (draw_sinks sps F2 i sinks indie g) := by
  intro F1
  induction F1 with
  | zero =>
    intro F2 hle
    cases F2 <;> intros <;> rw [draw_sinks] <;> (try rw [draw_sinks]) <;>
      with_reducible repeat' (first
        | exact below_error _ _
        | exact below_refl _
        | assumption
        | apply below_ite
        | split
        | apply below_bind
        | intro _)
  | succ n ih =>
    intro F2 hle
    cases F2 with
    | zero => omega
    | succ m =>
      have hnm : n ≤ m := by omega
      intros
      rw [draw_sinks]
      try rw [draw_sinks]
      with_reducible repeat' (first
        | exact below_error _ _
        | exact below_refl _
        | assumption
        | apply ih
        | apply below_ite
        | split
        | apply below_bind
        | intro _)

/-- The loop that appends the sinks left over returns the same result when it is given more fuel. -/
theorem grow_sinks_mono :
    ∀ (F1 F2 : Nat), F1 ≤ F2 → ∀ (sps : Nat) (sinks : Nat → Option Nat) (indie : NetgenIndex) (g : Globals),
      Below (grow_sinks F1 sps sinks indie g) (grow_sinks F2 sps sinks indie g) := by
  intro F1
  induction F1 with
  | zero =>
    intro F2 hle
    cases F2 <;> intros <;> rw [grow_sinks] <;> (try rw [grow_sinks]) <;>
      with_reducible repeat' (first
        | exact below_error _ _
        | exact below_refl _
        | assumption
        | apply below_ite
        | split
        | apply below_bind
        | intro _)
  | succ n ih =>
    intro F2 hle
    cases F2 with
    | zero => omega
    | succ m =>
      have hnm : n ≤ m := by omega
      intros
      rw [grow_sinks]
      try rw [grow_sinks]
      with_reducible repeat' (first
        | exact below_error _ _
        | exact below_refl _
        | assumption
        | apply ih
        | apply below_ite
        | split
        | apply below_bind
        | intro _)

/-- The climb along a chain returns the same result when it is given more fuel. -/
theorem climb_mono :
    ∀ (F1 F2 : Nat), F1 ≤ F2 → ∀ (j k : Nat) (g : Globals),
      Below (climb F1 j k g) (climb F2 j k g) := by
  intro F1
  induction F1 with
  | zero =>
    intro F2 hle
    cases F2 <;> intros <;> rw [climb] <;> (try rw [climb]) <;>
      with_reducible repeat' (first
        | exact below_error _ _
        | exact below_refl _
        | assumption
        | apply below_ite
        | split
        | apply below_bind
        | intro _)
  | succ n ih =>
    intro F2 hle
    cases F2 with
    | zero => omega
    | succ m =>
      have hnm : n ≤ m := by omega
      intros
      rw [climb]
      try rw [climb]
      with_reducible repeat' (first
        | exact below_error _ _
        | exact below_refl _
        | assumption
        | apply ih
        | apply below_ite
        | split
        | apply below_bind
        | intro _)

/-- The supply loop of one source returns the same result when it is given more fuel. -/
theorem spread_supply_mono (source sps : Nat) (sinks : Nat → Option Nat) (cl q : Int) (fa fb : Nat) (hab : fa ≤ fb) :
    ∀ (F1 F2 : Nat), F1 ≤ F2 → ∀ (i k : Nat) (sc : Int) (g : Globals),
      Below (spread_supply fa source sps sinks cl q F1 i k sc g) (spread_supply fb source sps sinks cl q F2 i k sc g) := by
  intro F1
  induction F1 with
  | zero =>
    intro F2 hle
    cases F2 <;> intros <;> rw [spread_supply] <;> (try rw [spread_supply]) <;>
      with_reducible repeat' (first
        | exact below_error _ _
        | exact below_refl _
        | assumption
        | apply climb_mono
        | apply below_ite
        | split
        | apply below_bind
        | intro _)
  | succ n ih =>
    intro F2 hle
    cases F2 with
    | zero => omega
    | succ m =>
      have hnm : n ≤ m := by omega
      intros
      rw [spread_supply]
      try rw [spread_supply]
      with_reducible repeat' (first
        | exact below_error _ _
        | exact below_refl _
        | assumption
        | apply ih
        | apply climb_mono
        | apply below_ite
        | split
        | apply below_bind
        | intro _)

/-- The inner loop of the arc emission returns the same result when it is given more fuel. -/
theorem emit_group_mono (p : Params) (source it : Nat) :
    ∀ (F1 F2 : Nat), F1 ≤ F2 → ∀ (i : Nat) (indie : NetgenIndex) (g : Globals),
      Below (emit_group p source it F1 i indie g) (emit_group p source it F2 i indie g) := by
  intro F1
  induction F1 with
  | zero =>
    intro F2 hle
    cases F2 <;> intros <;> refine below_bind (below_refl _) (fun ti => ?_) <;>
      with_reducible repeat' (first
        | exact below_error _ _
        | exact below_refl _
        | assumption
        | apply below_ite
        | split
        | apply below_bind
        | intro _)
  | succ n ih =>
    intro F2 hle
    cases F2 with
    | zero => omega
    | succ m =>
      have hnm : n ≤ m := by omega
      intros
      refine below_bind (below_refl _) (fun ti => ?_)
      with_reducible repeat' (first
        | exact below_error _ _
        | exact below_refl _
        | assumption
        | apply ih
        | apply below_ite
        | split
        | apply below_bind
        | intro _)

/-- The outer loop of the arc emission returns the same result when it is given more fuel. -/
theorem emit_arcs_mono (p : Params) (source : Nat) (sort_count : Int) (fa fb : Nat) (hab : fa ≤ fb) :
    ∀ (F1 F2 : Nat), F1 ≤ F2 → ∀ (i : Nat) (it : Option Nat) (g : Globals),
      Below (emit_arcs fa p source sort_count F1 i it g) (emit_arcs fb p source sort_count F2 i it g) := by
  intro F1
  induction F1 with
  | zero =>
    intro F2 hle
    cases F2 <;> intros <;> rw [emit_arcs] <;> (try rw [emit_arcs]) <;>
      with_reducible repeat' (first
        | exact below_error _ _
        | exact below_refl _
        | assumption
        | apply emit_group_mono
        | apply pick_head_mono
        | apply below_ite
        | split
        | apply below_bind
        | intro _)
  | succ n ih =>
    intro F2 hle
    cases F2 with
    | zero => omega
    | succ m =>
      have hnm : n ≤ m := by omega
      intros
      rw [emit_arcs]
      try rw [emit_arcs]
      with_reducible repeat' (first
        | exact below_error _ _
        | exact below_refl _
        | assumption
        | apply ih
        | apply emit_group_mono
        | apply pick_head_mono
        | apply below_ite
        | split
        | apply below_bind
        | intro _)

/-- The pass of one source returns the same result when it is given more fuel. -/
theorem process_source_mono (F1 F2 : Nat) (hle : F1 ≤ F2) (p : Params) (source : Nat) (it : Option Nat) (g : Globals) :
    Below (process_source F1 p source it g) (process_source F2 p source it g) := by
  unfold process_source
  with_reducible repeat' (first
    | exact below_error _ _
    | exact below_refl _
    | assumption
    | apply walk_chain_mono
    | apply draw_sinks_mono
    | apply grow_sinks_mono
    | apply spread_supply_mono
    | apply sort_skeleton_mono
    | apply emit_arcs_mono
    | apply below_ite
    | split
    | apply below_bind
    | intro _)

/-- The loop over the sources returns the same result when it is given more fuel. -/
theorem all_sources_mono (p : Params) (fa fb : Nat) (hab : fa ≤ fb) :
    ∀ (F1 F2 : Nat), F1 ≤ F2 → ∀ (source : Nat) (it : Option Nat) (g : Globals),
      Below (all_sources fa p F1 source it g) (all_sources fb p F2 source it g) := by
  intro F1
  induction F1 with
  | zero =>
    intro F2 hle
    cases F2 <;> intros <;> rw [all_sources] <;> (try rw [all_sources]) <;>
      with_reducible repeat' (first
        | exact below_error _ _
        | exact below_refl _
        | assumption
        | apply process_source_mono
        | apply below_ite
        | split
        | apply below_bind
        | intro _)
  | succ n ih =>
    intro F2 hle
    cases F2 with
    | zero => omega
    | succ m =>
      have hnm : n ≤ m := by omega
      intros
      rw [all_sources]
      try rw [all_sources]
      with_reducible repeat' (first
        | exact below_error _ _
        | exact below_refl _
        | assumption
        | apply ih
        | apply process_source_mono
        | apply below_ite
        | split
        | apply below_bind
        | intro _)

/-- The loop over the transshipment sinks returns the same result when it is given more fuel. -/
theorem tsink_arcs_mono (p : Params) (it : Option Nat) (fa fb : Nat) (hab : fa ≤ fb) :
    ∀ (F1 F2 : Nat), F1 ≤ F2 → ∀ (i : Nat) (g : Globals),
      Below (tsink_arcs fa p it F1 i g) (tsink_arcs fb p it F2 i g) := by
  intro F1
  induction F1 with
  | zero =>
    intro F2 hle
    cases F2 <;> intros <;> rw [tsink_arcs] <;> (try rw [tsink_arcs]) <;>
      with_reducible repeat' (first
        | exact below_error _ _
        | exact below_refl _
        | assumption
        | apply pick_head_mono
        | apply below_ite
        | split
        | apply below_bind
        | intro _)
  | succ n ih =>
    intro F2 hle
    cases F2 with
    | zero => omega
    | succ m =>
      have hnm : n ≤ m := by omega
      intros
      rw [tsink_arcs]
      try rw [tsink_arcs]
      with_reducible repeat' (first
        | exact below_error _ _
        | exact below_refl _
        | assumption
        | apply ih
        | apply pick_head_mono
        | apply below_ite
        | split
        | apply below_bind
        | intro _)

/-- The loop that draws the children returns the same result when it is given more fuel. -/
theorem draw_children_mono (p : Params) :
    ∀ (F1 F2 : Nat), F1 ≤ F2 → ∀ (i : Nat) (arc_id : NetgenIndex) (g : Globals),
      Below (draw_children p F1 i arc_id g) (draw_children p F2 i arc_id g) := by
  intro F1
  induction F1 with
  | zero =>
    intro F2 hle
    cases F2 <;> intros <;> rw [draw_children] <;> (try rw [draw_children]) <;>
      with_reducible repeat' (first
        | exact below_error _ _
        | exact below_refl _
        | assumption
        | apply below_ite
        | split
        | apply below_bind
        | intro _)
  | succ n ih =>
    intro F2 hle
    cases F2 with
    | zero => omega
    | succ m =>
      have hnm : n ≤ m := by omega
      intros
      rw [draw_children]
      try rw [draw_children]
      with_reducible repeat' (first
        | exact below_error _ _
        | exact below_refl _
        | assumption
        | apply ih
        | apply below_ite
        | split
        | apply below_bind
        | intro _)

/-- The loop that draws the parents returns the same result when it is given more fuel. -/
theorem draw_parents_mono (p : Params) :
    ∀ (F1 F2 : Nat), F1 ≤ F2 → ∀ (i : Nat) (ids : NetgenIndex) (g : Globals),
      Below (draw_parents p F1 i ids g) (draw_parents p F2 i ids g) := by
  intro F1
  induction F1 with
  | zero =>
    intro F2 hle
    cases F2 <;> intros <;> rw [draw_parents] <;> (try rw [draw_parents]) <;>
      with_reducible repeat' (first
        | exact below_error _ _
        | exact below_refl _
        | assumption
        | apply below_ite
        | split
        | apply below_bind
        | intro _)
  | succ n ih =>
    intro F2 hle
    cases F2 with
    | zero => omega
    | succ m =>
      have hnm : n ≤ m := by omega
      intros
      rw [draw_parents]
      try rw [draw_parents]
      with_reducible repeat' (first
        | exact below_error _ _
        | exact below_refl _
        | assumption
        | apply ih
        | apply below_ite
        | split
        | apply below_bind
        | intro _)

/-- The generation part of `netgen` returns the same result when it is given more fuel. -/
theorem generate_mono (F1 F2 : Nat) (hle : F1 ≤ F2) (p : Params) (g : Globals) :
    Below (generate F1 p g) (generate F2 p g) := by
  unfold generate
  with_reducible repeat' (first
    | exact below_error _ _
    | exact below_refl _
    | assumption
    | apply create_supply_mono
    | apply init_pred_mono
    | apply chain_even_mono
    | apply chain_random_mono
    | apply all_sources_mono
    | apply tsink_arcs_mono
    | apply draw_children_mono
    | apply draw_parents_mono
    | apply node_parents_mono
    | apply below_ite
    | split
    | apply below_bind
    | intro _)

/-- Function `netgen` returns the same result when it is given more fuel. -/
theorem netgen_mono (F1 F2 : Nat) (hle : F1 ≤ F2) (p : Params) (g : Globals) :
    Below (netgen F1 p g) (netgen F2 p g) := by
  unfold netgen
  with_reducible repeat' (first
    | exact below_error _ _
    | exact below_refl _
    | assumption
    | apply generate_mono
    | apply below_ite
    | split
    | apply below_bind
    | intro _)

/-- Function `printout` returns the same result when it is given more fuel. -/
theorem printout_mono (F1 F2 : Nat) (hle : F1 ≤ F2) (is_open : Bool) (file_name : String) (p : Params) (g : Globals) :
    Below (printout F1 is_open file_name p g) (printout F2 is_open file_name p g) := by
  unfold printout
  with_reducible repeat' (first
    | exact below_error _ _
    | exact below_refl _
    | assumption
    | apply netgen_mono
    | apply below_ite
    | split
    | apply below_bind
    | intro _)

/-! ## Theorems: the states of the stream -/

/-- The Lehmer step maps a state in `[1, 2^31 - 2]` to a state in
`[1, 2^31 - 2]`: the modulus has no common factor with the multiplier and does
not divide a positive state below it. -/
theorem lehmer_step_pos (s : Int) (h1 : 1 ≤ s) (h2 : s ≤ 2147483646) :
    1 ≤ (16807 * s) % 2147483647 ∧ (16807 * s) % 2147483647 ≤ 2147483646 := by
  have hz : (16807 * s) % 2147483647 ≠ 0 := by
    intro hz
    have hd0 : (2147483647 : Int) ∣ 16807 * s := Int.dvd_of_emod_eq_zero hz
    have hd1 : (2147483647 : Int).natAbs ∣ (16807 * s).natAbs := Int.natAbs_dvd_natAbs.mpr hd0
    rw [Int.natAbs_mul] at hd1
    have e1 : (2147483647 : Int).natAbs = 2147483647 := rfl
    have e2 : (16807 : Int).natAbs = 16807 := rfl
    rw [e1, e2] at hd1
    have hco : Nat.Coprime 2147483647 16807 := by norm_num
    have hd3 : 2147483647 ∣ s.natAbs := hco.dvd_of_dvd_mul_left hd1
    have := Nat.le_of_dvd (by omega) hd3
    omega
  omega

/-- C29: if the state `s` of the stream satisfies `1 ≤ s ≤ 2^31 - 2`, then
after any call `random(a, b)` the state again lies in `[1, 2^31 - 2]`; hence
after any sequence of calls, whatever their arguments, the state is neither 0
nor negative. -/
theorem C29_state_invariant (s : Int) (h1 : 1 ≤ s) (h2 : s ≤ 2 ^ 31 - 2) :
    (∀ a b : Int, 1 ≤ (NetgenRandom.random ⟨s⟩ a b).2.saved_seed ∧
      (NetgenRandom.random ⟨s⟩ a b).2.saved_seed ≤ 2 ^ 31 - 2) ∧
    ∀ calls : List (Int × Int),
      1 ≤ (calls.foldl (fun r c => (NetgenRandom.random r c.1 c.2).2) ⟨s⟩).saved_seed ∧
      (calls.foldl (fun r c => (NetgenRandom.random r c.1 c.2).2) ⟨s⟩).saved_seed ≤ 2 ^ 31 - 2 := by
  have e : (2 : Int) ^ 31 - 2 = 2147483646 := by norm_num
  rw [e] at h2 ⊢
  have step : ∀ t : Int, 1 ≤ t → t ≤ 2147483646 → ∀ a b : Int,
      1 ≤ (NetgenRandom.random ⟨t⟩ a b).2.saved_seed ∧
      (NetgenRandom.random ⟨t⟩ a b).2.saved_seed ≤ 2147483646 := by
    intro t ht1 ht2 a b
    rw [random_state_eq t a b (by omega) (by omega)]
    exact lehmer_step_pos t ht1 ht2
  refine ⟨step s h1 h2, ?_⟩
  intro calls
  have gen : ∀ (l : List (Int × Int)) (r : NetgenRandom), 1 ≤ r.saved_seed →
      r.saved_seed ≤ 2147483646 →
      1 ≤ (l.foldl (fun r c => (NetgenRandom.random r c.1 c.2).2) r).saved_seed ∧
      (l.foldl (fun r c => (NetgenRandom.random r c.1 c.2).2) r).saved_seed ≤ 2147483646 := by
    intro l
    induction l with
    | nil =>
      intro r hr1 hr2
      exact ⟨hr1, hr2⟩
    | cons c rest ih =>
      intro r hr1 hr2
      rw [List.foldl_cons]
      obtain ⟨t⟩ := r
      have := step t hr1 hr2 c.1 c.2
      exact ih _ this.1 this.2
  exact gen calls ⟨s⟩ h1 h2

/-- Witness for C29: from the state 1 the call `random(1, 100)` leaves the
state 16807, and two calls leave a state in range. -/
theorem C29_state_invariant_witness :
    (1 ≤ (NetgenRandom.random ⟨1⟩ 1 100).2.saved_seed ∧
      (NetgenRandom.random ⟨1⟩ 1 100).2.saved_seed ≤ 2 ^ 31 - 2) ∧
    (NetgenRandom.random ⟨1⟩ 1 100).2.saved_seed = 16807 :=
  ⟨(C29_state_invariant 1 (by norm_num) (by norm_num)).1 1 100, by decide⟩

/-! ## Theorems: sort_skeleton only permutes -/

/-- A rearrangement that moves nothing outside `1..n` maps `1..n` into itself. -/
theorem perm_stays_inside (n : Int) (σ : Equiv.Perm Nat)
    (hσ : ∀ x : Nat, ((x : Int) < 1 ∨ n < x) → σ x = x) (x : Nat) (h1 : 1 ≤ x)
    (h2 : (x : Int) ≤ n) : 1 ≤ σ x ∧ ((σ x : Nat) : Int) ≤ n := by
  by_contra hc
  have ho : (((σ x : Nat) : Int) < 1 ∨ n < ((σ x : Nat) : Int)) := by omega
  have e := σ.injective (hσ (σ x) ho)
  rw [e] at ho
  omega

/-- Nothing moved is a rearrangement. -/
theorem pairs_permuted_id (n : Int) (g : Globals) : PairsPermuted n g g :=
  ⟨Equiv.refl Nat, fun _ _ => rfl, fun _ => ⟨rfl, rfl⟩⟩

/-- Two rearrangements in a row are one. -/
theorem pairs_permuted_comp (n : Int) (g1 g2 g3 : Globals) (h12 : PairsPermuted n g1 g2)
    (h23 : PairsPermuted n g2 g3) : PairsPermuted n g1 g3 := by
  obtain ⟨σ, s1, s2⟩ := h12
  obtain ⟨τ, t1, t2⟩ := h23
  refine ⟨τ.trans σ, ?_, ?_⟩
  · intro x hx
    show σ (τ x) = x
    rw [t1 x hx, s1 x hx]
  · intro x
    show g3.tail x = g1.tail (σ (τ x)) ∧ g3.head x = g1.head (σ (τ x))
    rw [(t2 x).1, (t2 x).2, (s2 (τ x)).1, (s2 (τ x)).2]
    exact ⟨rfl, rfl⟩

/-- Two stores that exchange the entries at `a` and `b` read the old array
through the transposition of `a` and `b`. -/
theorem update_swap {α : Type} (f : Nat → α) (a b : Nat) :
    Function.update (Function.update f a (f b)) b (f a) = fun x => f (Equiv.swap a b x) := by
  funext x
  by_cases hb : x = b
  · subst hb
    rw [Function.update_same, Equiv.swap_apply_right]
  · rw [Function.update_noteq hb]
    by_cases ha : x = a
    · subst ha
      rw [Function.update_same, Equiv.swap_apply_left]
    · rw [Function.update_noteq ha, Equiv.swap_apply_of_ne_of_ne ha hb]

/-- Exchanging the pairs at two indices of `1..n` is a rearrangement. -/
theorem pairs_permuted_swap (n : Int) (g : Globals) (a b : Nat) (ha1 : 1 ≤ a)
    (ha2 : (a : Int) ≤ n) (hb1 : 1 ≤ b) (hb2 : (b : Int) ≤ n) :
    PairsPermuted n g
      { g with
        tail := Function.update (Function.update g.tail a (g.tail b)) b (g.tail a)
        head := Function.update (Function.update g.head a (g.head b)) b (g.head a) } := by
  refine ⟨Equiv.swap a b, ?_, ?_⟩
  · intro x hx
    exact Equiv.swap_apply_of_ne_of_ne (by omega) (by omega)
  · intro x
    show Function.update (Function.update g.tail a (g.tail b)) b (g.tail a) x = _ ∧
      Function.update (Function.update g.head a (g.head b)) b (g.head a) x = _
    rw [update_swap, update_swap]
    exact ⟨rfl, rfl⟩

/-- A rearrangement of small entries has small entries. -/
theorem pairs_permuted_small (n : Int) (g r : Globals) (h : PairsPermuted n g r)
    (ht : TailsSmall n g) (hh : HeadsSmall n g) : TailsSmall n r ∧ HeadsSmall n r := by
  obtain ⟨σ, s1, s2⟩ := h
  constructor
  · intro x h1 h2
    obtain ⟨i1, i2⟩ := perm_stays_inside n σ s1 x h1 h2
    rw [(s2 x).1]
    exact ht (σ x) i1 i2
  · intro x h1 h2
    obtain ⟨i1, i2⟩ := perm_stays_inside n σ s1 x h1 h2
    rw [(s2 x).2]
    exact hh (σ x) i1 i2

/-- The inner loop of `sort_skeleton` on small entries: what it returns is a
rearrangement of the pairs at `1..n`. -/
theorem sort_inner_perm (m n : Int) (hm : 1 ≤ m) (hn : n < 60000) :
    ∀ (fuel : Nat) (i : Int) (g r : Globals), sort_inner m fuel i g = Except.ok r →
      i + m ≤ n → TailsSmall n g → HeadsSmall n g → PairsPermuted n g r := by
  intro fuel
  induction fuel with
  | zero =>
    intro i g r h him hs hh
    rw [sort_inner] at h
    rcases except_ite_ok h with ⟨_, h1⟩ | ⟨_, h1⟩
    · obtain ⟨a, _, h2⟩ := except_bind_ok h1
      obtain ⟨b, _, h3⟩ := except_bind_ok h2
      rcases except_ite_ok h3 with ⟨_, h4⟩ | ⟨_, h4⟩
      · cases h4
      · cases h4
        exact pairs_permuted_id n g
    · cases h1
      exact pairs_permuted_id n g
  | succ k ih =>
    intro i g r h him hs hh
    by_cases hi1 : i ≥ 1
    · have hA := hs i.toNat (by omega) (by omega)
      have hHA := hh i.toNat (by omega) (by omega)
      have c1 : 0 ≤ i := by omega
      have c2 : i < ((MAXARCS : Nat) : Int) := by
        unfold MAXARCS
        omega
      have c3 : 0 ≤ i + m := by omega
      have c4 : i + m < ((MAXARCS : Nat) : Int) := by
        unfold MAXARCS
        omega
      have d1 : -2147483648 ≤ i + m ∧ i + m ≤ 2147483647 := by omega
      have d2 : -2147483648 ≤ i - m ∧ i - m ≤ 2147483647 := by omega
      rw [sort_inner, if_pos hi1, rd_eq_ok MAXARCS g.tail i c1 c2, except_ok_bind,
        wrapInt_id _ d1.1 d1.2, rd_eq_ok MAXARCS g.tail (i + m) c3 c4, except_ok_bind] at h
      by_cases hgt : g.tail i.toNat > g.tail (i + m).toNat
      · rw [if_pos hgt] at h
        conv at h => zeta
        rw [wr_eq_ok MAXARCS g.tail i _ c1 c2, except_ok_bind,
          wr_eq_ok MAXARCS _ (i + m) _ c3 c4, except_ok_bind,
          rd_eq_ok MAXARCS g.head i c1 c2, except_ok_bind,
          rd_eq_ok MAXARCS g.head (i + m) c3 c4, except_ok_bind,
          wr_eq_ok MAXARCS g.head i _ c1 c2, except_ok_bind,
          wr_eq_ok MAXARCS _ (i + m) _ c3 c4, except_ok_bind, wrapInt_id _ d2.1 d2.2,
          toULong_wrapInt_small _ hA, toULong_wrapInt_small _ hHA] at h
        have p1 := pairs_permuted_swap n g i.toNat (i + m).toNat (by omega) (by omega)
          (by omega) (by omega)
        obtain ⟨s1, s2⟩ := pairs_permuted_small n g _ p1 hs hh
        exact pairs_permuted_comp n g _ r p1 (ih (i - m) _ r h (by omega) s1 s2)
      · rw [if_neg hgt] at h
        cases h
        exact pairs_permuted_id n g
    · rw [sort_inner, if_neg hi1] at h
      cases h
      exact pairs_permuted_id n g

/-- The middle loop of `sort_skeleton` on small entries: what it returns is a
rearrangement of the pairs at `1..n`. -/
theorem sort_pass_perm (m n : Int) (hm : 1 ≤ m) (hn : n < 60000) (fuel0 : Nat) (k : Int)
    (hk : k + m ≤ n) :
    ∀ (fuel : Nat) (j : Int) (g r : Globals), sort_pass fuel0 m k fuel j g = Except.ok r →
      1 ≤ j → TailsSmall n g → HeadsSmall n g → PairsPermuted n g r := by
  intro fuel
  induction fuel with
  | zero =>
    intro j g r h hj1 hs hh
    rw [sort_pass] at h
    rcases except_ite_ok h with ⟨_, h1⟩ | ⟨_, h1⟩
    · cases h1
    · cases h1
      exact pairs_permuted_id n g
  | succ f ih =>
    intro j g r h hj1 hs hh
    rw [sort_pass] at h
    rcases except_ite_ok h with ⟨hj, h1⟩ | ⟨_, h1⟩
    · obtain ⟨g1, hg1, h2⟩ := except_bind_ok h1
      have d1 : -2147483648 ≤ j + 1 ∧ j + 1 ≤ 2147483647 := by omega
      rw [wrapInt_id _ d1.1 d1.2] at h2
      have p1 := sort_inner_perm m n hm hn fuel0 j g g1 hg1 (by omega) hs hh
      obtain ⟨s1, s2⟩ := pairs_permuted_small n g g1 p1 hs hh
      exact pairs_permuted_comp n g g1 r p1 (ih (j + 1) g1 r h2 (by omega) s1 s2)
    · cases h1
      exact pairs_permuted_id n g

/-- The outer loop of `sort_skeleton` on small entries: what it returns is a
rearrangement of the pairs at `1..n`. -/
theorem sort_gaps_perm (n : Int) (hn : n < 60000) (fuel0 : Nat) :
    ∀ (fuel : Nat) (m : Int) (g r : Globals), sort_gaps fuel0 n fuel m g = Except.ok r →
      0 ≤ m → m ≤ n → TailsSmall n g → HeadsSmall n g → PairsPermuted n g r := by
  intro fuel
  induction fuel with
  | zero =>
    intro m g r h h0 hmn hs hh
    rw [sort_gaps] at h
    rcases except_ite_ok h with ⟨_, h1⟩ | ⟨_, h1⟩
    · cases h1
    · cases h1
      exact pairs_permuted_id n g
  | succ f ih =>
    intro m g r h h0 hmn hs hh
    have e : Int.tdiv m 2 = m / 2 := Int.tdiv_eq_ediv h0 (by norm_num)
    rw [sort_gaps] at h
    conv at h => zeta
    rw [e] at h
    rcases except_ite_ok h with ⟨hz, h1⟩ | ⟨_, h1⟩
    · have hm1 : 1 ≤ m / 2 := by omega
      have d1 : -2147483648 ≤ n - m / 2 ∧ n - m / 2 ≤ 2147483647 := by omega
      rw [wrapInt_id _ d1.1 d1.2] at h1
      obtain ⟨g1, hg1, h2⟩ := except_bind_ok h1
      have p1 := sort_pass_perm (m / 2) n hm1 hn fuel0 (n - m / 2) (by omega) fuel0 1 g g1 hg1
        (le_refl _) hs hh
      obtain ⟨s1, s2⟩ := pairs_permuted_small n g g1 p1 hs hh
      exact pairs_permuted_comp n g g1 r p1 (ih (m / 2) g1 r h2 (by omega) (by omega) s1 s2)
    · cases h1
      exact pairs_permuted_id n g

/-- A rearrangement of the indices `1..n` leaves the list of pairs at `1..n`
the same up to order. -/
theorem pairs_permuted_list (n : Nat) (g r : Globals) (h : PairsPermuted n g r) :
    List.Perm ((List.range' 1 n).map (fun i => (r.tail i, r.head i)))
      ((List.range' 1 n).map (fun i => (g.tail i, g.head i))) := by
  obtain ⟨σ, s1, s2⟩ := h
  have e : (List.range' 1 n).map (fun i => (r.tail i, r.head i)) =
      ((List.range' 1 n).map σ).map (fun i => (g.tail i, g.head i)) := by
    rw [List.map_map]
    apply List.map_congr_left
    intro x _
    show (r.tail x, r.head x) = (g.tail (σ x), g.head (σ x))
    rw [(s2 x).1, (s2 x).2]
  rw [e]
  apply List.Perm.map
  have hnd : (List.range' 1 n).Nodup := List.nodup_range' 1 n
  rw [List.perm_ext_iff_of_nodup (hnd.map σ.injective) hnd]
  intro a
  rw [List.mem_map]
  constructor
  · rintro ⟨x, hx, rfl⟩
    rw [List.mem_range'_1] at hx ⊢
    have := perm_stays_inside n σ s1 x hx.1 (by omega)
    omega
  · intro ha
    rw [List.mem_range'_1] at ha
    refine ⟨σ.symm a, ?_, σ.apply_symm_apply a⟩
    rw [List.mem_range'_1]
    have hinv : ∀ x : Nat, ((x : Int) < 1 ∨ (n : Int) < x) → σ.symm x = x := by
      intro x hx
      rw [Equiv.symm_apply_eq]
      exact (s1 x hx).symm
    have := perm_stays_inside n σ.symm hinv a ha.1 (by omega)
    omega

/-- C30: for every `0 ≤ n` below the array size `MAXARCS`, and every contents
of `tail[1..n]` and `head[1..n]` with values below `2^31`, the call
`sort_skeleton(n)` returns (given fuel for `n` passes of each loop) and it
only permutes the pairs: the list of pairs `(tail[i], head[i])`, `1 ≤ i ≤ n`,
is the same up to order before and after, the entries of `tail` and `head` at
indices outside `[1, n]` are unchanged, and nothing but `tail` and `head`
changes. -/
theorem C30_sort_skeleton_permutes (fuel : Nat) (n : Nat) (g : Globals) (hn : n < MAXARCS)
    (hf : n ≤ fuel)
    (hs : ∀ x : Nat, 1 ≤ x → x ≤ n → g.tail x < 2 ^ 31 ∧ g.head x < 2 ^ 31) :
    ∃ r, sort_skeleton fuel n g = Except.ok r ∧
      List.Perm ((List.range' 1 n).map (fun i => (r.tail i, r.head i)))
        ((List.range' 1 n).map (fun i => (g.tail i, g.head i))) ∧
      (∀ i : Nat, (i < 1 ∨ n < i) → r.tail i = g.tail i ∧ r.head i = g.head i) ∧
      r = { g with tail := r.tail, head := r.head } := by
  have hn2 : (n : Int) < 60000 := by
    unfold MAXARCS at hn
    omega
  have hs2 : TailsSmall n g := by
    intro x h1 h2
    have := (hs x h1 (by omega)).1
    norm_num at this
    exact this
  have hh2 : HeadsSmall n g := by
    intro x h1 h2
    have := (hs x h1 (by omega)).2
    norm_num at this
    exact this
  obtain ⟨r, hr, _, fr, _⟩ := sort_skeleton_spec fuel n g (by omega) hn2 (by omega) hs2
  have hp : PairsPermuted n g r := by
    have h := hr
    rw [sort_skeleton] at h
    exact sort_gaps_perm n hn2 fuel fuel n g r h (by omega) (le_refl _) hs2 hh2
  refine ⟨r, hr, pairs_permuted_list n g r hp, ?_, fr⟩
  obtain ⟨σ, s1, s2⟩ := hp
  intro i hi
  have e := s1 i (by omega)
  have := s2 i
  rw [e] at this
  exact this

/-- Witness for C30: three pairs with tails 9, 8, 7 and heads 11, 12, 13. -/
theorem C30_sort_skeleton_permutes_witness :
    ∃ r, sort_skeleton 3 ((3 : Nat) : Int)
        { Globals.init 1 with tail := fun x => 10 - x, head := fun x => 10 + x } = Except.ok r ∧
      List.Perm [(r.tail 1, r.head 1), (r.tail 2, r.head 2), (r.tail 3, r.head 3)]
        [(9, 11), (8, 12), (7, 13)] ∧
      r.tail 0 = 10 ∧ r.head 4 = 14 := by
  obtain ⟨r, hr, p, q, _⟩ := C30_sort_skeleton_permutes 3 3
    { Globals.init 1 with tail := fun x => 10 - x, head := fun x => 10 + x } (by decide)
    (by decide)
    (by
      intro x _ hx
      show 10 - x < 2 ^ 31 ∧ 10 + x < 2 ^ 31
      omega)
  exact ⟨r, hr, p, (q 0 (by decide)).1, (q 4 (by decide)).2⟩

/-! ## Theorems: node_parents in full -/

/-- The loop of `node_parents` from index `i` on, given room for the new arcs,
parents that are distinct node ids and balances that can be negated: it
returns, stores one arc per remaining interdependency after the existing ones,
and moves the balance of each parent node into the capacity of its arc. -/
theorem node_parents_loop_run (p : Params) (N : Nat) (hN : N ≤ 5000) (hI : p.INTER ≤ 60000) :
    ∀ (fuel : Nat) (i : Int) (g : Globals), 0 ≤ i → i ≤ p.INTER → p.INTER - i ≤ fuel →
      (g.arc_count : Int) + (p.INTER - i) ≤ 60000 →
      (∀ k : Nat, i ≤ k → (k : Int) < p.INTER → 1 ≤ g.parent k ∧ g.parent k ≤ N) →
      (∀ k l : Nat, i ≤ k → k < l → (l : Int) < p.INTER → g.parent k ≠ g.parent l) →
      (∀ j, -9223372036854775808 < g.B j ∧ g.B j < 9223372036854775808) →
      ∃ r, node_parents_loop p fuel i g = Except.ok r ∧
        r.arc_count = g.arc_count + (p.INTER - i).toNat ∧
        (∀ a, a < g.arc_count →
          r.FROM a = g.FROM a ∧ r.TO a = g.TO a ∧ r.U a = g.U a ∧ r.C a = g.C a) ∧
        (∀ k : Nat, i ≤ k → (k : Int) < p.INTER →
          r.FROM (g.arc_count + (k - i.toNat)) = (g.parent k).toNat ∧
          r.TO (g.arc_count + (k - i.toNat)) = 0 ∧
          r.U (g.arc_count + (k - i.toNat)) = -g.B (g.parent k - 1).toNat ∧
          r.C (g.arc_count + (k - i.toNat)) = -100 ∧
          r.parent k = ((g.arc_count + (k - i.toNat) + 1 : Nat) : Int) ∧
          r.B (g.parent k - 1).toNat = 0) ∧
        (∀ k : Nat, ((k : Int) < i ∨ p.INTER ≤ k) → r.parent k = g.parent k) ∧
        (∀ j : Nat, (∀ k : Nat, i ≤ k → (k : Int) < p.INTER → j ≠ (g.parent k - 1).toNat) →
          r.B j = g.B j) ∧
        sum_below r.B N =
          sum_below g.B N + sum_below (fun k => r.U (g.arc_count + k)) (p.INTER - i).toNat ∧
        r = { g with FROM := r.FROM, TO := r.TO, U := r.U, C := r.C, B := r.B,
                     parent := r.parent, arc_count := r.arc_count } := by
  intro fuel
  induction fuel with
  | zero =>
    intro i g h0 hiI hf hroom hP hD hB
    have hn : ¬ i < p.INTER := by omega
    have e0 : (p.INTER - i).toNat = 0 := by omega
    refine ⟨g, ?_, ?_, fun _ _ => ⟨rfl, rfl, rfl, rfl⟩, fun k h1 h2 => by omega,
      fun _ _ => rfl, fun _ _ => rfl, ?_, rfl⟩
    · rw [node_parents_loop, if_neg hn]
    · rw [e0]
      rfl
    · rw [e0]
      simp [sum_below]
  | succ n ih =>
    intro i g h0 hiI hf hroom hP hD hB
    by_cases hl : i < p.INTER
    · have hPi := hP i.toNat (by omega) (by omega)
      have hBx := hB (g.parent i.toNat - 1).toNat
      have c1 : i < ((MAXARCS : Nat) : Int) := by
        unfold MAXARCS
        omega
      have c2 : (0 : Int) ≤ (g.arc_count : Int) := by omega
      have c3 : (g.arc_count : Int) < ((MAXARCS : Nat) : Int) := by
        unfold MAXARCS
        omega
      have c4 : 0 ≤ g.parent i.toNat - 1 := by omega
      have c5 : g.parent i.toNat - 1 < ((MAXNODES : Nat) : Int) := by
        unfold MAXNODES
        omega
      have w1 : wrapLong (g.parent i.toNat - 1) = g.parent i.toNat - 1 :=
        wrapLong_id _ (by omega) (by omega)
      have w2 : wrapLong (-g.B (g.parent i.toNat - 1).toNat) = -g.B (g.parent i.toNat - 1).toNat :=
        wrapLong_id _ (by omega) (by omega)
      have w3 : toULong ((g.arc_count : Int) + 1) = g.arc_count + 1 := by
        rw [toULong_small _ (by omega) (by omega)]
        omega
      have w4 : wrapLong (((g.arc_count + 1 : Nat) : Int)) = ((g.arc_count + 1 : Nat) : Int) :=
        wrapLong_id _ (by omega) (by omega)
      have w5 : wrapInt (i + 1) = i + 1 := wrapInt_id _ (by omega) (by omega)
      have w6 : toULong (g.parent i.toNat) = (g.parent i.toNat).toNat :=
        toULong_small _ (by omega) (by omega)
      rw [node_parents_loop, if_pos hl, rd_eq_ok MAXARCS g.parent i h0 c1, except_ok_bind,
        wr_eq_ok MAXARCS g.FROM _ _ c2 c3, except_ok_bind,
        wr_eq_ok MAXARCS g.TO _ _ c2 c3, except_ok_bind, w1,
        rd_eq_ok MAXNODES g.B _ c4 c5, except_ok_bind,
        wr_eq_ok MAXARCS g.U _ _ c2 c3, except_ok_bind,
        wr_eq_ok MAXARCS g.C _ _ c2 c3, except_ok_bind,
        wr_eq_ok MAXNODES g.B _ _ c4 c5, except_ok_bind,
        wr_eq_ok MAXARCS g.parent i _ h0 c1, except_ok_bind, w2, w3, w4, w5, w6]
      clear w1 w2 w3 w4 w5 w6 c1 c2 c3 c4 c5 hBx
      have hstep : ∀ G : Globals, G.arc_count = g.arc_count + 1 →
          G.FROM = Function.update g.FROM g.arc_count (g.parent i.toNat).toNat →
          G.TO = Function.update g.TO g.arc_count 0 →
          G.U = Function.update g.U g.arc_count (-g.B (g.parent i.toNat - 1).toNat) →
          G.C = Function.update g.C g.arc_count delivery_cost →
          G.B = Function.update g.B (g.parent i.toNat - 1).toNat 0 →
          G.parent = Function.update g.parent i.toNat ((g.arc_count + 1 : Nat) : Int) →
          G = { g with FROM := G.FROM, TO := G.TO, U := G.U, C := G.C, B := G.B,
                       parent := G.parent, arc_count := G.arc_count } →
          ∃ r, node_parents_loop p n (i + 1) G = Except.ok r ∧
            r.arc_count = g.arc_count + (p.INTER - i).toNat ∧
            (∀ a, a < g.arc_count →
              r.FROM a = g.FROM a ∧ r.TO a = g.TO a ∧ r.U a = g.U a ∧ r.C a = g.C a) ∧
            (∀ k : Nat, i ≤ k → (k : Int) < p.INTER →
              r.FROM (g.arc_count + (k - i.toNat)) = (g.parent k).toNat ∧
              r.TO (g.arc_count + (k - i.toNat)) = 0 ∧
              r.U (g.arc_count + (k - i.toNat)) = -g.B (g.parent k - 1).toNat ∧
              r.C (g.arc_count + (k - i.toNat)) = -100 ∧
              r.parent k = ((g.arc_count + (k - i.toNat) + 1 : Nat) : Int) ∧
              r.B (g.parent k - 1).toNat = 0) ∧
            (∀ k : Nat, ((k : Int) < i ∨ p.INTER ≤ k) → r.parent k = g.parent k) ∧
            (∀ j : Nat, (∀ k : Nat, i ≤ k → (k : Int) < p.INTER → j ≠ (g.parent k - 1).toNat) →
              r.B j = g.B j) ∧
            sum_below r.B N =
              sum_below g.B N + sum_below (fun k => r.U (g.arc_count + k)) (p.INTER - i).toNat ∧
            r = { g with FROM := r.FROM, TO := r.TO, U := r.U, C := r.C, B := r.B,
                         parent := r.parent, arc_count := r.arc_count } := by
        intro G e1 e2 e3 e4 e5 e6 e7 eG
        have hpk : ∀ k : Nat, i + 1 ≤ k → G.parent k = g.parent k := by
          intro k hk
          rw [e7, Function.update_noteq (by omega)]
        obtain ⟨r, hr, b1, b2, b3, b4, b5, b6, b7⟩ := ih (i + 1) G (by omega) (by omega)
          (by omega)
          (by
            rw [e1]
            push_cast
            omega)
          (by
            intro k hk1 hk2
            rw [hpk k hk1]
            exact hP k (by omega) hk2)
          (by
            intro k l hk1 hkl hl2
            rw [hpk k hk1, hpk l (by omega)]
            exact hD k l (by omega) hkl hl2)
          (by
            intro j
            rw [e6]
            by_cases e : j = (g.parent i.toNat - 1).toNat
            · rw [e, Function.update_same]
              omega
            · rw [Function.update_noteq e]
              exact hB j)
        have em : (p.INTER - i).toNat = (p.INTER - (i + 1)).toNat + 1 := by omega
        have hx : ∀ k : Nat, i + 1 ≤ k → (k : Int) < p.INTER →
            (g.parent k - 1).toNat ≠ (g.parent i.toNat - 1).toNat := by
          intro k hk1 hk2 e
          have hPk := hP k (by omega) hk2
          apply hD i.toNat k (by omega) (by omega) hk2
          omega
        have ra : r.FROM g.arc_count = (g.parent i.toNat).toNat ∧ r.TO g.arc_count = 0 ∧
            r.U g.arc_count = -g.B (g.parent i.toNat - 1).toNat ∧
            r.C g.arc_count = -100 := by
          obtain ⟨q1, q2, q3, q4⟩ := b2 g.arc_count (by omega)
          refine ⟨?_, ?_, ?_, ?_⟩
          · rw [q1, e2, Function.update_same]
          · rw [q2, e3, Function.update_same]
          · rw [q3, e4, Function.update_same]
          · rw [q4, e5, Function.update_same]
            rfl
        refine ⟨r, hr, ?_, ?_, ?_, ?_, ?_, ?_, ?_⟩
        · rw [b1, e1]
          omega
        · intro a ha
          obtain ⟨q1, q2, q3, q4⟩ := b2 a (by omega)
          have hne : a ≠ g.arc_count := by omega
          refine ⟨?_, ?_, ?_, ?_⟩
          · rw [q1, e2, Function.update_noteq hne]
          · rw [q2, e3, Function.update_noteq hne]
          · rw [q3, e4, Function.update_noteq hne]
          · rw [q4, e5, Function.update_noteq hne]
        · intro k hk1 hk2
          by_cases e : (k : Int) = i
          · have ek : k = i.toNat := by omega
            subst ek
            rw [Nat.sub_self, Nat.add_zero]
            refine ⟨ra.1, ra.2.1, ra.2.2.1, ra.2.2.2, ?_, ?_⟩
            · rw [b4 _ (Or.inl (by omega)), e7, Function.update_same]
            · rw [b5, e6, Function.update_same]
              intro k hk1 hk2
              rw [hpk k hk1]
              exact (hx k hk1 hk2).symm
          · obtain ⟨q1, q2, q3, q4, q5, q6⟩ := b3 k (by omega) hk2
            rw [hpk k (by omega)] at q1 q3 q6
            rw [e6, Function.update_noteq (hx k (by omega) hk2)] at q3
            have eidx : G.arc_count + (k - (i + 1).toNat) = g.arc_count + (k - i.toNat) := by
              rw [e1]
              omega
            rw [eidx] at q1 q2 q3 q4 q5
            exact ⟨q1, q2, q3, q4, q5, q6⟩
        · intro k hk
          rw [b4 k (by omega), e7, Function.update_noteq (by omega)]
        · intro j hj
          rw [b5 j, e6, Function.update_noteq (hj i.toNat (by omega) (by omega))]
          intro k hk1 hk2
          rw [hpk k hk1]
          exact hj k (by omega) hk2
        · rw [e1] at b6
          rw [em]
          generalize (p.INTER - (i + 1)).toNat = m at b6 ⊢
          rw [sum_below_shift, b6, e6, sum_below_update_lt _ _ _ _ (by omega)]
          have e0 : r.U (g.arc_count + 0) = -g.B (g.parent i.toNat - 1).toNat := ra.2.2.1
          have e1 : sum_below (fun k => r.U (g.arc_count + (k + 1))) m =
              sum_below (fun k => r.U (g.arc_count + 1 + k)) m :=
            sum_below_congr _ _ m (fun j _ => by
              show r.U (g.arc_count + (j + 1)) = r.U (g.arc_count + 1 + j)
              rw [Nat.add_assoc, Nat.add_comm 1 j])
          rw [e0, e1]
          ring
        · rw [b7, eG]
      refine hstep _ ?_ ?_ ?_ ?_ ?_ ?_ ?_ ?_
      all_goals rfl
    · have e0 : (p.INTER - i).toNat = 0 := by omega
      refine ⟨g, ?_, ?_, fun _ _ => ⟨rfl, rfl, rfl, rfl⟩, fun k h1 h2 => by omega,
        fun _ _ => rfl, fun _ _ => rfl, ?_, rfl⟩
      · rw [node_parents_loop, if_neg hl]
      · rw [e0]
        rfl
      · rw [e0]
        simp [sum_below]

/-- Function `node_parents` in a state where `parent[0..INTER-1]` are pairwise
distinct sink node ids (ids in `[NODES-SINKS+1, NODES]`, `NODES ≤ MAXNODES`),
with room for `INTER` more arcs and balances a `long` can negate: it returns
(given fuel for `INTER` passes), appends exactly `INTER` arcs and changes no
existing arc; the `k`-th appended arc has tail `parent[k]`, capacity the
negative of that node's balance before the call and cost `-100`; `parent[k]`
becomes the 1-based id of that arc; and the sum of the balances over the nodes
goes up by the sum of the `INTER` new capacities. -/
theorem node_parents_with_room (fuel : Nat) (p : Params) (g : Globals)
    (hN : p.NODES ≤ MAXNODES) (hS : 0 ≤ p.NODES - p.SINKS) (hI0 : 0 ≤ p.INTER)
    (hroom : (g.arc_count : Int) + p.INTER ≤ MAXARCS) (hf : p.INTER ≤ fuel)
    (hP : ∀ k : Nat, (k : Int) < p.INTER →
      p.NODES - p.SINKS + 1 ≤ g.parent k ∧ g.parent k ≤ p.NODES)
    (hD : ∀ k l : Nat, k < l → (l : Int) < p.INTER → g.parent k ≠ g.parent l)
    (hB : ∀ j, -2 ^ 63 < g.B j ∧ g.B j < 2 ^ 63) :
    ∃ r, node_parents fuel p g = Except.ok r ∧
      r.arc_count = g.arc_count + p.INTER.toNat ∧
      (∀ a, a < g.arc_count →
        r.FROM a = g.FROM a ∧ r.TO a = g.TO a ∧ r.U a = g.U a ∧ r.C a = g.C a) ∧
      (∀ k : Nat, (k : Int) < p.INTER →
        (r.FROM (g.arc_count + k) : Int) = g.parent k ∧
        r.U (g.arc_count + k) = -g.B (g.parent k - 1).toNat ∧
        r.C (g.arc_count + k) = -100 ∧
        r.parent k = ((g.arc_count + k + 1 : Nat) : Int)) ∧
      sum_below r.B p.NODES.toNat =
        sum_below g.B p.NODES.toNat +
          sum_below (fun k => r.U (g.arc_count + k)) p.INTER.toNat := by
  have hN2 : p.NODES.toNat ≤ 5000 := by
    unfold MAXNODES at hN
    omega
  have hI : p.INTER ≤ 60000 := by
    unfold MAXARCS at hroom
    omega
  have hB2 : ∀ j, -9223372036854775808 < g.B j ∧ g.B j < 9223372036854775808 := by
    intro j
    have := hB j
    norm_num at this
    exact this
  obtain ⟨r, hr, b1, b2, b3, _, _, b6, _⟩ :=
    node_parents_loop_run p p.NODES.toNat hN2 hI fuel 0 g (le_refl _) hI0 (by omega)
      (by
        unfold MAXARCS at hroom
        omega)
      (fun k _ hk => by
        have := hP k hk
        omega)
      (fun k l _ hkl hl => hD k l hkl hl) hB2
  rw [Int.sub_zero] at b1 b6
  refine ⟨r, hr, b1, b2, ?_, b6⟩
  intro k hk
  obtain ⟨q1, _, q3, q4, q5, _⟩ := b3 k (by omega) hk
  have e0 : k - (0 : Int).toNat = k := Nat.sub_zero k
  rw [e0] at q1 q3 q4 q5
  refine ⟨?_, q3, q4, q5⟩
  rw [q1]
  have := hP k hk
  omega

/-- An instance: four nodes of which nodes 3 and 4 are sinks with balances -4
and -6, five arcs stored, parents 4 and 3. -/
theorem node_parents_with_room_instance :
    ∃ r, node_parents 2 ⟨1, 4, 1, 2, 5, 1, 100, 10, 0, 0, 50, 50, 5, 30, 0, 2⟩
        { Globals.init 1 with
          arc_count := 5
          parent := fun k => if k = 0 then 4 else 3
          B := fun j => if j = 2 then -4 else if j = 3 then -6 else 0 } = Except.ok r ∧
      r.arc_count = 7 ∧ r.FROM 5 = 4 ∧ r.U 5 = 6 ∧ r.U 6 = 4 ∧ r.C 6 = -100 ∧
      r.parent 0 = 6 ∧ r.parent 1 = 7 := by
  obtain ⟨r, hr, b1, _, b3, _⟩ := node_parents_with_room 2
    ⟨1, 4, 1, 2, 5, 1, 100, 10, 0, 0, 50, 50, 5, 30, 0, 2⟩
    { Globals.init 1 with
      arc_count := 5
      parent := fun k => if k = 0 then 4 else 3
      B := fun j => if j = 2 then -4 else if j = 3 then -6 else 0 }
    (by decide) (by decide) (by decide) (by decide) (by decide)
    (by
      intro k hk
      show (4 : Int) - 2 + 1 ≤ (if k = 0 then 4 else 3) ∧ (if k = 0 then (4 : Int) else 3) ≤ 4
      split <;> omega)
    (by
      intro k l hkl hl
      show (if k = 0 then (4 : Int) else 3) ≠ (if l = 0 then 4 else 3)
      have hl2 : (l : Int) < 2 := hl
      have e1 : k = 0 := by omega
      have e2 : l = 1 := by omega
      subst e1 e2
      decide)
    (by
      intro j
      show -2 ^ 63 < (if j = 2 then (-4 : Int) else if j = 3 then -6 else 0) ∧
        (if j = 2 then (-4 : Int) else if j = 3 then -6 else 0) < 2 ^ 63
      split
      · norm_num
      · split <;> norm_num)
  obtain ⟨q1, q2, q3, q4⟩ := b3 0 (by decide)
  obtain ⟨s1, s2, s3, s4⟩ := b3 1 (by decide)
  refine ⟨r, hr, b1, ?_, q2, s2, s3, q4, s4⟩
  have e : (r.FROM 5 : Int) = 4 := q1
  omega

/-- With the arc arrays full, the first pass of `node_parents` stores past
their end: `FROM[MAXARCS]`. -/
theorem node_parents_full (fuel : Nat) (p : Params) (g : Globals) (hI : 0 < p.INTER)
    (hc : g.arc_count = 60000) :
    node_parents (fuel + 1) p g = Except.error Stop.out_of_bounds := by
  unfold node_parents
  rw [node_parents_loop, if_pos hI]
  have e1 : rd MAXARCS g.parent 0 = Except.ok (g.parent 0) := by
    unfold rd MAXARCS
    rw [if_pos (by omega)]
    rfl
  have e2 : wr MAXARCS g.FROM g.arc_count (toULong (g.parent 0)) =
      Except.error Stop.out_of_bounds := by
    unfold wr MAXARCS
    rw [if_neg (by omega)]
  rw [e1, except_ok_bind, e2]
  rfl

/-- C27 (failing input): `NODES = 300`, `SOURCES = 3`, `SINKS = 3`,
`DENSITY = 60000`, node parents, `INTER = 1` pass the checks, and in a state
where the `MAXARCS = 60000` entries of the arc arrays are in use and
`parent[0]` is the sink 300, `node_parents` stores its arc at index 60000, past
the end of `FROM`, `TO`, `U` and `C`: no arc can be appended. -/
theorem C27_node_parents_past_arrays :
    sanity_checks ⟨1, 300, 3, 3, 60000, 1, 100, 1000, 0, 0, 50, 50, 5, 30, 0, 1⟩ = none ∧
    node_parents 1 ⟨1, 300, 3, 3, 60000, 1, 100, 1000, 0, 0, 50, 50, 5, 30, 0, 1⟩
        { Globals.init 1 with
          arc_count := 60000
          parent := fun _ => 300
          B := fun j => if j = 299 then -1000 else 0 } =
      Except.error Stop.out_of_bounds := by
  refine ⟨by decide!, ?_⟩
  apply node_parents_full 0
  · decide
  · rfl

/-! ## Theorems: the tail of the transshipment-sink filler arcs -/

/-- A run whose optional result is a value returned that value. -/
theorem except_of_toOption {ε α : Type} (x : Except ε α) (v : α)
    (h : x.toOption = some v) : x = Except.ok v := by
  cases x with
  | error e => cases h
  | ok a =>
    have e : a = v := Option.some.inj h
    rw [e]

/-- C24 (evaluation): the run on `NODES = 4`, `SOURCES = 1`, `SINKS = 2`,
`DENSITY = 8`, `TSINKS = 1` and seed 1, cut at the loop over the transshipment
sinks.  The parameters pass the checks; the skeleton phase ends with 6 arcs and
`it = 2`; the loop runs for the one transshipment sink `i = 3` and appends the
arcs 6, 7 and 8 (0-based), and all three have tail `FROM = 2`, the stale `it`,
not 3. -/
theorem C24_tsink_filler_tail_stale :
    ∃ p : Params, p = ⟨1, 4, 1, 2, 8, 1, 100, 10, 0, 1, 50, 50, 5, 30, 1, 0⟩ ∧
      sanity_checks p = none ∧
      ∃ (g1 g2 : Globals) (i3 : Nat) (indie3 : NetgenIndex) (g3 : Globals) (indie4 : NetgenIndex)
        (g4 : Globals) (it5 : Option Nat) (g5 g6 : Globals),
        create_supply 20 (toULong p.SOURCES) p.SUPPLY
          { Globals.init 1 with
            arc_count := 0
            nodes_left := toULong (wrapLong (wrapLong (p.NODES - p.SINKS) + p.TSINKS)) } =
            Except.ok g1 ∧
        init_pred (toULong p.SOURCES) 20 1 g1 = Except.ok g2 ∧
        chain_even p
          (toULong (Int.tdiv (wrapLong (wrapLong (4 *
            wrapLong (wrapLong (p.NODES - p.SOURCES) - p.SINKS)) + 9)) 10))
          20 (toULong (wrapLong (wrapLong (p.NODES - p.SOURCES) - p.SINKS))) 1
          (NetgenIndex.create (wrapInt (wrapLong (p.SOURCES + 1)))
            (wrapInt (wrapLong (p.NODES - p.SINKS)))) g2 = Except.ok (i3, indie3, g3) ∧
        chain_random p 20 i3 indie3 g3 = Except.ok (indie4, g4) ∧
        all_sources 20 p 20 1 none g4 = Except.ok (it5, g5) ∧
        tsink_arcs 20 p it5 20 (toULong (wrapLong (wrapLong (p.NODES - p.SINKS) + 1))) g5 =
          Except.ok g6 ∧
        toULong (wrapLong (wrapLong (p.NODES - p.SINKS) + 1)) = 3 ∧
        toULong (wrapLong (wrapLong (p.NODES - p.SINKS) + p.TSINKS)) = 3 ∧
        it5 = some 2 ∧ g5.arc_count = 6 ∧ g6.arc_count = 9 ∧
        g6.FROM 6 = 2 ∧ g6.FROM 7 = 2 ∧ g6.FROM 8 = 2 := by
  refine ⟨⟨1, 4, 1, 2, 8, 1, 100, 10, 0, 1, 50, 50, 5, 30, 1, 0⟩, rfl, by decide, ?_⟩
  have hT : ((create_supply 20 (toULong (1 : Int)) 10
        { Globals.init 1 with
          arc_count := 0
          nodes_left := toULong (wrapLong (wrapLong (4 - 2) + 1)) } >>= fun g1 =>
      init_pred (toULong (1 : Int)) 20 1 g1 >>= fun g2 =>
      chain_even ⟨1, 4, 1, 2, 8, 1, 100, 10, 0, 1, 50, 50, 5, 30, 1, 0⟩
        (toULong (Int.tdiv (wrapLong (wrapLong (4 * wrapLong (wrapLong (4 - 1) - 2)) + 9)) 10))
        20 (toULong (wrapLong (wrapLong (4 - 1) - 2))) 1
        (NetgenIndex.create (wrapInt (wrapLong (1 + 1))) (wrapInt (wrapLong (4 - 2)))) g2 >>=
        fun x3 =>
      chain_random ⟨1, 4, 1, 2, 8, 1, 100, 10, 0, 1, 50, 50, 5, 30, 1, 0⟩ 20 x3.1 x3.2.1
        x3.2.2 >>= fun x4 =>
      all_sources 20 ⟨1, 4, 1, 2, 8, 1, 100, 10, 0, 1, 50, 50, 5, 30, 1, 0⟩ 20 1 none x4.2 >>=
        fun x5 =>
      tsink_arcs 20 ⟨1, 4, 1, 2, 8, 1, 100, 10, 0, 1, 50, 50, 5, 30, 1, 0⟩ x5.1 20
        (toULong (wrapLong (wrapLong (4 - 2) + 1))) x5.2 >>= fun g6 =>
      (Except.ok (x5.1, x5.2.arc_count, g6.arc_count, g6.FROM 6, g6.FROM 7, g6.FROM 8) :
        Except Stop (Option Nat × Nat × Nat × Nat × Nat × Nat))).toOption) =
      some (some 2, 6, 9, 2, 2, 2) := by
    decide!
  have h := except_of_toOption _ _ hT
  clear hT
  obtain ⟨g1, hg1, h1⟩ := except_bind_ok h
  clear h
  obtain ⟨g2, hg2, h2⟩ := except_bind_ok h1
  clear h1
  obtain ⟨⟨i3, indie3, g3⟩, hg3, h3⟩ := except_bind_ok h2
  clear h2
  obtain ⟨⟨indie4, g4⟩, hg4, h4⟩ := except_bind_ok h3
  clear h3
  obtain ⟨⟨it5, g5⟩, hg5, h5⟩ := except_bind_ok h4
  clear h4
  obtain ⟨g6, hg6, h6⟩ := except_bind_ok h5
  clear h5
  have e := Except.ok.inj h6
  clear h6
  simp only [Prod.mk.injEq] at e
  obtain ⟨e1, e2, e3, e4, e5, e6⟩ := e
  exact ⟨g1, g2, i3, indie3, g3, indie4, g4, it5, g5, g6, hg1, hg2, hg3, hg4, hg5, hg6,
    by decide, by decide, e1, e2, e3, e4, e5, e6⟩

/-! ## Theorems: the pool of the parent draws -/

/-- A draw from an ascending list of positive ids: the list stays ascending
and loses exactly the id returned (nothing, when the draw fails with 0). -/
theorem choose_index_pool (x : NetgenIndex) (k : Nat)
    (hs : List.Sorted (fun a b : Int => a < b) x.index_list)
    (h1 : ∀ v ∈ x.index_list, 1 ≤ v) :
    List.Sorted (fun a b : Int => a < b) (x.choose_index k).2.index_list ∧
      ∀ v, v ∈ (x.choose_index k).2.index_list ↔
        v ∈ x.index_list ∧ v ≠ (x.choose_index k).1 := by
  unfold NetgenIndex.choose_index
  split
  · refine ⟨hs, ?_⟩
    intro v
    constructor
    · intro hv
      refine ⟨hv, ?_⟩
      have := h1 v hv
      show v ≠ 0
      omega
    · exact fun h => h.1
  · rename_i hk
    have hlt : k - 1 < x.index_list.length := by omega
    have hnd : x.index_list.Nodup := List.Sorted.nodup hs
    dsimp only
    rw [List.getD_eq_getElem _ _ hlt, ← hnd.erase_getElem (k - 1) hlt]
    refine ⟨List.Pairwise.sublist (List.erase_sublist _ _) hs, ?_⟩
    intro v
    rw [hnd.mem_erase_iff]
    exact and_comm

/-- The child draws on an ascending list of arc ids: the list left is
ascending and holds exactly the ids not stored in `child[i..INTER-1]`; nothing
but `child` and the stream changes. -/
theorem draw_children_pool (p : Params) :
    ∀ (fuel i : Nat) (arc_id : NetgenIndex) (g : Globals) (r : NetgenIndex × Globals),
      draw_children p fuel i arc_id g = Except.ok r →
      List.Sorted (fun a b : Int => a < b) arc_id.index_list →
      (∀ v ∈ arc_id.index_list, 1 ≤ v ∧ v ≤ 2147483647) →
      List.Sorted (fun a b : Int => a < b) r.1.index_list ∧
      (∀ v, v ∈ r.1.index_list ↔
        v ∈ arc_id.index_list ∧
          ∀ j, i ≤ j → j < toULong p.INTER → (r.2.child j : Int) ≠ v) ∧
      (∀ j, j < i → r.2.child j = g.child j) ∧
      r.2 = { g with child := r.2.child, rando := r.2.rando } := by
  intro fuel
  induction fuel with
  | zero =>
    intro i arc_id g r h hs hb
    rw [draw_children] at h
    rcases except_ite_ok h with ⟨_, h⟩ | ⟨hn, h⟩
    · cases h
    · cases h
      refine ⟨hs, ?_, fun _ _ => rfl, rfl⟩
      intro v
      exact ⟨fun hv => ⟨hv, fun j h1 h2 => absurd h2 (by omega)⟩, fun hv => hv.1⟩
  | succ n ih =>
    intro i arc_id g r h hs hb
    rw [draw_children] at h
    rcases except_ite_ok h with ⟨hl, h⟩ | ⟨hn, h⟩
    · obtain ⟨r1, g1, hd1⟩ : ∃ r1 g1, g.draw 1 arc_id.index_size = (r1, g1) := ⟨_, _, rfl⟩
      rw [hd1] at h
      dsimp only at h
      have hm := choose_index_mem arc_id (toUInt r1)
      have hq := choose_index_pool arc_id (toUInt r1) hs (fun v hv => (hb v hv).1)
      obtain ⟨c, ids1, hc⟩ : ∃ c i1, arc_id.choose_index (toUInt r1) = (c, i1) := ⟨_, _, rfl⟩
      rw [hc] at h hm hq
      dsimp only at h hm hq
      obtain ⟨ch, hch, h⟩ := except_bind_ok h
      obtain ⟨hi0, hi1, ech⟩ := wr_ok_eq _ _ _ _ _ hch
      have hi2 : (i : Int) < 60000 := hi1
      have hw : toULong ((i : Int) + 1) = i + 1 := by
        unfold toULong
        omega
      rw [hw] at h
      obtain ⟨a1, a2, a3, a4⟩ := ih _ _ _ _ h hq.1 (fun v hv => hb v (hm.2 v hv))
      obtain ⟨d, _⟩ := draw_inv _ _ _ _ _ hd1
      have e1 := d.1
      subst ech
      dsimp only at a1 a2 a3 a4
      have hci : r.2.child i = toULong c := by
        rw [a3 i (by omega), Int.toNat_ofNat, Function.update_same]
      have hcv : ∀ v, v ∈ arc_id.index_list → (((toULong c : Nat) : Int) ≠ v ↔ v ≠ c) := by
        intro v hv
        rcases hm.1 with h0 | hin
        · rw [h0]
          have := hb v hv
          have e0 : toULong 0 = 0 := rfl
          rw [e0]
          constructor
          · intro _
            omega
          · intro _
            push_cast
            omega
        · have hcb := hb c hin
          have e0 : ((toULong c : Nat) : Int) = c := by
            unfold toULong
            omega
          rw [e0]
          exact ⟨fun hne e => hne e.symm, fun hne e => hne e.symm⟩
      refine ⟨a1, ?_, ?_, ?_⟩
      · intro v
        rw [a2 v, hq.2 v]
        constructor
        · rintro ⟨⟨hv, hne⟩, hrest⟩
          refine ⟨hv, ?_⟩
          intro j hj1 hj2
          by_cases e : j = i
          · rw [e, hci]
            exact (hcv v hv).2 hne
          · exact hrest j (by omega) hj2
        · rintro ⟨hv, hall⟩
          refine ⟨⟨hv, ?_⟩, fun j hj1 hj2 => hall j (by omega) hj2⟩
          have := hall i (le_refl _) hl
          rw [hci] at this
          exact (hcv v hv).1 this
      · intro j hj
        rw [a3 j (by omega), Int.toNat_ofNat, Function.update_noteq (by omega), e1]
      · rw [a4, e1]
    · cases h
      refine ⟨hs, ?_, fun _ _ => rfl, rfl⟩
      intro v
      exact ⟨fun hv => ⟨hv, fun j h1 h2 => absurd h2 (by omega)⟩, fun hv => hv.1⟩

/-- The parent draws on an ascending list of positive ids: every parent is 0
(a failed draw) or an element of the list that no earlier parent of this
pass took. -/
theorem draw_parents_pool (p : Params) :
    ∀ (fuel i : Nat) (ids : NetgenIndex) (g : Globals) (r : NetgenIndex × Globals),
      draw_parents p fuel i ids g = Except.ok r →
      List.Sorted (fun a b : Int => a < b) ids.index_list →
      (∀ v ∈ ids.index_list, 1 ≤ v) →
      ∀ k, i ≤ k → k < toULong p.INTER →
        r.2.parent k = 0 ∨
          (r.2.parent k ∈ ids.index_list ∧ ∀ l, i ≤ l → l < k → r.2.parent l ≠ r.2.parent k) := by
  intro fuel
  induction fuel with
  | zero =>
    intro i ids g r h hs hb k hk1 hk2
    rw [draw_parents] at h
    rcases except_ite_ok h with ⟨_, h⟩ | ⟨hn, h⟩
    · cases h
    · omega
  | succ n ih =>
    intro i ids g r h hs hb k hk1 hk2
    rw [draw_parents] at h
    rcases except_ite_ok h with ⟨hl, h⟩ | ⟨hn, h⟩
    · obtain ⟨r1, g1, hd1⟩ : ∃ r1 g1, g.draw 1 ids.index_size = (r1, g1) := ⟨_, _, rfl⟩
      rw [hd1] at h
      dsimp only at h
      have hm := choose_index_mem ids (toUInt r1)
      have hq := choose_index_pool ids (toUInt r1) hs hb
      obtain ⟨c, ids1, hc⟩ : ∃ c i1, ids.choose_index (toUInt r1) = (c, i1) := ⟨_, _, rfl⟩
      rw [hc] at h hm hq
      dsimp only at h hm hq
      obtain ⟨par, hpar, h⟩ := except_bind_ok h
      obtain ⟨hi0, hi1, epar⟩ := wr_ok_eq _ _ _ _ _ hpar
      have hi2 : (i : Int) < 60000 := hi1
      have hw : toULong ((i : Int) + 1) = i + 1 := by
        unfold toULong
        omega
      rw [hw] at h
      obtain ⟨_, _, a3, _⟩ := draw_parents_spec p _ _ _ _ _ h
      subst epar
      dsimp only at a3
      have hpi : r.2.parent i = c := by
        rw [a3 i (by omega), Int.toNat_ofNat, Function.update_same]
      by_cases e : k = i
      · subst e
        rw [hpi]
        rcases hm.1 with h0 | hin
        · exact Or.inl h0
        · exact Or.inr ⟨hin, fun l h1 h2 => absurd h2 (by omega)⟩
      · rcases ih _ _ _ _ h hq.1 (fun v hv => hb v (hm.2 v hv)) k (by omega) hk2 with h0 | ⟨hin, hd⟩
        · exact Or.inl h0
        · refine Or.inr ⟨hm.2 _ hin, ?_⟩
          intro l hl1 hl2
          by_cases el : l = i
          · rw [el, hpi]
            exact fun e2 => ((hq.2 _).1 hin).2 e2.symm
          · exact hd l (by omega) hl2
    · omega

/-- The list of a freshly constructed index object. -/
theorem create_index_list (a b : Int) :
    (NetgenIndex.create a b).index_list = NetgenIndex.fill_range a b := rfl

/-- C21 (amended): in a completed generation with arc parents (`PARENT = 1`)
the parent pass draws from the index list the child pass has left.  That list
is ascending and holds exactly the ids of `1..arc_count` that are not among the
`INTER` children; every parent is 0 (a draw from the emptied list) or an
element of that list which no earlier parent took; so a parent id other than 0
never equals a child id. -/
theorem C21_arc_parents_pool (fuel : Nat) (p : Params) (g r : Globals)
    (h : generate fuel p g = Except.ok r) (hp : p.PARENT = 1) :
    ∃ (g6 : Globals) (arc7 : NetgenIndex) (g7 : Globals) (ids8 : NetgenIndex),
      draw_children p fuel 0 (NetgenIndex.create 1 (wrapInt g6.arc_count)) g6 =
        Except.ok (arc7, g7) ∧
      draw_parents p fuel 0 arc7 g7 = Except.ok (ids8, r) ∧
      g6.arc_count = r.arc_count ∧
      List.Sorted (fun a b : Int => a < b) arc7.index_list ∧
      (∀ v, v ∈ arc7.index_list ↔
        1 ≤ v ∧ v ≤ r.arc_count ∧ ∀ j, j < toULong p.INTER → (r.child j : Int) ≠ v) ∧
      (∀ k, k < toULong p.INTER →
        r.parent k = 0 ∨
          (r.parent k ∈ arc7.index_list ∧ ∀ l, l < k → r.parent l ≠ r.parent k)) ∧
      (∀ k j, k < toULong p.INTER → j < toULong p.INTER → r.parent k ≠ 0 →
        r.parent k ≠ r.child j) := by
  have hok := generate_arcs fuel p g r h
  obtain ⟨g1, g2, i3, indie3, g3, indie4, g4, it5, g5, g6, arc7, g7, ids8, g8, _, _, _, _, _, _,
    hg7, hg8, h9⟩ := generate_inv fuel p g r h
  have hp0 : ¬ p.PARENT = 0 := by omega
  rw [if_neg hp0] at hg8 h9
  have e9 : g8 = r := Except.ok.inj h9
  subst e9
  obtain ⟨f8, _, _, _⟩ := draw_parents_spec p fuel 0 arc7 g7 (ids8, g8) hg8
  dsimp only at f8
  have ea8 : g8.arc_count = g7.arc_count := by rw [f8]
  have ec8 : g8.child = g7.child := by rw [f8]
  have hs0 : List.Sorted (fun a b : Int => a < b)
      (NetgenIndex.create 1 (wrapInt g6.arc_count)).index_list := by
    rw [create_index_list, fill_range_eq]
    exact sorted_map_range _ _
  have hm0 : ∀ v, v ∈ (NetgenIndex.create 1 (wrapInt g6.arc_count)).index_list ↔
      1 ≤ v ∧ v ≤ wrapInt g6.arc_count := by
    intro v
    rw [create_index_list]
    exact mem_fill_range 1 _ v
  have hb0 : ∀ v ∈ (NetgenIndex.create 1 (wrapInt g6.arc_count)).index_list,
      1 ≤ v ∧ v ≤ 2147483647 := by
    intro v hv
    have := (hm0 v).1 hv
    unfold wrapInt at this
    omega
  obtain ⟨c1, c2, _, c4⟩ := draw_children_pool p fuel 0 _ g6 (arc7, g7) hg7 hs0 hb0
  dsimp only at c1 c2 c4
  have ea7 : g7.arc_count = g6.arc_count := by rw [c4]
  have ea : g6.arc_count = g8.arc_count := by rw [ea8, ea7]
  have hle : g8.arc_count ≤ 60000 := hok
  have hw : wrapInt g6.arc_count = g8.arc_count := by
    rw [ea]
    exact wrapInt_id _ (by omega) (by omega)
  have hmem : ∀ v, v ∈ arc7.index_list ↔
      1 ≤ v ∧ v ≤ g8.arc_count ∧ ∀ j, j < toULong p.INTER → (g8.child j : Int) ≠ v := by
    intro v
    rw [c2 v, hm0 v, hw, ec8]
    constructor
    · rintro ⟨⟨h1, h2⟩, h3⟩
      exact ⟨h1, h2, fun j hj => h3 j (Nat.zero_le _) hj⟩
    · rintro ⟨h1, h2, h3⟩
      exact ⟨⟨h1, h2⟩, fun j _ hj => h3 j hj⟩
  have hpar := draw_parents_pool p fuel 0 arc7 g7 (ids8, g8) hg8 c1
    (fun v hv => ((hmem v).1 hv).1)
  dsimp only at hpar
  refine ⟨g6, arc7, g7, ids8, hg7, hg8, ea, c1, hmem, ?_, ?_⟩
  · intro k hk
    rcases hpar k (Nat.zero_le _) hk with h0 | ⟨h1, h2⟩
    · exact Or.inl h0
    · exact Or.inr ⟨h1, fun l hl => h2 l (Nat.zero_le _) hl⟩
  · intro k j hk hj hne e
    rcases hpar k (Nat.zero_le _) hk with h0 | ⟨h1, _⟩
    · exact hne h0
    · exact ((hmem _).1 h1).2.2 j hj e.symm

/-- Witness for C21 (amended): `NODES = 3`, `SOURCES = 1`, `SINKS = 2`,
`DENSITY = 4`, `INTER = 2`, arc parents, seed 1: four arcs, two children, and
the two parents are the other two arcs. -/
theorem C21_arc_parents_pool_witness :
    ∃ r, generate 20 ⟨1, 3, 1, 2, 4, 1, 100, 10, 0, 0, 50, 50, 5, 30, 1, 2⟩ (Globals.init 1) =
        Except.ok r ∧
      r.parent 0 ≠ 0 ∧ r.parent 0 ≠ r.child 0 ∧ r.parent 0 ≠ r.child 1 := by
  have hok : ((generate 20 ⟨1, 3, 1, 2, 4, 1, 100, 10, 0, 0, 50, 50, 5, 30, 1, 2⟩
      (Globals.init 1)).toOption.map (fun r => r.parent 0)) = some 4 := by decide!
  cases h : generate 20 ⟨1, 3, 1, 2, 4, 1, 100, 10, 0, 0, 50, 50, 5, 30, 1, 2⟩ (Globals.init 1) with
  | error e =>
    rw [h] at hok
    cases hok
  | ok r =>
    rw [h] at hok
    have e4 : r.parent 0 = 4 := Option.some.inj hok
    have hne : r.parent 0 ≠ 0 := by
      rw [e4]
      decide
    obtain ⟨_, _, _, _, _, _, _, _, _, _, hd⟩ :=
      C21_arc_parents_pool 20 ⟨1, 3, 1, 2, 4, 1, 100, 10, 0, 0, 50, 50, 5, 30, 1, 2⟩
        (Globals.init 1) r h rfl
    exact ⟨r, rfl, hne, hd 0 0 (by decide) (by decide) hne, hd 0 1 (by decide) (by decide) hne⟩

/-- The stages of a generation, put together: when each stage returns, the
generation returns what the last stage returned. -/
theorem generate_of_stages (fuel : Nat) (p : Params) (g r : Globals)
    (g1 g2 : Globals) (i3 : Nat) (indie3 : NetgenIndex) (g3 : Globals) (indie4 : NetgenIndex)
    (g4 : Globals) (it5 : Option Nat) (g5 g6 : Globals) (arc7 : NetgenIndex) (g7 : Globals)
    (ids8 : NetgenIndex) (g8 : Globals)
    (h1 : create_supply fuel (toULong p.SOURCES) p.SUPPLY
        { g with arc_count := 0
                 nodes_left := toULong (wrapLong (wrapLong (p.NODES - p.SINKS) + p.TSINKS)) } =
          Except.ok g1)
    (h2 : init_pred (toULong p.SOURCES) fuel 1 g1 = Except.ok g2)
    (h3 : chain_even p
        (toULong (Int.tdiv (wrapLong (wrapLong (4 *
          wrapLong (wrapLong (p.NODES - p.SOURCES) - p.SINKS)) + 9)) 10))
        fuel (toULong (wrapLong (wrapLong (p.NODES - p.SOURCES) - p.SINKS))) 1
        (NetgenIndex.create (wrapInt (wrapLong (p.SOURCES + 1)))
          (wrapInt (wrapLong (p.NODES - p.SINKS)))) g2 = Except.ok (i3, indie3, g3))
    (h4 : chain_random p fuel i3 indie3 g3 = Except.ok (indie4, g4))
    (h5 : all_sources fuel p fuel 1 none g4 = Except.ok (it5, g5))
    (h6 : tsink_arcs fuel p it5 fuel (toULong (wrapLong (wrapLong (p.NODES - p.SINKS) + 1))) g5 =
        Except.ok g6)
    (h7 : draw_children p fuel 0 (NetgenIndex.create 1 (wrapInt g6.arc_count)) g6 =
        Except.ok (arc7, g7))
    (h8 : draw_parents p fuel 0
        (if p.PARENT = 0 then
          NetgenIndex.create (wrapInt (wrapLong (wrapLong (p.NODES - p.SINKS) + 1)))
            (wrapInt p.NODES)
         else arc7) g7 = Except.ok (ids8, g8))
    (h9 : (if p.PARENT = 0 then node_parents fuel p g8 else Except.ok g8) = Except.ok r) :
    generate fuel p g = Except.ok r := by
  unfold generate
  dsimp only
  rw [h1, except_ok_bind, h2, except_ok_bind, h3, except_ok_bind]
  dsimp only
  rw [h4, except_ok_bind]
  dsimp only
  rw [h5, except_ok_bind]
  dsimp only
  rw [h6, except_ok_bind, h7, except_ok_bind]
  dsimp only
  by_cases hp : p.PARENT = 0
  · rw [if_pos hp] at h8 h9
    rw [if_pos hp, h8, except_ok_bind]
    dsimp only
    rw [except_ok_bind, if_pos hp]
    exact h9
  · rw [if_neg hp] at h8 h9
    rw [if_neg hp, h8, except_ok_bind]
    dsimp only
    rw [except_ok_bind, if_neg hp]
    exact h9

/-- C21 (counterexample): the run on `NODES = 3`, `SOURCES = 1`, `SINKS = 2`,
`DENSITY = 3`, `INTER = 1`, arc parents and seed 1, cut at the two draw loops.
Four arcs are stored and the child drawn is arc 2.  The parent loop is run on
the list the child loop has left, `[1, 3, 4]`: the position drawn for the one
parent is 2 and `parent[0] = 3`, while the element at position 2 of the full
pool `1..4` is 2, the id of the child. -/
theorem C21_parent_pool_excludes_children :
    ∃ p : Params, p = ⟨1, 3, 1, 2, 3, 1, 100, 10, 0, 0, 50, 50, 5, 30, 1, 1⟩ ∧
      sanity_checks p = none ∧
      ∃ (g1 g2 : Globals) (i3 : Nat) (indie3 : NetgenIndex) (g3 : Globals) (indie4 : NetgenIndex)
        (g4 : Globals) (it5 : Option Nat) (g5 g6 : Globals) (arc7 : NetgenIndex) (g7 : Globals)
        (ids8 : NetgenIndex) (g8 : Globals),
        create_supply 20 (toULong p.SOURCES) p.SUPPLY
          { Globals.init 1 with
            arc_count := 0
            nodes_left := toULong (wrapLong (wrapLong (p.NODES - p.SINKS) + p.TSINKS)) } =
            Except.ok g1 ∧
        init_pred (toULong p.SOURCES) 20 1 g1 = Except.ok g2 ∧
        chain_even p
          (toULong (Int.tdiv (wrapLong (wrapLong (4 *
            wrapLong (wrapLong (p.NODES - p.SOURCES) - p.SINKS)) + 9)) 10))
          20 (toULong (wrapLong (wrapLong (p.NODES - p.SOURCES) - p.SINKS))) 1
          (NetgenIndex.create (wrapInt (wrapLong (p.SOURCES + 1)))
            (wrapInt (wrapLong (p.NODES - p.SINKS)))) g2 = Except.ok (i3, indie3, g3) ∧
        chain_random p 20 i3 indie3 g3 = Except.ok (indie4, g4) ∧
        all_sources 20 p 20 1 none g4 = Except.ok (it5, g5) ∧
        tsink_arcs 20 p it5 20 (toULong (wrapLong (wrapLong (p.NODES - p.SINKS) + 1))) g5 =
          Except.ok g6 ∧
        draw_children p 20 0 (NetgenIndex.create 1 (wrapInt g6.arc_count)) g6 =
          Except.ok (arc7, g7) ∧
        draw_parents p 20 0 arc7 g7 = Except.ok (ids8, g8) ∧
        generate 20 p (Globals.init 1) = Except.ok g8 ∧
        g6.arc_count = 4 ∧ g8.child 0 = 2 ∧ arc7.index_list = [1, 3, 4] ∧
        (g7.draw 1 arc7.index_size).1 = 2 ∧ g8.parent 0 = 3 ∧
        (NetgenIndex.fill_range 1 4).getD (2 - 1) 0 = 2 := by
  refine ⟨⟨1, 3, 1, 2, 3, 1, 100, 10, 0, 0, 50, 50, 5, 30, 1, 1⟩, rfl, by decide, ?_⟩
  have hT : ((create_supply 20 (toULong (1 : Int)) 10
        { Globals.init 1 with
          arc_count := 0
          nodes_left := toULong (wrapLong (wrapLong (3 - 2) + 0)) } >>= fun g1 =>
      init_pred (toULong (1 : Int)) 20 1 g1 >>= fun g2 =>
      chain_even ⟨1, 3, 1, 2, 3, 1, 100, 10, 0, 0, 50, 50, 5, 30, 1, 1⟩
        (toULong (Int.tdiv (wrapLong (wrapLong (4 * wrapLong (wrapLong (3 - 1) - 2)) + 9)) 10))
        20 (toULong (wrapLong (wrapLong (3 - 1) - 2))) 1
        (NetgenIndex.create (wrapInt (wrapLong (1 + 1))) (wrapInt (wrapLong (3 - 2)))) g2 >>=
        fun x3 =>
      chain_random ⟨1, 3, 1, 2, 3, 1, 100, 10, 0, 0, 50, 50, 5, 30, 1, 1⟩ 20 x3.1 x3.2.1
        x3.2.2 >>= fun x4 =>
      all_sources 20 ⟨1, 3, 1, 2, 3, 1, 100, 10, 0, 0, 50, 50, 5, 30, 1, 1⟩ 20 1 none x4.2 >>=
        fun x5 =>
      tsink_arcs 20 ⟨1, 3, 1, 2, 3, 1, 100, 10, 0, 0, 50, 50, 5, 30, 1, 1⟩ x5.1 20
        (toULong (wrapLong (wrapLong (3 - 2) + 1))) x5.2 >>= fun g6 =>
      draw_children ⟨1, 3, 1, 2, 3, 1, 100, 10, 0, 0, 50, 50, 5, 30, 1, 1⟩ 20 0
        (NetgenIndex.create 1 (wrapInt g6.arc_count)) g6 >>= fun x7 =>
      draw_parents ⟨1, 3, 1, 2, 3, 1, 100, 10, 0, 0, 50, 50, 5, 30, 1, 1⟩ 20 0 x7.1 x7.2 >>=
        fun x8 =>
      (Except.ok (g6.arc_count, x8.2.child 0, x7.1.index_list,
          (x7.2.draw 1 x7.1.index_size).1, x8.2.parent 0) :
        Except Stop (Nat × Nat × List Int × Int × Int))).toOption) =
      some (4, 2, [1, 3, 4], 2, 3) := by
    decide!
  have h := except_of_toOption _ _ hT
  clear hT
  obtain ⟨g1, hg1, h1⟩ := except_bind_ok h
  clear h
  obtain ⟨g2, hg2, h2⟩ := except_bind_ok h1
  clear h1
  obtain ⟨⟨i3, indie3, g3⟩, hg3, h3⟩ := except_bind_ok h2
  clear h2
  obtain ⟨⟨indie4, g4⟩, hg4, h4⟩ := except_bind_ok h3
  clear h3
  obtain ⟨⟨it5, g5⟩, hg5, h5⟩ := except_bind_ok h4
  clear h4
  obtain ⟨g6, hg6, h6⟩ := except_bind_ok h5
  clear h5
  obtain ⟨⟨arc7, g7⟩, hg7, h7⟩ := except_bind_ok h6
  clear h6
  obtain ⟨⟨ids8, g8⟩, hg8, h8⟩ := except_bind_ok h7
  clear h7
  have e := Except.ok.inj h8
  clear h8
  simp only [Prod.mk.injEq] at e
  obtain ⟨e1, e2, e3, e4, e5⟩ := e
  have hgen : generate 20 ⟨1, 3, 1, 2, 3, 1, 100, 10, 0, 0, 50, 50, 5, 30, 1, 1⟩
      (Globals.init 1) = Except.ok g8 :=
    generate_of_stages 20 ⟨1, 3, 1, 2, 3, 1, 100, 10, 0, 0, 50, 50, 5, 30, 1, 1⟩ (Globals.init 1) g8
      g1 g2 i3 indie3 g3 indie4 g4 it5 g5 g6 arc7 g7 ids8 g8 hg1 hg2 hg3 hg4 hg5 hg6 hg7 hg8 rfl
  exact ⟨g1, g2, i3, indie3, g3, indie4, g4, it5, g5, g6, arc7, g7, ids8, g8, hg1, hg2, hg3, hg4,
    hg5, hg6, hg7, hg8, hgen, e1, e2, e3, e4, e5, by decide⟩

/-! ## Theorems: the sinks of a source when there is one sink -/

/-- C23 (evaluation): the run on `NODES = 2`, `SOURCES = 1`, `SINKS = 1`,
`DENSITY = 2`, `SUPPLY = 11` and seed 1, cut inside the pass of source 1.  The
parameters pass the checks; the clamp `MAX(2, MIN(sinks_per_source, SINKS))`
gives 2 although `SINKS = 1`; the index list holds the one sink, index 1; the
first draw stores `sinks[0] = 1` and the second, made on the emptied list,
stores `sinks[1] = 0`, the index of source 1 and not of a sink. -/
theorem C23_one_sink_draws_two :
    ∃ p : Params, p = ⟨1, 2, 1, 1, 2, 1, 100, 11, 0, 0, 50, 50, 5, 30, 1, 0⟩ ∧
      sanity_checks p = none ∧
      ∃ (g1 g2 : Globals) (i3 : Nat) (indie3 : NetgenIndex) (g3 : Globals) (indie4 : NetgenIndex)
        (g4 : Globals) (node : Nat) (sort_count : Int) (gw : Globals) (sinks : Nat → Option Nat)
        (indie : NetgenIndex) (gd : Globals),
        create_supply 10 (toULong p.SOURCES) p.SUPPLY
          { Globals.init 1 with
            arc_count := 0
            nodes_left := toULong (wrapLong (wrapLong (p.NODES - p.SINKS) + p.TSINKS)) } =
            Except.ok g1 ∧
        init_pred (toULong p.SOURCES) 10 1 g1 = Except.ok g2 ∧
        chain_even p
          (toULong (Int.tdiv (wrapLong (wrapLong (4 *
            wrapLong (wrapLong (p.NODES - p.SOURCES) - p.SINKS)) + 9)) 10))
          10 (toULong (wrapLong (wrapLong (p.NODES - p.SOURCES) - p.SINKS))) 1
          (NetgenIndex.create (wrapInt (wrapLong (p.SOURCES + 1)))
            (wrapInt (wrapLong (p.NODES - p.SINKS)))) g2 = Except.ok (i3, indie3, g3) ∧
        chain_random p 10 i3 indie3 g3 = Except.ok (indie4, g4) ∧
        rd MAXNODES g4.pred 1 = Except.ok node ∧
        walk_chain 1 10 node 0 g4 = Except.ok (sort_count, gw) ∧
        wrapLong (wrapLong (p.NODES - p.SOURCES) - p.SINKS) = 0 ∧
        MAX 2 (MIN (toULong (wrapLong (Int.tdiv p.SINKS p.SOURCES + 1))) (toULong p.SINKS)) = 2 ∧
        toULong p.SINKS = 1 ∧
        (NetgenIndex.create (wrapInt (wrapLong (p.NODES - p.SINKS)))
          (wrapInt (wrapLong (p.NODES - 1)))).index_list = [1] ∧
        draw_sinks 2 10 0 (fun _ => none)
          (NetgenIndex.create (wrapInt (wrapLong (p.NODES - p.SINKS)))
            (wrapInt (wrapLong (p.NODES - 1)))) gw = Except.ok (sinks, indie, gd) ∧
        sinks 0 = some 1 ∧ sinks 1 = some 0 := by
  refine ⟨⟨1, 2, 1, 1, 2, 1, 100, 11, 0, 0, 50, 50, 5, 30, 1, 0⟩, rfl, by decide, ?_⟩
  have hT : ((create_supply 10 (toULong (1 : Int)) 11
        { Globals.init 1 with
          arc_count := 0
          nodes_left := toULong (wrapLong (wrapLong (2 - 1) + 0)) } >>= fun g1 =>
      init_pred (toULong (1 : Int)) 10 1 g1 >>= fun g2 =>
      chain_even ⟨1, 2, 1, 1, 2, 1, 100, 11, 0, 0, 50, 50, 5, 30, 1, 0⟩
        (toULong (Int.tdiv (wrapLong (wrapLong (4 * wrapLong (wrapLong (2 - 1) - 1)) + 9)) 10))
        10 (toULong (wrapLong (wrapLong (2 - 1) - 1))) 1
        (NetgenIndex.create (wrapInt (wrapLong (1 + 1))) (wrapInt (wrapLong (2 - 1)))) g2 >>=
        fun x3 =>
      chain_random ⟨1, 2, 1, 1, 2, 1, 100, 11, 0, 0, 50, 50, 5, 30, 1, 0⟩ 10 x3.1 x3.2.1
        x3.2.2 >>= fun x4 =>
      rd MAXNODES x4.2.pred 1 >>= fun node =>
      walk_chain 1 10 node 0 x4.2 >>= fun xw =>
      draw_sinks 2 10 0 (fun _ => none)
        (NetgenIndex.create (wrapInt (wrapLong (2 - 1))) (wrapInt (wrapLong (2 - 1)))) xw.2 >>=
        fun xd =>
      (Except.ok (xd.1 0, xd.1 1) : Except Stop (Option Nat × Option Nat))).toOption) =
      some (some 1, some 0) := by
    decide!
  have h := except_of_toOption _ _ hT
  clear hT
  obtain ⟨g1, hg1, h1⟩ := except_bind_ok h
  clear h
  obtain ⟨g2, hg2, h2⟩ := except_bind_ok h1
  clear h1
  obtain ⟨⟨i3, indie3, g3⟩, hg3, h3⟩ := except_bind_ok h2
  clear h2
  obtain ⟨⟨indie4, g4⟩, hg4, h4⟩ := except_bind_ok h3
  clear h3
  obtain ⟨node, hnode, h5⟩ := except_bind_ok h4
  clear h4
  obtain ⟨⟨sort_count, gw⟩, hgw, h6⟩ := except_bind_ok h5
  clear h5
  obtain ⟨⟨sinks, indie, gd⟩, hgd, h7⟩ := except_bind_ok h6
  clear h6
  have e := Except.ok.inj h7
  clear h7
  simp only [Prod.mk.injEq] at e
  obtain ⟨e1, e2⟩ := e
  exact ⟨g1, g2, i3, indie3, g3, indie4, g4, node, sort_count, gw, sinks, indie, gd, hg1, hg2, hg3,
    hg4, hnode, hgw, by decide, by decide, by decide, by decide, hgd, e1, e2⟩

/-! ## Theorems: a limit loop that cannot exit -/

/-- With `b ≤ a` a draw returns `b` and leaves `nodes_left` alone. -/
theorem draw_of_le (g : Globals) (a b : Int) (h : b ≤ a) :
    (g.draw a b).1 = b ∧ (g.draw a b).2.nodes_left = g.nodes_left :=
  ⟨random_degenerate g.rando a b h, rfl⟩

/-- When the upper bound of the draw is at most 1 every draw of the limit loop
returns the same value; if that value is rejected and `nodes_left` is not 0,
no number of passes lets the loop return. -/
theorem pick_limit_stuck (non_sources remaining_arcs : Nat) (upper_bound : Int)
    (hub : upper_bound ≤ 1) :
    ∀ (fuel : Nat) (g : Globals), g.nodes_left ≠ 0 →
      toULong ((g.nodes_left : Int) * toULong ((non_sources : Int) - 1)) <
        toULong ((remaining_arcs : Int) - toULong (wrapInt upper_bound)) →
      pick_limit non_sources remaining_arcs upper_bound fuel g =
        Except.error Stop.out_of_fuel := by
  intro fuel
  induction fuel with
  | zero =>
    intro g _ _
    rw [pick_limit]
  | succ n ih =>
    intro g hnl hrej
    rw [pick_limit]
    obtain ⟨e1, e2⟩ := draw_of_le g 1 upper_bound hub
    generalize g.draw 1 upper_bound = d at e1 e2
    obtain ⟨r1, g1⟩ := d
    dsimp only at e1 e2 ⊢
    subst e1
    rw [e2, if_neg hnl, if_pos hrej]
    exact ih g1 (by rw [e2]; exact hnl) (by rw [e2]; exact hrej)

/-- A call of `pick_head` that enters the limit loop with an upper bound of at
most 1 whose one possible draw is rejected does not return, whatever the
fuel. -/
theorem pick_head_stuck (fuel : Nat) (p : Params) (indie : NetgenIndex) (desired_tail : Nat)
    (g : Globals) (ns ra nl : Nat) (ub : Int)
    (hns : toULong (wrapLong (wrapLong (p.NODES - p.SOURCES) + p.TSOURCES)) = ns)
    (hra : (if g.arc_count ≥ toULong p.DENSITY then 0
      else toULong ((toULong p.DENSITY : Int) - g.arc_count)) = ra)
    (hnl : toULong ((g.nodes_left : Int) - 1) = nl)
    (hub : wrapLong (toULong (2 *
      (toULong (((ra / toULong ((nl : Int) + 1) : Nat) : Int) - 1) : Int))) = ub)
    (h1 : ¬ toULong (2 * (nl : Int)) ≥ ra)
    (h2 : ¬ toULong ((nl : Int) + 1) = 0)
    (h3 : ¬ toULong ((ra : Int) + ns - toULong indie.get_pseudo_size - 1) /
      toULong ((nl : Int) + 1) ≥ toULong ((ns : Int) - 1))
    (h4 : ub ≤ 1) (h5 : nl ≠ 0)
    (h6 : toULong ((nl : Int) * toULong ((ns : Int) - 1)) <
      toULong ((ra : Int) - toULong (wrapInt ub))) :
    pick_head fuel p indie desired_tail g = Except.error Stop.out_of_fuel := by
  unfold pick_head
  dsimp only
  rw [hns, hra, hnl, if_neg h1, if_neg h2, if_neg h3, hub,
    pick_limit_stuck ns ra ub h4 fuel _ h5 h6]
  rfl

/-- C28 (evaluation): the parameter set `NODES = 4`, `SOURCES = 1`,
`SINKS = 2`, `DENSITY = 6`, `TSINKS = 2` with seed 1 passes the checks, and
`netgen` returns for no amount of fuel.  The skeleton phase ends with 3 arcs
and `nodes_left = 2`; the call of `pick_head` for the first transshipment sink
has `remaining_arcs = 3`, `nodes_left = 1`, `non_sources = 3` and enters the
limit loop with `upper_bound = 2 * (3 / 2 - 1) = 0`; `random(1, 0)` returns 0
at every draw, and `1 * 2 < 3 - 0` sends the loop round again. -/
theorem C28_limit_loop_never_exits :
    sanity_checks ⟨1, 4, 1, 2, 6, 1, 10, 20, 0, 2, 50, 50, 1, 5, 1, 0⟩ = none ∧
    ∀ fuel : Nat,
      (netgen fuel ⟨1, 4, 1, 2, 6, 1, 10, 20, 0, 2, 50, 50, 1, 5, 1, 0⟩
        (Globals.init 1)).toOption = none := by
  have hs : sanity_checks ⟨1, 4, 1, 2, 6, 1, 10, 20, 0, 2, 50, 50, 1, 5, 1, 0⟩ = none := by
    decide
  refine ⟨hs, ?_⟩
  intro F
  cases hn : netgen F ⟨1, 4, 1, 2, 6, 1, 10, 20, 0, 2, 50, 50, 1, 5, 1, 0⟩ (Globals.init 1) with
  | error e => rfl
  | ok r =>
    exfalso
    have hn2 := netgen_mono F (F + 20) (Nat.le_add_right F 20)
      ⟨1, 4, 1, 2, 6, 1, 10, 20, 0, 2, 50, 50, 1, 5, 1, 0⟩ (Globals.init 1) r hn
    clear hn
    unfold netgen at hn2
    rw [hs] at hn2
    dsimp only at hn2
    obtain ⟨gr, hgen, _⟩ := except_bind_ok hn2
    clear hn2
    obtain ⟨k1, k2, j3, kindie3, k3, kindie4, k4, kit5, k5, k6, _, _, _, _, q1, q2, q3, q4, q5,
      q6, _⟩ := generate_inv _ _ _ _ hgen
    clear hgen
    -- the skeleton phase, evaluated with fuel 20
    have hT : ((create_supply 20 (toULong (1 : Int)) 20
          { Globals.init 1 with
            arc_count := 0
            nodes_left := toULong (wrapLong (wrapLong (4 - 2) + 2)) } >>= fun g1 =>
        init_pred (toULong (1 : Int)) 20 1 g1 >>= fun g2 =>
        chain_even ⟨1, 4, 1, 2, 6, 1, 10, 20, 0, 2, 50, 50, 1, 5, 1, 0⟩
          (toULong (Int.tdiv (wrapLong (wrapLong (4 * wrapLong (wrapLong (4 - 1) - 2)) + 9)) 10))
          20 (toULong (wrapLong (wrapLong (4 - 1) - 2))) 1
          (NetgenIndex.create (wrapInt (wrapLong (1 + 1))) (wrapInt (wrapLong (4 - 2)))) g2 >>=
          fun x3 =>
        chain_random ⟨1, 4, 1, 2, 6, 1, 10, 20, 0, 2, 50, 50, 1, 5, 1, 0⟩ 20 x3.1 x3.2.1
          x3.2.2 >>= fun x4 =>
        all_sources 20 ⟨1, 4, 1, 2, 6, 1, 10, 20, 0, 2, 50, 50, 1, 5, 1, 0⟩ 20 1 none x4.2 >>=
          fun x5 =>
        (Except.ok (x5.1, x5.2.arc_count, x5.2.nodes_left) :
          Except Stop (Option Nat × Nat × Nat))).toOption) =
        some (some 2, 3, 2) := by
      decide!
    have h := except_of_toOption _ _ hT
    clear hT
    obtain ⟨g1, hg1, h1⟩ := except_bind_ok h
    clear h
    obtain ⟨g2, hg2, h2⟩ := except_bind_ok h1
    clear h1
    obtain ⟨⟨i3, indie3, g3⟩, hg3, h3⟩ := except_bind_ok h2
    clear h2
    obtain ⟨⟨indie4, g4⟩, hg4, h4⟩ := except_bind_ok h3
    clear h3
    obtain ⟨⟨it5, g5⟩, hg5, h5⟩ := except_bind_ok h4
    clear h4
    have e := Except.ok.inj h5
    clear h5
    simp only [Prod.mk.injEq] at e
    obtain ⟨e1, e2, e3⟩ := e
    -- the same stages with more fuel return the same
    have m1 := create_supply_mono 20 (F + 20) (Nat.le_add_left 20 F) _ _ _ g1 hg1
    have c1 : k1 = g1 := Except.ok.inj (q1.symm.trans m1)
    subst c1
    have m2 := init_pred_mono _ 20 (F + 20) (Nat.le_add_left 20 F) _ _ g2 hg2
    have c2 : k2 = g2 := Except.ok.inj (q2.symm.trans m2)
    subst c2
    have m3 := chain_even_mono _ _ 20 (F + 20) (Nat.le_add_left 20 F) _ _ _ _ (i3, indie3, g3) hg3
    have c3 := Except.ok.inj (q3.symm.trans m3)
    simp only [Prod.mk.injEq] at c3
    obtain ⟨c31, c32, c33⟩ := c3
    subst c31 c32 c33
    have m4 := chain_random_mono _ 20 (F + 20) (Nat.le_add_left 20 F) _ _ _ (indie4, g4) hg4
    have c4 := Except.ok.inj (q4.symm.trans m4)
    simp only [Prod.mk.injEq] at c4
    obtain ⟨c41, c42⟩ := c4
    subst c41 c42
    have m5 := all_sources_mono _ 20 (F + 20) (Nat.le_add_left 20 F) 20 (F + 20)
      (Nat.le_add_left 20 F) _ _ _ (it5, g5) hg5
    have c5 := Except.ok.inj (q5.symm.trans m5)
    simp only [Prod.mk.injEq] at c5
    obtain ⟨c51, c52⟩ := c5
    subst c51 c52
    clear m1 m2 m3 m4 m5 q1 q2 q3 q4 q5 hg1 hg2 hg3 hg4 hg5
    subst e1
    -- the pass for the first transshipment sink
    have q7 : tsink_arcs (F + 20) ⟨1, 4, 1, 2, 6, 1, 10, 20, 0, 2, 50, 50, 1, 5, 1, 0⟩ (some 2)
        (F + 19 + 1) 3 k5 = Except.ok k6 := q6
    clear q6
    rw [tsink_arcs] at q7
    rcases except_ite_ok q7 with ⟨_, q8⟩ | ⟨hc, _⟩
    · clear q7
      dsimp only at q8
      obtain ⟨x, hx, _⟩ := except_bind_ok q8
      clear q8
      rw [pick_head_stuck _ _ _ _ k5 3 3 1 0 (by decide)
        (by rw [e2]; decide) (by rw [e3]; decide) (by decide) (by decide) (by decide)
        (by decide) (by decide) (by decide) (by decide)] at hx
      cases hx
    · exact hc (by decide)

/-! ## Theorems: the parts that store no arc keep the capacities -/

/-- Function `create_supply_loop` stores no arc: capacities that were not negative stay so. -/
theorem create_supply_loop_capsu (sources : Nat) (sps : Int) :
    ∀ (fuel i : Nat) (g r : Globals), CapsU g →
      create_supply_loop sources sps fuel i g = Except.ok r → CapsU r := by
  intro fuel
  induction fuel with
  | zero =>
    intro i g r hg h
    rw [create_supply_loop] at h
    split at h
    · cases h
    · cases h
      exact hg
  | succ n ih =>
    intro i g r hg h
    rw [create_supply_loop] at h
    split at h
    · obtain ⟨_, _, h⟩ := except_bind_ok h
      obtain ⟨_, _, h⟩ := except_bind_ok h
      obtain ⟨_, _, h⟩ := except_bind_ok h
      obtain ⟨_, _, h⟩ := except_bind_ok h
      refine ih _ _ _ ?_ h
      exact hg
    · cases h
      exact hg

/-- Function `create_supply` stores no arc: capacities that were not negative stay so. -/
theorem create_supply_capsu (fuel sources : Nat) (supply : Int) (g r : Globals) (hg : CapsU g)
    (h : create_supply fuel sources supply g = Except.ok r) : CapsU r := by
  unfold create_supply at h
  split at h
  · cases h
  · obtain ⟨g1, hg1, h⟩ := except_bind_ok h
    obtain ⟨_, _, h⟩ := except_bind_ok h
    obtain ⟨_, _, h⟩ := except_bind_ok h
    have h1 := create_supply_loop_capsu _ _ _ _ _ _ hg hg1
    cases h
    exact h1

/-- Function `sort_inner` stores no arc: capacities that were not negative stay so. -/
theorem sort_inner_capsu (m : Int) :
    ∀ (fuel : Nat) (i : Int) (g r : Globals), CapsU g →
      sort_inner m fuel i g = Except.ok r → CapsU r := by
  intro fuel
  induction fuel with
  | zero =>
    intro i g r hg h
    rw [sort_inner] at h
    split at h
    · obtain ⟨_, _, h⟩ := except_bind_ok h
      obtain ⟨_, _, h⟩ := except_bind_ok h
      split at h
      · cases h
      · cases h
        exact hg
    · cases h
      exact hg
  | succ n ih =>
    intro i g r hg h
    rw [sort_inner] at h
    split at h
    · obtain ⟨_, _, h⟩ := except_bind_ok h
      obtain ⟨_, _, h⟩ := except_bind_ok h
      split at h
      · obtain ⟨_, _, h⟩ := except_bind_ok h
        obtain ⟨_, _, h⟩ := except_bind_ok h
        obtain ⟨_, _, h⟩ := except_bind_ok h
        obtain ⟨_, _, h⟩ := except_bind_ok h
        obtain ⟨_, _, h⟩ := except_bind_ok h
        obtain ⟨_, _, h⟩ := except_bind_ok h
        refine ih _ _ _ ?_ h
        exact hg
      · cases h
        exact hg
    · cases h
      exact hg

/-- Function `sort_pass` stores no arc: capacities that were not negative stay so. -/
theorem sort_pass_capsu (fuel0 : Nat) (m k : Int) :
    ∀ (fuel : Nat) (j : Int) (g r : Globals), CapsU g →
      sort_pass fuel0 m k fuel j g = Except.ok r → CapsU r := by
  intro fuel
  induction fuel with
  | zero =>
    intro j g r hg h
    rw [sort_pass] at h
    split at h
    · cases h
    · cases h
      exact hg
  | succ n ih =>
    intro j g r hg h
    rw [sort_pass] at h
    split at h
    · obtain ⟨g1, hg1, h⟩ := except_bind_ok h
      exact ih _ _ _ (sort_inner_capsu _ _ _ _ _ hg hg1) h
    · cases h
      exact hg

/-- Function `sort_gaps` stores no arc: capacities that were not negative stay so. -/
theorem sort_gaps_capsu (fuel0 : Nat) (sort_count : Int) :
    ∀ (fuel : Nat) (m : Int) (g r : Globals), CapsU g →
      sort_gaps fuel0 sort_count fuel m g = Except.ok r → CapsU r := by
  intro fuel
  induction fuel with
  | zero =>
    intro m g r hg h
    rw [sort_gaps] at h
    split at h
    · cases h
    · cases h
      exact hg
  | succ n ih =>
    intro m g r hg h
    rw [sort_gaps] at h
    split at h
    · obtain ⟨g1, hg1, h⟩ := except_bind_ok h
      exact ih _ _ _ (sort_pass_capsu _ _ _ _ _ _ _ hg hg1) h
    · cases h
      exact hg

/-- Function `sort_skeleton` stores no arc: capacities that were not negative stay so. -/
theorem sort_skeleton_capsu (fuel : Nat) (sort_count : Int) (g r : Globals) (hg : CapsU g)
    (h : sort_skeleton fuel sort_count g = Except.ok r) : CapsU r :=
  sort_gaps_capsu _ _ _ _ _ _ hg h

/-- Function `pick_limit` stores no arc: capacities that were not negative stay so. -/
theorem pick_limit_capsu (non_sources remaining_arcs : Nat) (upper_bound : Int) :
    ∀ (fuel : Nat) (g : Globals) (r : Int × Globals), CapsU g →
      pick_limit non_sources remaining_arcs upper_bound fuel g = Except.ok r → CapsU r.2 := by
  intro fuel
  induction fuel with
  | zero =>
    intro g r hg h
    rw [pick_limit] at h
    cases h
  | succ n ih =>
    intro g r hg h
    rw [pick_limit] at h
    rcases except_ite_ok h with ⟨_, h⟩ | ⟨_, h⟩
    · refine ih _ _ ?_ h
      exact hg
    · cases h
      exact hg

/-- Function `init_pred` stores no arc: capacities that were not negative stay so. -/
theorem init_pred_capsu (sources : Nat) :
    ∀ (fuel i : Nat) (g r : Globals), CapsU g →
      init_pred sources fuel i g = Except.ok r → CapsU r := by
  intro fuel
  induction fuel with
  | zero =>
    intro i g r hg h
    rw [init_pred] at h
    rcases except_ite_ok h with ⟨_, h⟩ | ⟨_, h⟩
    · cases h
    · cases h
      exact hg
  | succ n ih =>
    intro i g r hg h
    rw [init_pred] at h
    rcases except_ite_ok h with ⟨_, h⟩ | ⟨_, h⟩
    · obtain ⟨_, _, h⟩ := except_bind_ok h
      refine ih _ _ _ ?_ h
      exact hg
    · cases h
      exact hg

/-- Function `chain_even` stores no arc: capacities that were not negative stay so. -/
theorem chain_even_capsu (p : Params) (bound : Nat) :
    ∀ (fuel i source : Nat) (indie : NetgenIndex) (g : Globals) (r : Nat × NetgenIndex × Globals),
      CapsU g → chain_even p bound fuel i source indie g = Except.ok r → CapsU r.2.2 := by
  intro fuel
  induction fuel with
  | zero =>
    intro i source indie g r hg h
    rw [chain_even] at h
    rcases except_ite_ok h with ⟨_, h⟩ | ⟨_, h⟩
    · cases h
    · cases h
      exact hg
  | succ n ih =>
    intro i source indie g r hg h
    rw [chain_even] at h
    rcases except_ite_ok h with ⟨_, h⟩ | ⟨_, h⟩
    · obtain ⟨_, _, h⟩ := except_bind_ok h
      obtain ⟨_, _, h⟩ := except_bind_ok h
      obtain ⟨_, _, h⟩ := except_bind_ok h
      refine ih _ _ _ _ _ ?_ h
      exact hg
    · cases h
      exact hg

/-- Function `chain_random` stores no arc: capacities that were not negative stay so. -/
theorem chain_random_capsu (p : Params) :
    ∀ (fuel i : Nat) (indie : NetgenIndex) (g : Globals) (r : NetgenIndex × Globals),
      CapsU g → chain_random p fuel i indie g = Except.ok r → CapsU r.2 := by
  intro fuel
  induction fuel with
  | zero =>
    intro i indie g r hg h
    rw [chain_random] at h
    rcases except_ite_ok h with ⟨_, h⟩ | ⟨_, h⟩
    · cases h
    · cases h
      exact hg
  | succ n ih =>
    intro i indie g r hg h
    rw [chain_random] at h
    rcases except_ite_ok h with ⟨_, h⟩ | ⟨_, h⟩
    · obtain ⟨_, _, h⟩ := except_bind_ok h
      obtain ⟨_, _, h⟩ := except_bind_ok h
      obtain ⟨_, _, h⟩ := except_bind_ok h
      refine ih _ _ _ _ ?_ h
      exact hg
    · cases h
      exact hg

/-- Function `walk_chain` stores no arc: capacities that were not negative stay so. -/
theorem walk_chain_capsu (source : Nat) :
    ∀ (fuel node : Nat) (sort_count : Int) (g : Globals) (r : Int × Globals),
      CapsU g → walk_chain source fuel node sort_count g = Except.ok r → CapsU r.2 := by
  intro fuel
  induction fuel with
  | zero =>
    intro node sort_count g r hg h
    rw [walk_chain] at h
    rcases except_ite_ok h with ⟨_, h⟩ | ⟨_, h⟩
    · cases h
    · cases h
      exact hg
  | succ n ih =>
    intro node sort_count g r hg h
    rw [walk_chain] at h
    rcases except_ite_ok h with ⟨_, h⟩ | ⟨_, h⟩
    · obtain ⟨_, _, h⟩ := except_bind_ok h
      obtain ⟨_, _, h⟩ := except_bind_ok h
      obtain ⟨_, _, h⟩ := except_bind_ok h
      refine ih _ _ _ _ ?_ h
      exact hg
    · cases h
      exact hg

/-- Function `draw_sinks` stores no arc: capacities that were not negative stay so. -/
theorem draw_sinks_capsu (sinks_per_source : Nat) :
    ∀ (fuel i : Nat) (sinks : Nat → Option Nat) (indie : NetgenIndex) (g : Globals)
      (r : (Nat → Option Nat) × NetgenIndex × Globals),
      CapsU g → draw_sinks sinks_per_source fuel i sinks indie g = Except.ok r →
        CapsU r.2.2 := by
  intro fuel
  induction fuel with
  | zero =>
    intro i sinks indie g r hg h
    rw [draw_sinks] at h
    rcases except_ite_ok h with ⟨_, h⟩ | ⟨_, h⟩
    · cases h
    · cases h
      exact hg
  | succ n ih =>
    intro i sinks indie g r hg h
    rw [draw_sinks] at h
    rcases except_ite_ok h with ⟨_, h⟩ | ⟨_, h⟩
    · obtain ⟨_, _, h⟩ := except_bind_ok h
      refine ih _ _ _ _ _ ?_ h
      exact hg
    · cases h
      exact hg

/-- Function `spread_supply` stores no arc: capacities that were not negative stay so. -/
theorem spread_supply_capsu (fuel0 source sinks_per_source : Nat) (sinks : Nat → Option Nat)
    (chain_length supply_per_sink : Int) :
    ∀ (fuel i k : Nat) (sort_count : Int) (g : Globals) (r : Int × Globals),
      CapsU g →
      spread_supply fuel0 source sinks_per_source sinks chain_length supply_per_sink
        fuel i k sort_count g = Except.ok r → CapsU r.2 := by
  intro fuel
  induction fuel with
  | zero =>
    intro i k sort_count g r hg h
    rw [spread_supply] at h
    rcases except_ite_ok h with ⟨_, h⟩ | ⟨_, h⟩
    · cases h
    · cases h
      exact hg
  | succ n ih =>
    intro i k sort_count g r hg h
    rw [spread_supply] at h
    rcases except_ite_ok h with ⟨_, h⟩ | ⟨_, h⟩
    · obtain ⟨_, _, h⟩ := except_bind_ok h
      obtain ⟨_, _, h⟩ := except_bind_ok h
      obtain ⟨_, _, h⟩ := except_bind_ok h
      obtain ⟨_, _, h⟩ := except_bind_ok h
      obtain ⟨_, _, h⟩ := except_bind_ok h
      obtain ⟨_, _, h⟩ := except_bind_ok h
      obtain ⟨_, _, h⟩ := except_bind_ok h
      obtain ⟨_, _, h⟩ := except_bind_ok h
      obtain ⟨_, _, h⟩ := except_bind_ok h
      refine ih _ _ _ _ _ ?_ h
      exact hg
    · cases h
      exact hg

/-- Function `draw_children` stores no arc: capacities that were not negative stay so. -/
theorem draw_children_capsu (p : Params) :
    ∀ (fuel i : Nat) (arc_id : NetgenIndex) (g : Globals) (r : NetgenIndex × Globals),
      CapsU g → draw_children p fuel i arc_id g = Except.ok r → CapsU r.2 := by
  intro fuel
  induction fuel with
  | zero =>
    intro i arc_id g r hg h
    rw [draw_children] at h
    rcases except_ite_ok h with ⟨_, h⟩ | ⟨_, h⟩
    · cases h
    · cases h
      exact hg
  | succ n ih =>
    intro i arc_id g r hg h
    rw [draw_children] at h
    rcases except_ite_ok h with ⟨_, h⟩ | ⟨_, h⟩
    · obtain ⟨_, _, h⟩ := except_bind_ok h
      refine ih _ _ _ _ ?_ h
      exact hg
    · cases h
      exact hg

/-- Function `draw_parents` stores no arc: capacities that were not negative stay so. -/
theorem draw_parents_capsu (p : Params) :
    ∀ (fuel i : Nat) (ids : NetgenIndex) (g : Globals) (r : NetgenIndex × Globals),
      CapsU g → draw_parents p fuel i ids g = Except.ok r → CapsU r.2 := by
  intro fuel
  induction fuel with
  | zero =>
    intro i ids g r hg h
    rw [draw_parents] at h
    rcases except_ite_ok h with ⟨_, h⟩ | ⟨_, h⟩
    · cases h
    · cases h
      exact hg
  | succ n ih =>
    intro i ids g r hg h
    rw [draw_parents] at h
    rcases except_ite_ok h with ⟨_, h⟩ | ⟨_, h⟩
    · obtain ⟨_, _, h⟩ := except_bind_ok h
      refine ih _ _ _ _ ?_ h
      exact hg
    · cases h
      exact hg

/-! ## Theorems: the capacities of the arcs stored -/

/-- Storing an arc with a capacity that is not negative keeps the capacities
non-negative. -/
theorem save_arc_capsu (g g2 : Globals) (t hd : Nat) (c u : Int)
    (h : g.save_arc t hd c u = Except.ok g2) (hg : CapsU g) (hu : 0 ≤ u) : CapsU g2 := by
  obtain ⟨_, e⟩ := save_arc_spec _ _ _ _ _ _ h
  subst e
  intro a ha
  show 0 ≤ Function.update g.U g.arc_count u a
  have ha2 : a < g.arc_count + 1 := ha
  by_cases e : a = g.arc_count
  · rw [e, Function.update_same]
    exact hu
  · rw [Function.update_noteq e]
    exact hg a (by omega)

/-- The capacity of a filler arc: `SUPPLY`, or a value drawn between `MINCAP`
and `MAXCAP`; it is not negative when `MINCAP` and `SUPPLY` are not. -/
theorem filler_cap_nonneg (p : Params) (g : Globals) (c : Prop) [Decidable c]
    (hv : g.rando.Valid) (h0 : 0 ≤ p.MINCAP) (h1 : p.MINCAP ≤ p.MAXCAP)
    (h2 : p.MAXCAP ≤ 9223372036854775807) (h3 : 0 ≤ p.SUPPLY) :
    0 ≤ (if c then g.draw p.MINCAP p.MAXCAP else (p.SUPPLY, g)).1 := by
  split
  · have := random_bounds g.rando p.MINCAP p.MAXCAP hv h0 h1 h2
    show 0 ≤ (g.rando.random p.MINCAP p.MAXCAP).1
    omega
  · exact h3

/-- The arc loop of `pick_head` stores capacities that are not negative, when
`MINCAP` and `SUPPLY` are not negative. -/
theorem pick_arcs_capsu (p : Params) (desired_tail : Nat) (h0 : 0 ≤ p.MINCAP)
    (h1 : p.MINCAP ≤ p.MAXCAP) (h2 : p.MAXCAP ≤ 9223372036854775807) (h3 : 0 ≤ p.SUPPLY) :
    ∀ (fuel : Nat) (limit : Int) (indie : NetgenIndex) (g : Globals) (r : NetgenIndex × Globals),
      pick_arcs p desired_tail fuel limit indie g = Except.ok r → g.rando.Valid → CapsU g →
      CapsU r.2 := by
  intro fuel
  induction fuel with
  | zero =>
    intro limit indie g r h hv hg
    rw [pick_arcs] at h
    rcases except_ite_ok h with ⟨_, h⟩ | ⟨_, h⟩
    · cases h
    · cases h
      exact hg
  | succ n ih =>
    intro limit indie g r h hv hg
    rw [pick_arcs] at h
    rcases except_ite_ok h with ⟨hl, h⟩ | ⟨_, h⟩
    · obtain ⟨r1, g1, hd1⟩ : ∃ r1 g1, g.draw 1 indie.get_pseudo_size = (r1, g1) := ⟨_, _, rfl⟩
      rw [hd1] at h
      dsimp only at h
      obtain ⟨c, indie1, hc⟩ : ∃ c i1, indie.choose_index (toUInt r1) = (c, i1) := ⟨_, _, rfl⟩
      rw [hc] at h
      dsimp only at h
      obtain ⟨r2, g2, hd2⟩ : ∃ r2 g2, g1.draw 1 100 = (r2, g2) := ⟨_, _, rfl⟩
      rw [hd2] at h
      dsimp only at h
      have d1 := (draw_inv _ _ _ _ _ hd1).1
      have d2 := (draw_inv _ _ _ _ _ hd2).1
      have hv2 : g2.rando.Valid := d2.2 (d1.2 hv)
      have hcap := filler_cap_nonneg p g2 (r2 ≤ p.CAPACITATED) hv2 h0 h1 h2 h3
      obtain ⟨cap, g3, hd3⟩ : ∃ cap g3,
        (if r2 ≤ p.CAPACITATED then g2.draw p.MINCAP p.MAXCAP else (p.SUPPLY, g2)) = (cap, g3) :=
          ⟨_, _, rfl⟩
      rw [hd3] at h hcap
      dsimp only at h hcap
      have d3 := ite_draw_inv _ _ _ _ _ _ _ hd3
      obtain ⟨cost, g4, hd4⟩ : ∃ cost g4, g3.draw p.MINCOST p.MAXCOST = (cost, g4) := ⟨_, _, rfl⟩
      rw [hd4] at h
      dsimp only at h
      have d4 := (draw_inv _ _ _ _ _ hd4).1
      obtain ⟨g5, hg5, h⟩ := except_bind_ok h
      have d : g.Drawn g4 := ((d1.trans d2).trans d3).trans d4
      have hg4 : CapsU g4 := by
        rw [d.1]
        exact hg
      have k5 := save_arc_keeps _ _ _ _ _ _ hg5
      exact ih _ _ _ _ h (k5.2 (d.2 hv)) (save_arc_capsu _ _ _ _ _ _ hg5 hg4 hcap)
    · cases h
      exact hg

/-- Function `pick_head` stores capacities that are not negative, when `MINCAP`
and `SUPPLY` are not negative. -/
theorem pick_head_capsu (fuel : Nat) (p : Params) (indie : NetgenIndex) (desired_tail : Nat)
    (g : Globals) (r : NetgenIndex × Globals) (h0 : 0 ≤ p.MINCAP)
    (h1 : p.MINCAP ≤ p.MAXCAP) (h2 : p.MAXCAP ≤ 9223372036854775807) (h3 : 0 ≤ p.SUPPLY)
    (hv : g.rando.Valid) (hg : CapsU g)
    (h : pick_head fuel p indie desired_tail g = Except.ok r) : CapsU r.2 := by
  unfold pick_head at h
  rcases except_ite_ok h with ⟨_, h⟩ | ⟨_, h⟩
  · cases h
    exact hg
  · rcases except_ite_ok h with ⟨_, h⟩ | ⟨_, h⟩
    · cases h
    · dsimp only at h
      split at h
      · split at h
        · obtain ⟨lg, hlg, h⟩ := except_bind_ok h
          have e := Except.ok.inj hlg
          subst e
          exact pick_arcs_capsu p _ h0 h1 h2 h3 _ _ _ _ _ h hv hg
        · obtain ⟨lg, hlg, h⟩ := except_bind_ok h
          have k1 := pick_limit_keeps _ _ _ _ _ _ hlg
          have c1 : CapsU lg.2 := by
            refine pick_limit_capsu _ _ _ _ _ _ ?_ hlg
            exact hg
          exact pick_arcs_capsu p _ h0 h1 h2 h3 _ _ _ _ _ h (k1.2 hv) c1
      · split at h
        · obtain ⟨lg, hlg, h⟩ := except_bind_ok h
          have e := Except.ok.inj hlg
          subst e
          exact pick_arcs_capsu p _ h0 h1 h2 h3 _ _ _ _ _ h hv hg
        · obtain ⟨lg, hlg, h⟩ := except_bind_ok h
          have k1 := pick_limit_keeps _ _ _ _ _ _ hlg
          have c1 : CapsU lg.2 := by
            refine pick_limit_capsu _ _ _ _ _ _ ?_ hlg
            exact hg
          exact pick_arcs_capsu p _ h0 h1 h2 h3 _ _ _ _ _ h (k1.2 hv) c1

/-- Draws store no arc. -/
theorem capsu_of_drawn {g g1 : Globals} (d : g.Drawn g1) (hg : CapsU g) : CapsU g1 := by
  rw [d.1]
  exact hg

/-- The larger of a value and `MINCAP` is not negative when `MINCAP` is not. -/
theorem max_cap_nonneg (bs m : Int) (h0 : 0 ≤ m) : 0 ≤ MAX bs m := by
  unfold MAX
  split <;> omega

/-- The skeleton arcs of one group get capacities that are not negative, when
`MINCAP` and `SUPPLY` are not negative. -/
theorem emit_group_capsu (p : Params) (source it : Nat) (h0 : 0 ≤ p.MINCAP)
    (h3 : 0 ≤ p.SUPPLY) :
    ∀ (fuel i : Nat) (indie : NetgenIndex) (g : Globals) (r : Nat × NetgenIndex × Globals),
      CapsU g → emit_group p source it fuel i indie g = Except.ok r → CapsU r.2.2 := by
  intro fuel
  induction fuel with
  | zero =>
    intro i indie g r hg h
    obtain ⟨_, _, h⟩ := except_bind_ok h
    rcases except_ite_ok h with ⟨_, h⟩ | ⟨_, h⟩
    · cases h
    · cases h
      exact hg
  | succ n ih =>
    intro i indie g r hg h
    obtain ⟨_, _, h⟩ := except_bind_ok h
    rcases except_ite_ok h with ⟨_, h⟩ | ⟨_, h⟩
    · obtain ⟨_, _, h⟩ := except_bind_ok h
      obtain ⟨r1, g1, hd1⟩ : ∃ r1 g1, g.draw 1 100 = (r1, g1) := ⟨_, _, rfl⟩
      rw [hd1] at h
      dsimp only at h
      have d1 := (draw_inv _ _ _ _ _ hd1).1
      have d2 := (draw_inv g1 _ 1 100 _ rfl).1
      have d3 := ite_draw_inv ((g1.draw 1 100).1 > p.HICOST) (g1.draw 1 100).2 _
        p.MINCOST p.MAXCOST p.MAXCOST _ rfl
      have hg3 := capsu_of_drawn ((d1.trans d2).trans d3) hg
      rcases except_ite_ok h with ⟨_, h⟩ | ⟨_, h⟩
      · obtain ⟨bs, _, h⟩ := except_bind_ok h
        obtain ⟨y, hy, h⟩ := except_bind_ok h
        obtain ⟨g4, hg4, h⟩ := except_bind_ok h
        have ey : MAX bs p.MINCAP = y := Except.ok.inj hy
        have hy0 : 0 ≤ y := by
          rw [← ey]
          exact max_cap_nonneg bs p.MINCAP h0
        exact ih _ _ _ _ (save_arc_capsu _ _ _ _ _ _ hg4 hg3 hy0) h
      · obtain ⟨y, hy, h⟩ := except_bind_ok h
        obtain ⟨g4, hg4, h⟩ := except_bind_ok h
        have ey : p.SUPPLY = y := Except.ok.inj hy
        have hy0 : 0 ≤ y := by
          rw [← ey]
          exact h3
        exact ih _ _ _ _ (save_arc_capsu _ _ _ _ _ _ hg4 hg3 hy0) h
    · cases h
      exact hg

/-- The emission of the skeleton arcs of one source, with the filler arcs of
each group, stores capacities that are not negative. -/
theorem emit_arcs_capsu (fuel0 : Nat) (p : Params) (source : Nat) (sort_count : Int)
    (h0 : 0 ≤ p.MINCAP) (h1 : p.MINCAP ≤ p.MAXCAP) (h2 : p.MAXCAP ≤ 9223372036854775807)
    (h3 : 0 ≤ p.SUPPLY) :
    ∀ (fuel i : Nat) (it : Option Nat) (g : Globals) (r : Option Nat × Globals),
      g.rando.Valid → CapsU g →
      emit_arcs fuel0 p source sort_count fuel i it g = Except.ok r → CapsU r.2 := by
  intro fuel
  induction fuel with
  | zero =>
    intro i it g r hv hg h
    rw [emit_arcs] at h
    rcases except_ite_ok h with ⟨_, h⟩ | ⟨_, h⟩
    · cases h
    · cases h
      exact hg
  | succ n ih =>
    intro i it g r hv hg h
    rw [emit_arcs] at h
    rcases except_ite_ok h with ⟨_, h⟩ | ⟨_, h⟩
    · obtain ⟨_, _, h⟩ := except_bind_ok h
      obtain ⟨r1, hr1, h⟩ := except_bind_ok h
      obtain ⟨r2, hr2, h⟩ := except_bind_ok h
      have k1 := emit_group_keeps _ _ _ _ _ _ _ _ hr1
      have c1 := emit_group_capsu p _ _ h0 h3 _ _ _ _ _ hg hr1
      have k2 := pick_head_keeps _ _ _ _ _ _ hr2
      have c2 := pick_head_capsu _ p _ _ _ _ h0 h1 h2 h3 (k1.2 hv) c1 hr2
      exact ih _ _ _ _ (k2.2 (k1.2 hv)) c2 h
    · cases h
      exact hg

/-- The loop over the transshipment sinks stores capacities that are not
negative. -/
theorem tsink_arcs_capsu (fuel0 : Nat) (p : Params) (it : Option Nat)
    (h0 : 0 ≤ p.MINCAP) (h1 : p.MINCAP ≤ p.MAXCAP) (h2 : p.MAXCAP ≤ 9223372036854775807)
    (h3 : 0 ≤ p.SUPPLY) :
    ∀ (fuel i : Nat) (g r : Globals), g.rando.Valid → CapsU g →
      tsink_arcs fuel0 p it fuel i g = Except.ok r → CapsU r := by
  intro fuel
  induction fuel with
  | zero =>
    intro i g r hv hg h
    rw [tsink_arcs] at h
    rcases except_ite_ok h with ⟨_, h⟩ | ⟨_, h⟩
    · cases h
    · cases h
      exact hg
  | succ n ih =>
    intro i g r hv hg h
    rw [tsink_arcs] at h
    rcases except_ite_ok h with ⟨_, h⟩ | ⟨_, h⟩
    · cases it with
      | none => cases h
      | some tl =>
        obtain ⟨r1, hr1, h⟩ := except_bind_ok h
        have k1 := pick_head_keeps _ _ _ _ _ _ hr1
        have c1 := pick_head_capsu _ p _ _ _ _ h0 h1 h2 h3 hv hg hr1
        exact ih _ _ _ (k1.2 hv) c1 h
    · cases h
      exact hg

/-! ## Theorems: the stream stays valid through the pass of a source -/

/-- The sink draws leave the stream in a valid state. -/
theorem draw_sinks_valid (sps : Nat) :
    ∀ (fuel i : Nat) (sinks : Nat → Option Nat) (indie : NetgenIndex) (g : Globals)
      (r : (Nat → Option Nat) × NetgenIndex × Globals),
      draw_sinks sps fuel i sinks indie g = Except.ok r → g.rando.Valid →
      r.2.2.rando.Valid := by
  intro fuel
  induction fuel with
  | zero =>
    intro i sinks indie g r h hv
    rw [draw_sinks] at h
    rcases except_ite_ok h with ⟨_, h⟩ | ⟨_, h⟩
    · cases h
    · cases h
      exact hv
  | succ n ih =>
    intro i sinks indie g r h hv
    rw [draw_sinks] at h
    rcases except_ite_ok h with ⟨_, h⟩ | ⟨_, h⟩
    · obtain ⟨r1, g1, hd1⟩ : ∃ r1 g1, g.draw 1 indie.index_size = (r1, g1) := ⟨_, _, rfl⟩
      rw [hd1] at h
      dsimp only at h
      obtain ⟨c, indie1, hc⟩ : ∃ c i1, indie.choose_index (toUInt r1) = (c, i1) := ⟨_, _, rfl⟩
      rw [hc] at h
      dsimp only at h
      obtain ⟨s1, _, h1⟩ := except_bind_ok h
      exact ih _ _ _ _ _ h1 ((draw_inv _ _ _ _ _ hd1).1.2 hv)
    · cases h
      exact hv

/-- The supply loop of one source leaves the stream in a valid state; `W` is
the upper end of its second draw. -/
theorem spread_supply_valid_aux (fuel0 source sps : Nat) (sinks : Nat → Option Nat)
    (cl q W : Int) (hW : wrapLong (toULong ((sps : Int) - 1)) = W) :
    ∀ (fuel i k : Nat) (sc : Int) (g : Globals) (r : Int × Globals),
      spread_supply fuel0 source sps sinks cl q fuel i k sc g = Except.ok r →
      g.rando.Valid → r.2.rando.Valid := by
  intro fuel
  induction fuel with
  | zero =>
    intro i k sc g r h hv
    rw [spread_supply] at h
    rcases except_ite_ok h with ⟨_, h⟩ | ⟨_, h⟩
    · cases h
    · cases h
      exact hv
  | succ n ih =>
    intro i k sc g r h hv
    rw [spread_supply] at h
    rcases except_ite_ok h with ⟨_, h0⟩ | ⟨_, h0⟩
    · clear h
      rw [hW] at h0
      split at h0
      rename_i r1 g1 hd1
      split at h0
      rename_i r2 g2 hd2
      obtain ⟨t, _, h1⟩ := except_bind_ok h0
      clear h0
      obtain ⟨si, _, h2⟩ := except_bind_ok h1
      clear h1
      obtain ⟨hh, _, h3⟩ := except_bind_ok h2
      clear h2
      obtain ⟨bi, _, h4⟩ := except_bind_ok h3
      clear h3
      obtain ⟨b1, _, h5⟩ := except_bind_ok h4
      clear h4
      obtain ⟨sj, _, h6⟩ := except_bind_ok h5
      clear h5
      obtain ⟨bj, _, h7⟩ := except_bind_ok h6
      clear h6
      obtain ⟨b2, _, h8⟩ := except_bind_ok h7
      clear h7
      have v1 := (draw_inv _ _ _ _ _ hd1).1.2 hv
      have v2 := (draw_inv _ _ _ _ _ hd2).1.2 v1
      have d3 := draw_keeps { g2 with tail := t, head := hh, B := b2 } 1 cl
      obtain ⟨k2, _, h9⟩ := except_bind_ok h8
      clear h8
      exact ih _ _ _ _ _ h9 (d3.2 v2)
    · cases h0
      exact hv

/-- The supply loop of one source leaves the stream in a valid state. -/
theorem spread_supply_valid (fuel0 source sps : Nat) (sinks : Nat → Option Nat)
    (cl q : Int) (fuel i k : Nat) (sc : Int) (g : Globals) (r : Int × Globals)
    (h : spread_supply fuel0 source sps sinks cl q fuel i k sc g = Except.ok r)
    (hv : g.rando.Valid) : r.2.rando.Valid :=
  spread_supply_valid_aux fuel0 source sps sinks cl q _ rfl fuel i k sc g r h hv

/-- The pass of one source stores capacities that are not negative and leaves
the stream in a valid state, when `MINCAP` and `SUPPLY` are not negative. -/
theorem process_source_capsu (fuel : Nat) (p : Params) (source : Nat) (it : Option Nat)
    (g : Globals) (r : Option Nat × Globals) (h0 : 0 ≤ p.MINCAP) (h1 : p.MINCAP ≤ p.MAXCAP)
    (h2 : p.MAXCAP ≤ 9223372036854775807) (h3 : 0 ≤ p.SUPPLY) (hv : g.rando.Valid)
    (hg : CapsU g) (h : process_source fuel p source it g = Except.ok r) :
    r.2.rando.Valid ∧ CapsU r.2 := by
  unfold process_source at h
  obtain ⟨_, _, h⟩ := except_bind_ok h
  obtain ⟨r1, hr1, h⟩ := except_bind_ok h
  have c1 := walk_chain_capsu _ _ _ _ _ _ hg hr1
  have v1 := (walk_chain_keeps _ _ _ _ _ _ hr1).2 hv
  obtain ⟨r2, hr2, h⟩ := except_bind_ok h
  have c2 := draw_sinks_capsu _ _ _ _ _ _ _ c1 hr2
  have v2 := draw_sinks_valid _ _ _ _ _ _ _ hr2 v1
  have tail_part : ∀ (sps : Nat) (sinks : Nat → Option Nat),
      (do
        let bs ← rd MAXNODES r2.2.2.B (toULong ((source : Int) - 1))
        if sps = 0 then Except.error Stop.division_by_zero
        else do
          let supply_per_sink := wrapInt ((toULong bs / sps : Nat) : Int)
          let k ← rd MAXNODES r2.2.2.pred source
          let (sort_count, g) ← spread_supply fuel source sps sinks r1.1
            supply_per_sink fuel 0 k r1.1 r2.2.2
          let s0 ← rd_sinks sinks 0
          let bs ← rd MAXNODES g.B (toULong ((source : Int) - 1))
          let b0 ← rd MAXNODES g.B s0
          let b ← wr MAXNODES g.B s0 (wrapLong (b0 - ((toULong bs % sps : Nat) : Int)))
          let g := { g with B := b }
          let g ← sort_skeleton fuel sort_count g
          let tl ← wr MAXARCS g.tail (wrapInt (sort_count + 1)) 0
          let g := { g with tail := tl }
          emit_arcs fuel p source sort_count fuel 1 it g) = Except.ok r →
        r.2.rando.Valid ∧ CapsU r.2 := by
    intro sps sinks h
    obtain ⟨_, _, h⟩ := except_bind_ok h
    rcases except_ite_ok h with ⟨_, h⟩ | ⟨_, h⟩
    · cases h
    · obtain ⟨_, _, h⟩ := except_bind_ok h
      obtain ⟨r4, hr4, h⟩ := except_bind_ok h
      have c4 := spread_supply_capsu _ _ _ _ _ _ _ _ _ _ _ _ c2 hr4
      have v4 := spread_supply_valid _ _ _ _ _ _ _ _ _ _ _ _ hr4 v2
      obtain ⟨_, _, h⟩ := except_bind_ok h
      obtain ⟨_, _, h⟩ := except_bind_ok h
      obtain ⟨_, _, h⟩ := except_bind_ok h
      obtain ⟨_, _, h⟩ := except_bind_ok h
      obtain ⟨r5, hr5, h⟩ := except_bind_ok h
      have c5 : CapsU r5 := by
        refine sort_skeleton_capsu _ _ _ _ ?_ hr5
        exact c4
      have v5 : r5.rando.Valid := (sort_skeleton_keeps _ _ _ _ hr5).2 v4
      obtain ⟨_, _, h⟩ := except_bind_ok h
      constructor
      · refine (emit_arcs_keeps _ _ _ _ _ _ _ _ _ h).2 ?_
        exact v5
      · refine emit_arcs_capsu _ p _ _ h0 h1 h2 h3 _ _ _ _ _ ?_ ?_ h
        · exact v5
        · exact c5
  rcases except_ite_ok h with ⟨_, h⟩ | ⟨_, h⟩
  · obtain ⟨r3, hr3, h⟩ := except_bind_ok h
    exact tail_part _ _ h
  · obtain ⟨r3, hr3, h⟩ := except_bind_ok h
    exact tail_part _ _ h

/-- The loop over the sources stores capacities that are not negative and
leaves the stream in a valid state. -/
theorem all_sources_capsu (fuel0 : Nat) (p : Params) (h0 : 0 ≤ p.MINCAP)
    (h1 : p.MINCAP ≤ p.MAXCAP) (h2 : p.MAXCAP ≤ 9223372036854775807) (h3 : 0 ≤ p.SUPPLY) :
    ∀ (fuel source : Nat) (it : Option Nat) (g : Globals) (r : Option Nat × Globals),
      g.rando.Valid → CapsU g → all_sources fuel0 p fuel source it g = Except.ok r →
      r.2.rando.Valid ∧ CapsU r.2 := by
  intro fuel
  induction fuel with
  | zero =>
    intro source it g r hv hg h
    rw [all_sources] at h
    rcases except_ite_ok h with ⟨_, h⟩ | ⟨_, h⟩
    · cases h
    · cases h
      exact ⟨hv, hg⟩
  | succ n ih =>
    intro source it g r hv hg h
    rw [all_sources] at h
    rcases except_ite_ok h with ⟨_, h⟩ | ⟨_, h⟩
    · obtain ⟨r1, hr1, h⟩ := except_bind_ok h
      obtain ⟨v1, c1⟩ := process_source_capsu _ p _ _ _ _ h0 h1 h2 h3 hv hg hr1
      exact ih _ _ _ _ v1 c1 h
    · cases h
      exact ⟨hv, hg⟩

/-- The loop of `node_parents` on parents that are sink nodes with balances
that are not positive: the capacities it stores, the negated balances, are not
negative. -/
theorem node_parents_loop_capsu (p : Params) (lo : Nat) :
    ∀ (fuel : Nat) (i : Int) (g r : Globals),
      node_parents_loop p fuel i g = Except.ok r → 0 ≤ i → CapsU g →
      (∀ j, -9223372036854775808 < g.B j) → (∀ j, lo ≤ j → g.B j ≤ 0) →
      (∀ k : Nat, i ≤ (k : Int) → (k : Int) < p.INTER →
        g.parent k = 0 ∨ ((lo : Int) + 1 ≤ g.parent k ∧ g.parent k ≤ 5000)) →
      CapsU r := by
  intro fuel
  induction fuel with
  | zero =>
    intro i g r h h0 hg hL hU hP
    rw [node_parents_loop] at h
    rcases except_ite_ok h with ⟨_, h⟩ | ⟨_, h⟩
    · cases h
    · cases h
      exact hg
  | succ n ih =>
    intro i g r h h0 hg hL hU hP
    rw [node_parents_loop] at h
    rcases except_ite_ok h with ⟨hl, h1⟩ | ⟨_, h1⟩
    · clear h
      obtain ⟨pi, hpi, h2⟩ := except_bind_ok h1
      clear h1
      obtain ⟨f, hf, h3⟩ := except_bind_ok h2
      clear h2
      obtain ⟨t, _, h4⟩ := except_bind_ok h3
      clear h3
      obtain ⟨bp, hbp, h5⟩ := except_bind_ok h4
      clear h4
      obtain ⟨u, hu, h6⟩ := except_bind_ok h5
      clear h5
      obtain ⟨c, _, h7⟩ := except_bind_ok h6
      clear h6
      obtain ⟨b, hb, h8⟩ := except_bind_ok h7
      clear h7
      obtain ⟨par, hpar, h9⟩ := except_bind_ok h8
      clear h8
      obtain ⟨_, hi, epi⟩ := rd_ok_eq _ _ _ _ hpi
      obtain ⟨_, hac, _⟩ := wr_ok_eq _ _ _ _ _ hf
      obtain ⟨hx0, hx1, ebp⟩ := rd_ok_eq _ _ _ _ hbp
      obtain ⟨_, _, eu⟩ := wr_ok_eq _ _ _ _ _ hu
      obtain ⟨_, _, eb⟩ := wr_ok_eq _ _ _ _ _ hb
      obtain ⟨_, _, epar⟩ := wr_ok_eq _ _ _ _ _ hpar
      clear hpi hf hbp hu hb hpar
      have hi2 : i < 60000 := hi
      have hac2 : (g.arc_count : Int) < 60000 := hac
      have hx2 : wrapLong (pi - 1) < 5000 := hx1
      have hPi := hP i.toNat (by omega) (by omega)
      rw [← epi] at hPi
      have hpi1 : (lo : Int) + 1 ≤ pi ∧ pi ≤ 5000 := by
        rcases hPi with z | m
        · rw [z] at hx0
          have : wrapLong ((0 : Int) - 1) = -1 := wrapLong_id _ (by omega) (by omega)
          rw [this] at hx0
          omega
        · exact m
      have hx : wrapLong (pi - 1) = pi - 1 := wrapLong_id _ (by omega) (by omega)
      rw [hx] at ebp eb
      have hBl := hL (pi - 1).toNat
      have hBu := hU (pi - 1).toNat (by omega)
      rw [← ebp] at hBl hBu
      have hu2 : wrapLong (-bp) = -bp := wrapLong_id _ (by omega) (by omega)
      rw [hu2, Int.toNat_ofNat] at eu
      have hw : wrapInt (i + 1) = i + 1 := wrapInt_id _ (by omega) (by omega)
      have hac3 : toULong ((g.arc_count : Int) + 1) = g.arc_count + 1 := by
        rw [toULong_small _ (by omega) (by omega)]
        omega
      rw [hw, hac3] at h9
      clear hx hu2 hw hac3 hx0 hx1 hx2 hi hac
      refine ih _ _ _ h9 (by omega) ?_ ?_ ?_ ?_
      · intro a ha
        show 0 ≤ u a
        have ha2 : a < g.arc_count + 1 := ha
        rw [eu]
        by_cases e : a = g.arc_count
        · rw [e, Function.update_same]
          omega
        · rw [Function.update_noteq e]
          exact hg a (by omega)
      · intro j
        show -9223372036854775808 < b j
        rw [eb]
        by_cases e : j = (pi - 1).toNat
        · rw [e, Function.update_same]
          omega
        · rw [Function.update_noteq e]
          exact hL j
      · intro j hj
        show b j ≤ 0
        rw [eb]
        by_cases e : j = (pi - 1).toNat
        · rw [e, Function.update_same]
        · rw [Function.update_noteq e]
          exact hU j hj
      · intro k hk1 hk2
        show par k = 0 ∨ ((lo : Int) + 1 ≤ par k ∧ par k ≤ 5000)
        rw [epar, Function.update_noteq (by omega)]
        exact hP k (by omega) hk2
    · cases h1
      exact hg

/-! ## Theorems: the debits of a source, whatever the number of sinks -/

/-- Entries that are 0 or in `[lo, hi)` are in `[0, hi)`. -/
theorem SinksAt.sinksIn {lo hi : Nat} {sinks : Nat → Option Nat} {n : Nat}
    (h : SinksAt lo hi sinks n) : SinksIn 0 hi sinks n := by
  intro k hk
  obtain ⟨v, ev⟩ := h.1 k hk
  exact ⟨v, ev, Nat.zero_le _, (h.2 k v ev).1⟩

/-- A draw at any position, valid or not, returns 0 or an element of a list in
`[lo, hi)`. -/
theorem choose_at (lo hi : Nat) (x : NetgenIndex) (hx : ListIn lo hi x) (hpos : 0 < hi)
    (hhi : hi ≤ 5000) (k : Nat) :
    toULong (x.choose_index k).1 < hi ∧
      (toULong (x.choose_index k).1 = 0 ∨ lo ≤ toULong (x.choose_index k).1) ∧
      ListIn lo hi (x.choose_index k).2 := by
  obtain ⟨hlen, hmem⟩ := hx
  obtain ⟨m1, m2⟩ := choose_index_mem x k
  have hl : (x.choose_index k).2.index_list.length ≤ x.index_list.length := by
    unfold NetgenIndex.choose_index
    split
    · exact le_refl _
    · dsimp only
      rw [List.length_eraseIdx]
      split <;> omega
  have hin : ListIn lo hi (x.choose_index k).2 :=
    ⟨le_trans hl hlen, fun v hv => hmem v (m2 v hv)⟩
  rcases m1 with z | m
  · rw [z]
    exact ⟨hpos, Or.inl rfl, hin⟩
  · have := hmem _ m
    have e : toULong (x.choose_index k).1 = (x.choose_index k).1.toNat := by
      unfold toULong
      omega
    rw [e]
    exact ⟨by omega, Or.inr (by omega), hin⟩

/-- The sink draws of one source, however many sinks are left in the list:
every entry `sinks[i..sinks_per_source-1]` is set, to 0 when the list was
empty and to a node index of the list otherwise, and the balances are kept. -/
theorem draw_sinks_at (lo hi sps : Nat) (hpos : 0 < hi) (hhi : hi ≤ 5000) :
    ∀ (fuel i : Nat) (sinks : Nat → Option Nat) (indie : NetgenIndex) (g : Globals)
      (r : (Nat → Option Nat) × NetgenIndex × Globals),
      draw_sinks sps fuel i sinks indie g = Except.ok r → ListIn lo hi indie →
      i ≤ sps → SinksAt lo hi sinks i →
      g.KeepsB r.2.2 ∧ SinksAt lo hi r.1 sps ∧ ListIn lo hi r.2.1 := by
  intro fuel
  induction fuel with
  | zero =>
    intro i sinks indie g r h hl hile hs
    rw [draw_sinks] at h
    rcases except_ite_ok h with ⟨_, h⟩ | ⟨hn, h⟩
    · cases h
    · cases h
      have e : i = sps := by omega
      subst e
      exact ⟨Globals.KeepsB.same g, hs, hl⟩
  | succ n ih =>
    intro i sinks indie g r h hl hile hs
    rw [draw_sinks] at h
    rcases except_ite_ok h with ⟨hlt, h⟩ | ⟨hn, h⟩
    · obtain ⟨r1, g1, hd1⟩ : ∃ r1 g1, g.draw 1 indie.index_size = (r1, g1) := ⟨_, _, rfl⟩
      rw [hd1] at h
      dsimp only at h
      obtain ⟨d1, _⟩ := draw_inv _ _ _ _ _ hd1
      clear hd1
      have hch := choose_at lo hi indie hl hpos hhi (toUInt r1)
      obtain ⟨c, ids1, hc⟩ : ∃ c i1, indie.choose_index (toUInt r1) = (c, i1) := ⟨_, _, rfl⟩
      rw [hc] at h hch
      dsimp only at h hch
      clear hc
      obtain ⟨c1, c2, c3⟩ := hch
      obtain ⟨s2, hs2, h⟩ := except_bind_ok h
      obtain ⟨_, hib, es2⟩ := wr_ok_eq _ _ _ _ _ hs2
      have hib2 : (i : Int) < 5000 := hib
      clear hib
      have hi1 : toULong ((i : Int) + 1) = i + 1 := by
        unfold toULong
        omega
      rw [hi1] at h
      clear hi1
      have hs3 : SinksAt lo hi s2 (i + 1) := by
        constructor
        · intro k hk
          rw [es2, Int.toNat_ofNat]
          by_cases e : k = i
          · rw [e, Function.update_same]
            exact ⟨_, rfl⟩
          · rw [Function.update_noteq e]
            exact hs.1 k (by omega)
        · intro k v hkv
          rw [es2, Int.toNat_ofNat] at hkv
          by_cases e : k = i
          · rw [e, Function.update_same] at hkv
            have e2 := Option.some.inj hkv
            rw [← e2]
            exact ⟨c1, c2⟩
          · rw [Function.update_noteq e] at hkv
            exact hs.2 k v hkv
      obtain ⟨a1, a2, a3⟩ := ih _ _ _ _ _ h c3 (by omega) hs3
      exact ⟨d1.keeps.andThen a1, a2, a3⟩
    · cases h
      have e : i = sps := by omega
      subst e
      exact ⟨Globals.KeepsB.same g, hs, hl⟩

/-- The loop that appends the sinks not yet drawn: every entry added is a node
index of the list's range, whatever the entries drawn before. -/
theorem grow_sinks_at (lo hi : Nat) (hhi : hi ≤ 5000) :
    ∀ (fuel sps : Nat) (sinks : Nat → Option Nat) (indie : NetgenIndex) (g : Globals)
      (r : Nat × (Nat → Option Nat) × NetgenIndex),
      grow_sinks fuel sps sinks indie g = Except.ok r → ListIn lo hi indie →
      SinksAt lo hi sinks sps →
      SinksAt lo hi r.2.1 r.1 ∧ sps ≤ r.1 ∧ r.1 ≤ sps + indie.index_list.length := by
  intro fuel
  induction fuel with
  | zero =>
    intro sps sinks indie g r h hl hs
    rw [grow_sinks] at h
    rcases except_ite_ok h with ⟨_, h⟩ | ⟨hn, h⟩
    · cases h
    · cases h
      exact ⟨hs, le_refl _, Nat.le_add_right _ _⟩
  | succ n ih =>
    intro sps sinks indie g r h hl hs
    rw [grow_sinks] at h
    rcases except_ite_ok h with ⟨hpos, h⟩ | ⟨hn, h⟩
    · have hpos2 : (1 : Int) ≤ indie.index_list.length := hpos
      have hch := choose_in_range lo hi indie hl 1 (le_refl _) hpos2
      have e1 : toUInt 1 = 1 := by decide
      rw [e1] at hch
      obtain ⟨c, ids1, hc⟩ : ∃ c i1, indie.choose_index 1 = (c, i1) := ⟨_, _, rfl⟩
      rw [hc] at h hch
      dsimp only at h hch
      clear hc
      obtain ⟨c1, c2, c3, c4⟩ := hch
      have hcu : toULong c = c.toNat := by
        unfold toULong
        omega
      obtain ⟨bj, _, h⟩ := except_bind_ok h
      rcases except_ite_ok h with ⟨_, h⟩ | ⟨_, h⟩
      · obtain ⟨s2, hs2, h⟩ := except_bind_ok h
        obtain ⟨_, hsp, es2⟩ := wr_ok_eq _ _ _ _ _ hs2
        have hsp2 : (sps : Int) < 5000 := hsp
        have hi1 : toULong ((sps : Int) + 1) = sps + 1 := by
          unfold toULong
          omega
        rw [hi1] at h
        clear hi1
        have hs3 : SinksAt lo hi s2 (sps + 1) := by
          constructor
          · intro k hk
            rw [es2, Int.toNat_ofNat]
            by_cases e : k = sps
            · rw [e, Function.update_same]
              exact ⟨_, rfl⟩
            · rw [Function.update_noteq e]
              exact hs.1 k (by omega)
          · intro k v hkv
            rw [es2, Int.toNat_ofNat] at hkv
            by_cases e : k = sps
            · rw [e, Function.update_same, hcu] at hkv
              have e2 := Option.some.inj hkv
              rw [← e2]
              exact ⟨by omega, Or.inr (by omega)⟩
            · rw [Function.update_noteq e] at hkv
              exact hs.2 k v hkv
        clear hcu
        obtain ⟨a1, a2, a3⟩ := ih _ _ _ _ _ h c3 hs3
        exact ⟨a1, by omega, by omega⟩
      · clear hcu
        obtain ⟨a1, a2, a3⟩ := ih _ _ _ _ _ h c3 hs
        exact ⟨a1, a2, by omega⟩
    · cases h
      exact ⟨hs, le_refl _, Nat.le_add_right _ _⟩


/-- The supply loop of one source changes no balance but those of the entries
of `sinks`; `W` stands for the upper bound of the draw of the second sink. -/
theorem spread_supply_frame_aux (fuel0 source sps : Nat) (sinks : Nat → Option Nat) (cl q : Int)
    (lo : Nat) (hs : ∀ k v, sinks k = some v → v = 0 ∨ lo ≤ v) (W : Int)
    (hW : wrapLong (toULong ((sps : Int) - 1)) = W) :
    ∀ (fuel i k : Nat) (sc : Int) (g : Globals) (r : Int × Globals),
      spread_supply fuel0 source sps sinks cl q fuel i k sc g = Except.ok r →
      ∀ j, 1 ≤ j → j < lo → r.2.B j = g.B j := by
  intro fuel
  induction fuel with
  | zero =>
    intro i k sc g r h
    rw [spread_supply] at h
    rcases except_ite_ok h with ⟨_, h⟩ | ⟨hn, h⟩
    · cases h
    · cases h
      exact fun _ _ _ => rfl
  | succ n ih =>
    intro i k sc g r h
    rw [spread_supply] at h
    rw [hW] at h
    rcases except_ite_ok h with ⟨hlt, h⟩ | ⟨hn, h⟩
    · obtain ⟨r1, g1, hd1⟩ : ∃ r1 g1, g.draw 1 q = (r1, g1) := ⟨_, _, rfl⟩
      rw [hd1] at h
      dsimp only at h
      obtain ⟨d1, _⟩ := draw_inv _ _ _ _ _ hd1
      clear hd1
      obtain ⟨r2, g2, hd2⟩ : ∃ r2 g2,
          g1.draw 0 W = (r2, g2) := ⟨_, _, rfl⟩
      rw [hd2] at h
      dsimp only at h
      obtain ⟨d2, _⟩ := draw_inv _ _ _ _ _ hd2
      clear hd2
      obtain ⟨t, _, h1⟩ := except_bind_ok h
      clear h
      obtain ⟨si, hrsi, h2⟩ := except_bind_ok h1
      clear h1
      obtain ⟨hh, _, h3⟩ := except_bind_ok h2
      clear h2
      obtain ⟨bi, hbi, h4⟩ := except_bind_ok h3
      clear h3
      obtain ⟨b1', hb1, h5⟩ := except_bind_ok h4
      clear h4
      obtain ⟨sj, hrsj, h6⟩ := except_bind_ok h5
      clear h5
      obtain ⟨bj, hbj, h7⟩ := except_bind_ok h6
      clear h6
      obtain ⟨b2', hb2, h8⟩ := except_bind_ok h7
      clear h7
      obtain ⟨k2, _, h⟩ := except_bind_ok h8
      clear h8
      have d3 := draw_keeps { g2 with tail := t, head := hh, B := b2' } 1 cl
      generalize ({ g2 with tail := t, head := hh, B := b2' } : Globals).draw 1 cl = dr at h d3
      obtain ⟨r3, g3⟩ := dr
      dsimp only at h
      have eB3 : g3.B = b2' := d3.1
      clear d3
      obtain ⟨_, _, esi⟩ := rd_sinks_ok _ _ _ hrsi
      obtain ⟨_, _, esj⟩ := rd_sinks_ok _ _ _ hrsj
      have pi := hs _ _ esi
      have pj := hs _ _ esj
      clear esi esj hrsi hrsj
      obtain ⟨_, _, eb1⟩ := wr_ok_eq _ _ _ _ _ hb1
      obtain ⟨_, _, eb2⟩ := wr_ok_eq _ _ _ _ _ hb2
      rw [Int.toNat_ofNat] at eb1 eb2
      clear hbi hb1 hbj hb2
      have eB : g2.B = g.B := by
        rw [d2.1, d1.1]
      rw [eB] at eb1
      have a := ih _ _ _ _ _ h
      intro j hj1 hj2
      rw [a j hj1 hj2, eB3, eb2, Function.update_noteq (by omega), eb1,
        Function.update_noteq (by omega)]
    · cases h
      exact fun _ _ _ => rfl

/-- The supply loop of one source changes no balance but those of the entries
of `sinks`: when every entry is 0 or at least `lo`, the balances of the nodes
`1, ..., lo - 1` stay. -/
theorem spread_supply_frame (fuel0 source sps : Nat) (sinks : Nat → Option Nat) (cl q : Int)
    (lo : Nat) (hs : ∀ k v, sinks k = some v → v = 0 ∨ lo ≤ v) :
    ∀ (fuel i k : Nat) (sc : Int) (g : Globals) (r : Int × Globals),
      spread_supply fuel0 source sps sinks cl q fuel i k sc g = Except.ok r →
      ∀ j, 1 ≤ j → j < lo → r.2.B j = g.B j :=
  spread_supply_frame_aux fuel0 source sps sinks cl q lo hs _ rfl

/-- The clamp `MAX(2, MIN(x, s))` is at least 2, and it is 2 or at most `s`. -/
theorem max_min_clamp_any (x s : Nat) :
    2 ≤ MAX 2 (MIN x s) ∧ (MAX 2 (MIN x s) = 2 ∨ MAX 2 (MIN x s) ≤ s) := by
  unfold MAX MIN
  constructor
  · split <;> split <;> omega
  · split <;> split <;> omega

/-- The end of the pass of one source, from the read of `B[source - 1]` on,
whatever the number of sinks: the entries of `sinks` are 0 or sink indices in
`[lo, N)`; every debit is non-negative, so no balance rises; the balances of
the nodes `1, ..., lo - 1` stay; and a balance drops by at most the supply of
the source and a remainder below `sinks_per_source`. -/
theorem source_tail_debits (fuel : Nat) (p : Params) (source : Nat) (it : Option Nat)
    (sps : Nat) (sinks : Nat → Option Nat) (cl sc : Int) (g : Globals)
    (r : Option Nat × Globals) (lo N : Nat)
    (hsrc1 : 1 ≤ source) (hsrc2 : source ≤ 5000) (hsps1 : 1 ≤ sps) (hsps2 : sps ≤ 10000)
    (hs : SinksAt lo N sinks sps) (hv : g.rando.Valid)
    (hb0 : 0 ≤ g.B (source - 1)) (hb1 : g.B (source - 1) ≤ 2147483647)
    (hL : ∀ j, -2305843009213693952 ≤ g.B j) (hU : ∀ j, g.B j ≤ 4611686018427387904)
    (h : (do
        let bs ← rd MAXNODES g.B (toULong ((source : Int) - 1))
        if sps = 0 then Except.error Stop.division_by_zero
        else do
          let supply_per_sink := wrapInt ((toULong bs / sps : Nat) : Int)
          let k ← rd MAXNODES g.pred source
          let (sort_count, g) ← spread_supply fuel source sps sinks cl
            supply_per_sink fuel 0 k sc g
          let s0 ← rd_sinks sinks 0
          let bs ← rd MAXNODES g.B (toULong ((source : Int) - 1))
          let b0 ← rd MAXNODES g.B s0
          let b ← wr MAXNODES g.B s0 (wrapLong (b0 - ((toULong bs % sps : Nat) : Int)))
          let g := { g with B := b }
          let g ← sort_skeleton fuel sort_count g
          let tl ← wr MAXARCS g.tail (wrapInt (sort_count + 1)) 0
          let g := { g with tail := tl }
          emit_arcs fuel p source sort_count fuel 1 it g) = Except.ok r) :
    r.2.rando.Valid ∧ (∀ j, 1 ≤ j → j < lo → r.2.B j = g.B j) ∧
    (∀ j, g.B j - g.B (source - 1) - 10000 ≤ r.2.B j) ∧ (∀ j, r.2.B j ≤ g.B j) := by
  have hs0 := hs.sinksIn
  have hsP : ∀ k v, sinks k = some v → v = 0 ∨ lo ≤ v := fun k v e => (hs.2 k v e).2
  obtain ⟨v0, ev0, _, hv02⟩ := hs0 0 (by omega)
  have hv0P := hsP 0 v0 ev0
  have hsrc : ((toULong ((source : Int) - 1) : Nat) : Int).toNat = source - 1 := by
    rw [toULong_small _ (by omega) (by omega)]
    omega
  obtain ⟨q0, q1, m0, m1, hqm⟩ := div_rem_supply (g.B (source - 1)) sps hb0 hsps1
  obtain ⟨bs, hbs, h1⟩ := except_bind_ok h
  clear h
  obtain ⟨_, _, ebs⟩ := rd_ok_eq _ _ _ _ hbs
  clear hbs
  rw [hsrc] at ebs
  subst ebs
  rcases except_ite_ok h1 with ⟨h0, _⟩ | ⟨_, h2⟩
  · omega
  clear h1
  obtain ⟨k, _, h3⟩ := except_bind_ok h2
  clear h2
  obtain ⟨r4, hr4, h4⟩ := except_bind_ok h3
  clear h3
  have hq : wrapInt ((toULong (g.B (source - 1)) / sps : Nat) : Int) =
      ((g.B (source - 1)).toNat / sps : Nat) := by
    rw [toULong_small _ hb0 (by omega)]
    exact wrapInt_id _ (by omega) (by omega)
  rw [hq] at hr4
  clear hq
  generalize hqd : (((g.B (source - 1)).toNat / sps : Nat) : Int) = q at hr4 q0 q1 hqm
  generalize hmd : (((g.B (source - 1)).toNat % sps : Nat) : Int) = m at m0 m1 hqm
  clear hqd hmd
  have hX0 : 0 ≤ (sps : Int) * q := mul_nonneg (by omega) q0
  have hcast : ((sps : Int) - ((0 : Nat) : Int)) * q = (sps : Int) * q := by
    push_cast
    ring
  have fr := spread_supply_frame fuel source sps sinks cl q lo hsP fuel 0 k sc g r4 hr4
  obtain ⟨a1, _, _, a4, a5, _⟩ := spread_supply_spec fuel source sps sinks cl q 0 N hsps2
    q0 (by omega) hs0 fuel 0 k sc g r4 hr4 (by omega) hv
    (by
      intro j
      rw [hcast]
      have := hL j
      omega)
    hU
  clear hr4
  rw [hcast] at a4
  clear hcast
  generalize hXd : (sps : Int) * q = X at hX0 hqm a4
  clear hXd
  -- the remainder goes to the first sink
  obtain ⟨s0, hs0r, h5⟩ := except_bind_ok h4
  clear h4
  obtain ⟨_, _, es0⟩ := rd_sinks_ok _ _ _ hs0r
  clear hs0r
  have e0 : (0 : Int).toNat = 0 := rfl
  rw [e0, ev0] at es0
  have e1 : v0 = s0 := Option.some.inj es0
  subst e1
  clear es0 e0
  obtain ⟨bs2, _, h6⟩ := except_bind_ok h5
  clear h5
  have hm2 : (0 : Int) ≤ ((toULong bs2 % sps : Nat) : Int) ∧
      ((toULong bs2 % sps : Nat) : Int) < 10000 := by
    have := Nat.mod_lt (toULong bs2) (by omega : sps > 0)
    omega
  generalize ((toULong bs2 % sps : Nat) : Int) = m2 at h6 hm2
  obtain ⟨b0, hb0r, h7⟩ := except_bind_ok h6
  clear h6
  obtain ⟨_, _, eb0⟩ := rd_ok_eq _ _ _ _ hb0r
  clear hb0r
  rw [Int.toNat_ofNat] at eb0
  obtain ⟨b, hbw, h8⟩ := except_bind_ok h7
  clear h7
  obtain ⟨_, _, eb⟩ := wr_ok_eq _ _ _ _ _ hbw
  clear hbw
  rw [Int.toNat_ofNat] at eb
  have w1 : -9223372036854775808 ≤ b0 - m2 ∧ b0 - m2 ≤ 9223372036854775807 := by
    rw [eb0]
    have := a4 v0
    have := a5 v0
    have := hL v0
    have := hU v0
    omega
  rw [wrapLong_id _ w1.1 w1.2, eb0] at eb
  clear w1 eb0
  -- the sort and the arcs keep the balances
  obtain ⟨g5, hg5, h9⟩ := except_bind_ok h8
  clear h8
  have k5 := sort_skeleton_keeps _ _ _ _ hg5
  clear hg5
  obtain ⟨tl, _, h10⟩ := except_bind_ok h9
  clear h9
  have k6 := emit_arcs_keeps _ _ _ _ _ _ _ _ _ h10
  clear h10
  have eB : r.2.B = b := by
    rw [k6.1]
    exact k5.1
  have hvr : r.2.rando.Valid := k6.2 (k5.2 a1)
  clear k5 k6
  rw [eB, eb]
  refine ⟨hvr, ?_, ?_, ?_⟩
  · intro j hj1 hj2
    rw [Function.update_noteq (by omega), fr j hj1 hj2]
  · intro j
    have := a4 j
    by_cases e : j = v0
    · rw [e, Function.update_same]
      rw [e] at this
      omega
    · rw [Function.update_noteq e]
      omega
  · intro j
    have := a5 j
    by_cases e : j = v0
    · rw [e, Function.update_same]
      rw [e] at this
      omega
    · rw [Function.update_noteq e]
      omega

/-- The pass of one source, whatever the number of sinks: no balance rises,
the balances of the nodes `1, ..., lo - 1` stay, and a balance drops by at
most the supply of the source and 10000. -/
theorem process_source_debits (fuel : Nat) (p : Params) (source : Nat) (it : Option Nat)
    (g : Globals) (r : Option Nat × Globals) (lo N : Nat) (hN : N ≤ 5000)
    (hNN : p.NODES = (N : Int)) (hlo : p.NODES - p.SINKS = (lo : Int)) (hS1 : 1 ≤ p.SINKS)
    (hsrc1 : 1 ≤ source) (hsrc2 : source ≤ lo) (hv : g.rando.Valid)
    (hb0 : 0 ≤ g.B (source - 1)) (hb1 : g.B (source - 1) ≤ 2147483647)
    (hL : ∀ j, -2305843009213693952 ≤ g.B j) (hU : ∀ j, g.B j ≤ 4611686018427387904)
    (h : process_source fuel p source it g = Except.ok r) :
    r.2.rando.Valid ∧ (∀ j, 1 ≤ j → j < lo → r.2.B j = g.B j) ∧
    (∀ j, g.B j - g.B (source - 1) - 10000 ≤ r.2.B j) ∧ (∀ j, r.2.B j ≤ g.B j) := by
  have hloN : lo ≤ N := by omega
  have hS : toULong p.SINKS = N - lo := by
    rw [toULong_small _ (by omega) (by omega)]
    omega
  have hc1 : wrapInt (wrapLong (p.NODES - p.SINKS)) = (lo : Int) := by
    rw [wrapLong_id _ (by omega) (by omega), wrapInt_id _ (by omega) (by omega)]
    exact hlo
  have hc2 : wrapInt (wrapLong (p.NODES - 1)) = (N : Int) - 1 := by
    rw [wrapLong_id _ (by omega) (by omega), wrapInt_id _ (by omega) (by omega), hNN]
  obtain ⟨hl1, hl2⟩ := create_listIn lo N hloN hN
  unfold process_source at h
  obtain ⟨_, _, h1⟩ := except_bind_ok h
  clear h
  obtain ⟨r1, hr1, h2⟩ := except_bind_ok h1
  clear h1
  have k1 := walk_chain_keeps _ _ _ _ _ _ hr1
  clear hr1
  rw [hc1, hc2] at h2
  obtain ⟨r2, hr2, h3⟩ := except_bind_ok h2
  clear h2
  generalize hsp : MAX 2 (MIN _ (toULong p.SINKS)) = sps0 at hr2 h3
  have hcl : 2 ≤ sps0 ∧ (sps0 = 2 ∨ sps0 ≤ toULong p.SINKS) := by
    rw [← hsp]
    exact max_min_clamp_any _ _
  rw [hS] at hcl
  clear hsp
  obtain ⟨k2, hs2, hl3⟩ := draw_sinks_at lo N sps0 (by omega) hN fuel 0 _ _ _ r2 hr2 hl1
    (by omega) ⟨fun k hk => absurd hk (Nat.not_lt_zero k), fun _ _ e => by cases e⟩
  clear hr2
  have eB : r2.2.2.B = g.B := by
    rw [k2.1, k1.1]
  have hv2 : r2.2.2.rando.Valid := k2.2 (k1.2 hv)
  have fin : ∀ (sps : Nat) (sinks : Nat → Option Nat), 1 ≤ sps → sps ≤ 10000 →
      SinksAt lo N sinks sps →
      (do
        let bs ← rd MAXNODES r2.2.2.B (toULong ((source : Int) - 1))
        if sps = 0 then Except.error Stop.division_by_zero
        else do
          let supply_per_sink := wrapInt ((toULong bs / sps : Nat) : Int)
          let k ← rd MAXNODES r2.2.2.pred source
          let (sort_count, g) ← spread_supply fuel source sps sinks r1.1
            supply_per_sink fuel 0 k r1.1 r2.2.2
          let s0 ← rd_sinks sinks 0
          let bs ← rd MAXNODES g.B (toULong ((source : Int) - 1))
          let b0 ← rd MAXNODES g.B s0
          let b ← wr MAXNODES g.B s0 (wrapLong (b0 - ((toULong bs % sps : Nat) : Int)))
          let g := { g with B := b }
          let g ← sort_skeleton fuel sort_count g
          let tl ← wr MAXARCS g.tail (wrapInt (sort_count + 1)) 0
          let g := { g with tail := tl }
          emit_arcs fuel p source sort_count fuel 1 it g) = Except.ok r →
      r.2.rando.Valid ∧ (∀ j, 1 ≤ j → j < lo → r.2.B j = g.B j) ∧
      (∀ j, g.B j - g.B (source - 1) - 10000 ≤ r.2.B j) ∧ (∀ j, r.2.B j ≤ g.B j) := by
    intro sps sinks hs1 hs2 hsk hh
    have res := source_tail_debits fuel p source it sps sinks r1.1 r1.1 r2.2.2 r lo N
      hsrc1 (by omega) hs1 hs2 hsk hv2 (by rw [eB]; exact hb0) (by rw [eB]; exact hb1)
      (by rw [eB]; exact hL) (by rw [eB]; exact hU) hh
    rw [eB] at res
    exact res
  rcases except_ite_ok h3 with ⟨_, h4⟩ | ⟨_, h4⟩
  · obtain ⟨r3, hr3, h5⟩ := except_bind_ok h4
    obtain ⟨g1, g2, g3⟩ := grow_sinks_at lo N hN fuel sps0 _ _ _ r3 hr3 hl3 hs2
    have : r3.1 ≤ sps0 + 5000 := le_trans g3 (Nat.add_le_add_left hl3.1 _)
    exact fin r3.1 r3.2.1 (by omega) (by omega) g1 h5
  · obtain ⟨r3, hr3, h5⟩ := except_bind_ok h4
    have e := Except.ok.inj hr3
    subst e
    exact fin sps0 r2.1 (by omega) (by omega) hs2 h5

/-- The loop over the sources, whatever the number of sinks: the stream stays
valid, no balance rises, and no balance drops below `-(2^31 + 10000) * S`. -/
theorem all_sources_debits (fuel0 : Nat) (p : Params) (lo N S : Nat) (hN : N ≤ 5000)
    (hNN : p.NODES = (N : Int)) (hlo : p.NODES - p.SINKS = (lo : Int)) (hS1 : 1 ≤ p.SINKS)
    (hSS : toULong p.SOURCES = S) (hSlo : S ≤ lo) :
    ∀ (fuel source : Nat) (it : Option Nat) (g : Globals) (r : Option Nat × Globals),
      all_sources fuel0 p fuel source it g = Except.ok r →
      1 ≤ source → source ≤ S + 1 → g.rando.Valid →
      (∀ j, source - 1 ≤ j → j < S → 0 ≤ g.B j ∧ g.B j ≤ 2147483647) →
      (∀ j, -(2147493648 * ((source : Int) - 1)) ≤ g.B j) → (∀ j, g.B j ≤ 2147483648) →
      r.2.rando.Valid ∧ (∀ j, -(2147493648 * (S : Int)) ≤ r.2.B j) ∧
        (∀ j, r.2.B j ≤ g.B j) := by
  have base : ∀ (source : Nat) (g : Globals), ¬ source ≤ S → source ≤ S + 1 →
      g.rando.Valid → (∀ j, -(2147493648 * ((source : Int) - 1)) ≤ g.B j) →
      g.rando.Valid ∧ (∀ j, -(2147493648 * (S : Int)) ≤ g.B j) ∧ (∀ j, g.B j ≤ g.B j) := by
    intro source g hn h2 hv hL
    refine ⟨hv, ?_, fun _ => le_refl _⟩
    intro j
    have := hL j
    omega
  intro fuel
  induction fuel with
  | zero =>
    intro source it g r h h1 h2 hv hB hL hU
    rw [all_sources, hSS] at h
    rcases except_ite_ok h with ⟨_, h⟩ | ⟨hn, h⟩
    · cases h
    · have e := Except.ok.inj h
      subst e
      exact base source g hn h2 hv hL
  | succ n ih =>
    intro source it g r h h1 h2 hv hB hL hU
    rw [all_sources, hSS] at h
    rcases except_ite_ok h with ⟨hle, h⟩ | ⟨hn, h⟩
    · obtain ⟨r1, hr1, h3⟩ := except_bind_ok h
      clear h
      have hbs := hB (source - 1) (le_refl _) (by omega)
      obtain ⟨a1, a2, a4, a5⟩ := process_source_debits fuel0 p source it g r1 lo N hN hNN
        hlo hS1 h1 (by omega) hv hbs.1 hbs.2
        (by
          intro j
          have := hL j
          omega)
        (by
          intro j
          have := hU j
          omega) hr1
      clear hr1
      have hnx : toULong ((source : Int) + 1) = source + 1 := by
        rw [toULong_small _ (by omega) (by omega)]
        omega
      rw [hnx] at h3
      obtain ⟨c1, c4, c5⟩ := ih (source + 1) r1.1 r1.2 r h3 (by omega) (by omega) a1
        (by
          intro j hj1 hj2
          rw [a2 j (by omega) (by omega)]
          exact hB j (by omega) hj2)
        (by
          intro j
          have := a4 j
          have := hL j
          push_cast
          omega)
        (by
          intro j
          have := a5 j
          have := hU j
          omega)
      refine ⟨c1, c4, ?_⟩
      intro j
      have := c5 j
      have := a5 j
      omega
    · have e := Except.ok.inj h
      subst e
      exact base source g hn h2 hv hL

/-- The generation part of `netgen()` and the capacities, for parameters that
pass the checks with `MINCAP ≥ 0`, started on zero balances: every arc stored
has a capacity that is not negative. -/
theorem generate_caps (fuel : Nat) (p : Params) (g r : Globals) (hs : p.stored)
    (hv : sanity_checks p = none) (hm : 0 ≤ p.MINCAP)
    (hgv : g.rando.Valid) (hg0 : ∀ j, g.B j = 0) (h : generate fuel p g = Except.ok r) :
    CapsU r := by
  obtain ⟨g1, g2, i3, indie3, g3, indie4, g4, it5, g5, g6, arc7, g7, ids8, g8,
    hcs, hip, hce, hcr, has, hts, hdc, hpar, hnp⟩ := generate_inv fuel p g r h
  clear h
  obtain ⟨_, f2, f3, _, _, f6, f7, f8, _, f10, _, _, _, _, _, _, f17, _, f19, _⟩ :=
    sanity_facts p hs hv
  have hsup : p.SUPPLY ≤ 2147483647 := by
    unfold Params.stored in_int at hs
    omega
  have hcap : p.MAXCAP ≤ 9223372036854775807 := by
    unfold Params.stored in_int at hs
    omega
  have hint : p.INTER ≤ 2147483647 := by
    unfold Params.stored in_int at hs
    omega
  clear hs hv
  have h3 : 0 ≤ p.SUPPLY := by omega
  obtain ⟨N, hNN⟩ : ∃ N : Nat, p.NODES = (N : Int) := ⟨p.NODES.toNat, by omega⟩
  obtain ⟨lo, hlo⟩ : ∃ lo : Nat, p.NODES - p.SINKS = (lo : Int) :=
    ⟨(p.NODES - p.SINKS).toNat, by omega⟩
  obtain ⟨S, hS⟩ : ∃ S : Nat, p.SOURCES = (S : Int) := ⟨p.SOURCES.toNat, by omega⟩
  have hSS : toULong p.SOURCES = S := by
    rw [toULong_small _ (by omega) (by omega)]
    omega
  rw [hSS] at hcs hip
  -- the supply of the sources
  have hfuel := create_supply_fuel _ _ _ _ _ (by omega) hcs
  obtain ⟨g1', hcs', c1, c2, c3, c4, _⟩ := create_supply_spec fuel S p.SUPPLY
    { g with arc_count := 0
             nodes_left := toULong (wrapLong (wrapLong (p.NODES - p.SINKS) + p.TSINKS)) }
    hgv (by omega)
    (by omega) (by omega) (by omega) (fun i _ => hg0 i) hfuel
  have e1 : g1 = g1' := Except.ok.inj (hcs.symm.trans hcs')
  subst e1
  clear hcs' hfuel
  have u0 : CapsU { g with
      arc_count := 0
      nodes_left := toULong (wrapLong (wrapLong (p.NODES - p.SINKS) + p.TSINKS)) } := by
    intro a ha
    exact absurd ha (Nat.not_lt_zero a)
  have u1 := create_supply_capsu _ _ _ _ _ u0 hcs
  clear hcs u0
  have c4' : ∀ j, S ≤ j → g1.B j = 0 := fun j hj => by
    rw [c4 j hj]
    exact hg0 j
  have c5 : ∀ j, j < S → g1.B j ≤ p.SUPPLY := fun j hj => by
    rw [← c3]
    exact sum_below_ge_term _ S c2 j hj
  -- the chains
  have k2 := init_pred_keeps _ _ _ _ _ hip
  have k3 := chain_even_keeps _ _ _ _ _ _ _ _ hce
  have k4 := chain_random_keeps _ _ _ _ _ _ hcr
  have u2 := init_pred_capsu _ _ _ _ _ u1 hip
  have u3 := chain_even_capsu _ _ _ _ _ _ _ _ u2 hce
  have u4 := chain_random_capsu _ _ _ _ _ _ u3 hcr
  clear hip hce hcr u1 u2 u3
  have eB4 : g4.B = g1.B := by
    rw [k4.1, k3.1, k2.1]
  have hv4 : g4.rando.Valid := k4.2 (k3.2 (k2.2 c1))
  clear k2 k3 k4
  -- the sources, the transshipment sinks and the draws
  obtain ⟨v5, u5⟩ := all_sources_capsu fuel p hm f17 hcap h3 fuel 1 none g4 (it5, g5) hv4 u4 has
  have k6 := tsink_arcs_keeps _ _ _ _ _ _ _ hts
  have u6 := tsink_arcs_capsu fuel p it5 hm f17 hcap h3 _ _ _ _ v5 u5 hts
  have k7 := draw_children_keeps _ _ _ _ _ _ hdc
  have u7 := draw_children_capsu _ _ _ _ _ _ u6 hdc
  have k8 := draw_parents_keeps _ _ _ _ _ _ hpar
  have u8 := draw_parents_capsu _ _ _ _ _ _ u7 hpar
  clear u4 u5 u6 u7 hts hdc
  dsimp only at v5 u8 k6 k7 k8
  by_cases hp : p.PARENT = 0
  · rw [if_pos hp] at hnp hpar
    have hi := f19 hp
    obtain ⟨_, a4, a5⟩ := all_sources_debits fuel p lo N S (by omega) hNN hlo (by omega) hSS
      (by omega) fuel 1 none g4 (it5, g5) has (le_refl _) (by omega) hv4
      (by
        intro j _ hj
        rw [eB4]
        have := c2 j hj
        have := c5 j hj
        omega)
      (by
        intro j
        rw [eB4]
        have hz : -(2147493648 * ((((1 : Nat) : Int)) - 1)) = 0 := by norm_num
        rw [hz]
        by_cases e : j < S
        · exact c2 j e
        · rw [c4' j (by omega)])
      (by
        intro j
        rw [eB4]
        by_cases e : j < S
        · have := c5 j e
          omega
        · rw [c4' j (by omega)]
          omega)
    clear has
    dsimp only at a4 a5
    have eB8 : g8.B = g5.B := by
      rw [k8.1, k7.1, k6.1]
    obtain ⟨_, _, _, b4⟩ := draw_parents_spec p fuel 0 _ g7 (ids8, g8) hpar
    have e1 : wrapInt (wrapLong (wrapLong (p.NODES - p.SINKS) + 1)) = p.NODES - p.SINKS + 1 := by
      rw [wrapLong_id (p.NODES - p.SINKS) (by omega) (by omega),
        wrapLong_id _ (by omega) (by omega), wrapInt_id _ (by omega) (by omega)]
    have e2 : wrapInt p.NODES = p.NODES := wrapInt_id _ (by omega) (by omega)
    rw [e1, e2] at b4
    dsimp only at b4
    clear e1 e2 hpar k6 k7 k8
    refine node_parents_loop_capsu p lo fuel 0 g8 r hnp (le_refl _) u8 ?_ ?_ ?_
    · intro j
      rw [eB8]
      have := a4 j
      omega
    · intro j hj
      rw [eB8]
      have := a5 j
      rw [eB4, c4' j (by omega)] at this
      exact this
    · intro k hk1 hk2
      have hti : k < toULong p.INTER := by
        rw [toULong_small _ (by omega) (by omega)]
        omega
      rcases b4 k (Nat.zero_le _) hti with z | m
      · exact Or.inl z
      · have := (mem_fill_range _ _ _).mp m
        right
        omega
  · rw [if_neg hp] at hnp
    have e := Except.ok.inj hnp
    rw [← e]
    exact u8

/-- C22 (counterexample): with `MINCAP = -10`, `MAXCAP = -5` and
`CAPACITATED = 100` (`NODES = 3`, `SOURCES = 1`, `SINKS = 2`, `DENSITY = 6`,
seed 1) the parameters pass the checks, which only compare `MINCAP` with
`MAXCAP`, and the run returns 4 arcs whose capacities are 10, 10, -6 and -7:
the two filler arcs have a negative capacity. -/
theorem C22_negative_capacity :
    sanity_checks ⟨1, 3, 1, 2, 6, 1, 100, 10, 0, 0, 50, 100, -10, -5, 1, 0⟩ = none ∧
    ((netgen 20 ⟨1, 3, 1, 2, 6, 1, 100, 10, 0, 0, 50, 100, -10, -5, 1, 0⟩
        (Globals.init 1)).toOption.map
      (fun r => (r.1, r.2.U 0, r.2.U 1, r.2.U 2, r.2.U 3))) = some (4, 10, 10, -6, -7) := by
  decide!

/-- C22 (amended): for parameters stored by `main` that pass the sanity checks
with `MINCAP ≥ 0`, and a run of `netgen()` from the zero-initialised globals
seeded with `seed` that returns: every arc of the network, skeleton, filler or
auxiliary, has a capacity `U[a] ≥ 0`. -/
theorem C22_capacities_nonneg (fuel : Nat) (p : Params) (rc : Int) (g2 : Globals)
    (hs : p.stored) (hv : sanity_checks p = none) (hm : 0 ≤ p.MINCAP)
    (h : netgen fuel p (Globals.init p.seed) = Except.ok (rc, g2)) :
    ∀ a, a < g2.arc_count → 0 ≤ g2.U a := by
  obtain ⟨hgen, _, _⟩ := netgen_pass_inv fuel p _ rc g2 hv h
  have f := sanity_facts p hs hv
  have hseed : p.seed ≤ 2147483647 := by
    unfold Params.stored in_int at hs
    omega
  exact generate_caps fuel p _ g2 hs hv hm ⟨by show 0 ≤ p.seed; omega, hseed⟩
    (fun _ => rfl) hgen

/-- Witness for C22 (amended): `NODES = 3`, `SOURCES = 2`, `SINKS = 1`,
`DENSITY = 6`, `CAPACITATED = 100`, `MINCAP = 5`, `MAXCAP = 30`, node parents
with `INTER = 1`, seed 1: the run returns 7 arcs, none with a negative
capacity. -/
theorem C22_capacities_nonneg_witness :
    ∃ rc g2, netgen 30 ⟨1, 3, 2, 1, 6, 1, 100, 11, 0, 0, 50, 100, 5, 30, 0, 1⟩ (Globals.init 1) =
        Except.ok (rc, g2) ∧ g2.arc_count = 7 ∧
      0 ≤ g2.U 0 ∧ 0 ≤ g2.U 1 ∧ 0 ≤ g2.U 2 ∧ 0 ≤ g2.U 3 ∧ 0 ≤ g2.U 4 ∧ 0 ≤ g2.U 5 ∧
      0 ≤ g2.U 6 := by
  have hok : ((netgen 30 ⟨1, 3, 2, 1, 6, 1, 100, 11, 0, 0, 50, 100, 5, 30, 0, 1⟩
      (Globals.init 1)).toOption.map (fun r => r.2.arc_count)) = some 7 := by decide!
  cases h : netgen 30 ⟨1, 3, 2, 1, 6, 1, 100, 11, 0, 0, 50, 100, 5, 30, 0, 1⟩ (Globals.init 1) with
  | error e =>
    rw [h] at hok
    cases hok
  | ok r =>
    rw [h] at hok
    have e7 : r.2.arc_count = 7 := Option.some.inj hok
    have hc := C22_capacities_nonneg 30 ⟨1, 3, 2, 1, 6, 1, 100, 11, 0, 0, 50, 100, 5, 30, 0, 1⟩
      r.1 r.2 (by unfold Params.stored in_int; decide) (by decide) (by decide) h
    rw [e7] at hc
    exact ⟨r.1, r.2, rfl, e7, hc 0 (by decide), hc 1 (by decide), hc 2 (by decide),
      hc 3 (by decide), hc 4 (by decide), hc 5 (by decide), hc 6 (by decide)⟩

/-! ## Theorems: the chains of the sources -/

/-- A walk only reads `pred` at its start and at the nodes it meets. -/
theorem walk_of_agree (pred pred2 : Nat → Nat) :
    ∀ (l : List Nat) (a a2 b : Nat), Walk pred a l b → pred2 a2 = pred a →
      (∀ x ∈ l, pred2 x = pred x) → Walk pred2 a2 l b := by
  intro l
  induction l with
  | nil =>
    intro a a2 b h e _
    show pred2 a2 = b
    rw [e]
    exact h
  | cons n l ih =>
    intro a a2 b h e hl
    obtain ⟨h1, h2⟩ := h
    refine ⟨by rw [e]; exact h1, ?_⟩
    exact ih n n b h2 (hl n (List.mem_cons_self n l))
      (fun x hx => hl x (List.mem_cons_of_mem n hx))

/-- Following `pred` along a walk of `n` nodes arrives after `n + 1` steps. -/
theorem walk_iterate (pred : Nat → Nat) :
    ∀ (l : List Nat) (a b : Nat), Walk pred a l b → pred^[l.length + 1] a = b := by
  intro l
  induction l with
  | nil =>
    intro a b h
    exact h
  | cons n l ih =>
    intro a b h
    obtain ⟨h1, h2⟩ := h
    rw [List.length_cons, Function.iterate_succ_apply, h1]
    exact ih n b h2

/-- The entries of a walk are the nodes met: the `k`-th entry is reached after
`k + 1` steps. -/
theorem walk_entries (pred : Nat → Nat) :
    ∀ (l : List Nat) (a b : Nat), Walk pred a l b →
      ∀ k, k < l.length → l.get? k = some (pred^[k + 1] a) := by
  intro l
  induction l with
  | nil =>
    intro a b _ k hk
    exact absurd hk (Nat.not_lt_zero k)
  | cons n l ih =>
    intro a b h k hk
    obtain ⟨h1, h2⟩ := h
    cases k with
    | zero =>
      show some n = some (pred a)
      rw [h1]
    | succ k =>
      rw [Function.iterate_succ_apply, h1]
      exact ih n b h2 k (by
        rw [List.length_cons] at hk
        omega)

/-- Lengthening one of the lists `ch 1, ..., ch S` by one entry raises the
total by one. -/
theorem chain_total_update (ch : Nat → List Nat) (s0 x : Nat) (h1 : 1 ≤ s0) :
    ∀ S, s0 ≤ S →
      chain_total (Function.update ch s0 (x :: ch s0)) S = chain_total ch S + 1 := by
  intro S
  induction S with
  | zero =>
    intro h
    omega
  | succ n ih =>
    intro h
    show chain_total (Function.update ch s0 (x :: ch s0)) n +
      (Function.update ch s0 (x :: ch s0) (n + 1)).length = chain_total ch n + (ch (n + 1)).length + 1
    by_cases e : s0 = n + 1
    · have hlow : ∀ m, m < s0 →
          chain_total (Function.update ch s0 (x :: ch s0)) m = chain_total ch m := by
        intro m
        induction m with
        | zero => intro _; rfl
        | succ k ihk =>
          intro hk
          show chain_total (Function.update ch s0 (x :: ch s0)) k +
            (Function.update ch s0 (x :: ch s0) (k + 1)).length =
              chain_total ch k + (ch (k + 1)).length
          rw [ihk (by omega), Function.update_noteq (by omega)]
      rw [hlow n (by omega), ← e, Function.update_same, List.length_cons]
      omega
    · rw [ih (by omega), Function.update_noteq (Ne.symm e)]
      omega

/-- The lists `ch 1, ..., ch S` are each at most as long as their total. -/
theorem chain_total_ge (ch : Nat → List Nat) (s : Nat) (h1 : 1 ≤ s) :
    ∀ S, s ≤ S → (ch s).length ≤ chain_total ch S := by
  intro S
  induction S with
  | zero =>
    intro h
    omega
  | succ n ih =>
    intro h
    show (ch s).length ≤ chain_total ch n + (ch (n + 1)).length
    by_cases e : s = n + 1
    · rw [e]
      omega
    · have := ih (by omega)
      omega

/-- One chain step `pred[node] = pred[source]; pred[source] = node;` with a
node drawn from the pool puts the node at the front of the chain of the source
and keeps the chains well formed. -/
theorem chain_insert (S M : Nat) (pred : Nat → Nat) (ch : Nat → List Nat) (pool pool2 : List Int)
    (hI : ChainInv S M pred ch pool) (c : Int) (hc : c ∈ pool)
    (hs2 : List.Sorted (fun a b : Int => a < b) pool2)
    (hm : ∀ v, v ∈ pool2 ↔ v ∈ pool ∧ v ≠ c) (hl : pool2.length + 1 = pool.length)
    (s0 : Nat) (h1 : 1 ≤ s0) (h2 : s0 ≤ S) :
    ChainInv S M (Function.update (Function.update pred c.toNat (pred s0)) s0 c.toNat)
      (Function.update ch s0 (c.toNat :: ch s0)) pool2 := by
  obtain ⟨hc1, hc2⟩ := hI.pool_range c hc
  have ecast : ((c.toNat : Nat) : Int) = c := by omega
  have hnS : S < c.toNat := by omega
  have hnM : c.toNat ≤ M := by omega
  have hfresh : ∀ s, 1 ≤ s → s ≤ S → c.toNat ∉ ch s := by
    intro s hs1 hs2' hin
    have := (hI.range s hs1 hs2' _ hin).2.2
    rw [ecast] at this
    exact this hc
  have hne0 : c.toNat ≠ s0 := by omega
  have hpred : ∀ x, x ≠ c.toNat → x ≠ s0 →
      Function.update (Function.update pred c.toNat (pred s0)) s0 c.toNat x = pred x := by
    intro x hx1 hx2
    rw [Function.update_noteq hx2, Function.update_noteq hx1]
  have hel : ∀ s, 1 ≤ s → s ≤ S → ∀ x ∈ ch s,
      Function.update (Function.update pred c.toNat (pred s0)) s0 c.toNat x = pred x := by
    intro s hs1 hs2' x hx
    have hr := hI.range s hs1 hs2' x hx
    refine hpred x ?_ (by omega)
    intro e
    rw [e] at hx
    exact hfresh s hs1 hs2' hx
  refine ⟨?_, ?_, ?_, ?_, ?_, ?_, hs2, ?_⟩
  · intro s hs1 hs2'
    by_cases e : s = s0
    · subst e
      rw [Function.update_same]
      refine ⟨Function.update_same _ _ _, ?_⟩
      refine walk_of_agree pred _ (ch s) s c.toNat s (hI.walk s hs1 hs2') ?_ (hel s hs1 hs2')
      rw [Function.update_noteq hne0, Function.update_same]
    · rw [Function.update_noteq e]
      exact walk_of_agree pred _ (ch s) s s s (hI.walk s hs1 hs2') (hpred s (by omega) e)
        (hel s hs1 hs2')
  · intro s hs1 hs2' x hx
    by_cases e : s = s0
    · subst e
      rw [Function.update_same] at hx
      rcases List.mem_cons.1 hx with ex | hx'
      · rw [ex]
        refine ⟨hnS, hnM, ?_⟩
        rw [ecast, hm]
        exact fun h => h.2 rfl
      · have hr := hI.range s hs1 hs2' x hx'
        exact ⟨hr.1, hr.2.1, fun h => hr.2.2 ((hm _).1 h).1⟩
    · rw [Function.update_noteq e] at hx
      have hr := hI.range s hs1 hs2' x hx
      exact ⟨hr.1, hr.2.1, fun h => hr.2.2 ((hm _).1 h).1⟩
  · intro s hs1 hs2'
    by_cases e : s = s0
    · subst e
      rw [Function.update_same]
      exact List.nodup_cons.2 ⟨hfresh s hs1 hs2', hI.nodup s hs1 hs2'⟩
    · rw [Function.update_noteq e]
      exact hI.nodup s hs1 hs2'
  · intro s t hs1 hs2' ht1 ht2 hst x hx hxt
    by_cases e : s = s0
    · subst e
      rw [Function.update_same] at hx
      rw [Function.update_noteq (Ne.symm hst)] at hxt
      rcases List.mem_cons.1 hx with ex | hx'
      · rw [ex] at hxt
        exact hfresh t ht1 ht2 hxt
      · exact hI.disj s t hs1 hs2' ht1 ht2 hst x hx' hxt
    · rw [Function.update_noteq e] at hx
      by_cases e2 : t = s0
      · subst e2
        rw [Function.update_same] at hxt
        rcases List.mem_cons.1 hxt with ex | hxt'
        · rw [ex] at hx
          exact hfresh s hs1 hs2' hx
        · exact hI.disj s t hs1 hs2' ht1 ht2 hst x hx hxt'
      · rw [Function.update_noteq e2] at hxt
        exact hI.disj s t hs1 hs2' ht1 ht2 hst x hx hxt
  · intro v hv1 hv2
    rcases hI.cover v hv1 hv2 with hp | ⟨s, hs1, hs2', hin⟩
    · by_cases e : (v : Int) = c
      · right
        refine ⟨s0, h1, h2, ?_⟩
        rw [Function.update_same]
        have : v = c.toNat := by omega
        rw [this]
        exact List.mem_cons_self _ _
      · exact Or.inl ((hm _).2 ⟨hp, e⟩)
    · right
      refine ⟨s, hs1, hs2', ?_⟩
      by_cases e : s = s0
      · subst e
        rw [Function.update_same]
        exact List.mem_cons_of_mem _ hin
      · rw [Function.update_noteq e]
        exact hin
  · rw [chain_total_update ch s0 c.toNat h1 S h2]
    have := hI.total
    omega
  · intro v hv
    exact hI.pool_range v ((hm v).1 hv).1

/-- A draw at a position inside the list returns an entry of the list and
shortens the list by one. -/
theorem choose_index_hit (x : NetgenIndex) (k : Nat) (h1 : 1 ≤ k)
    (h2 : k ≤ x.index_list.length) :
    (x.choose_index k).1 ∈ x.index_list ∧
      (x.choose_index k).2.index_list.length + 1 = x.index_list.length := by
  unfold NetgenIndex.choose_index
  have hn : ¬ (k < 1 ∨ k > x.index_list.length) := by omega
  have hlt : k - 1 < x.index_list.length := by omega
  rw [if_neg hn]
  dsimp only
  rw [List.getD_eq_getElem _ _ hlt, List.length_eraseIdx, if_pos hlt]
  exact ⟨List.getElem_mem hlt, by omega⟩

/-- One pass of a chain loop on the chains: the node drawn at position `k` of
the index list goes to the front of the chain of source `s0`. -/
theorem chain_step (S M : Nat) (pred : Nat → Nat) (ch : Nat → List Nat) (indie : NetgenIndex)
    (hI : ChainInv S M pred ch indie.index_list) (k : Nat) (hk1 : 1 ≤ k)
    (hk2 : k ≤ indie.index_list.length) (s0 : Nat) (h1 : 1 ≤ s0) (h2 : s0 ≤ S) :
    (S : Int) < (indie.choose_index k).1 ∧ (indie.choose_index k).1 ≤ (M : Int) ∧
      ChainInv S M
        (Function.update (Function.update pred (indie.choose_index k).1.toNat (pred s0)) s0
          (indie.choose_index k).1.toNat)
        (Function.update ch s0 ((indie.choose_index k).1.toNat :: ch s0))
        (indie.choose_index k).2.index_list ∧
      (indie.choose_index k).2.index_list.length + 1 = indie.index_list.length := by
  obtain ⟨hin, hlen⟩ := choose_index_hit indie k hk1 hk2
  obtain ⟨hs, hm⟩ := choose_index_pool indie k hI.sorted (fun v hv => by
    have := hI.pool_range v hv
    omega)
  have hr := hI.pool_range _ hin
  exact ⟨hr.1, hr.2, chain_insert S M pred ch _ _ hI _ hin hs hm hlen s0 h1 h2, hlen⟩

/-- The loop `for (i = 1; i <= SOURCES; i++) pred[i] = i;` from `i` on returns
and makes every remaining source its own predecessor. -/
theorem init_pred_run (S : Nat) (hS : S < 5000) :
    ∀ (fuel i : Nat) (g : Globals), 1 ≤ i → S + 1 ≤ i + fuel →
      ∃ r, init_pred S fuel i g = Except.ok r ∧ r.rando = g.rando ∧
        (∀ s, i ≤ s → s ≤ S → r.pred s = s) ∧ ∀ s, s < i → r.pred s = g.pred s := by
  intro fuel
  induction fuel with
  | zero =>
    intro i g h1 hf
    refine ⟨g, ?_, rfl, fun s a b => by omega, fun _ _ => rfl⟩
    rw [init_pred, if_neg (by omega)]
  | succ n ih =>
    intro i g h1 hf
    by_cases hl : i ≤ S
    · have c1 : (0 : Int) ≤ (i : Int) := by omega
      have c2 : (i : Int) < ((MAXNODES : Nat) : Int) := by
        unfold MAXNODES
        omega
      have w1 : toULong ((i : Int) + 1) = i + 1 := by
        rw [toULong_small _ (by omega) (by omega)]
        omega
      rw [init_pred, if_pos hl, wr_eq_ok MAXNODES g.pred _ _ c1 c2, except_ok_bind, w1]
      obtain ⟨r, hr, e1, e2, e3⟩ := ih (i + 1)
        { g with pred := Function.update g.pred (i : Int).toNat i } (by omega) (by omega)
      refine ⟨r, hr, e1, ?_, ?_⟩
      · intro s hs1 hs2
        by_cases e : s = i
        · rw [e3 s (by omega)]
          show Function.update g.pred (i : Int).toNat i s = s
          rw [e, Int.toNat_ofNat, Function.update_same]
        · exact e2 s (by omega) hs2
      · intro s hs
        rw [e3 s (by omega)]
        show Function.update g.pred (i : Int).toNat i s = g.pred s
        rw [Int.toNat_ofNat, Function.update_noteq (by omega)]
    · refine ⟨g, ?_, rfl, fun s a b => by omega, fun _ _ => rfl⟩
      rw [init_pred, if_neg hl]

/-- One pass of the first chain loop, written with projections. -/
theorem chain_even_pass (p : Params) (bound fuel i source : Nat) (indie : NetgenIndex)
    (g : Globals) (h : i > bound) :
    chain_even p bound (fuel + 1) i source indie g =
      (rd MAXNODES g.pred source >>= fun ps =>
        wr MAXNODES g.pred
          (toULong (indie.choose_index (toUInt (g.rando.random 1 indie.index_size).1)).1) ps
        >>= fun pr =>
        wr MAXNODES pr source
          (toULong (indie.choose_index (toUInt (g.rando.random 1 indie.index_size).1)).1)
        >>= fun pr2 =>
        chain_even p bound fuel (toULong ((i : Int) - 1))
          (if toULong ((source : Int) + 1) > toULong p.SOURCES then 1
            else toULong ((source : Int) + 1))
          (indie.choose_index (toUInt (g.rando.random 1 indie.index_size).1)).2
          { g with pred := pr2, rando := (g.rando.random 1 indie.index_size).2 }) := by
  rw [chain_even, if_pos h]
  rfl

/-- One pass of the second chain loop, written with projections. -/
theorem chain_random_pass (p : Params) (fuel i : Nat) (indie : NetgenIndex)
    (g : Globals) (h : i > 0) :
    chain_random p (fuel + 1) i indie g =
      (rd MAXNODES g.pred
          (toULong ((g.rando.random 1 indie.index_size).2.random 1 p.SOURCES).1) >>= fun ps =>
        wr MAXNODES g.pred
          (toULong (indie.choose_index (toUInt (g.rando.random 1 indie.index_size).1)).1) ps
        >>= fun pr =>
        wr MAXNODES pr (toULong ((g.rando.random 1 indie.index_size).2.random 1 p.SOURCES).1)
          (toULong (indie.choose_index (toUInt (g.rando.random 1 indie.index_size).1)).1)
        >>= fun pr2 =>
        chain_random p fuel (toULong ((i : Int) - 1))
          (indie.choose_index (toUInt (g.rando.random 1 indie.index_size).1)).2
          { g with pred := pr2,
                   rando := ((g.rando.random 1 indie.index_size).2.random 1 p.SOURCES).2 }) := by
  rw [chain_random, if_pos h]
  rfl

/-- The first chain loop returns with `i` at its bound, having dealt one node
of the index list per pass to the sources in turn: after `q * S + rem` nodes
in all, the sources `1..rem` have chains of `q + 1` nodes and the others of `q`
nodes, and the next node goes to source `rem + 1`. -/
theorem chain_even_run (p : Params) (S M bound : Nat) (hS : p.SOURCES = (S : Int))
    (hM : M < 5000) :
    ∀ (fuel i source : Nat) (indie : NetgenIndex) (g : Globals) (ch : Nat → List Nat)
      (q rem : Nat),
      bound ≤ i → i ≤ bound + fuel → g.rando.Valid →
      ChainInv S M g.pred ch indie.index_list → indie.index_list.length = i →
      rem < S → source = rem + 1 →
      (∀ s, 1 ≤ s → s ≤ rem → (ch s).length = q + 1) →
      (∀ s, rem < s → s ≤ S → (ch s).length = q) →
      ∃ (r : Nat × NetgenIndex × Globals) (ch2 : Nat → List Nat) (q2 rem2 : Nat),
        chain_even p bound fuel i source indie g = Except.ok r ∧ r.1 = bound ∧
        r.2.2.rando.Valid ∧ ChainInv S M r.2.2.pred ch2 r.2.1.index_list ∧
        r.2.1.index_list.length = bound ∧ rem2 < S ∧
        (∀ s, 1 ≤ s → s ≤ rem2 → (ch2 s).length = q2 + 1) ∧
        (∀ s, rem2 < s → s ≤ S → (ch2 s).length = q2) ∧
        q2 * S + rem2 = q * S + rem + (i - bound) := by
  intro fuel
  induction fuel with
  | zero =>
    intro i source indie g ch q rem hb hf hv hI hlen hrem hsrc hl1 hl2
    refine ⟨(i, indie, g), ch, q, rem, ?_, by show i = bound; omega, hv, hI,
      by show indie.index_list.length = bound; omega, hrem, hl1, hl2, by omega⟩
    rw [chain_even, if_neg (by omega)]
  | succ n ih =>
    intro i source indie g ch q rem hb hf hv hI hlen hrem hsrc hl1 hl2
    by_cases hgt : i > bound
    · have hL : indie.index_size = (i : Int) := by
        unfold NetgenIndex.index_size
        rw [hlen]
      have hiM : i ≤ M := by
        have := hI.total
        omega
      have rb := random_bounds g.rando 1 (i : Int) hv (by omega) (by omega) (by omega)
      have hv2 := random_valid g.rando 1 (i : Int) hv
      have w1 : toUInt (g.rando.random 1 (i : Int)).1 = (g.rando.random 1 (i : Int)).1.toNat := by
        unfold toUInt
        omega
      rw [chain_even_pass _ _ _ _ _ _ _ hgt, hL, w1]
      obtain ⟨k, hk⟩ : ∃ k, k = (g.rando.random 1 (i : Int)).1.toNat := ⟨_, rfl⟩
      rw [← hk]
      have hk1 : 1 ≤ k := by omega
      have hk2 : k ≤ indie.index_list.length := by omega
      clear w1 rb hL
      obtain ⟨c1, c2, hI2, hlen2⟩ := chain_step S M g.pred ch indie hI k hk1 hk2 source
        (by omega) (by omega)
      obtain ⟨c, hc⟩ : ∃ c, c = (indie.choose_index k).1.toNat := ⟨_, rfl⟩
      have w2 : toULong (indie.choose_index k).1 = c := by
        rw [toULong_small _ (by omega) (by omega)]
        exact hc.symm
      rw [← hc] at hI2
      have w3 : toULong ((i : Int) - 1) = i - 1 := by
        rw [toULong_small _ (by omega) (by omega)]
        omega
      have w4 : toULong ((source : Int) + 1) = source + 1 := by
        rw [toULong_small _ (by omega) (by omega)]
        omega
      have w5 : toULong p.SOURCES = S := by
        rw [hS, toULong_small _ (by omega) (by omega)]
        omega
      have b1 : (0 : Int) ≤ (source : Int) := by omega
      have b2 : (source : Int) < ((MAXNODES : Nat) : Int) := by
        have := hI.total
        unfold MAXNODES
        omega
      have b3 : (0 : Int) ≤ (c : Int) := by omega
      have b4 : (c : Int) < ((MAXNODES : Nat) : Int) := by
        unfold MAXNODES
        omega
      rw [w2, w3, w4, w5, rd_eq_ok MAXNODES g.pred _ b1 b2, except_ok_bind,
        wr_eq_ok MAXNODES g.pred _ _ b3 b4, except_ok_bind,
        wr_eq_ok MAXNODES _ _ _ b1 b2, except_ok_bind, Int.toNat_ofNat, Int.toNat_ofNat]
      clear w2 w3 w4 w5 b1 b2 b3 b4 c1 c2 hc
      have hstep : ∀ (src2 q2 rem2 : Nat), rem2 < S → src2 = rem2 + 1 →
          (∀ s, 1 ≤ s → s ≤ rem2 →
            (Function.update ch source (c :: ch source) s).length = q2 + 1) →
          (∀ s, rem2 < s → s ≤ S →
            (Function.update ch source (c :: ch source) s).length = q2) →
          q2 * S + rem2 = q * S + rem + 1 →
          ∃ (r : Nat × NetgenIndex × Globals) (ch2 : Nat → List Nat) (q3 rem3 : Nat),
            chain_even p bound n (i - 1) src2 (indie.choose_index k).2
              { g with pred := Function.update (Function.update g.pred c (g.pred source)) source c,
                       rando := (g.rando.random 1 (i : Int)).2 } = Except.ok r ∧
            r.1 = bound ∧
            r.2.2.rando.Valid ∧ ChainInv S M r.2.2.pred ch2 r.2.1.index_list ∧
            r.2.1.index_list.length = bound ∧ rem3 < S ∧
            (∀ s, 1 ≤ s → s ≤ rem3 → (ch2 s).length = q3 + 1) ∧
            (∀ s, rem3 < s → s ≤ S → (ch2 s).length = q3) ∧
            q3 * S + rem3 = q * S + rem + (i - bound) := by
        intro src2 q2 rem2 hr2 hs2 hn1 hn2 hsum
        obtain ⟨r, ch2, q3, rem3, e1, e2, e3, e4, e5, e6, e7, e8, e9⟩ :=
          ih (i - 1) src2 (indie.choose_index k).2
            { g with pred := Function.update (Function.update g.pred c (g.pred source)) source c,
                     rando := (g.rando.random 1 (i : Int)).2 }
            (Function.update ch source (c :: ch source)) q2 rem2 (by omega) (by omega) hv2 hI2
            (by omega) hr2 hs2 hn1 hn2
        exact ⟨r, ch2, q3, rem3, e1, e2, e3, e4, e5, e6, e7, e8, by omega⟩
      have hup : ∀ s, (Function.update ch source (c :: ch source) s).length =
          if s = source then (ch source).length + 1 else (ch s).length := by
        intro s
        by_cases e : s = source
        · rw [e, Function.update_same, if_pos rfl, List.length_cons]
        · rw [Function.update_noteq e, if_neg e]
      have hsl : (ch source).length = q := hl2 source (by omega) (by omega)
      by_cases hw : source + 1 > S
      · rw [if_pos hw]
        refine hstep 1 (q + 1) 0 (by omega) rfl (fun s a b => by omega) ?_ ?_
        · intro s hs1 hs2
          rw [hup s]
          by_cases e : s = source
          · rw [if_pos e, hsl]
          · rw [if_neg e]
            exact hl1 s (by omega) (by omega)
        · rw [Nat.add_mul]
          omega
      · rw [if_neg hw]
        refine hstep (source + 1) q (rem + 1) (by omega) (by omega) ?_ ?_ (by omega)
        · intro s hs1 hs2
          rw [hup s]
          by_cases e : s = source
          · rw [if_pos e, hsl]
          · rw [if_neg e]
            exact hl1 s (by omega) (by omega)
        · intro s hs1 hs2
          rw [hup s, if_neg (by omega)]
          exact hl2 s (by omega) hs2
    · refine ⟨(i, indie, g), ch, q, rem, ?_, by show i = bound; omega, hv, hI,
        by show indie.index_list.length = bound; omega, hrem, hl1, hl2, by omega⟩
      rw [chain_even, if_neg hgt]

/-- The second chain loop returns with the index list empty, having put every
node left on the chain of some source; no chain gets shorter. -/
theorem chain_random_run (p : Params) (S M : Nat) (hS : p.SOURCES = (S : Int)) (hS1 : 1 ≤ S)
    (hM : M < 5000) :
    ∀ (fuel i : Nat) (indie : NetgenIndex) (g : Globals) (ch : Nat → List Nat),
      i ≤ fuel → g.rando.Valid →
      ChainInv S M g.pred ch indie.index_list → indie.index_list.length = i →
      ∃ (r : NetgenIndex × Globals) (ch2 : Nat → List Nat),
        chain_random p fuel i indie g = Except.ok r ∧
        r.2.rando.Valid ∧ ChainInv S M r.2.pred ch2 r.1.index_list ∧
        r.1.index_list.length = 0 ∧
        ∀ s, (ch s).length ≤ (ch2 s).length := by
  intro fuel
  induction fuel with
  | zero =>
    intro i indie g ch hf hv hI hlen
    refine ⟨(indie, g), ch, ?_, hv, hI, by show indie.index_list.length = 0; omega,
      fun _ => Nat.le_refl _⟩
    rw [chain_random, if_neg (by omega)]
  | succ n ih =>
    intro i indie g ch hf hv hI hlen
    by_cases hgt : i > 0
    · have hL : indie.index_size = (i : Int) := by
        unfold NetgenIndex.index_size
        rw [hlen]
      have hiM : i ≤ M := by
        have := hI.total
        omega
      have hSM : S ≤ M := by
        have := hI.total
        omega
      have rb := random_bounds g.rando 1 (i : Int) hv (by omega) (by omega) (by omega)
      have hv2 := random_valid g.rando 1 (i : Int) hv
      have rb2 := random_bounds (g.rando.random 1 (i : Int)).2 1 (S : Int) hv2 (by omega)
        (by omega) (by omega)
      have hv3 := random_valid (g.rando.random 1 (i : Int)).2 1 (S : Int) hv2
      have w1 : toUInt (g.rando.random 1 (i : Int)).1 = (g.rando.random 1 (i : Int)).1.toNat := by
        unfold toUInt
        omega
      rw [chain_random_pass _ _ _ _ _ hgt, hL, w1, hS]
      obtain ⟨k, hk⟩ : ∃ k, k = (g.rando.random 1 (i : Int)).1.toNat := ⟨_, rfl⟩
      obtain ⟨s0, hs0⟩ : ∃ s0,
        s0 = ((g.rando.random 1 (i : Int)).2.random 1 (S : Int)).1.toNat := ⟨_, rfl⟩
      have w0 : toULong ((g.rando.random 1 (i : Int)).2.random 1 (S : Int)).1 = s0 := by
        rw [toULong_small _ (by omega) (by omega)]
        exact hs0.symm
      rw [← hk, w0]
      have hk1 : 1 ≤ k := by omega
      have hk2 : k ≤ indie.index_list.length := by omega
      have hs1 : 1 ≤ s0 := by omega
      have hs2 : s0 ≤ S := by omega
      clear w1 rb hL w0 rb2 hs0
      obtain ⟨c1, c2, hI2, hlen2⟩ := chain_step S M g.pred ch indie hI k hk1 hk2 s0 hs1 hs2
      obtain ⟨c, hc⟩ : ∃ c, c = (indie.choose_index k).1.toNat := ⟨_, rfl⟩
      have w2 : toULong (indie.choose_index k).1 = c := by
        rw [toULong_small _ (by omega) (by omega)]
        exact hc.symm
      rw [← hc] at hI2
      have w3 : toULong ((i : Int) - 1) = i - 1 := by
        rw [toULong_small _ (by omega) (by omega)]
        omega
      have b1 : (0 : Int) ≤ (s0 : Int) := by omega
      have b2 : (s0 : Int) < ((MAXNODES : Nat) : Int) := by
        unfold MAXNODES
        omega
      have b3 : (0 : Int) ≤ (c : Int) := by omega
      have b4 : (c : Int) < ((MAXNODES : Nat) : Int) := by
        unfold MAXNODES
        omega
      rw [w2, w3, rd_eq_ok MAXNODES g.pred _ b1 b2, except_ok_bind,
        wr_eq_ok MAXNODES g.pred _ _ b3 b4, except_ok_bind,
        wr_eq_ok MAXNODES _ _ _ b1 b2, except_ok_bind, Int.toNat_ofNat, Int.toNat_ofNat]
      clear w2 w3 b1 b2 b3 b4 c1 c2 hc
      obtain ⟨r, ch2, e1, e2, e3, e4, e5⟩ :=
        ih (i - 1) (indie.choose_index k).2
          { g with pred := Function.update (Function.update g.pred c (g.pred s0)) s0 c,
                   rando := ((g.rando.random 1 (i : Int)).2.random 1 (S : Int)).2 }
          (Function.update ch s0 (c :: ch s0)) (by omega) hv3 hI2 (by omega)
      refine ⟨r, ch2, e1, e2, e3, e4, ?_⟩
      intro s
      refine Nat.le_trans ?_ (e5 s)
      by_cases e : s = s0
      · rw [e, Function.update_same, List.length_cons]
        omega
      · rw [Function.update_noteq e]
    · refine ⟨(indie, g), ch, ?_, hv, hI, by show indie.index_list.length = 0; omega,
        fun _ => Nat.le_refl _⟩
      rw [chain_random, if_neg hgt]

/-- Empty chains have no nodes in all. -/
theorem chain_total_nil : ∀ S, chain_total (fun _ => []) S = 0 := by
  intro S
  induction S with
  | zero => rfl
  | succ n ih =>
    show chain_total (fun _ => []) n + 0 = 0
    rw [ih]

/-- Before the chain loops: every source is its own predecessor, the chains
are empty and the index list holds all the transshipment nodes. -/
theorem chain_inv_init (S M : Nat) (hSM : S ≤ M) (pred : Nat → Nat)
    (hp : ∀ s, 1 ≤ s → s ≤ S → pred s = s) :
    ChainInv S M pred (fun _ => [])
      (NetgenIndex.create ((S : Int) + 1) (M : Int)).index_list := by
  rw [create_index_list]
  refine ⟨?_, ?_, ?_, ?_, ?_, ?_, ?_, ?_⟩
  · intro s h1 h2
    exact hp s h1 h2
  · intro s _ _ x hx
    cases hx
  · intro s _ _
    exact List.nodup_nil
  · intro s t _ _ _ _ _ x hx
    cases hx
  · intro v h1 h2
    left
    rw [mem_fill_range]
    omega
  · have := length_fill_range ((S : Int) + 1) (M : Int)
    rw [chain_total_nil]
    omega
  · rw [fill_range_eq]
    exact sorted_map_range _ _
  · intro v hv
    rw [mem_fill_range] at hv
    omega

/-- The three loops that build the chains, for `S` sources and the
transshipment nodes `S+1..M`: they return, leave the index list empty and every
transshipment node on a chain; the first loop deals `M - S - bound` nodes to
the sources in turn, starting at source 1, and the second only lengthens
chains. -/
theorem chain_stages (p : Params) (S M bound : Nat) (hS : p.SOURCES = (S : Int)) (hS1 : 1 ≤ S)
    (hSM : S ≤ M) (hM : M < 5000) (hb : bound ≤ M - S) (fuel : Nat) (hf : M ≤ fuel)
    (g : Globals) (hg : g.rando.Valid) :
    ∃ (g2 : Globals) (r3 : Nat × NetgenIndex × Globals) (r4 : NetgenIndex × Globals)
      (ch3 ch : Nat → List Nat),
      init_pred S fuel 1 g = Except.ok g2 ∧
      chain_even p bound fuel (M - S) 1 (NetgenIndex.create ((S : Int) + 1) (M : Int)) g2 =
        Except.ok r3 ∧
      chain_random p fuel r3.1 r3.2.1 r3.2.2 = Except.ok r4 ∧
      ChainInv S M r3.2.2.pred ch3 r3.2.1.index_list ∧
      (∀ s, 1 ≤ s → s ≤ (M - S - bound) % S → (ch3 s).length = (M - S - bound) / S + 1) ∧
      (∀ s, (M - S - bound) % S < s → s ≤ S → (ch3 s).length = (M - S - bound) / S) ∧
      ChainInv S M r4.2.pred ch [] ∧
      ∀ s, (ch3 s).length ≤ (ch s).length := by
  obtain ⟨g2, h2, ev, ep, _⟩ := init_pred_run S (by omega) fuel 1 g (Nat.le_refl 1) (by omega)
  have hI := chain_inv_init S M hSM g2.pred (fun s h1 h2 => ep s h1 h2)
  have hlen : (NetgenIndex.create ((S : Int) + 1) (M : Int)).index_list.length = M - S := by
    have := length_fill_range ((S : Int) + 1) (M : Int)
    rw [create_index_list]
    omega
  have hv2 : g2.rando.Valid := by
    rw [ev]
    exact hg
  obtain ⟨r3, ch3, q, rem, h3, a1, a2, a3, a4, a5, a6, a7, a8⟩ :=
    chain_even_run p S M bound hS hM fuel (M - S) 1 _ g2 (fun _ => []) 0 0 hb (by omega)
      hv2 hI hlen (by omega) rfl (fun s x y => by omega) (fun _ _ _ => rfl)
  obtain ⟨r4, ch, h4, b1, b2, b3, b4⟩ :=
    chain_random_run p S M hS hS1 hM fuel r3.1 r3.2.1 r3.2.2 ch3 (by omega) a2 a3
      (by rw [a4, a1])
  have hdm : (M - S - bound) / S = q ∧ (M - S - bound) % S = rem := by
    rw [Nat.div_mod_unique (by omega)]
    refine ⟨?_, a5⟩
    rw [Nat.mul_comm]
    omega
  rw [List.length_eq_zero] at b3
  rw [b3] at b2
  rw [hdm.1, hdm.2]
  exact ⟨g2, r3, r4, ch3, ch, h2, h3, h4, a3, a6, a7, b2, b4⟩

/-- The three loops that build the chains, with the arguments `generate` gives
them, for a parameter set that passes the checks: `chain_stages` for
`S = SOURCES` and `M = NODES - SINKS`, the bound being `(4T + 9) / 10` with
`T = M - S`. -/
theorem generate_chains (fuel : Nat) (p : Params) (g : Globals) (hs : p.stored)
    (hv : sanity_checks p = none) (hg : g.rando.Valid) (hf : p.NODES ≤ (fuel : Int))
    (S M : Nat) (eS : p.SOURCES = (S : Int)) (eM : p.NODES - p.SINKS = (M : Int)) :
    ∃ (g2 : Globals) (r3 : Nat × NetgenIndex × Globals) (r4 : NetgenIndex × Globals)
      (ch3 ch : Nat → List Nat),
      init_pred (toULong p.SOURCES) fuel 1 g = Except.ok g2 ∧
      chain_even p
        (toULong (Int.tdiv (wrapLong (wrapLong (4 *
          wrapLong (wrapLong (p.NODES - p.SOURCES) - p.SINKS)) + 9)) 10))
        fuel (toULong (wrapLong (wrapLong (p.NODES - p.SOURCES) - p.SINKS))) 1
        (NetgenIndex.create (wrapInt (wrapLong (p.SOURCES + 1)))
          (wrapInt (wrapLong (p.NODES - p.SINKS)))) g2 = Except.ok r3 ∧
      chain_random p fuel r3.1 r3.2.1 r3.2.2 = Except.ok r4 ∧
      ChainInv S M r3.2.2.pred ch3 r3.2.1.index_list ∧
      (∀ s, 1 ≤ s → s ≤ (M - S - (4 * (M - S) + 9) / 10) % S →
        (ch3 s).length = (M - S - (4 * (M - S) + 9) / 10) / S + 1) ∧
      (∀ s, (M - S - (4 * (M - S) + 9) / 10) % S < s → s ≤ S →
        (ch3 s).length = (M - S - (4 * (M - S) + 9) / 10) / S) ∧
      ChainInv S M r4.2.pred ch [] ∧
      ∀ s, (ch3 s).length ≤ (ch s).length := by
  obtain ⟨_, f1, f2, _, _, f3, f4, f5, _⟩ := sanity_facts p hs hv
  have w1 : toULong p.SOURCES = S := by
    rw [toULong_small _ (by omega) (by omega)]
    omega
  have w2 : wrapInt (wrapLong (p.SOURCES + 1)) = (S : Int) + 1 := by
    rw [wrapLong_id _ (by omega) (by omega), wrapInt_id _ (by omega) (by omega), eS]
  have w3 : wrapInt (wrapLong (p.NODES - p.SINKS)) = (M : Int) := by
    rw [wrapLong_id _ (by omega) (by omega), wrapInt_id _ (by omega) (by omega), eM]
  have w4 : wrapLong (wrapLong (p.NODES - p.SOURCES) - p.SINKS) = ((M - S : Nat) : Int) := by
    rw [wrapLong_id (p.NODES - p.SOURCES) (by omega) (by omega),
      wrapLong_id _ (by omega) (by omega)]
    omega
  have w5 : toULong (((M - S : Nat) : Int)) = M - S := by
    rw [toULong_small _ (by omega) (by omega)]
    omega
  have w6 : toULong (Int.tdiv (wrapLong (wrapLong (4 * ((M - S : Nat) : Int)) + 9)) 10) =
      (4 * (M - S) + 9) / 10 := by
    rw [wrapLong_id (4 * ((M - S : Nat) : Int)) (by omega) (by omega),
      wrapLong_id _ (by omega) (by omega), Int.tdiv_eq_ediv (by omega) (by norm_num),
      toULong_small _ (by omega) (by omega)]
    omega
  rw [w1, w2, w3, w4, w5, w6]
  exact chain_stages p S M ((4 * (M - S) + 9) / 10) eS (by omega) (by omega) (by omega)
    (by omega) fuel (by omega) g hg

/-- C26: for every parameter set that passes the checks and every valid state
of the stream, the three loops of `netgen` that build the chains (`pred[i] = i`,
the round-robin loop and the random loop, with the arguments `generate` gives
them) return, and with `S = SOURCES`, `T = NODES - SOURCES - SINKS`: after the
round-robin loop the chains of the sources hold the `T - (4T+9)/10` nodes dealt
in turn from source 1 on; after both loops, for every source `s` the list
`ch s` holds the nodes met when following `pred` from `s` until it returns to
`s`, which it does after `length + 1` steps; these are distinct transshipment
nodes; every transshipment node lies on the chain of exactly one source; the
lengths sum to `T`; and every chain has at least `(T - (4T+9)/10) / S` nodes. -/
theorem C26_chains_partition (fuel : Nat) (p : Params) (g : Globals) (hs : p.stored)
    (hv : sanity_checks p = none) (hg : g.rando.Valid) (hf : p.NODES ≤ (fuel : Int)) :
    ∃ (g2 : Globals) (r3 : Nat × NetgenIndex × Globals) (r4 : NetgenIndex × Globals)
      (ch3 ch : Nat → List Nat),
      init_pred (toULong p.SOURCES) fuel 1 g = Except.ok g2 ∧
      chain_even p
        (toULong (Int.tdiv (wrapLong (wrapLong (4 *
          wrapLong (wrapLong (p.NODES - p.SOURCES) - p.SINKS)) + 9)) 10))
        fuel (toULong (wrapLong (wrapLong (p.NODES - p.SOURCES) - p.SINKS))) 1
        (NetgenIndex.create (wrapInt (wrapLong (p.SOURCES + 1)))
          (wrapInt (wrapLong (p.NODES - p.SINKS)))) g2 = Except.ok r3 ∧
      chain_random p fuel r3.1 r3.2.1 r3.2.2 = Except.ok r4 ∧
      (∀ s : Nat, 1 ≤ s → s ≤ p.SOURCES.toNat →
        Walk r3.2.2.pred s (ch3 s) s ∧
        (s ≤ ((p.NODES - p.SOURCES - p.SINKS).toNat -
            (4 * (p.NODES - p.SOURCES - p.SINKS).toNat + 9) / 10) % p.SOURCES.toNat →
          (ch3 s).length = ((p.NODES - p.SOURCES - p.SINKS).toNat -
            (4 * (p.NODES - p.SOURCES - p.SINKS).toNat + 9) / 10) / p.SOURCES.toNat + 1) ∧
        (((p.NODES - p.SOURCES - p.SINKS).toNat -
            (4 * (p.NODES - p.SOURCES - p.SINKS).toNat + 9) / 10) % p.SOURCES.toNat < s →
          (ch3 s).length = ((p.NODES - p.SOURCES - p.SINKS).toNat -
            (4 * (p.NODES - p.SOURCES - p.SINKS).toNat + 9) / 10) / p.SOURCES.toNat)) ∧
      (∀ s : Nat, 1 ≤ s → s ≤ p.SOURCES.toNat →
        Walk r4.2.pred s (ch s) s ∧ r4.2.pred^[(ch s).length + 1] s = s ∧
        (∀ x ∈ ch s, p.SOURCES.toNat < x ∧ x ≤ (p.NODES - p.SINKS).toNat) ∧
        (ch s).Nodup ∧
        ((p.NODES - p.SOURCES - p.SINKS).toNat -
          (4 * (p.NODES - p.SOURCES - p.SINKS).toNat + 9) / 10) / p.SOURCES.toNat ≤
            (ch s).length) ∧
      (∀ v : Nat, p.SOURCES.toNat < v → v ≤ (p.NODES - p.SINKS).toNat →
        ∃! s : Nat, (1 ≤ s ∧ s ≤ p.SOURCES.toNat) ∧ v ∈ ch s) ∧
      chain_total ch p.SOURCES.toNat = (p.NODES - p.SOURCES - p.SINKS).toNat := by
  obtain ⟨_, f1, f2, _, _, f3, f4, f5, _⟩ := sanity_facts p hs hv
  obtain ⟨S, eS⟩ : ∃ S : Nat, p.SOURCES = (S : Int) := ⟨p.SOURCES.toNat, by omega⟩
  obtain ⟨M, eM⟩ : ∃ M : Nat, p.NODES - p.SINKS = (M : Int) :=
    ⟨(p.NODES - p.SINKS).toNat, by omega⟩
  have tT : (p.NODES - p.SOURCES - p.SINKS).toNat = M - S := by omega
  have tS : p.SOURCES.toNat = S := by omega
  have tM : (p.NODES - p.SINKS).toNat = M := by omega
  obtain ⟨g2, r3, r4, ch3, ch, h2, h3, h4, c1, c2, c3, c4, c5⟩ :=
    generate_chains fuel p g hs hv hg hf S M eS eM
  rw [tT, tS, tM]
  refine ⟨g2, r3, r4, ch3, ch, h2, h3, h4, ?_, ?_, ?_, ?_⟩
  · intro s h1 hS
    exact ⟨c1.walk s h1 hS, fun h => c2 s h1 h, fun h => c3 s h hS⟩
  · intro s h1 hS
    refine ⟨c4.walk s h1 hS, walk_iterate _ _ _ _ (c4.walk s h1 hS),
      fun x hx => ⟨(c4.range s h1 hS x hx).1, (c4.range s h1 hS x hx).2.1⟩,
      c4.nodup s h1 hS, Nat.le_trans ?_ (c5 s)⟩
    by_cases e : s ≤ (M - S - (4 * (M - S) + 9) / 10) % S
    · rw [c2 s h1 e]
      omega
    · rw [c3 s (by omega) hS]
  · intro v h1 h2
    rcases c4.cover v h1 h2 with hp | ⟨s, hs1, hs2, hin⟩
    · cases hp
    · refine ⟨s, ⟨⟨hs1, hs2⟩, hin⟩, ?_⟩
      rintro t ⟨⟨ht1, ht2⟩, hint⟩
      by_contra hne
      exact c4.disj t s ht1 ht2 hs1 hs2 hne v hint hin
  · have := c4.total
    rw [List.length_nil] at this
    omega

/-- Witness for C26: seed 1, `NODES = 10`, `SOURCES = 2`, `SINKS = 2`, so
`T = 6` and the round-robin loop stops at `i = 3`: the three loops return, both
chains are walks back to their source with at least `3 / 2 = 1` node, and the
chains hold 6 nodes in all. -/
theorem C26_chains_partition_witness :
    ∃ (g2 : Globals) (r3 : Nat × NetgenIndex × Globals) (r4 : NetgenIndex × Globals)
      (ch : Nat → List Nat),
      init_pred 2 10 1 (Globals.init 1) = Except.ok g2 ∧
      chain_even ⟨1, 10, 2, 2, 20, 1, 100, 10, 0, 0, 50, 50, 5, 30, 1, 0⟩ 3 10 6 1
        (NetgenIndex.create 3 8) g2 = Except.ok r3 ∧
      chain_random ⟨1, 10, 2, 2, 20, 1, 100, 10, 0, 0, 50, 50, 5, 30, 1, 0⟩ 10
        r3.1 r3.2.1 r3.2.2 = Except.ok r4 ∧
      Walk r4.2.pred 1 (ch 1) 1 ∧ Walk r4.2.pred 2 (ch 2) 2 ∧
      1 ≤ (ch 1).length ∧ 1 ≤ (ch 2).length ∧ chain_total ch 2 = 6 := by
  obtain ⟨g2, r3, r4, _, ch, h2, h3, h4, _, a, _, t⟩ :=
    C26_chains_partition 10 ⟨1, 10, 2, 2, 20, 1, 100, 10, 0, 0, 50, 50, 5, 30, 1, 0⟩
      (Globals.init 1) (by unfold Params.stored in_int; decide) (by decide)
      (by unfold NetgenRandom.Valid Globals.init; decide) (by decide)
  exact ⟨g2, r3, r4, ch, h2, h3, h4, (a 1 (by decide) (by decide)).1,
    (a 2 (by decide) (by decide)).1, (a 1 (by decide) (by decide)).2.2.2.2,
    (a 2 (by decide) (by decide)).2.2.2.2, t⟩

/-! ## Theorems: the parts that store no arc keep the arcs and the chains -/

/-- Function `sort_inner` stores no arc and leaves `pred` alone. -/
theorem sort_inner_kept (g0 : Globals) (m : Int) :
    ∀ (fuel : Nat) (i : Int) (g r : Globals), g0.Kept g →
      sort_inner m fuel i g = Except.ok r → g0.Kept r := by
  intro fuel
  induction fuel with
  | zero =>
    intro i g r hg h
    rw [sort_inner] at h
    split at h
    · obtain ⟨_, _, h⟩ := except_bind_ok h
      obtain ⟨_, _, h⟩ := except_bind_ok h
      split at h
      · cases h
      · cases h
        exact hg
    · cases h
      exact hg
  | succ n ih =>
    intro i g r hg h
    rw [sort_inner] at h
    split at h
    · obtain ⟨_, _, h⟩ := except_bind_ok h
      obtain ⟨_, _, h⟩ := except_bind_ok h
      split at h
      · obtain ⟨_, _, h⟩ := except_bind_ok h
        obtain ⟨_, _, h⟩ := except_bind_ok h
        obtain ⟨_, _, h⟩ := except_bind_ok h
        obtain ⟨_, _, h⟩ := except_bind_ok h
        obtain ⟨_, _, h⟩ := except_bind_ok h
        obtain ⟨_, _, h⟩ := except_bind_ok h
        refine ih _ _ _ ?_ h
        exact hg
      · cases h
        exact hg
    · cases h
      exact hg

/-- Function `sort_pass` stores no arc and leaves `pred` alone. -/
theorem sort_pass_kept (g0 : Globals) (fuel0 : Nat) (m k : Int) :
    ∀ (fuel : Nat) (j : Int) (g r : Globals), g0.Kept g →
      sort_pass fuel0 m k fuel j g = Except.ok r → g0.Kept r := by
  intro fuel
  induction fuel with
  | zero =>
    intro j g r hg h
    rw [sort_pass] at h
    split at h
    · cases h
    · cases h
      exact hg
  | succ n ih =>
    intro j g r hg h
    rw [sort_pass] at h
    split at h
    · obtain ⟨g1, hg1, h⟩ := except_bind_ok h
      exact ih _ _ _ (sort_inner_kept g0 _ _ _ _ _ hg hg1) h
    · cases h
      exact hg

/-- Function `sort_gaps` stores no arc and leaves `pred` alone. -/
theorem sort_gaps_kept (g0 : Globals) (fuel0 : Nat) (sort_count : Int) :
    ∀ (fuel : Nat) (m : Int) (g r : Globals), g0.Kept g →
      sort_gaps fuel0 sort_count fuel m g = Except.ok r → g0.Kept r := by
  intro fuel
  induction fuel with
  | zero =>
    intro m g r hg h
    rw [sort_gaps] at h
    split at h
    · cases h
    · cases h
      exact hg
  | succ n ih =>
    intro m g r hg h
    rw [sort_gaps] at h
    split at h
    · obtain ⟨g1, hg1, h⟩ := except_bind_ok h
      exact ih _ _ _ (sort_pass_kept g0 _ _ _ _ _ _ _ hg hg1) h
    · cases h
      exact hg

/-- Function `sort_skeleton` stores no arc and leaves `pred` alone. -/
theorem sort_skeleton_kept (g0 : Globals) (fuel : Nat) (sort_count : Int) (g r : Globals) (hg : g0.Kept g)
    (h : sort_skeleton fuel sort_count g = Except.ok r) : g0.Kept r :=
  sort_gaps_kept g0 _ _ _ _ _ _ hg h

/-- Function `walk_chain` stores no arc and leaves `pred` alone. -/
theorem walk_chain_kept (g0 : Globals) (source : Nat) :
    ∀ (fuel node : Nat) (sort_count : Int) (g : Globals) (r : Int × Globals),
      g0.Kept g → walk_chain source fuel node sort_count g = Except.ok r → g0.Kept r.2 := by
  intro fuel
  induction fuel with
  | zero =>
    intro node sort_count g r hg h
    rw [walk_chain] at h
    rcases except_ite_ok h with ⟨_, h⟩ | ⟨_, h⟩
    · cases h
    · cases h
      exact hg
  | succ n ih =>
    intro node sort_count g r hg h
    rw [walk_chain] at h
    rcases except_ite_ok h with ⟨_, h⟩ | ⟨_, h⟩
    · obtain ⟨_, _, h⟩ := except_bind_ok h
      obtain ⟨_, _, h⟩ := except_bind_ok h
      obtain ⟨_, _, h⟩ := except_bind_ok h
      refine ih _ _ _ _ ?_ h
      exact hg
    · cases h
      exact hg

/-- Function `draw_sinks` stores no arc and leaves `pred` alone. -/
theorem draw_sinks_kept (g0 : Globals) (sinks_per_source : Nat) :
    ∀ (fuel i : Nat) (sinks : Nat → Option Nat) (indie : NetgenIndex) (g : Globals)
      (r : (Nat → Option Nat) × NetgenIndex × Globals),
      g0.Kept g → draw_sinks sinks_per_source fuel i sinks indie g = Except.ok r →
        g0.Kept r.2.2 := by
  intro fuel
  induction fuel with
  | zero =>
    intro i sinks indie g r hg h
    rw [draw_sinks] at h
    rcases except_ite_ok h with ⟨_, h⟩ | ⟨_, h⟩
    · cases h
    · cases h
      exact hg
  | succ n ih =>
    intro i sinks indie g r hg h
    rw [draw_sinks] at h
    rcases except_ite_ok h with ⟨_, h⟩ | ⟨_, h⟩
    · obtain ⟨_, _, h⟩ := except_bind_ok h
      refine ih _ _ _ _ _ ?_ h
      exact hg
    · cases h
      exact hg

/-- Function `spread_supply` stores no arc and leaves `pred` alone. -/
theorem spread_supply_kept (g0 : Globals) (fuel0 source sinks_per_source : Nat) (sinks : Nat → Option Nat)
    (chain_length supply_per_sink : Int) :
    ∀ (fuel i k : Nat) (sort_count : Int) (g : Globals) (r : Int × Globals),
      g0.Kept g →
      spread_supply fuel0 source sinks_per_source sinks chain_length supply_per_sink
        fuel i k sort_count g = Except.ok r → g0.Kept r.2 := by
  intro fuel
  induction fuel with
  | zero =>
    intro i k sort_count g r hg h
    rw [spread_supply] at h
    rcases except_ite_ok h with ⟨_, h⟩ | ⟨_, h⟩
    · cases h
    · cases h
      exact hg
  | succ n ih =>
    intro i k sort_count g r hg h
    rw [spread_supply] at h
    rcases except_ite_ok h with ⟨_, h⟩ | ⟨_, h⟩
    · obtain ⟨_, _, h⟩ := except_bind_ok h
      obtain ⟨_, _, h⟩ := except_bind_ok h
      obtain ⟨_, _, h⟩ := except_bind_ok h
      obtain ⟨_, _, h⟩ := except_bind_ok h
      obtain ⟨_, _, h⟩ := except_bind_ok h
      obtain ⟨_, _, h⟩ := except_bind_ok h
      obtain ⟨_, _, h⟩ := except_bind_ok h
      obtain ⟨_, _, h⟩ := except_bind_ok h
      obtain ⟨_, _, h⟩ := except_bind_ok h
      refine ih _ _ _ _ _ ?_ h
      exact hg
    · cases h
      exact hg

/-- Function `draw_children` stores no arc and leaves `pred` alone. -/
theorem draw_children_kept (g0 : Globals) (p : Params) :
    ∀ (fuel i : Nat) (arc_id : NetgenIndex) (g : Globals) (r : NetgenIndex × Globals),
      g0.Kept g → draw_children p fuel i arc_id g = Except.ok r → g0.Kept r.2 := by
  intro fuel
  induction fuel with
  | zero =>
    intro i arc_id g r hg h
    rw [draw_children] at h
    rcases except_ite_ok h with ⟨_, h⟩ | ⟨_, h⟩
    · cases h
    · cases h
      exact hg
  | succ n ih =>
    intro i arc_id g r hg h
    rw [draw_children] at h
    rcases except_ite_ok h with ⟨_, h⟩ | ⟨_, h⟩
    · obtain ⟨_, _, h⟩ := except_bind_ok h
      refine ih _ _ _ _ ?_ h
      exact hg
    · cases h
      exact hg

/-- Function `draw_parents` stores no arc and leaves `pred` alone. -/
theorem draw_parents_kept (g0 : Globals) (p : Params) :
    ∀ (fuel i : Nat) (ids : NetgenIndex) (g : Globals) (r : NetgenIndex × Globals),
      g0.Kept g → draw_parents p fuel i ids g = Except.ok r → g0.Kept r.2 := by
  intro fuel
  induction fuel with
  | zero =>
    intro i ids g r hg h
    rw [draw_parents] at h
    rcases except_ite_ok h with ⟨_, h⟩ | ⟨_, h⟩
    · cases h
    · cases h
      exact hg
  | succ n ih =>
    intro i ids g r hg h
    rw [draw_parents] at h
    rcases except_ite_ok h with ⟨_, h⟩ | ⟨_, h⟩
    · obtain ⟨_, _, h⟩ := except_bind_ok h
      refine ih _ _ _ _ ?_ h
      exact hg
    · cases h
      exact hg

/-! ## Theorems: the arcs stored are appended -/

/-- Nothing stored yet. -/
theorem Globals.Kept.self_kept (g : Globals) : g.Kept g := ⟨Nat.le_refl _, fun _ _ => rfl, rfl⟩

/-- Arcs kept by one step after the other. -/
theorem Globals.Kept.chain {g g1 g2 : Globals} (h1 : g.Kept g1) (h2 : g1.Kept g2) :
    g.Kept g2 := by
  refine ⟨Nat.le_trans h1.1 h2.1, ?_, h2.2.2.trans h1.2.2⟩
  intro a ha
  rw [h2.2.1 a (Nat.lt_of_lt_of_le ha h1.1), h1.2.1 a ha]

/-- Nothing stored yet. -/
theorem Globals.Emits.self_emits (g : Globals) : g.Emits g := ⟨Globals.Kept.self_kept g, rfl, rfl⟩

/-- Arcs appended by one step after the other. -/
theorem Globals.Emits.seq {g g1 g2 : Globals} (h1 : g.Emits g1) (h2 : g1.Emits g2) :
    g.Emits g2 :=
  ⟨h1.1.chain h2.1, h2.2.1.trans h1.2.1, h2.2.2.trans h1.2.2⟩

/-- Draws store nothing. -/
theorem Globals.Drawn.emits {g g1 : Globals} (h : g.Drawn g1) : g.Emits g1 := by
  rw [h.1]
  exact Globals.Emits.self_emits g

/-- One draw stores nothing. -/
theorem draw_emits (g : Globals) (a b : Int) : g.Emits (g.draw a b).2 :=
  (draw_inv g _ a b _ rfl).1.emits

/-- A conditional draw stores nothing. -/
theorem ite_draw_emits (c : Prop) [Decidable c] (g : Globals) (a b x : Int) :
    g.Emits (if c then g.draw a b else (x, g)).2 :=
  (ite_draw_inv c g _ a b x _ rfl).emits

/-- Storing an arc appends it: the arcs stored before and the skeleton pairs
are left alone. -/
theorem save_arc_emits (g g2 : Globals) (t hd : Nat) (c u : Int)
    (h : g.save_arc t hd c u = Except.ok g2) : g.Emits g2 := by
  obtain ⟨_, e⟩ := save_arc_spec _ _ _ _ _ _ h
  subst e
  refine ⟨⟨Nat.le_succ _, ?_, rfl⟩, rfl, rfl⟩
  intro a ha
  show Function.update g.TO g.arc_count hd a = g.TO a
  rw [Function.update_noteq (by omega)]

/-- The rejection loop of `pick_head` stores nothing. -/
theorem pick_limit_emits (non_sources remaining_arcs : Nat) (upper_bound : Int) :
    ∀ (fuel : Nat) (g : Globals) (r : Int × Globals),
      pick_limit non_sources remaining_arcs upper_bound fuel g = Except.ok r → g.Emits r.2 := by
  intro fuel
  induction fuel with
  | zero =>
    intro g r h
    rw [pick_limit] at h
    cases h
  | succ n ih =>
    intro g r h
    rw [pick_limit] at h
    obtain ⟨r1, g1, hd1⟩ : ∃ r1 g1, g.draw 1 upper_bound = (r1, g1) := ⟨_, _, rfl⟩
    rw [hd1] at h
    dsimp only at h
    have k1 := (draw_inv _ _ _ _ _ hd1).1.emits
    rcases except_ite_ok h with ⟨_, h⟩ | ⟨_, h⟩
    · exact k1.seq (ih _ _ h)
    · have e := Except.ok.inj h
      rw [← e]
      exact k1

/-- The arc loop of `pick_head` appends arcs and leaves the skeleton pairs alone. -/
theorem pick_arcs_emits (p : Params) (desired_tail : Nat) :
    ∀ (fuel : Nat) (limit : Int) (indie : NetgenIndex) (g : Globals) (r : NetgenIndex × Globals),
      pick_arcs p desired_tail fuel limit indie g = Except.ok r → g.Emits r.2 := by
  intro fuel
  induction fuel with
  | zero =>
    intro limit indie g r h
    rw [pick_arcs] at h
    rcases except_ite_ok h with ⟨_, h⟩ | ⟨_, h⟩
    · cases h
    · cases h
      exact Globals.Emits.self_emits g
  | succ n ih =>
    intro limit indie g r h
    by_cases hl : 0 < limit
    · obtain ⟨g4, cost, cap, d, _, h⟩ := pick_arcs_step p desired_tail n limit indie g r h hl
      have k := ih _ _ _ _ h
      have e4 := d.1
      have ep : g4.pred = g.pred := by rw [e4]
      have eh : g4.head = g.head := by rw [e4]
      have et : g4.tail = g.tail := by rw [e4]
      refine Globals.Emits.seq ?_ k
      refine ⟨⟨Nat.le_succ _, ?_, ep⟩, eh, et⟩
      intro a ha
      show Function.update g.TO g.arc_count _ a = g.TO a
      rw [Function.update_noteq (by omega)]
    · rw [pick_arcs, if_neg hl] at h
      cases h
      exact Globals.Emits.self_emits g

/-- Function `pick_head` appends arcs and leaves the skeleton pairs alone. -/
theorem pick_head_emits (fuel : Nat) (p : Params) (indie : NetgenIndex) (desired_tail : Nat)
    (g : Globals) (r : NetgenIndex × Globals)
    (h : pick_head fuel p indie desired_tail g = Except.ok r) : g.Emits r.2 := by
  unfold pick_head at h
  rcases except_ite_ok h with ⟨_, h⟩ | ⟨_, h⟩
  · cases h
    exact Globals.Emits.self_emits g
  · rcases except_ite_ok h with ⟨_, h⟩ | ⟨_, h⟩
    · cases h
    · dsimp only at h
      split at h
      · split at h
        · obtain ⟨lg, hlg, h⟩ := except_bind_ok h
          have e := Except.ok.inj hlg
          subst e
          have k := pick_arcs_emits _ _ _ _ _ _ _ h
          exact ⟨k.1, k.2⟩
        · obtain ⟨lg, hlg, h⟩ := except_bind_ok h
          have k1 := pick_limit_emits _ _ _ _ _ _ hlg
          have k := pick_arcs_emits _ _ _ _ _ _ _ h
          exact Globals.Emits.seq ⟨k1.1, k1.2⟩ k
      · split at h
        · obtain ⟨lg, hlg, h⟩ := except_bind_ok h
          have e := Except.ok.inj hlg
          subst e
          have k := pick_arcs_emits _ _ _ _ _ _ _ h
          exact ⟨k.1, k.2⟩
        · obtain ⟨lg, hlg, h⟩ := except_bind_ok h
          have k1 := pick_limit_emits _ _ _ _ _ _ hlg
          have k := pick_arcs_emits _ _ _ _ _ _ _ h
          exact Globals.Emits.seq ⟨k1.1, k1.2⟩ k

/-- The inner emission loop appends arcs and leaves the skeleton pairs alone. -/
theorem emit_group_emits (p : Params) (source it : Nat) :
    ∀ (fuel i : Nat) (indie : NetgenIndex) (g : Globals) (r : Nat × NetgenIndex × Globals),
      emit_group p source it fuel i indie g = Except.ok r → g.Emits r.2.2 := by
  intro fuel
  induction fuel with
  | zero =>
    intro i indie g r h
    obtain ⟨_, _, h⟩ := except_bind_ok h
    rcases except_ite_ok h with ⟨_, h⟩ | ⟨_, h⟩
    · cases h
    · cases h
      exact Globals.Emits.self_emits g
  | succ n ih =>
    intro i indie g r h
    obtain ⟨ti, _, h⟩ := except_bind_ok h
    rcases except_ite_ok h with ⟨_, h⟩ | ⟨_, h⟩
    · obtain ⟨hi, _, h⟩ := except_bind_ok h
      obtain ⟨r1, g1, hd1⟩ : ∃ r1 g1, g.draw 1 100 = (r1, g1) := ⟨_, _, rfl⟩
      rw [hd1] at h
      dsimp only at h
      have k1 := (draw_inv _ _ _ _ _ hd1).1.emits
      have k2 := draw_emits g1 1 100
      have k3 := ite_draw_emits ((g1.draw 1 100).1 > p.HICOST) (g1.draw 1 100).2
        p.MINCOST p.MAXCOST p.MAXCOST
      rcases except_ite_ok h with ⟨_, h⟩ | ⟨_, h⟩
      · obtain ⟨bs, _, h⟩ := except_bind_ok h
        obtain ⟨y, _, h⟩ := except_bind_ok h
        obtain ⟨g4, hg4, h⟩ := except_bind_ok h
        have k4 := save_arc_emits _ _ _ _ _ _ hg4
        exact (((k1.seq k2).seq k3).seq k4).seq (ih _ _ _ _ h)
      · obtain ⟨y, _, h⟩ := except_bind_ok h
        obtain ⟨g4, hg4, h⟩ := except_bind_ok h
        have k4 := save_arc_emits _ _ _ _ _ _ hg4
        exact (((k1.seq k2).seq k3).seq k4).seq (ih _ _ _ _ h)
    · cases h
      exact Globals.Emits.self_emits g

/-- The emission loop appends arcs and leaves the skeleton pairs alone. -/
theorem emit_arcs_emits (fuel0 : Nat) (p : Params) (source : Nat) (sort_count : Int) :
    ∀ (fuel i : Nat) (it : Option Nat) (g : Globals) (r : Option Nat × Globals),
      emit_arcs fuel0 p source sort_count fuel i it g = Except.ok r → g.Emits r.2 := by
  intro fuel
  induction fuel with
  | zero =>
    intro i it g r h
    rw [emit_arcs] at h
    rcases except_ite_ok h with ⟨_, h⟩ | ⟨_, h⟩
    · cases h
    · cases h
      exact Globals.Emits.self_emits g
  | succ n ih =>
    intro i it g r h
    rw [emit_arcs] at h
    rcases except_ite_ok h with ⟨_, h⟩ | ⟨_, h⟩
    · obtain ⟨_, _, h⟩ := except_bind_ok h
      obtain ⟨r1, hr1, h⟩ := except_bind_ok h
      obtain ⟨r2, hr2, h⟩ := except_bind_ok h
      have k1 := emit_group_emits _ _ _ _ _ _ _ _ hr1
      have k2 := pick_head_emits _ _ _ _ _ _ hr2
      exact (k1.seq k2).seq (ih _ _ _ _ h)
    · cases h
      exact Globals.Emits.self_emits g

/-- The loop over the transshipment sinks appends arcs and leaves the skeleton pairs alone. -/
theorem tsink_arcs_emits (fuel0 : Nat) (p : Params) (it : Option Nat) :
    ∀ (fuel i : Nat) (g r : Globals), tsink_arcs fuel0 p it fuel i g = Except.ok r →
      g.Emits r := by
  intro fuel
  induction fuel with
  | zero =>
    intro i g r h
    rw [tsink_arcs] at h
    rcases except_ite_ok h with ⟨_, h⟩ | ⟨_, h⟩
    · cases h
    · cases h
      exact Globals.Emits.self_emits g
  | succ n ih =>
    intro i g r h
    rw [tsink_arcs] at h
    rcases except_ite_ok h with ⟨_, h⟩ | ⟨_, h⟩
    · cases it with
      | none => cases h
      | some tl =>
        obtain ⟨r1, hr1, h⟩ := except_bind_ok h
        exact (pick_head_emits _ _ _ _ _ _ hr1).seq (ih _ _ _ h)
    · cases h
      exact Globals.Emits.self_emits g

/-! ## Theorems: every skeleton pair is emitted -/

/-- The inner emission loop started at the pair `i` for the tail `it`: it ends
at a pair `r.1` past the ones it has emitted, past `i` if the tail of pair `i`
is `it`, and has appended one arc per pair, in order, with the head of the
pair as the head of the arc. -/
theorem emit_group_cover (p : Params) (source it : Nat) :
    ∀ (fuel i : Nat) (indie : NetgenIndex) (g : Globals) (r : Nat × NetgenIndex × Globals),
      emit_group p source it fuel i indie g = Except.ok r →
      i ≤ r.1 ∧ (g.tail i = it → i < r.1) ∧ r.2.2.arc_count = g.arc_count + (r.1 - i) ∧
      ∀ j, i ≤ j → j < r.1 → r.2.2.TO (g.arc_count + (j - i)) = g.head j := by
  intro fuel
  induction fuel with
  | zero =>
    intro i indie g r h
    obtain ⟨ti, hti, h⟩ := except_bind_ok h
    obtain ⟨_, _, eti⟩ := rd_ok_eq _ _ _ _ hti
    rw [Int.toNat_ofNat] at eti
    rcases except_ite_ok h with ⟨_, h⟩ | ⟨hne, h⟩
    · cases h
    · cases h
      refine ⟨Nat.le_refl _, ?_, by show g.arc_count = g.arc_count + (i - i); omega, ?_⟩
      · intro e
        exact absurd (e.symm.trans eti.symm) hne
      · intro j h1 h2
        have h3 : j < i := h2
        omega
  | succ n ih =>
    intro i indie g r h
    obtain ⟨ti, hti, h⟩ := except_bind_ok h
    obtain ⟨_, hi60, eti⟩ := rd_ok_eq _ _ _ _ hti
    rw [Int.toNat_ofNat] at eti
    have hi6 : (i : Int) < 60000 := hi60
    clear hi60
    have w1 : toULong ((i : Int) + 1) = i + 1 := by
      rw [toULong_small _ (by omega) (by omega)]
      omega
    rcases except_ite_ok h with ⟨_, h⟩ | ⟨hne, h⟩
    · obtain ⟨hi, hhi, h⟩ := except_bind_ok h
      obtain ⟨_, _, ehi⟩ := rd_ok_eq _ _ _ _ hhi
      rw [Int.toNat_ofNat] at ehi
      obtain ⟨r1, g1, hd1⟩ : ∃ r1 g1, g.draw 1 100 = (r1, g1) := ⟨_, _, rfl⟩
      rw [hd1] at h
      dsimp only at h
      have d := Globals.Drawn.trans (draw_inv _ _ _ _ _ hd1).1
        (Globals.Drawn.trans (draw_inv g1 _ 1 100 _ rfl).1
          (ite_draw_inv ((g1.draw 1 100).1 > p.HICOST) (g1.draw 1 100).2 _
            p.MINCOST p.MAXCOST p.MAXCOST _ rfl))
      have hstep : ∀ (cost cap : Int) (gd g4 : Globals), g.Drawn gd →
          gd.save_arc it hi cost cap = Except.ok g4 →
          emit_group p source it n (toULong ((i : Int) + 1))
            (indie.remove_index (wrapInt hi) 0) g4 = Except.ok r →
          i ≤ r.1 ∧ (g.tail i = it → i < r.1) ∧ r.2.2.arc_count = g.arc_count + (r.1 - i) ∧
          ∀ j, i ≤ j → j < r.1 → r.2.2.TO (g.arc_count + (j - i)) = g.head j := by
        intro cost cap gd g4 d hg4 h
        rw [w1] at h
        obtain ⟨a1, _, a3, a4⟩ := ih _ _ _ _ h
        have k5 := emit_group_emits _ _ _ _ _ _ _ _ h
        have k4 := save_arc_emits _ _ _ _ _ _ hg4
        obtain ⟨_, e4⟩ := save_arc_spec _ _ _ _ _ _ hg4
        have ed := d.1
        have ec : gd.arc_count = g.arc_count := by rw [ed]
        have eh : gd.head = g.head := by rw [ed]
        have ec4 : g4.arc_count = g.arc_count + 1 := by
          rw [e4]
          exact congrArg (fun x => x + 1) ec
        have eh4 : g4.head = g.head := k4.2.1.trans eh
        have et4 : g4.TO g.arc_count = hi := by
          rw [e4]
          show Function.update gd.TO gd.arc_count hi g.arc_count = hi
          rw [ec, Function.update_same]
        have e0 : r.2.2.TO g.arc_count = hi := by
          rw [k5.1.2.1 g.arc_count (by omega)]
          exact et4
        clear k4 k5 e4 hg4 d ed h
        refine ⟨by omega, fun _ => by omega, by omega, ?_⟩
        intro j h1 h2
        by_cases e : j = i
        · rw [e, Nat.sub_self, Nat.add_zero, e0, ehi]
        · have := a4 j (by omega) h2
          have ej : g.arc_count + 1 + (j - (i + 1)) = g.arc_count + (j - i) := by omega
          rw [ec4, eh4, ej] at this
          exact this
      rcases except_ite_ok h with ⟨_, h⟩ | ⟨_, h⟩
      · obtain ⟨bs, _, h⟩ := except_bind_ok h
        obtain ⟨y, hy, h⟩ := except_bind_ok h
        obtain ⟨g4, hg4, h⟩ := except_bind_ok h
        exact hstep _ _ _ _ d hg4 h
      · obtain ⟨y, hy, h⟩ := except_bind_ok h
        obtain ⟨g4, hg4, h⟩ := except_bind_ok h
        exact hstep _ _ _ _ d hg4 h
    · cases h
      refine ⟨Nat.le_refl _, ?_, by show g.arc_count = g.arc_count + (i - i); omega, ?_⟩
      · intro e
        exact absurd (e.symm.trans eti.symm) hne
      · intro j h1 h2
        have h3 : j < i := h2
        omega

/-- Marking a range keeps the marks and marks the range. -/
theorem mark_range_spec (m : Nat → Bool) (lo hi a : Nat) :
    mark_range m lo hi a = true ↔ m a = true ∨ (lo ≤ a ∧ a < hi) := by
  unfold mark_range
  simp only [Bool.or_eq_true, Bool.and_eq_true, decide_eq_true_eq]

/-- The emission loop with the set of skeleton arcs does what the emission
loop does, keeps the marks it was given, and every skeleton pair from `i` to
`sort_count` has an arc marked as a skeleton arc whose head is the head of the
pair. -/
theorem emit_arcs_marked_cover (fuel0 : Nat) (p : Params) (source : Nat) (sort_count : Int) :
    ∀ (fuel i : Nat) (it : Option Nat) (g : Globals) (r : Option Nat × Globals),
      emit_arcs fuel0 p source sort_count fuel i it g = Except.ok r →
      ∀ m : Nat → Bool, ∃ m2 : Nat → Bool,
        emit_arcs_marked fuel0 p source sort_count fuel i it m g = Except.ok (r.1, m2, r.2) ∧
        (∀ a, m a = true → m2 a = true) ∧
        ∀ j, i ≤ j → j ≤ toULong sort_count →
          ∃ a, a < r.2.arc_count ∧ m2 a = true ∧ r.2.TO a = g.head j := by
  intro fuel
  induction fuel with
  | zero =>
    intro i it g r h m
    rw [emit_arcs] at h
    rcases except_ite_ok h with ⟨_, h⟩ | ⟨hn, h⟩
    · cases h
    · cases h
      refine ⟨m, ?_, fun _ ha => ha, fun j h1 h2 => absurd (Nat.le_trans h1 h2) hn⟩
      rw [emit_arcs_marked, if_neg hn]
  | succ n ih =>
    intro i it g r h m
    have k0 := emit_arcs_emits _ _ _ _ _ _ _ _ _ h
    rw [emit_arcs] at h
    rcases except_ite_ok h with ⟨hle, h⟩ | ⟨hn, h⟩
    · obtain ⟨ti, hti, h⟩ := except_bind_ok h
      obtain ⟨r1, hr1, h⟩ := except_bind_ok h
      obtain ⟨r2, hr2, h⟩ := except_bind_ok h
      obtain ⟨i1, indie1, g1⟩ := r1
      obtain ⟨indie2, g2⟩ := r2
      obtain ⟨_, _, eti⟩ := rd_ok_eq _ _ _ _ hti
      rw [Int.toNat_ofNat] at eti
      dsimp only at h hr2
      obtain ⟨c1, c2, c3, c4⟩ := emit_group_cover _ _ _ _ _ _ _ _ hr1
      dsimp only at c1 c2 c3 c4
      have k1 := emit_group_emits _ _ _ _ _ _ _ _ hr1
      have k2 := pick_head_emits _ _ _ _ _ _ hr2
      have k3 := emit_arcs_emits _ _ _ _ _ _ _ _ _ h
      dsimp only at k1 k2 k3
      obtain ⟨m2, hm2, mono, cov⟩ := ih _ _ _ _ h (mark_range m g.arc_count g1.arc_count)
      refine ⟨m2, ?_, ?_, ?_⟩
      · rw [emit_arcs_marked, if_pos hle]
        dsimp only
        rw [hti, except_ok_bind, hr1, except_ok_bind]
        dsimp only
        rw [hr2, except_ok_bind]
        exact hm2
      · intro a ha
        exact mono a ((mark_range_spec _ _ _ _).2 (Or.inl ha))
      · intro j h1 h2
        by_cases hj : j < i1
        · refine ⟨g.arc_count + (j - i), ?_, ?_, ?_⟩
          · have := k3.1.1
            have := k2.1.1
            omega
          · exact mono _ ((mark_range_spec _ _ _ _).2 (Or.inr ⟨by omega, by omega⟩))
          · rw [k3.1.2.1 _ (by
              have := k2.1.1
              omega), k2.1.2.1 _ (by omega)]
            exact c4 j h1 hj
        · obtain ⟨a, a1, a2, a3⟩ := cov j (by omega) h2
          refine ⟨a, a1, a2, ?_⟩
          rw [a3, k2.2.1, k1.2.1]
    · cases h
      refine ⟨m, ?_, fun _ ha => ha, fun j h1 h2 => absurd (Nat.le_trans h1 h2) hn⟩
      rw [emit_arcs_marked, if_neg hn]

/-! ## Theorems: the sinks of a source -/

/-- The sink draws of one source on an ascending list of positive ids: the
stream aside nothing changes; every id of the list is still in the list or has
been stored in `sinks[i..sinks_per_source-1]`; the entries from
`sinks_per_source` on are not set. -/
theorem draw_sinks_cover (sps : Nat) :
    ∀ (fuel i : Nat) (sinks : Nat → Option Nat) (indie : NetgenIndex) (g : Globals)
      (r : (Nat → Option Nat) × NetgenIndex × Globals),
      draw_sinks sps fuel i sinks indie g = Except.ok r →
      List.Sorted (fun a b : Int => a < b) indie.index_list →
      (∀ v ∈ indie.index_list, 1 ≤ v) → (∀ k, i ≤ k → sinks k = none) → i ≤ sps →
      g.Drawn r.2.2 ∧
      List.Sorted (fun a b : Int => a < b) r.2.1.index_list ∧
      (∀ v ∈ r.2.1.index_list, v ∈ indie.index_list) ∧
      (∀ v ∈ indie.index_list,
        v ∈ r.2.1.index_list ∨ ∃ k, i ≤ k ∧ k < sps ∧ r.1 k = some (toULong v)) ∧
      (∀ k, k < i → r.1 k = sinks k) ∧ ∀ k, sps ≤ k → r.1 k = none := by
  intro fuel
  induction fuel with
  | zero =>
    intro i sinks indie g r h hs h1 hn hi
    rw [draw_sinks] at h
    rcases except_ite_ok h with ⟨_, h⟩ | ⟨hge, h⟩
    · cases h
    · cases h
      exact ⟨Globals.Drawn.refl g, hs, fun v hv => hv, fun v hv => Or.inl hv, fun _ _ => rfl,
        fun k hk => hn k (by omega)⟩
  | succ n ih =>
    intro i sinks indie g r h hs h1 hn hi
    rw [draw_sinks] at h
    rcases except_ite_ok h with ⟨hlt, h⟩ | ⟨hge, h⟩
    · obtain ⟨r1, g1, hd1⟩ : ∃ r1 g1, g.draw 1 indie.index_size = (r1, g1) := ⟨_, _, rfl⟩
      rw [hd1] at h
      dsimp only at h
      have d1 := (draw_inv _ _ _ _ _ hd1).1
      obtain ⟨hs1, hm1⟩ := choose_index_pool indie (toUInt r1) hs h1
      obtain ⟨c, indie1, hc⟩ : ∃ c i1, indie.choose_index (toUInt r1) = (c, i1) := ⟨_, _, rfl⟩
      rw [hc] at h hs1 hm1
      dsimp only at h hs1 hm1
      clear hc hd1
      obtain ⟨s2, hs2, h⟩ := except_bind_ok h
      obtain ⟨_, hib, es2⟩ := wr_ok_eq _ _ _ _ _ hs2
      have hib2 : (i : Int) < 5000 := hib
      clear hib hs2
      rw [Int.toNat_ofNat] at es2
      have hi1 : toULong ((i : Int) + 1) = i + 1 := by
        rw [toULong_small _ (by omega) (by omega)]
        omega
      rw [hi1] at h
      clear hi1
      obtain ⟨a1, a2, a3, a4, a5, a6⟩ := ih _ _ _ _ _ h hs1
        (fun v hv => h1 v ((hm1 v).1 hv).1)
        (by
          intro k hk
          rw [es2, Function.update_noteq (by omega)]
          exact hn k (by omega))
        (by omega)
      refine ⟨d1.trans a1, a2, fun v hv => ((hm1 v).1 (a3 v hv)).1, ?_, ?_, a6⟩
      · intro v hv
        by_cases e : v = c
        · right
          refine ⟨i, Nat.le_refl _, hlt, ?_⟩
          rw [a5 i (by omega), es2, Function.update_same, e]
        · rcases a4 v ((hm1 v).2 ⟨hv, e⟩) with hin | ⟨k, k1, k2, k3⟩
          · exact Or.inl hin
          · exact Or.inr ⟨k, by omega, k2, k3⟩
      · intro k hk
        rw [a5 k (by omega), es2, Function.update_noteq (by omega)]
    · cases h
      exact ⟨Globals.Drawn.refl g, hs, fun v hv => hv, fun v hv => Or.inl hv, fun _ _ => rfl,
        fun k hk => hn k (by omega)⟩

/-- The loop that appends the sinks not yet drawn, on an ascending list of
positive ids: every id of the list has a balance that is not zero or has been
stored in `sinks` at a new position; the entries below the old
`sinks_per_source` are left alone and those from the new one on are not set. -/
theorem grow_sinks_cover :
    ∀ (fuel sps : Nat) (sinks : Nat → Option Nat) (indie : NetgenIndex) (g : Globals)
      (r : Nat × (Nat → Option Nat) × NetgenIndex),
      grow_sinks fuel sps sinks indie g = Except.ok r →
      List.Sorted (fun a b : Int => a < b) indie.index_list →
      (∀ v ∈ indie.index_list, 1 ≤ v) → (∀ k, sps ≤ k → sinks k = none) →
      sps ≤ r.1 ∧ (∀ k, k < sps → r.2.1 k = sinks k) ∧ (∀ k, r.1 ≤ k → r.2.1 k = none) ∧
      ∀ v ∈ indie.index_list,
        g.B (toULong v) ≠ 0 ∨ ∃ k, sps ≤ k ∧ k < r.1 ∧ r.2.1 k = some (toULong v) := by
  intro fuel
  induction fuel with
  | zero =>
    intro sps sinks indie g r h hs h1 hn
    rw [grow_sinks] at h
    rcases except_ite_ok h with ⟨_, h⟩ | ⟨hz, h⟩
    · cases h
    · cases h
      refine ⟨Nat.le_refl _, fun _ _ => rfl, hn, ?_⟩
      intro v hv
      have hl : indie.index_list = [] := by
        unfold NetgenIndex.index_size at hz
        cases hq : indie.index_list with
        | nil => rfl
        | cons x xs =>
          rw [hq] at hz
          simp at hz
      rw [hl] at hv
      cases hv
  | succ n ih =>
    intro sps sinks indie g r h hs h1 hn
    rw [grow_sinks] at h
    rcases except_ite_ok h with ⟨_, h⟩ | ⟨hz, h⟩
    · obtain ⟨hs1, hm1⟩ := choose_index_pool indie 1 hs h1
      obtain ⟨c, indie1, hc⟩ : ∃ c i1, indie.choose_index 1 = (c, i1) := ⟨_, _, rfl⟩
      rw [hc] at h hs1 hm1
      dsimp only at h hs1 hm1
      clear hc
      obtain ⟨bj, hbj, h⟩ := except_bind_ok h
      obtain ⟨_, _, ebj⟩ := rd_ok_eq _ _ _ _ hbj
      rw [Int.toNat_ofNat] at ebj
      clear hbj
      rcases except_ite_ok h with ⟨hz0, h⟩ | ⟨hnz, h⟩
      · obtain ⟨s2, hs2, h⟩ := except_bind_ok h
        obtain ⟨_, hib, es2⟩ := wr_ok_eq _ _ _ _ _ hs2
        have hib2 : (sps : Int) < 5000 := hib
        clear hib hs2
        rw [Int.toNat_ofNat] at es2
        have hi1 : toULong ((sps : Int) + 1) = sps + 1 := by
          rw [toULong_small _ (by omega) (by omega)]
          omega
        rw [hi1] at h
        clear hi1
        obtain ⟨a1, a2, a3, a4⟩ := ih _ _ _ _ _ h hs1
          (fun v hv => h1 v ((hm1 v).1 hv).1)
          (by
            intro k hk
            rw [es2, Function.update_noteq (by omega)]
            exact hn k (by omega))
        refine ⟨by omega, ?_, a3, ?_⟩
        · intro k hk
          rw [a2 k (by omega), es2, Function.update_noteq (by omega)]
        · intro v hv
          by_cases e : v = c
          · right
            refine ⟨sps, Nat.le_refl _, by omega, ?_⟩
            rw [a2 sps (by omega), es2, Function.update_same, e]
          · rcases a4 v ((hm1 v).2 ⟨hv, e⟩) with hb | ⟨k, k1, k2, k3⟩
            · exact Or.inl hb
            · exact Or.inr ⟨k, by omega, k2, k3⟩
      · obtain ⟨a1, a2, a3, a4⟩ := ih _ _ _ _ _ h hs1
          (fun v hv => h1 v ((hm1 v).1 hv).1) hn
        refine ⟨a1, a2, a3, ?_⟩
        intro v hv
        by_cases e : v = c
        · left
          rw [e, ← ebj]
          exact hnz
        · exact a4 v ((hm1 v).2 ⟨hv, e⟩)
    · cases h
      refine ⟨Nat.le_refl _, fun _ _ => rfl, hn, ?_⟩
      intro v hv
      have hl : indie.index_list = [] := by
        unfold NetgenIndex.index_size at hz
        cases hq : indie.index_list with
        | nil => rfl
        | cons x xs =>
          rw [hq] at hz
          simp at hz
      rw [hl] at hv
      cases hv

/-! ## Theorems: the skeleton pairs of a source -/

/-- The climb up a chain stays among the sources and transshipment nodes. -/
theorem climb_closed (M : Nat) :
    ∀ (fuel j k : Nat) (g : Globals) (r : Nat), climb fuel j k g = Except.ok r →
      (∀ x, 1 ≤ x → x ≤ M → 1 ≤ g.pred x ∧ g.pred x ≤ M) → 1 ≤ k → k ≤ M →
      1 ≤ r ∧ r ≤ M := by
  intro fuel
  induction fuel with
  | zero =>
    intro j k g r h hp h1 h2
    rw [climb] at h
    rcases except_ite_ok h with ⟨_, h⟩ | ⟨_, h⟩
    · cases h
    · cases h
      exact ⟨h1, h2⟩
  | succ n ih =>
    intro j k g r h hp h1 h2
    rw [climb] at h
    rcases except_ite_ok h with ⟨_, h⟩ | ⟨_, h⟩
    · obtain ⟨k2, hk2, h⟩ := except_bind_ok h
      obtain ⟨_, _, e⟩ := rd_ok_eq _ _ _ _ hk2
      rw [Int.toNat_ofNat] at e
      have := hp k h1 h2
      rw [← e] at this
      exact ih _ _ _ _ h hp this.1 this.2
    · cases h
      exact ⟨h1, h2⟩

/-- The walk up the chain of a source records pairs of sources and
transshipment nodes, so small entries, and changes nothing but `head` and
`tail`. -/
theorem walk_chain_small (source M : Nat) (hM : M < 5000) :
    ∀ (fuel node : Nat) (sc : Int) (g : Globals) (r : Int × Globals),
      walk_chain source fuel node sc g = Except.ok r →
      (∀ x, 1 ≤ x → x ≤ M → 1 ≤ g.pred x ∧ g.pred x ≤ M) → 1 ≤ node → node ≤ M →
      0 ≤ sc → sc < 60000 → HeadsSmall sc g → TailsSmall sc g →
      0 ≤ r.1 ∧ r.1 < 60000 ∧ HeadsSmall r.1 r.2 ∧ TailsSmall r.1 r.2 ∧
      r.2 = { g with head := r.2.head, tail := r.2.tail } := by
  intro fuel
  induction fuel with
  | zero =>
    intro node sc g r h hp h1 h2 h0 h6 hh ht
    rw [walk_chain] at h
    rcases except_ite_ok h with ⟨_, h⟩ | ⟨_, h⟩
    · cases h
    · cases h
      exact ⟨h0, h6, hh, ht, rfl⟩
  | succ n ih =>
    intro node sc g r h hp h1 h2 h0 h6 hh ht
    rw [walk_chain] at h
    rcases except_ite_ok h with ⟨_, h⟩ | ⟨_, h⟩
    · have w : wrapInt (sc + 1) = sc + 1 := wrapInt_id _ (by omega) (by omega)
      rw [w] at h
      obtain ⟨hd, hhd, h⟩ := except_bind_ok h
      obtain ⟨pn, hpn, h⟩ := except_bind_ok h
      obtain ⟨tl, htl, h⟩ := except_bind_ok h
      obtain ⟨_, c6, ehd⟩ := wr_ok_eq _ _ _ _ _ hhd
      obtain ⟨_, _, epn⟩ := rd_ok_eq _ _ _ _ hpn
      obtain ⟨_, _, etl⟩ := wr_ok_eq _ _ _ _ _ htl
      rw [Int.toNat_ofNat] at epn
      have c6' : sc + 1 < 60000 := c6
      have hpn2 := hp node h1 h2
      rw [← epn] at hpn2
      clear hhd hpn htl c6
      obtain ⟨a1, a2, a3, a4, a5⟩ := ih pn (sc + 1) { g with head := hd, tail := tl } r h hp
        hpn2.1 hpn2.2 (by omega) c6'
        (by
          intro x hx1 hx2
          show hd x < 2147483648
          rw [ehd]
          by_cases e : x = (sc + 1).toNat
          · rw [e, Function.update_same]
            omega
          · rw [Function.update_noteq e]
            exact hh x hx1 (by omega))
        (by
          intro x hx1 hx2
          show tl x < 2147483648
          rw [etl]
          by_cases e : x = (sc + 1).toNat
          · rw [e, Function.update_same]
            omega
          · rw [Function.update_noteq e]
            exact ht x hx1 (by omega))
      refine ⟨a1, a2, a3, a4, ?_⟩
      rw [a5]
    · cases h
      exact ⟨h0, h6, hh, ht, rfl⟩

/-- The supply loop of one source from sink `i` on, on pairs of small entries:
it appends one skeleton pair per sink of the list, with the sink (as a node
id) as head, keeps the entries small, and changes the balance of no node that
is not in the list. -/
theorem spread_supply_cover (fuel0 source sps : Nat) (sinks : Nat → Option Nat) (cl q : Int)
    (M : Nat) (hM : M < 5000) (hs1 : 1 ≤ source) (hs2 : source ≤ M)
    (hn : ∀ k, sps ≤ k → sinks k = none) :
    ∀ (fuel i k : Nat) (sc : Int) (g : Globals) (r : Int × Globals),
      spread_supply fuel0 source sps sinks cl q fuel i k sc g = Except.ok r →
      i ≤ sps → 0 ≤ sc → sc < 60000 → 1 ≤ k → k ≤ M →
      (∀ x, 1 ≤ x → x ≤ M → 1 ≤ g.pred x ∧ g.pred x ≤ M) →
      HeadsSmall sc g → TailsSmall sc g →
      r.1 = sc + ((sps - i : Nat) : Int) ∧ r.1 < 60000 ∧
      HeadsSmall r.1 r.2 ∧ TailsSmall r.1 r.2 ∧
      (∀ k2, i ≤ k2 → k2 < sps →
        ∃ v, sinks k2 = some v ∧ r.2.head (sc.toNat + 1 + (k2 - i)) = v + 1) ∧
      (∀ j, r.2.B j ≠ g.B j → ∃ k2, k2 < sps ∧ sinks k2 = some j) ∧
      ∀ x : Nat, (x : Int) ≤ sc → r.2.head x = g.head x := by
  intro fuel
  induction fuel with
  | zero =>
    intro i k sc g r h hi h0 h6 hk1 hk2 hp hh ht
    rw [spread_supply] at h
    rcases except_ite_ok h with ⟨_, h⟩ | ⟨hge, h⟩
    · cases h
    · cases h
      have e : sps - i = 0 := by omega
      refine ⟨by show sc = sc + ((sps - i : Nat) : Int); rw [e]; simp, h6, hh, ht,
        fun k2 a b => by omega, fun j hj => absurd rfl hj, fun _ _ => rfl⟩
  | succ n ih =>
    intro i k sc g r h hi h0 h6 hk1 hk2 hp hh ht
    rw [spread_supply] at h
    rcases except_ite_ok h with ⟨hlt, h0'⟩ | ⟨hge, h0'⟩
    · clear h
      have w : wrapInt (sc + 1) = sc + 1 := wrapInt_id _ (by omega) (by omega)
      rw [w] at h0'
      split at h0'
      rename_i r1 g1 hd1
      split at h0'
      rename_i r2 g2 hd2
      obtain ⟨t, ht1, h1⟩ := except_bind_ok h0'
      clear h0'
      obtain ⟨si, hsi, h2⟩ := except_bind_ok h1
      clear h1
      obtain ⟨hd, hhd, h3⟩ := except_bind_ok h2
      clear h2
      obtain ⟨bi, hbi, h4⟩ := except_bind_ok h3
      clear h3
      obtain ⟨b1, hb1, h5⟩ := except_bind_ok h4
      clear h4
      obtain ⟨sj, hsj, h6'⟩ := except_bind_ok h5
      clear h5
      obtain ⟨bj, _, h7⟩ := except_bind_ok h6'
      clear h6'
      obtain ⟨b2, hb2, h8⟩ := except_bind_ok h7
      clear h7
      obtain ⟨k3, hk3, h9⟩ := except_bind_ok h8
      clear h8
      have d12 := (draw_inv _ _ _ _ _ hd1).1.trans (draw_inv _ _ _ _ _ hd2).1
      have e12 := d12.1
      have ep : g2.pred = g.pred := by rw [e12]
      have eh : g2.head = g.head := by rw [e12]
      have et : g2.tail = g.tail := by rw [e12]
      have eB : g2.B = g.B := by rw [e12]
      clear hd1 hd2 d12 e12
      obtain ⟨_, c6, e1⟩ := wr_ok_eq _ _ _ _ _ ht1
      obtain ⟨_, _, e2⟩ := wr_ok_eq _ _ _ _ _ hhd
      obtain ⟨_, c5, _⟩ := rd_ok_eq _ _ _ _ hbi
      obtain ⟨_, _, e3⟩ := wr_ok_eq _ _ _ _ _ hb1
      obtain ⟨_, _, e4⟩ := wr_ok_eq _ _ _ _ _ hb2
      obtain ⟨_, _, esi⟩ := rd_sinks_ok _ _ _ hsi
      obtain ⟨_, _, esj⟩ := rd_sinks_ok _ _ _ hsj
      rw [Int.toNat_ofNat] at esi e3 e4 esj
      have c6' : sc + 1 < 60000 := c6
      have c5' : (si : Int) < 5000 := c5
      have wsi : toULong ((si : Int) + 1) = si + 1 := by
        rw [toULong_small _ (by omega) (by omega)]
        omega
      have wi : toULong ((i : Int) + 1) = i + 1 := by
        rw [toULong_small _ (by omega) (by omega)]
        omega
      rw [wsi] at e2
      rw [wi] at h9
      rw [et] at e1
      rw [eh] at e2
      rw [eB] at e3
      clear ht1 hhd hbi hb1 hb2 hsi hsj c6 c5 wsi wi w
      have hk3' := climb_closed M _ _ _ _ _ hk3 (by
        intro x hx1 hx2
        show 1 ≤ g2.pred x ∧ g2.pred x ≤ M
        rw [ep]
        exact hp x hx1 hx2) hs1 hs2
      clear hk3
      obtain ⟨a1, a2, a3, a4, a5, a6, a7⟩ := ih (i + 1) k3 (sc + 1) _ r h9 (by omega) (by omega)
        c6' hk3'.1 hk3'.2
        (by
          intro x hx1 hx2
          show 1 ≤ g2.pred x ∧ g2.pred x ≤ M
          rw [ep]
          exact hp x hx1 hx2)
        (by
          intro x hx1 hx2
          show hd x < 2147483648
          rw [e2]
          by_cases e : x = (sc + 1).toNat
          · rw [e, Function.update_same]
            omega
          · rw [Function.update_noteq e]
            exact hh x hx1 (by omega))
        (by
          intro x hx1 hx2
          show t x < 2147483648
          rw [e1]
          by_cases e : x = (sc + 1).toNat
          · rw [e, Function.update_same]
            omega
          · rw [Function.update_noteq e]
            exact ht x hx1 (by omega))
      clear ih h9
      have a6' : ∀ j, r.2.B j ≠ b2 j → ∃ k2, k2 < sps ∧ sinks k2 = some j := a6
      have a7' : ∀ x : Nat, (x : Int) ≤ sc + 1 → r.2.head x = hd x := a7
      clear a6 a7
      have hjn : ∀ (jj : Nat) (v : Nat), sinks jj = some v → jj < sps := by
        intro jj v hv
        by_contra hc
        rw [hn jj (by omega)] at hv
        cases hv
      refine ⟨?_, a2, a3, a4, ?_, ?_, ?_⟩
      · rw [a1]
        have : ((sps - (i + 1) : Nat) : Int) + 1 = ((sps - i : Nat) : Int) := by omega
        omega
      · intro k2 hk21 hk22
        by_cases e : k2 = i
        · refine ⟨si, by rw [e]; exact esi, ?_⟩
          rw [e, Nat.sub_self, Nat.add_zero, a7' _ (by omega), e2]
          have : sc.toNat + 1 = (sc + 1).toNat := by omega
          rw [this, Function.update_same]
        · obtain ⟨v, hv1, hv2⟩ := a5 k2 (by omega) hk22
          refine ⟨v, hv1, ?_⟩
          have : sc.toNat + 1 + (k2 - i) = (sc + 1).toNat + 1 + (k2 - (i + 1)) := by omega
          rw [this]
          exact hv2
      · intro j hj
        by_cases e : r.2.B j = b2 j
        · rw [e, e4] at hj
          by_cases e5 : j = sj
          · exact ⟨_, hjn _ _ esj, by rw [e5]; exact esj⟩
          · rw [Function.update_noteq e5, e3] at hj
            by_cases e6 : j = si
            · exact ⟨i, hlt, by rw [e6]; exact esi⟩
            · rw [Function.update_noteq e6] at hj
              exact absurd rfl hj
        · exact a6' j e
      · intro x hx
        rw [a7' x (by omega), e2, Function.update_noteq (by omega)]
    · cases h0'
      have e : sps - i = 0 := by omega
      refine ⟨by show sc = sc + ((sps - i : Nat) : Int); rw [e]; simp, h6, hh, ht,
        fun k2 a b => by omega, fun j hj => absurd rfl hj, fun _ _ => rfl⟩

/-- After a rearrangement of the pairs at `1..n`, every head among them is
still the head of one of them. -/
theorem pairs_permuted_head (n : Int) (g r : Globals) (h : PairsPermuted n g r) (x : Nat)
    (h1 : 1 ≤ x) (h2 : (x : Int) ≤ n) :
    ∃ y : Nat, 1 ≤ y ∧ (y : Int) ≤ n ∧ r.head y = g.head x := by
  obtain ⟨σ, hσ, hp⟩ := h
  have hinv : ∀ z : Nat, ((z : Int) < 1 ∨ n < z) → σ.symm z = z := by
    intro z hz
    have e := hσ z hz
    exact (Equiv.symm_apply_eq σ).2 e.symm
  obtain ⟨b1, b2⟩ := perm_stays_inside n σ.symm hinv x h1 h2
  refine ⟨σ.symm x, b1, b2, ?_⟩
  rw [(hp (σ.symm x)).2, Equiv.apply_symm_apply]

/-- The end of the pass of one source, from the read of `B[source - 1]` on, on
chains that stay among the sources and transshipment nodes: the run with the
set of skeleton arcs gives the same state; the arcs and chains are kept; only
balances of nodes in the list of sinks change; and every sink of the list is
the head of a skeleton arc. -/
theorem source_tail_cover (fuel : Nat) (p : Params) (source : Nat) (it : Option Nat)
    (sps : Nat) (sinks : Nat → Option Nat) (cl sc : Int) (g : Globals)
    (r : Option Nat × Globals) (M : Nat) (hM : M < 5000)
    (hs1 : 1 ≤ source) (hs2 : source ≤ M) (hn : ∀ k, sps ≤ k → sinks k = none)
    (h0 : 0 ≤ sc) (h6 : sc < 60000)
    (hp : ∀ x, 1 ≤ x → x ≤ M → 1 ≤ g.pred x ∧ g.pred x ≤ M)
    (hh : HeadsSmall sc g) (ht : TailsSmall sc g)
    (h : (do
        let bs ← rd MAXNODES g.B (toULong ((source : Int) - 1))
        if sps = 0 then Except.error Stop.division_by_zero
        else do
          let supply_per_sink := wrapInt ((toULong bs / sps : Nat) : Int)
          let k ← rd MAXNODES g.pred source
          let (sort_count, g) ← spread_supply fuel source sps sinks cl
            supply_per_sink fuel 0 k sc g
          let s0 ← rd_sinks sinks 0
          let bs ← rd MAXNODES g.B (toULong ((source : Int) - 1))
          let b0 ← rd MAXNODES g.B s0
          let b ← wr MAXNODES g.B s0 (wrapLong (b0 - ((toULong bs % sps : Nat) : Int)))
          let g := { g with B := b }
          let g ← sort_skeleton fuel sort_count g
          let tl ← wr MAXARCS g.tail (wrapInt (sort_count + 1)) 0
          let g := { g with tail := tl }
          emit_arcs fuel p source sort_count fuel 1 it g) = Except.ok r) (m : Nat → Bool) :
    ∃ m2 : Nat → Bool,
      (do
        let bs ← rd MAXNODES g.B (toULong ((source : Int) - 1))
        if sps = 0 then Except.error Stop.division_by_zero
        else do
          let supply_per_sink := wrapInt ((toULong bs / sps : Nat) : Int)
          let k ← rd MAXNODES g.pred source
          let (sort_count, g) ← spread_supply fuel source sps sinks cl
            supply_per_sink fuel 0 k sc g
          let s0 ← rd_sinks sinks 0
          let bs ← rd MAXNODES g.B (toULong ((source : Int) - 1))
          let b0 ← rd MAXNODES g.B s0
          let b ← wr MAXNODES g.B s0 (wrapLong (b0 - ((toULong bs % sps : Nat) : Int)))
          let g := { g with B := b }
          let g ← sort_skeleton fuel sort_count g
          let tl ← wr MAXARCS g.tail (wrapInt (sort_count + 1)) 0
          let g := { g with tail := tl }
          emit_arcs_marked fuel p source sort_count fuel 1 it m g) =
        Except.ok (r.1, m2, r.2) ∧
      (∀ a, m a = true → m2 a = true) ∧ g.Kept r.2 ∧
      (∀ j, r.2.B j ≠ g.B j → ∃ k2, k2 < sps ∧ sinks k2 = some j) ∧
      ∀ k2, k2 < sps → ∃ v, sinks k2 = some v ∧ Covered m2 r.2 (v + 1) := by
  obtain ⟨bs, hbs, h1⟩ := except_bind_ok h
  clear h
  rcases except_ite_ok h1 with ⟨_, hc⟩ | ⟨hsp, h2⟩
  · cases hc
  clear h1
  obtain ⟨k, hk, h3⟩ := except_bind_ok h2
  clear h2
  obtain ⟨r4, hr4, h4⟩ := except_bind_ok h3
  clear h3
  obtain ⟨sc4, g4⟩ := r4
  dsimp only at h4
  obtain ⟨s0, hs0, h5⟩ := except_bind_ok h4
  clear h4
  obtain ⟨bs2, hbs2, h6'⟩ := except_bind_ok h5
  clear h5
  obtain ⟨b0, hb0, h7⟩ := except_bind_ok h6'
  clear h6'
  obtain ⟨b, hb, h8⟩ := except_bind_ok h7
  clear h7
  obtain ⟨g6, hg6, h9⟩ := except_bind_ok h8
  clear h8
  obtain ⟨tl, htl, h10⟩ := except_bind_ok h9
  clear h9
  -- the supply loop
  obtain ⟨_, _, ek⟩ := rd_ok_eq _ _ _ _ hk
  rw [Int.toNat_ofNat] at ek
  have hk12 := hp source hs1 hs2
  rw [← ek] at hk12
  obtain ⟨a1, a2, a3, a4, a5, a6, _⟩ := spread_supply_cover fuel source sps sinks cl _ M hM
    hs1 hs2 hn fuel 0 k sc g (sc4, g4) hr4 (Nat.zero_le _) h0 h6 hk12.1 hk12.2 hp hh ht
  dsimp only at a1 a2 a3 a4 a5 a6
  have k4 : g.Kept g4 := spread_supply_kept g _ _ _ _ _ _ _ _ _ _ _ _ (Globals.Kept.self_kept g) hr4
  -- the remainder goes to the first sink
  obtain ⟨_, _, es0⟩ := rd_sinks_ok _ _ _ hs0
  obtain ⟨_, _, eb⟩ := wr_ok_eq _ _ _ _ _ hb
  rw [Int.toNat_ofNat] at eb
  have es0' : sinks 0 = some s0 := es0
  -- the sort
  have hperm : PairsPermuted sc4 { g4 with B := b } g6 :=
    sort_gaps_perm sc4 a2 fuel fuel sc4 _ g6 hg6 (by omega) (le_refl _) a4 a3
  have k6 : g4.Kept g6 :=
    sort_skeleton_kept g4 _ _ { g4 with B := b } _ (Globals.Kept.self_kept g4) hg6
  have kb6 := (sort_skeleton_keeps _ _ _ _ hg6).1
  -- the emission
  obtain ⟨m2, hm2, mono, cov⟩ := emit_arcs_marked_cover _ _ _ _ _ _ _ _ _ h10 m
  have k7 := emit_arcs_emits _ _ _ _ _ _ _ _ _ h10
  have kb7 := (emit_arcs_keeps _ _ _ _ _ _ _ _ _ h10).1
  have wsc : toULong sc4 = sc4.toNat := toULong_small _ (by omega) (by omega)
  rw [wsc] at cov
  refine ⟨m2, ?_, mono, ?_, ?_, ?_⟩
  · rw [hbs, except_ok_bind, if_neg hsp]
    dsimp only
    rw [hk, except_ok_bind, hr4, except_ok_bind]
    dsimp only
    rw [hs0, except_ok_bind, hbs2, except_ok_bind, hb0, except_ok_bind, hb, except_ok_bind,
      hg6, except_ok_bind, htl, except_ok_bind]
    exact hm2
  · exact (k4.chain k6).chain k7.1
  · intro j hj
    have e1 : r.2.B j = b j := by
      rw [kb7]
      show g6.B j = b j
      rw [kb6]
    rw [e1, eb] at hj
    by_cases e : j = s0
    · refine ⟨0, ?_, by rw [e]; exact es0'⟩
      by_contra hc
      rw [hn 0 (by omega)] at es0'
      cases es0'
    · rw [Function.update_noteq e] at hj
      exact a6 j hj
  · intro k2 hk2
    obtain ⟨v, hv1, hv2⟩ := a5 k2 (Nat.zero_le _) hk2
    refine ⟨v, hv1, ?_⟩
    obtain ⟨y, y1, y2, y3⟩ := pairs_permuted_head sc4 _ g6 hperm (sc.toNat + 1 + (k2 - 0))
      (by omega) (by omega)
    obtain ⟨a, b1, b2, b3⟩ := cov y (by omega) (by omega)
    refine ⟨a, b1, b2, ?_⟩
    rw [b3]
    show g6.head y = v + 1
    rw [y3]
    exact hv2

/-- The pass of one source on chains that stay among the sources and
transshipment nodes: the run with the set of skeleton arcs gives the same
state; the arcs and chains are kept; every node whose balance changes is the
head of a skeleton arc; and on the last source every sink whose balance was
zero is the head of a skeleton arc. -/
theorem process_source_cover (fuel : Nat) (p : Params) (source : Nat) (it : Option Nat)
    (g : Globals) (r : Option Nat × Globals) (S M N : Nat) (hS : p.SOURCES = (S : Int))
    (hMM : p.NODES - p.SINKS = (M : Int)) (hNN : p.NODES = (N : Int)) (hSM : S ≤ M)
    (hMN : M < N) (hN : N ≤ 5000) (hs1 : 1 ≤ source) (hs2 : source ≤ S)
    (hp : ∀ x, 1 ≤ x → x ≤ M → 1 ≤ g.pred x ∧ g.pred x ≤ M)
    (h : process_source fuel p source it g = Except.ok r) (m : Nat → Bool) :
    ∃ m2 : Nat → Bool,
      process_source_marked fuel p source it m g = Except.ok (r.1, m2, r.2) ∧
      (∀ a, m a = true → m2 a = true) ∧ g.Kept r.2 ∧
      (∀ j, r.2.B j ≠ g.B j → Covered m2 r.2 (j + 1)) ∧
      (source = S → ∀ v : Nat, M ≤ v → v < N → g.B v ≠ 0 ∨ Covered m2 r.2 (v + 1)) := by
  have hc1 : wrapInt (wrapLong (p.NODES - p.SINKS)) = (M : Int) := by
    rw [wrapLong_id _ (by omega) (by omega), wrapInt_id _ (by omega) (by omega)]
    exact hMM
  have hc2 : wrapInt (wrapLong (p.NODES - 1)) = (N : Int) - 1 := by
    rw [wrapLong_id _ (by omega) (by omega), wrapInt_id _ (by omega) (by omega), hNN]
  have hc3 : toULong p.SOURCES = S := by
    rw [hS, toULong_small _ (by omega) (by omega)]
    omega
  have hsort : List.Sorted (fun a b : Int => a < b)
      (NetgenIndex.create (M : Int) ((N : Int) - 1)).index_list := by
    rw [create_index_list, fill_range_eq]
    exact sorted_map_range _ _
  have hpos : ∀ v ∈ (NetgenIndex.create (M : Int) ((N : Int) - 1)).index_list, 1 ≤ v := by
    intro v hv
    rw [create_index_list, mem_fill_range] at hv
    omega
  have hall : ∀ v : Nat, M ≤ v → v < N →
      (v : Int) ∈ (NetgenIndex.create (M : Int) ((N : Int) - 1)).index_list := by
    intro v h1 h2
    rw [create_index_list, mem_fill_range]
    omega
  have hsub : ∀ v ∈ (NetgenIndex.create (M : Int) ((N : Int) - 1)).index_list,
      0 ≤ v ∧ v < 5000 := by
    intro v hv
    rw [create_index_list, mem_fill_range] at hv
    omega
  unfold process_source at h
  unfold process_source_marked
  rw [hc1, hc2, hc3] at h ⊢
  obtain ⟨node, hnode, h1⟩ := except_bind_ok h
  clear h
  obtain ⟨r1, hr1, h2⟩ := except_bind_ok h1
  clear h1
  obtain ⟨_, _, enode⟩ := rd_ok_eq _ _ _ _ hnode
  rw [Int.toNat_ofNat] at enode
  have hn12 := hp source hs1 (by omega)
  rw [← enode] at hn12
  obtain ⟨w1, w2, w3, w4, w5⟩ := walk_chain_small source M (by omega) fuel node 0 g r1 hr1 hp
    hn12.1 hn12.2 (le_refl _) (by norm_num) (fun x a b => by omega) (fun x a b => by omega)
  obtain ⟨sc1, g1⟩ := r1
  dsimp only at h2 w1 w2 w3 w4 w5
  obtain ⟨r2, hr2, h3⟩ := except_bind_ok h2
  clear h2
  generalize hsp : MAX 2 (MIN _ (toULong p.SINKS)) = sps0 at hr2 h3 ⊢
  obtain ⟨d1, d2, d3, d4, _, d6⟩ := draw_sinks_cover sps0 fuel 0 _ _ _ r2 hr2 hsort hpos
    (fun _ _ => rfl) (Nat.zero_le _)
  obtain ⟨sinks2, indie2, g2⟩ := r2
  dsimp only at h3 d1 d2 d3 d4 d6
  have e2 := d1.1
  have ep2 : g2.pred = g.pred := by rw [e2, w5]
  have eh2 : g2.head = g1.head := by rw [e2]
  have et2 : g2.tail = g1.tail := by rw [e2]
  have eB2 : g2.B = g.B := by rw [e2, w5]
  have k2 : g.Kept g2 := by
    rw [e2, w5]
    exact Globals.Kept.self_kept g
  have hp2 : ∀ x, 1 ≤ x → x ≤ M → 1 ≤ g2.pred x ∧ g2.pred x ≤ M := by
    rw [ep2]
    exact hp
  have hh2 : HeadsSmall sc1 g2 := by
    intro x a b
    rw [eh2]
    exact w3 x a b
  have ht2 : TailsSmall sc1 g2 := by
    intro x a b
    rw [et2]
    exact w4 x a b
  clear e2 ep2 eh2 et2 d1 w3 w4 w5 hn12
  have fin : ∀ (sps : Nat) (sinks : Nat → Option Nat) (x : NetgenIndex),
      (∀ k, sps ≤ k → sinks k = none) →
      (source = S → ∀ v : Nat, M ≤ v → v < N →
        g.B v ≠ 0 ∨ ∃ k, k < sps ∧ sinks k = some v) →
      (match (sps, sinks, x) with
        | (sinks_per_source, sinks, _) => do
          let bs ← rd MAXNODES g2.B (toULong ((source : Int) - 1))
          if sinks_per_source = 0 then Except.error Stop.division_by_zero
          else do
            let supply_per_sink := wrapInt ((toULong bs / sinks_per_source : Nat) : Int)
            let k ← rd MAXNODES g2.pred source
            let (sort_count, g) ← spread_supply fuel source sinks_per_source sinks sc1
              supply_per_sink fuel 0 k sc1 g2
            let s0 ← rd_sinks sinks 0
            let bs ← rd MAXNODES g.B (toULong ((source : Int) - 1))
            let b0 ← rd MAXNODES g.B s0
            let b ← wr MAXNODES g.B s0
              (wrapLong (b0 - ((toULong bs % sinks_per_source : Nat) : Int)))
            let g := { g with B := b }
            let g ← sort_skeleton fuel sort_count g
            let tl ← wr MAXARCS g.tail (wrapInt (sort_count + 1)) 0
            let g := { g with tail := tl }
            emit_arcs fuel p source sort_count fuel 1 it g) = Except.ok r →
      ∃ m2 : Nat → Bool,
        (match (sps, sinks, x) with
          | (sinks_per_source, sinks, _) => do
            let bs ← rd MAXNODES g2.B (toULong ((source : Int) - 1))
            if sinks_per_source = 0 then Except.error Stop.division_by_zero
            else do
              let supply_per_sink := wrapInt ((toULong bs / sinks_per_source : Nat) : Int)
              let k ← rd MAXNODES g2.pred source
              let (sort_count, g) ← spread_supply fuel source sinks_per_source sinks sc1
                supply_per_sink fuel 0 k sc1 g2
              let s0 ← rd_sinks sinks 0
              let bs ← rd MAXNODES g.B (toULong ((source : Int) - 1))
              let b0 ← rd MAXNODES g.B s0
              let b ← wr MAXNODES g.B s0
                (wrapLong (b0 - ((toULong bs % sinks_per_source : Nat) : Int)))
              let g := { g with B := b }
              let g ← sort_skeleton fuel sort_count g
              let tl ← wr MAXARCS g.tail (wrapInt (sort_count + 1)) 0
              let g := { g with tail := tl }
              emit_arcs_marked fuel p source sort_count fuel 1 it m g) =
            Except.ok (r.1, m2, r.2) ∧
        (∀ a, m a = true → m2 a = true) ∧ g.Kept r.2 ∧
        (∀ j, r.2.B j ≠ g.B j → Covered m2 r.2 (j + 1)) ∧
        (source = S → ∀ v : Nat, M ≤ v → v < N → g.B v ≠ 0 ∨ Covered m2 r.2 (v + 1)) := by
    intro sps sinks x hn hlast hh
    obtain ⟨m2, q1, q2, q3, q4, q5⟩ := source_tail_cover fuel p source it sps sinks sc1 sc1 g2 r
      M (by omega) hs1 (by omega) hn w1 w2 hp2 hh2 ht2 hh m
    refine ⟨m2, q1, q2, k2.chain q3, ?_, ?_⟩
    · intro j hj
      rw [← eB2] at hj
      obtain ⟨k3, hk3, ek3⟩ := q4 j hj
      obtain ⟨v, ev, cv⟩ := q5 k3 hk3
      rw [ek3] at ev
      cases ev
      exact cv
    · intro hsrc v hv1 hv2
      rcases hlast hsrc v hv1 hv2 with hb | ⟨k3, hk3, ek3⟩
      · exact Or.inl hb
      · obtain ⟨v2, ev, cv⟩ := q5 k3 hk3
        rw [ek3] at ev
        cases ev
        exact Or.inr cv
  rw [hnode, except_ok_bind, hr1, except_ok_bind]
  dsimp only
  rw [hsp, hr2, except_ok_bind]
  dsimp only
  have hu : ∀ v : Nat, v < N → toULong (v : Int) = v := by
    intro v hv
    rw [toULong_small _ (by omega) (by omega)]
    omega
  by_cases hc : source = S ∧ indie2.index_size > 0
  · rw [if_pos hc] at h3 ⊢
    obtain ⟨r3, hr3, h5⟩ := except_bind_ok h3
    clear h3
    obtain ⟨c1, c2, c3, c4⟩ := grow_sinks_cover fuel sps0 sinks2 indie2 g2 r3 hr3 d2
      (fun v hv => hpos v (d3 v hv)) d6
    obtain ⟨sps3, sinks3, indie3⟩ := r3
    dsimp only at c1 c2 c3 c4
    rw [hr3, except_ok_bind]
    refine fin sps3 sinks3 indie3 c3 ?_ h5
    intro _ v hv1 hv2
    rcases d4 _ (hall v hv1 hv2) with hin | ⟨k, _, hk2, hk3⟩
    · rcases c4 _ hin with hb | ⟨k, _, hk2, hk3⟩
      · left
        rw [hu v hv2, eB2] at hb
        exact hb
      · right
        rw [hu v hv2] at hk3
        exact ⟨k, hk2, hk3⟩
    · right
      rw [hu v hv2] at hk3
      exact ⟨k, by omega, by rw [c2 k hk2]; exact hk3⟩
  · rw [if_neg hc] at h3 ⊢
    rw [except_ok_bind] at h3 ⊢
    refine fin sps0 sinks2 indie2 d6 ?_ h3
    intro hsrc v hv1 hv2
    rcases d4 _ (hall v hv1 hv2) with hin | ⟨k, _, hk2, hk3⟩
    · exfalso
      apply hc
      refine ⟨hsrc, ?_⟩
      unfold NetgenIndex.index_size
      have : 0 < indie2.index_list.length := List.length_pos_of_mem hin
      omega
    · right
      rw [hu v hv2] at hk3
      exact ⟨k, hk2, hk3⟩

/-! ## Theorems: every sink is the head of a skeleton arc -/

/-- An arc that is kept, with its mark, still has its head. -/
theorem covered_kept (m m2 : Nat → Bool) (g r : Globals) (v : Nat) (h : Covered m g v)
    (hm : ∀ a, m a = true → m2 a = true) (hk : g.Kept r) : Covered m2 r v := by
  obtain ⟨a, a1, a2, a3⟩ := h
  exact ⟨a, Nat.lt_of_lt_of_le a1 hk.1, hm a a2, by rw [hk.2.1 a a1]; exact a3⟩

/-- The first step of a walk leads to a node of the walk or to its end. -/
theorem walk_first (pred : Nat → Nat) (l : List Nat) (a b : Nat) (h : Walk pred a l b) :
    pred a ∈ l ∨ pred a = b := by
  cases l with
  | nil => exact Or.inr h
  | cons n l =>
    left
    rw [h.1]
    exact List.mem_cons_self _ _

/-- From a node of a walk, `pred` leads to a node of the walk or to its end. -/
theorem walk_next (pred : Nat → Nat) :
    ∀ (l : List Nat) (a b : Nat), Walk pred a l b → ∀ x ∈ l, pred x ∈ l ∨ pred x = b := by
  intro l
  induction l with
  | nil =>
    intro a b _ x hx
    cases hx
  | cons n l ih =>
    intro a b h x hx
    obtain ⟨_, h2⟩ := h
    rcases List.mem_cons.1 hx with e | hin
    · rw [e]
      rcases walk_first pred l n b h2 with h3 | h3
      · exact Or.inl (List.mem_cons_of_mem _ h3)
      · exact Or.inr h3
    · rcases ih n b h2 x hin with h3 | h3
      · exact Or.inl (List.mem_cons_of_mem _ h3)
      · exact Or.inr h3

/-- Once every transshipment node is on a chain, `pred` maps the sources and
transshipment nodes among themselves. -/
theorem chain_inv_closed (S M : Nat) (pred : Nat → Nat) (ch : Nat → List Nat)
    (hI : ChainInv S M pred ch []) :
    ∀ x, 1 ≤ x → x ≤ M → 1 ≤ pred x ∧ pred x ≤ M := by
  intro x h1 h2
  have hSM : S ≤ M := by
    have := hI.total
    omega
  by_cases hx : x ≤ S
  · rcases walk_first pred _ _ _ (hI.walk x h1 hx) with h3 | h3
    · have := hI.range x h1 hx _ h3
      omega
    · omega
  · rcases hI.cover x (by omega) h2 with hp | ⟨s, hs1, hs2, hin⟩
    · cases hp
    · rcases walk_next pred _ _ _ (hI.walk s hs1 hs2) x hin with h3 | h3
      · have := hI.range s hs1 hs2 _ h3
        omega
      · omega

/-- The loop of `node_parents` appends its arcs and leaves `pred` alone. -/
theorem node_parents_loop_kept (g0 : Globals) (p : Params) :
    ∀ (fuel : Nat) (i : Int) (g r : Globals), g0.Kept g →
      node_parents_loop p fuel i g = Except.ok r → g0.Kept r := by
  intro fuel
  induction fuel with
  | zero =>
    intro i g r hg h
    rw [node_parents_loop] at h
    rcases except_ite_ok h with ⟨_, h⟩ | ⟨_, h⟩
    · cases h
    · cases h
      exact hg
  | succ n ih =>
    intro i g r hg h
    rw [node_parents_loop] at h
    rcases except_ite_ok h with ⟨_, h⟩ | ⟨_, h⟩
    · obtain ⟨_, _, h⟩ := except_bind_ok h
      obtain ⟨f, hf, h⟩ := except_bind_ok h
      obtain ⟨t, ht, h⟩ := except_bind_ok h
      obtain ⟨_, _, h⟩ := except_bind_ok h
      obtain ⟨_, _, h⟩ := except_bind_ok h
      obtain ⟨_, _, h⟩ := except_bind_ok h
      obtain ⟨_, _, h⟩ := except_bind_ok h
      obtain ⟨_, _, h⟩ := except_bind_ok h
      refine ih _ _ _ ?_ h
      have hlt := (wr_ok_lt _ _ _ _ _ hf).2
      have hlt2 : g.arc_count < 60000 := by
        unfold MAXARCS at hlt
        exact_mod_cast hlt
      obtain ⟨_, _, et⟩ := wr_ok_eq _ _ _ _ _ ht
      rw [Int.toNat_ofNat] at et
      have e1 : toULong ((g.arc_count : Int) + 1) = g.arc_count + 1 := by
        rw [toULong_small _ (by omega) (by omega)]
        omega
      refine ⟨?_, ?_, hg.2.2⟩
      · show g0.arc_count ≤ toULong ((g.arc_count : Int) + 1)
        have := hg.1
        omega
      · intro a ha
        show t a = g0.TO a
        have := hg.1
        rw [et, Function.update_noteq (by omega)]
        exact hg.2.1 a ha
    · cases h
      exact hg

/-- The loop over the sources from `source` on, on chains that stay among the
sources and transshipment nodes, with `B0` the balances before the first
source: the run with the set of skeleton arcs gives the same state; the arcs
and chains are kept; every node whose balance differs from `B0` is the head of
a skeleton arc; and once the last source is done every sink is. -/
theorem all_sources_cover (fuel0 : Nat) (p : Params) (S M N : Nat) (hS : p.SOURCES = (S : Int))
    (hMM : p.NODES - p.SINKS = (M : Int)) (hNN : p.NODES = (N : Int)) (hSM : S ≤ M)
    (hMN : M < N) (hN : N ≤ 5000) (B0 : Nat → Int) (hB0 : ∀ v, M ≤ v → v < N → B0 v = 0) :
    ∀ (fuel source : Nat) (it : Option Nat) (g : Globals) (r : Option Nat × Globals),
      all_sources fuel0 p fuel source it g = Except.ok r → 1 ≤ source →
      (∀ x, 1 ≤ x → x ≤ M → 1 ≤ g.pred x ∧ g.pred x ≤ M) →
      ∀ m : Nat → Bool, (∀ j, g.B j ≠ B0 j → Covered m g (j + 1)) →
      ∃ m2 : Nat → Bool,
        all_sources_marked fuel0 p fuel source it m g = Except.ok (r.1, m2, r.2) ∧
        (∀ a, m a = true → m2 a = true) ∧ g.Kept r.2 ∧
        (∀ j, r.2.B j ≠ B0 j → Covered m2 r.2 (j + 1)) ∧
        (source ≤ S → ∀ v, M ≤ v → v < N → Covered m2 r.2 (v + 1)) := by
  have hc3 : toULong p.SOURCES = S := by
    rw [hS, toULong_small _ (by omega) (by omega)]
    omega
  intro fuel
  induction fuel with
  | zero =>
    intro source it g r h hs1 hp m hinv
    rw [all_sources, hc3] at h
    rcases except_ite_ok h with ⟨_, h⟩ | ⟨hn, h⟩
    · cases h
    · cases h
      refine ⟨m, ?_, fun _ ha => ha, Globals.Kept.self_kept g, hinv, fun hle => absurd hle hn⟩
      rw [all_sources_marked, hc3, if_neg hn]
  | succ n ih =>
    intro source it g r h hs1 hp m hinv
    rw [all_sources, hc3] at h
    rcases except_ite_ok h with ⟨hle, h⟩ | ⟨hn, h⟩
    · obtain ⟨r1, hr1, h⟩ := except_bind_ok h
      obtain ⟨m1, q1, q2, q3, q4, q5⟩ := process_source_cover fuel0 p source it g r1 S M N hS hMM
        hNN hSM hMN hN hs1 hle hp hr1 m
      obtain ⟨it1, g1⟩ := r1
      dsimp only at h q1 q2 q3 q4 q5
      have w : toULong ((source : Int) + 1) = source + 1 := by
        rw [toULong_small _ (by omega) (by omega)]
        omega
      rw [w] at h
      have hinv1 : ∀ j, g1.B j ≠ B0 j → Covered m1 g1 (j + 1) := by
        intro j hj
        by_cases e : g1.B j = g.B j
        · rw [e] at hj
          exact covered_kept m m1 g g1 _ (hinv j hj) q2 q3
        · exact q4 j e
      obtain ⟨m2, s1, s2, s3, s4, s5⟩ := ih (source + 1) it1 g1 r h (by omega)
        (by
          rw [q3.2.2]
          exact hp) m1 hinv1
      refine ⟨m2, ?_, fun a ha => s2 a (q2 a ha), q3.chain s3, s4, ?_⟩
      · rw [all_sources_marked, hc3, if_pos hle, q1, except_ok_bind]
        dsimp only
        rw [w]
        exact s1
      · intro _ v hv1 hv2
        by_cases e : source = S
        · rcases q5 e v hv1 hv2 with hb | hc
          · refine covered_kept m1 m2 g1 r.2 _ ?_ s2 s3
            refine covered_kept m m1 g g1 _ (hinv v ?_) q2 q3
            rw [hB0 v hv1 hv2]
            exact hb
          · exact covered_kept m1 m2 g1 r.2 _ hc s2 s3
        · exact s5 (by omega) v hv1 hv2
    · cases h
      refine ⟨m, ?_, fun _ ha => ha, Globals.Kept.self_kept g, hinv, fun hle => absurd hle hn⟩
      rw [all_sources_marked, hc3, if_neg hn]

/-- C25: for every parameter set that passes the checks, started on zero
balances and a valid state of the stream, a generation that completes has
stored, for every sink node id `v` in `[NODES - SINKS + 1, NODES]`, an arc with
head `TO = v` that the emission loop of `netgen()` has stored, that is a
skeleton arc: `skeleton_arcs` returns the set `m` of the positions of the
skeleton arcs of the run, and some position in `m` holds an arc with head
`v`. -/
theorem C25_sinks_are_skeleton_heads (fuel : Nat) (p : Params) (g r : Globals)
    (hs : p.stored) (hv : sanity_checks p = none) (hgv : g.rando.Valid)
    (hg0 : ∀ j, g.B j = 0) (h : generate fuel p g = Except.ok r) :
    ∃ m : Nat → Bool, skeleton_arcs fuel p g = Except.ok m ∧
      ∀ v : Nat, p.NODES - p.SINKS < (v : Int) → (v : Int) ≤ p.NODES →
        ∃ a, a < r.arc_count ∧ m a = true ∧ r.TO a = v := by
  obtain ⟨g1, g2, i3, indie3, g3, indie4, g4, it5, g5, g6, arc7, g7, ids8, g8,
    hcs, hip, hce, hcr, has, hts, hdc, hpar, hnp⟩ := generate_inv fuel p g r h
  clear h
  obtain ⟨_, f2, f3, _, _, f6, f7, f8, _, f10, _⟩ := sanity_facts p hs hv
  have hsup : p.SUPPLY ≤ 2147483647 := by
    unfold Params.stored in_int at hs
    omega
  obtain ⟨N, hNN⟩ : ∃ N : Nat, p.NODES = (N : Int) := ⟨p.NODES.toNat, by omega⟩
  obtain ⟨M, hMM⟩ : ∃ M : Nat, p.NODES - p.SINKS = (M : Int) :=
    ⟨(p.NODES - p.SINKS).toNat, by omega⟩
  obtain ⟨S, hS⟩ : ∃ S : Nat, p.SOURCES = (S : Int) := ⟨p.SOURCES.toNat, by omega⟩
  have hSS : toULong p.SOURCES = S := by
    rw [toULong_small _ (by omega) (by omega)]
    omega
  -- the supply of the sources leaves the balances of the sinks at zero
  have hcs0 := hcs
  rw [hSS] at hcs0
  have hfuel := create_supply_fuel _ _ _ _ _ (by omega) hcs0
  obtain ⟨g1', hcs', c1, _, _, c4, _⟩ := create_supply_spec fuel S p.SUPPLY
    { g with arc_count := 0
             nodes_left := toULong (wrapLong (wrapLong (p.NODES - p.SINKS) + p.TSINKS)) }
    hgv (by omega) (by omega) (by omega) (by omega) (fun i _ => hg0 i) hfuel
  have e1 : g1 = g1' := Except.ok.inj (hcs0.symm.trans hcs')
  subst e1
  clear hcs0 hcs' hfuel
  have c4' : ∀ j, S ≤ j → g1.B j = 0 := fun j hj => by
    rw [c4 j hj]
    exact hg0 j
  -- the chains
  have k2 := init_pred_keeps _ _ _ _ _ hip
  have k3 := chain_even_keeps _ _ _ _ _ _ _ _ hce
  have k4 := chain_random_keeps _ _ _ _ _ _ hcr
  have eB4 : g4.B = g1.B := by
    rw [k4.1, k3.1, k2.1]
  clear k2 k3 k4
  have hip2 := init_pred_mono _ fuel (fuel + 5000) (Nat.le_add_right _ _) _ _ _ hip
  have hce2 := chain_even_mono _ _ fuel (fuel + 5000) (Nat.le_add_right _ _) _ _ _ _ _ hce
  have hcr2 := chain_random_mono _ fuel (fuel + 5000) (Nat.le_add_right _ _) _ _ _ _ hcr
  obtain ⟨g2', r3', r4', _, ch, q1, q2, q3, _, _, _, q7, _⟩ :=
    generate_chains (fuel + 5000) p g1 hs hv c1 (by push_cast; omega) S M hS hMM
  have e2 : g2' = g2 := Except.ok.inj (q1.symm.trans hip2)
  subst e2
  have e3 : r3' = (i3, indie3, g3) := Except.ok.inj (q2.symm.trans hce2)
  subst e3
  have e4 : r4' = (indie4, g4) := Except.ok.inj (q3.symm.trans hcr2)
  subst e4
  have hclosed := chain_inv_closed S M g4.pred ch q7
  clear q1 q2 q3 q7 hip2 hce2 hcr2
  -- the sources
  obtain ⟨m, hm, _, k5, _, cov⟩ := all_sources_cover fuel p S M N hS hMM hNN (by omega)
    (by omega) (by omega) g4.B
    (by
      intro v hv1 _
      rw [eB4]
      exact c4' v (by omega))
    fuel 1 none g4 (it5, g5) has (le_refl _) hclosed (fun _ => false)
    (fun j hj => absurd rfl hj)
  dsimp only at hm k5 cov
  -- the later stages append
  have k6 := (tsink_arcs_emits _ _ _ _ _ _ _ hts).1
  have k7 := draw_children_kept g6 _ _ _ _ _ _ (Globals.Kept.self_kept g6) hdc
  have k8 := draw_parents_kept g7 _ _ _ _ _ _ (Globals.Kept.self_kept g7) hpar
  have k9 : g8.Kept r := by
    by_cases hp0 : p.PARENT = 0
    · rw [if_pos hp0] at hnp
      exact node_parents_loop_kept g8 _ _ _ _ _ (Globals.Kept.self_kept g8) hnp
    · rw [if_neg hp0] at hnp
      have e := Except.ok.inj hnp
      rw [← e]
      exact Globals.Kept.self_kept g8
  have k : g5.Kept r := ((k6.chain k7).chain k8).chain k9
  refine ⟨m, ?_, ?_⟩
  · unfold skeleton_arcs
    dsimp only
    rw [hcs, except_ok_bind, hip, except_ok_bind, hce, except_ok_bind]
    dsimp only
    rw [hcr, except_ok_bind]
    dsimp only
    rw [hm, except_ok_bind]
  · intro v hv1 hv2
    obtain ⟨a, a1, a2, a3⟩ := cov (by omega) (v - 1) (by omega) (by omega)
    refine ⟨a, Nat.lt_of_lt_of_le a1 k.1, a2, ?_⟩
    rw [k.2.1 a a1, a3]
    omega

/-- Witness for C25: `NODES = 3`, `SOURCES = 1`, `SINKS = 2`, `DENSITY = 6`,
seed 1.  The generation completes, and each of the sinks 2 and 3 is the head of
an arc at a position that the emission loop has stored. -/
theorem C25_sinks_are_skeleton_heads_witness :
    ∃ (r : Globals) (m : Nat → Bool),
      generate 20 ⟨1, 3, 1, 2, 6, 1, 100, 10, 0, 0, 50, 100, 5, 30, 0, 1⟩ (Globals.init 1) =
        Except.ok r ∧
      skeleton_arcs 20 ⟨1, 3, 1, 2, 6, 1, 100, 10, 0, 0, 50, 100, 5, 30, 0, 1⟩ (Globals.init 1) =
        Except.ok m ∧
      (∃ a, a < r.arc_count ∧ m a = true ∧ r.TO a = 2) ∧
      ∃ a, a < r.arc_count ∧ m a = true ∧ r.TO a = 3 := by
  have hok : ((generate 20 ⟨1, 3, 1, 2, 6, 1, 100, 10, 0, 0, 50, 100, 5, 30, 0, 1⟩
      (Globals.init 1)).toOption.map (fun r => r.arc_count)) = some 5 := by decide!
  cases h : generate 20 ⟨1, 3, 1, 2, 6, 1, 100, 10, 0, 0, 50, 100, 5, 30, 0, 1⟩
      (Globals.init 1) with
  | error e =>
    rw [h] at hok
    cases hok
  | ok r =>
    obtain ⟨m, hm, hc⟩ := C25_sinks_are_skeleton_heads 20
      ⟨1, 3, 1, 2, 6, 1, 100, 10, 0, 0, 50, 100, 5, 30, 0, 1⟩ (Globals.init 1) r
      (by unfold Params.stored in_int; decide) (by decide)
      (by unfold NetgenRandom.Valid Globals.init; decide) (fun _ => rfl) h
    exact ⟨r, m, rfl, hm, hc 2 (by decide) (by decide), hc 3 (by decide) (by decide)⟩
